import Mathlib

/-! # TspOptimizer: tours, cost model and optimisation strategies

A shallow embedding of the C++ sources (`Tour`, `TspInstance` and the
optimizers under `optim/`) together with theorems about them.

Conventions of the embedding.

* `int32_t` arithmetic is modelled on `Int` with an explicit two's-complement
  reduction (`wrap32`).
* A `double` that holds a cost is a sum of integer-valued edge costs; it is
  modelled exactly as an `Int` (such sums are exact in a `double` below 2^53).
* A `std::vector<int>` of node ids is a `List Int`; positions are `Nat`.
* A `std::mt19937` together with the distributions applied to it is a list of
  raw draws (`Rng`); `uniformInt lo hi` consumes one raw draw `r` and yields
  `lo + r % (hi - lo + 1)`, so every value of the closed range can be drawn
  and nothing else can.
* Other `double`s (temperature, pheromone, control parameters) are exact
  rationals; `std::exp`, `std::pow`, `std::sqrt` and the Cauchy and normal
  samplers are parameters of the functions that use them, and the theorems
  hold for every choice of them.
* An access outside a vector, an empty distribution range and a loop that
  does not end within its fuel are failures of the model (`none` or an
  `Except` message), never a default value.
-/

namespace TspOptimizer

/-! ## Machine integers -/

/-- Two's-complement reduction of an integer to the signed 32-bit range. -/
def wrap32 (z : Int) : Int :=
  (z + 2147483648) % 4294967296 - 2147483648

/-- `std::abs` on `int32_t`: the absolute value, reduced to 32 bits (so the
most negative value is its own absolute value). -/
def abs32 (z : Int) : Int :=
  wrap32 (if z < 0 then -z else z)

/-! ## Random source -/

/-- The raw draws still to be produced by the generator. An exhausted list
keeps producing `0`. -/
abbrev Rng := List Nat

/-- One raw draw and the remaining generator state. -/
def Rng.next (g : Rng) : Nat × Rng :=
  match g with
  | [] => (0, [])
  | r :: rest => (r, rest)

/-- `std::uniform_int_distribution<int>(lo, hi)(rng)` for `lo ≤ hi`. -/
def uniformInt (lo hi : Nat) (g : Rng) : Nat × Rng :=
  (lo + (Rng.next g).1 % (hi - lo + 1), (Rng.next g).2)

/-! ## Instance -/

/-- `TspPoint`: coordinates scaled by 10000. -/
structure TspPoint where
  x : Int
  y : Int
deriving DecidableEq, Repr

/-- `TspInstance`: the points (index = node id), their bounding box, and the
path and name of the file they were read from. -/
structure TspInstance where
  m_points : List TspPoint
  m_minX : Int := 0
  m_minY : Int := 0
  m_maxX : Int := 0
  m_maxY : Int := 0
  m_filePath : String := ""
  m_name : String := ""
deriving DecidableEq, Repr

/-- `TspInstance::size`. -/
def TspInstance.size (inst : TspInstance) : Nat := inst.m_points.length

/-- `pts[id]` for a node id. Reading outside the vector is undefined in the
source; the model reads the origin there. -/
def ptAt (pts : List TspPoint) (id : Int) : TspPoint :=
  if 0 ≤ id then pts.getD id.toNat ⟨0, 0⟩ else ⟨0, 0⟩

/-! ## Tour -/

/-- `Tour`: a possibly absent instance, the order and the cached cost. -/
structure Tour where
  m_instance : Option TspInstance
  m_order : List Int
  m_cost : Int
deriving DecidableEq, Repr

namespace Tour

/-- `Tour::edgeCost`: the larger of the two 32-bit coordinate distances. -/
def edgeCost (a b : TspPoint) : Int :=
  let dx := abs32 (wrap32 (a.x - b.x))
  let dy := abs32 (wrap32 (a.y - b.y))
  if dx > dy then dx else dy

/-- `Tour::size`. -/
def size (t : Tour) : Nat := t.m_order.length

/-- The loop of `Tour::evaluate`: for `i` from `0` below `size - 1`, add the
edge cost between `pts[order[i]]` and `pts[order[i + 1]]`. -/
def evaluateLoop (pts : List TspPoint) (ord : List Int) : Int :=
  (List.range (ord.length - 1)).foldl
    (fun sum i => sum + edgeCost (ptAt pts (ord.getD i 0)) (ptAt pts (ord.getD (i + 1) 0))) 0

/-- `Tour::evaluate`: recompute the cached cost. -/
def evaluate (t : Tour) : Tour :=
  match t.m_instance with
  | none => { t with m_cost := 0 }
  | some inst =>
    if t.m_order.isEmpty then { t with m_cost := 0 }
    else { t with m_cost := evaluateLoop inst.m_points t.m_order }

/-- `Tour::Tour(const TspInstance*)`: the identity order, or the exception
message when the instance is absent. -/
def mkIdentity (instance? : Option TspInstance) : Except String Tour :=
  match instance? with
  | none => .error "Tour: instance is null"
  | some inst =>
    .ok (evaluate
      { m_instance := some inst
        m_order := (List.range inst.size).map Int.ofNat
        m_cost := 0 })

/-- `Tour::Tour(const TspInstance*, std::vector<int>)`: the given order, or
the exception message when the instance is absent or the sizes differ. -/
def mkWithOrder (instance? : Option TspInstance) (ord : List Int) : Except String Tour :=
  match instance? with
  | none => .error "Tour: instance is null"
  | some inst =>
    if ord.length ≠ inst.size then .error "Tour: order size does not match instance size"
    else .ok (evaluate { m_instance := some inst, m_order := ord, m_cost := 0 })

end Tour

/-- The cost of the open path through `ord`: the edge costs of consecutive
nodes, nothing from the last node back to the first. -/
def pathCost (pts : List TspPoint) : List Int → Int
  | [] => 0
  | [_] => 0
  | a :: b :: rest => Tour.edgeCost (ptAt pts a) (ptAt pts b) + pathCost pts (b :: rest)

/-- The unit square of the example: (0,0), (0,1), (1,0), (1,1) scaled by 10000. -/
def squareInstance : TspInstance :=
  { m_points := [⟨0, 0⟩, ⟨0, 10000⟩, ⟨10000, 0⟩, ⟨10000, 10000⟩]
    m_minX := 0, m_minY := 0, m_maxX := 10000, m_maxY := 10000 }

/-! ## Tour: in-place reorderings -/

/-- `std::swap(v[a], v[b])` on a vector. -/
def swapAt (v : List Int) (a b : Nat) : List Int :=
  (v.set a (v.getD b 0)).set b (v.getD a 0)

/-- `std::reverse(v.begin() + i, v.begin() + j + 1)`: positions `i..j` reversed. -/
def reverseSegment (v : List Int) (i j : Nat) : List Int :=
  v.take i ++ ((v.drop i).take (j + 1 - i)).reverse ++ v.drop (j + 1)

namespace Tour

/-- The loop of `Tour::randomize`: `k` times, two draws from `[0, n - 1]` and
a swap of the two positions. -/
def randomizeLoop (n : Nat) : Nat → List Int → Rng → List Int × Rng
  | 0, ord, g => (ord, g)
  | k + 1, ord, g =>
    let a := uniformInt 0 (n - 1) g
    let b := uniformInt 0 (n - 1) a.2
    randomizeLoop n k (swapAt ord a.1 b.1) b.2

/-- `Tour::randomize`. -/
def randomize (t : Tour) (swaps : Int) (g : Rng) : Tour × Rng :=
  if t.m_order.length < 2 then (t, g)
  else
    let r := randomizeLoop t.m_order.length swaps.toNat t.m_order g
    (evaluate { t with m_order := r.1 }, r.2)

/-- `Tour::mutateSwap`: swap two positions drawn from `[1, n - 2]`. -/
def mutateSwap (t : Tour) (g : Rng) : Tour × Rng :=
  if t.m_order.length < 3 then (t, g)
  else
    let a := uniformInt 1 (t.m_order.length - 2) g
    let b := uniformInt 1 (t.m_order.length - 2) a.2
    ({ t with m_order := swapAt t.m_order a.1 b.1 }, b.2)

/-- `Tour::mutateInsertion`: remove the element at one drawn position and
insert it after another drawn position. -/
def mutateInsertion (t : Tour) (g : Rng) : Tour × Rng :=
  if t.m_order.length < 4 then (t, g)
  else
    let element := uniformInt 1 (t.m_order.length - 2) g
    let insertAfter := uniformInt 1 (t.m_order.length - 2) element.2
    if element.1 = insertAfter.1 then (t, insertAfter.2)
    else
      let val := t.m_order.getD element.1 0
      let erased := t.m_order.eraseIdx element.1
      let after := if insertAfter.1 > element.1 then insertAfter.1 - 1 else insertAfter.1
      ({ t with m_order := erased.insertIdx (after + 1) val }, insertAfter.2)

/-- `Tour::mutateReverseSegment`: reverse the segment between two drawn
positions when they are more than one apart. -/
def mutateReverseSegment (t : Tour) (g : Rng) : Tour × Rng :=
  if t.m_order.length < 4 then (t, g)
  else
    let a := uniformInt 0 (t.m_order.length - 1) g
    let b := uniformInt 0 (t.m_order.length - 1) a.2
    if a.1 = b.1 then (t, b.2)
    else
      let i := min a.1 b.1
      let j := max a.1 b.1
      if (j : Int) - (i : Int) ≤ 1 then (t, b.2)
      else ({ t with m_order := reverseSegment t.m_order i j }, b.2)

end Tour

/-! ## Sampling of 2-opt moves (shared text of the 2-opt and ILS loops) -/

/-- The running best of the sampling loop: `bestDelta`, `bestI`, `bestJ`. -/
structure BestMove where
  bestDelta : Int
  bestI : Int
  bestJ : Int
deriving DecidableEq, Repr

/-- `if (i > j) std::swap(i, j);`: the two positions in ascending order. -/
def orderPair (i j : Nat) : Nat × Nat :=
  if i > j then (j, i) else (i, j)

/-- The sampling loop `for (t = 0; t < checks; ++t)`: draw `i`, `j` from
`[0, n - 1]`, skip equal and adjacent positions, order them, and keep the
move of strictly smallest `delta` seen so far. -/
def sampleLoop (delta : Nat → Nat → Int) (n : Nat) : Nat → Rng → BestMove → BestMove × Rng
  | 0, g, acc => (acc, g)
  | k + 1, g, acc =>
    let i0 := uniformInt 0 (n - 1) g
    let j0 := uniformInt 0 (n - 1) i0.2
    if i0.1 = j0.1 then sampleLoop delta n k j0.2 acc
    else
      let p := orderPair i0.1 j0.1
      if (p.2 : Int) - (p.1 : Int) ≤ 1 then sampleLoop delta n k j0.2 acc
      else if delta p.1 p.2 < acc.bestDelta then
        sampleLoop delta n k j0.2 ⟨delta p.1 p.2, p.1, p.2⟩
      else sampleLoop delta n k j0.2 acc

/-! ## TwoOptOptimizer -/

/-- `TwoOptOptimizer`. -/
structure TwoOptOptimizer where
  m_checksPerIter : Int
  m_rng : Rng
  m_current : Tour
  m_best : Tour
  m_baseline : Int
deriving DecidableEq, Repr

namespace TwoOptOptimizer

/-- `TwoOptOptimizer::TwoOptOptimizer`. -/
def create (initial : Tour) (checksPerIter : Int) (seed : Rng) : TwoOptOptimizer :=
  { m_checksPerIter := max 250 checksPerIter
    m_rng := seed
    m_current := initial
    m_best := initial
    m_baseline := initial.m_cost }

/-- `TwoOptOptimizer::deltaReverseOpen`. Positions are naturals, so the
source's guards `i < 0`, `j < 0` never fire. -/
def deltaReverseOpen (pts : List TspPoint) (ord : List Int) (i j : Nat) : Int :=
  if ord.length < 4 then 0
  else if i ≥ ord.length ∨ j ≥ ord.length then 0
  else if (j : Int) - (i : Int) ≤ 1 then 0
  else if i = 0 ∧ j = ord.length - 1 then 0
  else
    (if i > 0 then
      Tour.edgeCost (ptAt pts (ord.getD (i - 1) 0)) (ptAt pts (ord.getD j 0))
        - Tour.edgeCost (ptAt pts (ord.getD (i - 1) 0)) (ptAt pts (ord.getD i 0))
     else 0)
    + (if j < ord.length - 1 then
        Tour.edgeCost (ptAt pts (ord.getD i 0)) (ptAt pts (ord.getD (j + 1) 0))
          - Tour.edgeCost (ptAt pts (ord.getD j 0)) (ptAt pts (ord.getD (j + 1) 0))
       else 0)

/-- `TwoOptOptimizer::iterate`: the new state and the returned flag. -/
def iterate (s : TwoOptOptimizer) : TwoOptOptimizer × Bool :=
  if s.m_current.size < 4 then (s, false)
  else
    match s.m_current.m_instance with
    | none => (s, false)
    | some inst =>
      let r := sampleLoop (deltaReverseOpen inst.m_points s.m_current.m_order)
        s.m_current.size s.m_checksPerIter.toNat s.m_rng ⟨0, -1, -1⟩
      if r.1.bestI ≥ 0 then
        let cur := Tour.evaluate
          { s.m_current with
            m_order := reverseSegment s.m_current.m_order r.1.bestI.toNat r.1.bestJ.toNat }
        if cur.m_cost < s.m_best.m_cost then
          ({ s with m_rng := r.2, m_current := cur, m_best := cur }, true)
        else ({ s with m_rng := r.2, m_current := cur }, false)
      else ({ s with m_rng := r.2 }, false)

end TwoOptOptimizer

/-! ## IlsOptimizer -/

/-- `IlsOptimizer`. -/
structure IlsOptimizer where
  m_checksPerIter : Int
  m_stagnationIters : Int
  m_noImprove : Int
  m_rng : Rng
  m_current : Tour
  m_best : Tour
  m_baseline : Int
deriving DecidableEq, Repr

namespace IlsOptimizer

/-- `IlsOptimizer::IlsOptimizer`. -/
def create (initial : Tour) (checksPerIter stagnationIters : Int) (seed : Rng) : IlsOptimizer :=
  { m_checksPerIter := max 250 checksPerIter
    m_stagnationIters := max 10 stagnationIters
    m_noImprove := 0
    m_rng := seed
    m_current := initial
    m_best := initial
    m_baseline := initial.m_cost }

/-- `IlsOptimizer::deltaReverseOpen`. -/
def deltaReverseOpen (pts : List TspPoint) (ord : List Int) (i j : Nat) : Int :=
  if ord.length < 4 then 0
  else if i ≥ ord.length ∨ j ≥ ord.length then 0
  else if (j : Int) - (i : Int) ≤ 1 then 0
  else if i = 0 ∧ j = ord.length - 1 then 0
  else
    (if i > 0 then
      Tour.edgeCost (ptAt pts (ord.getD (i - 1) 0)) (ptAt pts (ord.getD j 0))
        - Tour.edgeCost (ptAt pts (ord.getD (i - 1) 0)) (ptAt pts (ord.getD i 0))
     else 0)
    + (if j < ord.length - 1 then
        Tour.edgeCost (ptAt pts (ord.getD i 0)) (ptAt pts (ord.getD (j + 1) 0))
          - Tour.edgeCost (ptAt pts (ord.getD j 0)) (ptAt pts (ord.getD (j + 1) 0))
       else 0)

/-- `IlsOptimizer::applyBest2OptMove`: the new state and whether a move was
applied. -/
def applyBest2OptMove (s : IlsOptimizer) : IlsOptimizer × Bool :=
  if s.m_current.size < 4 then (s, false)
  else
    match s.m_current.m_instance with
    | none => (s, false)
    | some inst =>
      let r := sampleLoop (deltaReverseOpen inst.m_points s.m_current.m_order)
        s.m_current.size s.m_checksPerIter.toNat s.m_rng ⟨0, -1, -1⟩
      if r.1.bestI ≥ 0 then
        ({ s with
            m_rng := r.2
            m_current := Tour.evaluate
              { s.m_current with
                m_order := reverseSegment s.m_current.m_order r.1.bestI.toNat r.1.bestJ.toNat } },
          true)
      else ({ s with m_rng := r.2 }, false)

/-- The reordering of the double bridge at cut points `i < j < k < l`:
segments A, C, B, D, E. -/
def doubleBridgeAt (ord : List Int) (i j k l : Nat) : List Int :=
  ord.take i ++ (ord.drop j).take (k - j) ++ (ord.drop i).take (j - i)
    ++ (ord.drop k).take (l - k) ++ ord.drop l

/-- The four cut points drawn by `doubleBridgePerturbation` for a tour of `n`
nodes, and the generator afterwards. -/
def doubleBridgeCuts (n : Nat) (g : Rng) : (Nat × Nat × Nat × Nat) × Rng :=
  let i := uniformInt 1 (n - 6) g
  let j := uniformInt (i.1 + 1) (n - 5) i.2
  let k := uniformInt (j.1 + 1) (n - 4) j.2
  let l := uniformInt (k.1 + 1) (n - 2) k.2
  ((i.1, j.1, k.1, l.1), l.2)

/-- `IlsOptimizer::doubleBridgePerturbation`. -/
def doubleBridgePerturbation (s : IlsOptimizer) : IlsOptimizer :=
  if s.m_current.size < 8 then s
  else
    let c := doubleBridgeCuts s.m_current.size s.m_rng
    { s with
      m_rng := c.2
      m_current :=
        { s.m_current with
          m_order := doubleBridgeAt s.m_current.m_order c.1.1 c.1.2.1 c.1.2.2.1 c.1.2.2.2 } }

/-- The step `if (m_current.cost() < m_best.cost()) { m_best = m_current;
improvedBest = true; }` that both branches of `IlsOptimizer::iterate` end in. -/
def recordIfBetter (s : IlsOptimizer) : IlsOptimizer × Bool :=
  if s.m_current.m_cost < s.m_best.m_cost then ({ s with m_best := s.m_current }, true)
  else (s, false)

/-- `IlsOptimizer::iterate`. -/
def iterate (s : IlsOptimizer) : IlsOptimizer × Bool :=
  if s.m_current.size < 4 then (s, false)
  else
    let a := applyBest2OptMove s
    if a.2 then recordIfBetter { a.1 with m_noImprove := 0 }
    else
      let s1 : IlsOptimizer := { a.1 with m_noImprove := a.1.m_noImprove + 1 }
      if s1.m_noImprove ≥ s1.m_stagnationIters then
        let s2 := doubleBridgePerturbation s1
        recordIfBetter { s2 with m_current := Tour.evaluate s2.m_current, m_noImprove := 0 }
      else (s1, false)

end IlsOptimizer

/-! ## SimAnnealOptimizer -/

/-- `SimAnnealOptimizer`. The temperature and the cooling factor are
`double`s, modelled as exact rationals. -/
structure SimAnnealOptimizer where
  m_rng : Rng
  m_current : Tour
  m_best : Tour
  m_baseline : Int
  m_temp : ℚ
  m_alpha : ℚ
deriving DecidableEq

namespace SimAnnealOptimizer

/-- `std::clamp(v, lo, hi)`. -/
def clamp (v lo hi : ℚ) : ℚ :=
  if v < lo then lo else if hi < v then hi else v

/-- `SimAnnealOptimizer::SimAnnealOptimizer`. -/
def create (initial : Tour) (seed : Rng) (alpha : ℚ) : SimAnnealOptimizer :=
  let t0 : ℚ := if initial.size > 1 then (initial.m_cost : ℚ) / (initial.size : ℚ) else 1
  { m_rng := seed
    m_current := initial
    m_best := initial
    m_baseline := initial.m_cost
    m_alpha := clamp alpha (9 / 10) (9999999 / 10000000)
    m_temp := if t0 < 1 then 1 else t0 }

/-- The delta computed inline in `SimAnnealOptimizer::iterate` for reversing
the segment `[i..j]` of an open tour of `n` nodes. -/
def inlineDelta (pts : List TspPoint) (ord : List Int) (n i j : Nat) : Int :=
  (if i > 0 then
    Tour.edgeCost (ptAt pts (ord.getD (i - 1) 0)) (ptAt pts (ord.getD j 0))
      - Tour.edgeCost (ptAt pts (ord.getD (i - 1) 0)) (ptAt pts (ord.getD i 0))
   else 0)
  + (if j < n - 1 then
      Tour.edgeCost (ptAt pts (ord.getD i 0)) (ptAt pts (ord.getD (j + 1) 0))
        - Tour.edgeCost (ptAt pts (ord.getD j 0)) (ptAt pts (ord.getD (j + 1) 0))
     else 0)

/-- The end of `SimAnnealOptimizer::iterate`: the temperature is cooled and
floored, then the current tour replaces the best when it is cheaper. -/
def coolAndRecord (s : SimAnnealOptimizer) : SimAnnealOptimizer × Bool :=
  let cooled := s.m_temp * s.m_alpha
  let s1 : SimAnnealOptimizer :=
    { s with m_temp := if cooled < 1 / 1000000 then 1 / 1000000 else cooled }
  if s1.m_current.m_cost < s1.m_best.m_cost then ({ s1 with m_best := s1.m_current }, true)
  else (s1, false)

/-- The second half of `SimAnnealOptimizer::iterate`, once the positions
`i < j` of a reversible segment are drawn: delta, acceptance, move, cooling
and the update of the best tour. The test `std::exp(-delta / m_temp) >
m_uni01(m_rng)` is floating-point and is the parameter `expGt`, applied to
`delta`, the temperature and the raw draw; it is evaluated (and the draw
consumed) only when `delta > 0`. -/
def applyMove (expGt : Int → ℚ → Nat → Bool) (s : SimAnnealOptimizer) (inst : TspInstance)
    (i j : Nat) (g : Rng) : SimAnnealOptimizer × Bool :=
  let delta := inlineDelta inst.m_points s.m_current.m_order s.m_current.size i j
  let accept := decide (delta ≤ 0) || expGt delta s.m_temp (Rng.next g).1
  coolAndRecord
    { s with
      m_rng := if delta ≤ 0 then g else (Rng.next g).2
      m_current :=
        if accept then
          Tour.evaluate { s.m_current with m_order := reverseSegment s.m_current.m_order i j }
        else s.m_current }

/-- `SimAnnealOptimizer::iterate`. The result is `none` where the source
dereferences an absent instance. -/
def iterate (expGt : Int → ℚ → Nat → Bool) (s : SimAnnealOptimizer) :
    Option (SimAnnealOptimizer × Bool) :=
  if s.m_current.size < 4 then some (s, false)
  else
    let i0 := uniformInt 0 (s.m_current.size - 1) s.m_rng
    let j0 := uniformInt 0 (s.m_current.size - 1) i0.2
    if i0.1 = j0.1 then some ({ s with m_rng := j0.2 }, false)
    else if ((orderPair i0.1 j0.1).2 : Int) - ((orderPair i0.1 j0.1).1 : Int) ≤ 1 then
      some ({ s with m_rng := j0.2 }, false)
    else
      match s.m_current.m_instance with
      | none => none
      | some inst => some (applyMove expGt s inst (orderPair i0.1 j0.1).1 (orderPair i0.1 j0.1).2 j0.2)

end SimAnnealOptimizer

/-! ## GeneticOptimizer -/

/-- `std::sort` of a population with the comparator `a.cost() < b.cost()`:
the tours in ascending order of cached cost. Tours of equal cost keep their
order here; the source leaves their order to the library. -/
def sortByCost (pop : List Tour) : List Tour :=
  pop.insertionSort (fun a b => a.m_cost ≤ b.m_cost)

/-- The test `uni01(m_rng) >= i / populationSize` for the raw draw `r`,
read as the real `(r % 2^53) / 2^53` of `[0, 1)`. -/
def uni01Ge (r : Nat) (i : Nat) (populationSize : Int) : Bool :=
  decide ((i : Int) * 9007199254740992 ≤ ((r % 9007199254740992 : Nat) : Int) * populationSize)

/-- `GeneticOptimizer`. -/
structure GeneticOptimizer where
  m_populationSize : Int
  m_mutationRate : Int
  m_rng : Rng
  m_population : List Tour
  m_best : Tour
  m_baseline : Int
  m_lastBest : Int
deriving DecidableEq, Repr

namespace GeneticOptimizer

/-- `GeneticOptimizer::GeneticOptimizer` (for `populationSize ≥ 0`; a negative
size makes the source's `reserve` fail). -/
def create (initial : Tour) (populationSize mutationRate : Int) (seed : Rng) :
    GeneticOptimizer :=
  { m_populationSize := populationSize
    m_mutationRate := max 1 mutationRate
    m_rng := seed
    m_population := List.replicate populationSize.toNat initial
    m_best := initial
    m_baseline := initial.m_cost
    m_lastBest := initial.m_cost }

/-- The death loop `for (i = 1; i < populationSize; ++i)`: `k` ranks remain,
the next rank is `i`; the individual of rank `i` is kept when its draw is at
least `i / populationSize`. `none` where `m_population[i]` is out of range. -/
def deathLoop (pop : List Tour) (populationSize : Int) :
    Nat → Nat → Rng → List Tour → Option (List Tour × Rng)
  | 0, _, g, survivors => some (survivors, g)
  | k + 1, i, g, survivors =>
    if uni01Ge (Rng.next g).1 i populationSize then
      match pop.get? i with
      | none => none
      | some p => deathLoop pop populationSize k (i + 1) (Rng.next g).2 (survivors ++ [p])
    else deathLoop pop populationSize k (i + 1) (Rng.next g).2 survivors

/-- The mutation loop of one clone: `k` times one of the three mutations. -/
def mutateLoop : Nat → Tour → Rng → Tour × Rng
  | 0, baby, g => (baby, g)
  | k + 1, baby, g =>
    let w := uniformInt 0 2 g
    let r :=
      if w.1 = 0 then Tour.mutateInsertion baby w.2
      else if w.1 = 1 then Tour.mutateSwap baby w.2
      else Tour.mutateReverseSegment baby w.2
    mutateLoop k r.1 r.2

/-- The repopulation loop `for (i = 0; i < dead; ++i)`: clone a parent drawn
among the first `nSurv` survivors, mutate, evaluate, append. -/
def repopulate (nSurv : Nat) (mutationRate : Int) :
    Nat → List Tour → Rng → Option (List Tour × Rng)
  | 0, survivors, g => some (survivors, g)
  | d + 1, survivors, g =>
    let p := uniformInt 0 (nSurv - 1) g
    match survivors.get? p.1 with
    | none => none
    | some parent =>
      let k := uniformInt 0 (mutationRate - 1).toNat p.2
      let m := mutateLoop k.1 parent k.2
      repopulate nSurv mutationRate d (survivors ++ [Tour.evaluate m.1]) m.2

/-- `GeneticOptimizer::iterate`. `none` where the source reads past the end
of a vector (an empty population). -/
def iterate (s : GeneticOptimizer) : Option (GeneticOptimizer × Bool) :=
  match sortByCost s.m_population with
  | [] => none
  | p0 :: rest =>
    match deathLoop (p0 :: rest) s.m_populationSize (s.m_populationSize - 1).toNat 1
        s.m_rng [p0] with
    | none => none
    | some (survivors0, g1) =>
      let dead : Int := s.m_populationSize - (survivors0.length : Int)
      let survivors := if survivors0.isEmpty then survivors0 ++ [p0] else survivors0
      match repopulate survivors.length s.m_mutationRate dead.toNat survivors g1 with
      | none => none
      | some (pop, g2) =>
        match sortByCost pop with
        | [] => none
        | q0 :: qrest =>
          if q0.m_cost < s.m_lastBest then
            some ({ s with
                    m_rng := g2, m_population := q0 :: qrest, m_best := q0
                    m_lastBest := q0.m_cost }, true)
          else
            some ({ s with m_rng := g2, m_population := q0 :: qrest, m_best := p0 }, false)

end GeneticOptimizer

/-! ## AcoOptimizer -/

/-- A draw of `std::uniform_real_distribution<double>(0.0, 1.0)`: the raw
draw `r` read as the real `(r % 2^53) / 2^53` of `[0, 1)`. -/
def uni01 (r : Nat) : ℚ :=
  ((r % 9007199254740992 : Nat) : ℚ) / 9007199254740992

/-- `clampInt` of AcoOptimizer.cpp. -/
def clampInt (v lo hi : Int) : Int :=
  if v < lo then lo else if v > hi then hi else v

/-- `costOf` (the same text in `AcoOptimizer` and `ArqOptimizer`): `0`
without an instance or with fewer than two nodes, else the loop over
consecutive nodes. -/
def costOf (instance? : Option TspInstance) (ord : List Int) : Int :=
  match instance? with
  | none => 0
  | some inst => if ord.length < 2 then 0 else Tour.evaluateLoop inst.m_points ord

/-- `AcoOptimizer`. Pheromone and the real parameters are `double`s,
modelled as exact rationals; an infinite `m_iterBestCost` is `none`. -/
structure AcoOptimizer where
  m_instance : Option TspInstance
  m_n : Nat
  m_antsPerIter : Int
  m_candidateK : Int
  m_candidateSamples : Int
  m_alpha : ℚ
  m_beta : ℚ
  m_rho : ℚ
  m_Q : ℚ
  m_candidates : List (List Int)
  m_tau : List (List ℚ)
  m_rng : Rng
  m_antIndex : Int
  m_iterBestCost : Option Int
  m_iterBestOrder : List Int
  m_best : Tour
  m_baseline : Int
  m_lastBest : Int
deriving DecidableEq

namespace AcoOptimizer

/-- The index of the first largest distance in `best` (the `worstIdx` loop). -/
def worstIdx (best : List (Int × Int)) : Nat :=
  (List.range' 1 (best.length - 1)).foldl
    (fun w t => if (best.getD t (0, 0)).1 > (best.getD w (0, 0)).1 then t else w) 0

/-- The sampling loop of `buildCandidateLists` for node `i`: `S` draws, the
`K` closest sampled nodes are kept as pairs (distance, id). -/
def sampleCandidates (pts : List TspPoint) (n i K : Nat) :
    Nat → Rng → List (Int × Int) → List (Int × Int) × Rng
  | 0, g, best => (best, g)
  | s + 1, g, best =>
    let j := uniformInt 0 (n - 1) g
    if j.1 = i then sampleCandidates pts n i K s j.2 best
    else
      let d := Tour.edgeCost (ptAt pts i) (ptAt pts j.1)
      if best.length < K then sampleCandidates pts n i K s j.2 (best ++ [(d, (j.1 : Int))])
      else if d < (best.getD (worstIdx best) (0, 0)).1 then
        sampleCandidates pts n i K s j.2 (best.set (worstIdx best) (d, (j.1 : Int)))
      else sampleCandidates pts n i K s j.2 best

/-- The loop that keeps the distinct ids of the sorted samples, at most `K`. -/
def uniqueIds (i : Nat) (K : Nat) : List (Int × Int) → List Int → List Int
  | [], cand => cand
  | p :: rest, cand =>
    if cand.length ≥ K then cand
    else if p.2 = (i : Int) then uniqueIds i K rest cand
    else if p.2 ∈ cand then uniqueIds i K rest cand
    else uniqueIds i K rest (cand ++ [p.2])

/-- The loop `while (cand.size() < K)` that fills the list with random
distinct ids; `none` when the fuel runs out before the list is full. -/
def fillCandidates (n i K : Nat) : Nat → List Int → Rng → Option (List Int × Rng)
  | 0, cand, g => if cand.length < K then none else some (cand, g)
  | fuel + 1, cand, g =>
    if cand.length < K then
      let j := uniformInt 0 (n - 1) g
      if j.1 = i then fillCandidates n i K fuel cand j.2
      else if (j.1 : Int) ∈ cand then fillCandidates n i K fuel cand j.2
      else fillCandidates n i K fuel (cand ++ [(j.1 : Int)]) j.2
    else some (cand, g)

/-- The candidate list of node `i`, as built by one pass of the outer loop of
`buildCandidateLists`. Samples at equal distance keep their order in the
sort; the source leaves their order to the library. -/
def candidatesOf (pts : List TspPoint) (n K S fuel i : Nat) (g : Rng) :
    Option (List Int × Rng) :=
  let sampled := sampleCandidates pts n i K S g []
  let sorted := sampled.1.insertionSort (fun a b => a.1 ≤ b.1)
  fillCandidates n i K fuel (uniqueIds i K sorted []) sampled.2

/-- The outer loop of `buildCandidateLists` over the nodes `i, i + 1, ...`. -/
def buildLoop (pts : List TspPoint) (n K S fuel : Nat) :
    Nat → Nat → Rng → List (List Int) → List (List ℚ) →
      Option (List (List Int) × List (List ℚ) × Rng)
  | 0, _, g, cands, tau => some (cands, tau, g)
  | k + 1, i, g, cands, tau =>
    match candidatesOf pts n K S fuel i g with
    | none => none
    | some (cand, g1) =>
      buildLoop pts n K S fuel k (i + 1) g1 (cands ++ [cand]) (tau ++ [List.replicate K 1])

/-- `AcoOptimizer::buildCandidateLists`; `fuel` bounds every run of the
filling loop, and the result is `none` when a run exceeds it. -/
def buildCandidateLists (s : AcoOptimizer) (fuel : Nat) : Option AcoOptimizer :=
  match s.m_instance with
  | none => some { s with m_candidates := [], m_tau := [] }
  | some inst =>
    if s.m_n ≤ 1 then some { s with m_candidates := [], m_tau := [] }
    else
      let K := (clampInt s.m_candidateK 4 (max 4 ((s.m_n : Int) - 1))).toNat
      let S := (min s.m_candidateSamples (max 10 ((s.m_n : Int) - 1))).toNat
      match buildLoop inst.m_points s.m_n K S fuel s.m_n 0 s.m_rng [] [] with
      | none => none
      | some (cands, tau, g) =>
        some { s with
          m_candidates := cands, m_tau := tau, m_rng := g
          m_antIndex := 0, m_iterBestCost := none, m_iterBestOrder := [] }

/-- `AcoOptimizer::AcoOptimizer`. -/
def create (initial : Tour) (antsPerIteration candidateK candidateSamples : Int)
    (alpha beta rho q : ℚ) (seed : Rng) (fuel : Nat) : Option AcoOptimizer :=
  let s : AcoOptimizer :=
    { m_instance := initial.m_instance
      m_n := initial.size
      m_antsPerIter := max 1 antsPerIteration
      m_candidateK := max 4 candidateK
      m_candidateSamples := max 10 candidateSamples
      m_alpha := alpha, m_beta := beta, m_rho := rho, m_Q := q
      m_candidates := [], m_tau := []
      m_rng := seed
      m_antIndex := 0, m_iterBestCost := none, m_iterBestOrder := []
      m_best := initial
      m_baseline := initial.m_cost
      m_lastBest := initial.m_cost }
  if s.m_instance.isSome ∧ s.m_n > 1 then buildCandidateLists s fuel else some s

/-- The random tries of `pickRandomUnvisited`. -/
def pickRandomTries (n : Nat) (visited : List Bool) : Nat → Rng → Option Nat × Rng
  | 0, g => (none, g)
  | t + 1, g =>
    let j := uniformInt 0 (n - 1) g
    if visited.getD j.1 false then pickRandomTries n visited t j.2 else (some j.1, j.2)

/-- `AcoOptimizer::pickRandomUnvisited`. -/
def pickRandomUnvisited (n : Nat) (visited : List Bool) (g : Rng) : Int × Rng :=
  match pickRandomTries n visited 1024 g with
  | (some j, g1) => ((j : Int), g1)
  | (none, g1) =>
    match (List.range n).find? (fun j => !(visited.getD j false)) with
    | some j => ((j : Int), g1)
    | none => (0, g1)

/-- The desirabilities `w[k]` of `chooseNext`; `pw` is `std::pow`. -/
def weights (pw : ℚ → ℚ → ℚ) (s : AcoOptimizer) (pts : List TspPoint) (current : Int)
    (visited : List Bool) : List ℚ :=
  (List.range (s.m_candidates.getD current.toNat []).length).map fun k =>
    if visited.getD ((s.m_candidates.getD current.toNat []).getD k 0).toNat false then 0
    else
      pw (max (1 / 1000000000000) ((s.m_tau.getD current.toNat []).getD k 0)) s.m_alpha
        * pw (1 / (1 + ((Tour.edgeCost (ptAt pts current)
            (ptAt pts ((s.m_candidates.getD current.toNat []).getD k 0)) : Int) : ℚ))) s.m_beta

/-- The roulette loop of `chooseNext` over the pairs (candidate, weight). -/
def rouletteLoop (r : ℚ) : List (Int × ℚ) → ℚ → Option Int
  | [], _ => none
  | (c, wk) :: rest, acc =>
    if wk ≤ 0 then rouletteLoop r rest acc
    else if acc + wk ≥ r then some c
    else rouletteLoop r rest (acc + wk)

/-- `AcoOptimizer::chooseNext`. -/
def chooseNext (pw : ℚ → ℚ → ℚ) (s : AcoOptimizer) (pts : List TspPoint) (current : Int)
    (visited : List Bool) (g : Rng) : Int × Rng :=
  let cand := s.m_candidates.getD current.toNat []
  let w := weights pw s pts current visited
  if w.sum ≤ 0 then pickRandomUnvisited s.m_n visited g
  else
    let u := Rng.next g
    match rouletteLoop (uni01 u.1 * w.sum) (cand.zip w) 0 with
    | some c => (c, u.2)
    | none =>
      match (cand.zip w).find? (fun p => decide (p.2 > 0)) with
      | some p => (p.1, u.2)
      | none => pickRandomUnvisited s.m_n visited u.2

/-- The loop of `constructTour`: `k` more nodes after `current`. -/
def constructLoop (pw : ℚ → ℚ → ℚ) (s : AcoOptimizer) (pts : List TspPoint) :
    Nat → Int → List Bool → List Int → Rng → List Int × Rng
  | 0, _, _, ord, g => (ord, g)
  | k + 1, current, visited, ord, g =>
    let nxt := chooseNext pw s pts current visited g
    constructLoop pw s pts k nxt.1 (visited.set nxt.1.toNat true) (ord ++ [nxt.1]) nxt.2

/-- `AcoOptimizer::constructTour`. -/
def constructTour (pw : ℚ → ℚ → ℚ) (s : AcoOptimizer) (pts : List TspPoint) : List Int × Rng :=
  constructLoop pw s pts (s.m_n - 1) 0 ((List.replicate s.m_n false).set 0 true) [0] s.m_rng

/-- One deposit `tau[a][k] += delta` at the first `k` with
`candidates[a][k] == b`, if there is one. -/
def depositEdge (cands : List (List Int)) (tau : List (List ℚ)) (a b : Int) (delta : ℚ) :
    List (List ℚ) :=
  let k := (cands.getD a.toNat []).indexOf b
  if k < (cands.getD a.toNat []).length then
    tau.set a.toNat
      ((tau.getD a.toNat []).set k ((tau.getD a.toNat []).getD k 0 + delta))
  else tau

/-- The pheromone update at the end of a batch: evaporation, deposit along
the batch-best order, reset of the batch record. -/
def pheromoneUpdate (s : AcoOptimizer) : AcoOptimizer :=
  let evap : ℚ := if s.m_rho < 0 then 0 else if s.m_rho > 1 then 1 else s.m_rho
  let keep : ℚ := 1 - evap
  let tau1 := s.m_tau.enum.map fun p => if p.1 < s.m_n then p.2.map (· * keep) else p.2
  let tau2 :=
    match s.m_iterBestCost with
    | none => tau1
    | some c =>
      if ¬ s.m_iterBestOrder.isEmpty ∧ c > 0 then
        (List.range (s.m_n - 1)).foldl
          (fun tau i =>
            depositEdge s.m_candidates
              (depositEdge s.m_candidates tau (s.m_iterBestOrder.getD i 0)
                (s.m_iterBestOrder.getD (i + 1) 0) (s.m_Q / (c : ℚ)))
              (s.m_iterBestOrder.getD (i + 1) 0) (s.m_iterBestOrder.getD i 0)
              (s.m_Q / (c : ℚ)))
          tau1
      else tau1
  { s with m_tau := tau2, m_antIndex := 0, m_iterBestCost := none, m_iterBestOrder := [] }

/-- The update of the global best in `iterate`: when `c < m_lastBest` the
best tour is rebuilt by the `Tour` constructor, which may throw. -/
def updateBest (s : AcoOptimizer) (ord : List Int) (c : Int) :
    Except String (AcoOptimizer × Bool) :=
  if c < s.m_lastBest then
    match Tour.mkWithOrder s.m_instance ord with
    | .error e => .error e
    | .ok t => .ok ({ s with m_best := t, m_lastBest := t.m_cost }, true)
  else .ok (s, false)

/-- The step `if (c < m_iterBestCost) { m_iterBestCost = c; m_iterBestOrder =
ord; }` of `iterate`. -/
def recordBatchBest (s : AcoOptimizer) (ord : List Int) (c : Int) : AcoOptimizer :=
  match s.m_iterBestCost with
  | none => { s with m_iterBestCost := some c, m_iterBestOrder := ord }
  | some b =>
    if c < b then { s with m_iterBestCost := some c, m_iterBestOrder := ord } else s

/-- The end of `iterate`: `++m_antIndex`, and the pheromone update when the
batch is complete. -/
def endOfAnt (s : AcoOptimizer) : AcoOptimizer :=
  if s.m_antIndex + 1 ≥ s.m_antsPerIter then
    pheromoneUpdate { s with m_antIndex := s.m_antIndex + 1 }
  else { s with m_antIndex := s.m_antIndex + 1 }

/-- `AcoOptimizer::iterate`: one ant. The result is the exception message
when the `Tour` constructor throws. -/
def iterate (pw : ℚ → ℚ → ℚ) (s : AcoOptimizer) : Except String (AcoOptimizer × Bool) :=
  match s.m_instance with
  | none => .ok (s, false)
  | some inst =>
    if s.m_n < 2 ∨ s.m_candidates.isEmpty ∨ s.m_tau.isEmpty then .ok (s, false)
    else
      let r := constructTour pw s inst.m_points
      let c := costOf s.m_instance r.1
      match updateBest (recordBatchBest { s with m_rng := r.2 } r.1 c) r.1 c with
      | .error e => .error e
      | .ok (s2, improved) => .ok (endOfAnt s2, improved)

end AcoOptimizer

/-! ## ArqOptimizer -/

/-- The message of the model for a vector access outside the vector
(undefined behaviour in the source). -/
def outOfRange : String := "index out of range"

/-- The message of the model for a `uniform_int_distribution(lo, hi)` with
`hi < lo` (undefined behaviour in the source). -/
def badRange : String := "invalid distribution range"

/-- The message of the model for a loop that does not end. -/
def noTermination : String := "loop does not terminate"

/-- Checked read `v[i]` for an `int` index. -/
def getE {α : Type} (v : List α) (i : Int) : Except String α :=
  if 0 ≤ i then
    match v.get? i.toNat with
    | some x => .ok x
    | none => .error outOfRange
  else .error outOfRange

/-- Checked write `v[i] = x` for an `int` index. -/
def setE {α : Type} (v : List α) (i : Int) (x : α) : Except String (List α) :=
  if 0 ≤ i ∧ i.toNat < v.length then .ok (v.set i.toNat x) else .error outOfRange

/-- `std::round` of a real: to the nearest integer, halves away from zero. -/
def roundQ (x : ℚ) : Int :=
  if 0 ≤ x then ⌊x + 1 / 2⌋ else ⌈x - 1 / 2⌉

/-- `clamp01` of ArqOptimizer.cpp. -/
def clamp01 (x : ℚ) : ℚ :=
  if x < 0 then 0 else if x > 1 then 1 else x

/-- `std::shuffle` of a vector: for `i = 1, 2, ...` swap position `i` with a
position drawn from `[0, i]`. `k` positions remain, the next is `i`. -/
def shuffleLoop : Nat → Nat → List Int → Rng → List Int × Rng
  | 0, _, v, g => (v, g)
  | k + 1, i, v, g =>
    let j := uniformInt 0 i g
    shuffleLoop k (i + 1) (swapAt v i j.1) j.2

/-- `std::shuffle(v.begin(), v.end(), rng)`. -/
def shuffle (v : List Int) (g : Rng) : List Int × Rng :=
  shuffleLoop (v.length - 1) 1 v g

/-- `ArqOptimizer`. Real parameters are exact rationals; an infinite
`m_bestPrev` is `none`. -/
structure ArqOptimizer where
  m_instance : Option TspInstance
  m_n : Nat
  m_popSize : Int
  m_pbest : ℚ := 12 / 100
  m_muF : ℚ := 60 / 100
  m_muCR : ℚ := 85 / 100
  m_Flo : ℚ := 5 / 100
  m_Fhi : ℚ := 140 / 100
  m_worstFrac : ℚ := 8 / 100
  m_rsigma : ℚ := 18 / 100
  m_stagTrigger : Int := 24
  m_shc : ℚ := 10 / 100
  m_archiveRate : ℚ := 15 / 10
  m_rng : Rng
  m_pop : List (List Int)
  m_cost : List Int
  m_rank : List Int
  m_archive : List (List Int)
  m_target : Int := 0
  m_noImproveGen : Int := 0
  m_bestPrev : Option Int := none
  m_SF : List ℚ
  m_SCR : List ℚ
  m_SG : List ℚ
  m_best : Tour
  m_baseline : Int
  m_lastBest : Int
deriving DecidableEq

namespace ArqOptimizer

/-- The swap loop of `randomizeOrder`. -/
def randomizeLoop (n : Nat) : Nat → List Int → Rng → List Int × Rng
  | 0, ord, g => (ord, g)
  | k + 1, ord, g =>
    let a := uniformInt 1 (n - 1) g
    let b := uniformInt 1 (n - 1) a.2
    randomizeLoop n k (swapAt ord a.1 b.1) b.2

/-- `ArqOptimizer::randomizeOrder`: `swaps` swaps among positions `1..n-1`. -/
def randomizeOrder (n : Nat) (ord : List Int) (swaps : Int) (g : Rng) : List Int × Rng :=
  if n < 3 then (ord, g) else randomizeLoop n swaps.toNat ord g

/-- `ArqOptimizer::beginGeneration`: the slots ranked by ascending cost, the
success lists cleared. Slots of equal cost keep their order here; the source
leaves their order to the library. -/
def beginGeneration (s : ArqOptimizer) : ArqOptimizer :=
  { s with
    m_rank := ((List.range s.m_popSize.toNat).map Int.ofNat).insertionSort
      (fun a b => s.m_cost.getD a.toNat 0 ≤ s.m_cost.getD b.toNat 0)
    m_SF := [], m_SCR := [], m_SG := [] }

/-- The seeding loop of the constructor over the slots `i, i + 1, ...`. -/
def seedLoop (base : List Int) : Nat → Int → ArqOptimizer → Except String ArqOptimizer
  | 0, _, s => .ok s
  | k + 1, i, s =>
    let r := randomizeOrder s.m_n base (min ((s.m_n : Int) * 2) (2000 + i * 50)) s.m_rng
    let c := costOf s.m_instance r.1
    let s1 : ArqOptimizer :=
      { s with m_rng := r.2, m_pop := s.m_pop ++ [r.1], m_cost := s.m_cost ++ [c] }
    if c < s1.m_lastBest then
      match Tour.mkWithOrder s1.m_instance r.1 with
      | .error e => .error e
      | .ok t => seedLoop base k (i + 1) { s1 with m_best := t, m_lastBest := c }
    else seedLoop base k (i + 1) s1

/-- `ArqOptimizer::ArqOptimizer`. -/
def create (initial : Tour) (populationSize : Int) (seed : Rng) : Except String ArqOptimizer :=
  let s : ArqOptimizer :=
    { m_instance := initial.m_instance
      m_n := initial.size
      m_popSize := max 4 populationSize
      m_rng := seed
      m_pop := [], m_cost := [], m_rank := [], m_archive := []
      m_SF := [], m_SCR := [], m_SG := []
      m_best := initial
      m_baseline := initial.m_cost
      m_lastBest := initial.m_cost }
  if s.m_instance.isNone ∨ s.m_n < 2 then .ok s
  else
    let base0 := initial.m_order
    let base :=
      if ¬ base0.isEmpty ∧ base0.getD 0 0 ≠ 0 then
        if base0.indexOf 0 < base0.length then swapAt base0 0 (base0.indexOf 0) else base0
      else base0
    match seedLoop base s.m_popSize.toNat 0 s with
    | .error e => .error e
    | .ok s1 => .ok (beginGeneration s1)

/-- `ArqOptimizer::pickDistinctIndex`; `fuel` bounds the `do ... while`. -/
def pickDistinctIndex (popSize : Int) (avoid1 avoid2 : Int) :
    Nat → Rng → Except String (Int × Rng)
  | 0, _ => .error noTermination
  | fuel + 1, g =>
    let r := uniformInt 0 (popSize - 1).toNat g
    if (r.1 : Int) = avoid1 ∨ (r.1 : Int) = avoid2 then
      pickDistinctIndex popSize avoid1 avoid2 fuel r.2
    else .ok ((r.1 : Int), r.2)

/-- `ArqOptimizer::pickPBestIndex`. -/
def pickPBestIndex (s : ArqOptimizer) (g : Rng) : Except String (Int × Rng) :=
  let P : Int := max 2 ⌈s.m_pbest * (s.m_popSize : ℚ)⌉
  let d := uniformInt 0 (P - 1).toNat g
  match getE s.m_rank (d.1 : Int) with
  | .error e => .error e
  | .ok r => .ok (r, d.2)

/-- The resampling loop of `sampleF`: at most `k` more Cauchy draws, stopping
at the first finite one inside `[Flo, Fhi]`; the last draw is returned. -/
def sampleFLoop (cauchy : ℚ → Nat → Option ℚ) (s : ArqOptimizer) :
    Nat → Option ℚ → Rng → Option ℚ × Rng
  | 0, F, g => (F, g)
  | k + 1, _, g =>
    let F := cauchy s.m_muF (Rng.next g).1
    match F with
    | some f =>
      if s.m_Flo ≤ f ∧ f ≤ s.m_Fhi then (F, (Rng.next g).2)
      else sampleFLoop cauchy s k F (Rng.next g).2
    | none => sampleFLoop cauchy s k F (Rng.next g).2

/-- `ArqOptimizer::sampleF`; `cauchy mu r` is the value the Cauchy
distribution around `mu` yields for the raw draw `r` (`none`: not finite). -/
def sampleF (cauchy : ℚ → Nat → Option ℚ) (s : ArqOptimizer) (g : Rng) : ℚ × Rng :=
  let r := sampleFLoop cauchy s 32 (some 0) g
  let F0 : ℚ := match r.1 with
    | some f => f
    | none => s.m_muF
  let F1 := if F0 < s.m_Flo then s.m_Flo else F0
  (if F1 > s.m_Fhi then s.m_Fhi else F1, r.2)

/-- `ArqOptimizer::sampleCR`; `normal mu r` is the value the normal
distribution around `mu` yields for the raw draw `r` (`none`: not finite). -/
def sampleCR (normal : ℚ → Nat → Option ℚ) (s : ArqOptimizer) (g : Rng) : ℚ × Rng :=
  match normal s.m_muCR (Rng.next g).1 with
  | some cr => (clamp01 cr, (Rng.next g).2)
  | none => (clamp01 s.m_muCR, (Rng.next g).2)

/-- The loop of `orderCrossover` that copies `b[start..end]` into the child:
`k` positions remain, the next is `i`. -/
def copySegment (b : List Int) :
    Nat → Int → List Int → List Bool → Except String (List Int × List Bool)
  | 0, _, child, used => .ok (child, used)
  | k + 1, i, child, used =>
    match getE b i with
    | .error e => .error e
    | .ok x =>
      match setE child i x with
      | .error e => .error e
      | .ok child1 =>
        match setE used x true with
        | .error e => .error e
        | .ok used1 => copySegment b k (i + 1) child1 used1

/-- The inner loop `while (writePos >= start && writePos <= end)`: the write
position moved past the protected segment, or the failure of the model when
the loop cannot end. -/
def skipSegment (n : Nat) (start stop writePos : Int) : Except String Int :=
  if start ≤ writePos ∧ writePos ≤ stop then
    let w : Int := if stop + 1 ≥ (n : Int) then 1 else stop + 1
    if start ≤ w ∧ w ≤ stop then .error noTermination else .ok w
  else .ok writePos

/-- The loop of `orderCrossover` that fills the free positions with the
unused values of `a` in order: `k` positions of `a` remain, the next is `i`. -/
def fillFromA (n : Nat) (a : List Int) (start stop : Int) :
    Nat → Int → List Int → List Bool → Int → Except String (List Int × List Bool)
  | 0, _, child, used, _ => .ok (child, used)
  | k + 1, i, child, used, writePos =>
    match getE a i with
    | .error e => .error e
    | .ok v =>
      match getE used v with
      | .error e => .error e
      | .ok true => fillFromA n a start stop k (i + 1) child used writePos
      | .ok false =>
        match skipSegment n start stop writePos with
        | .error e => .error e
        | .ok w =>
          match setE child w v with
          | .error e => .error e
          | .ok child1 =>
            match setE used v true with
            | .error e => .error e
            | .ok used1 =>
              fillFromA n a start stop k (i + 1) child1 used1
                (if w + 1 ≥ (n : Int) then 1 else w + 1)

/-- The last loop of `orderCrossover`: every position still holding `-1`
receives the smallest unused id of `1..n-1`, if there is one. -/
def fillHoles (n : Nat) : Nat → Nat → List Int → List Bool → List Int
  | 0, _, child, _ => child
  | k + 1, i, child, used =>
    if child.getD i 0 ≠ -1 then fillHoles n k (i + 1) child used
    else
      match (List.range' 1 (n - 1)).find? (fun v => !(used.getD v false)) with
      | some v => fillHoles n k (i + 1) (child.set i (v : Int)) (used.set v true)
      | none => fillHoles n k (i + 1) child used

/-- `ArqOptimizer::orderCrossover` for `m_n = n`. -/
def orderCrossover (n : Nat) (a b : List Int) (CR : ℚ) (g : Rng) :
    Except String (List Int × Rng) :=
  if n < 4 then .ok (a, g)
  else
    let maxSeg : Int := min ((n : Int) - 1) 800
    let segLen : Int := max 10 (min maxSeg (roundQ (CR * (((n : Int) - 1 : Int) : ℚ))))
    let hi : Int := ((n : Int) - 1) - segLen + 1
    if hi < 1 then .error badRange
    else
      let st := uniformInt 1 hi.toNat g
      let start : Int := (st.1 : Int)
      let stop : Int := start + segLen - 1
      let child0 := (List.replicate n (-1 : Int)).set 0 0
      let used0 := (List.replicate n false).set 0 true
      match copySegment b segLen.toNat start child0 used0 with
      | .error e => .error e
      | .ok (child1, used1) =>
        match fillFromA n a start stop (n - 1) 1 child1 used1
            (if stop + 1 ≥ (n : Int) then 1 else stop + 1) with
        | .error e => .error e
        | .ok (child2, used2) => .ok (fillHoles n (n - 1) 1 child2 used2, st.2)

/-- The loop of `applyDifferenceToward` that builds the position map. -/
def buildPos (trial : List Int) : Nat → Nat → List Int → Except String (List Int)
  | 0, _, pos => .ok pos
  | k + 1, i, pos =>
    match getE trial (i : Int) with
    | .error e => .error e
    | .ok v =>
      match setE pos v (i : Int) with
      | .error e => .error e
      | .ok pos1 => buildPos trial k (i + 1) pos1

/-- The positions `1..n-1` where trial and donor differ. -/
def diffPositions (trial donor : List Int) : Nat → Nat → List Int → Except String (List Int)
  | 0, _, diff => .ok diff
  | k + 1, i, diff =>
    match getE trial (i : Int), getE donor (i : Int) with
    | .ok x, .ok y =>
      if x ≠ y then diffPositions trial donor k (i + 1) (diff ++ [(i : Int)])
      else diffPositions trial donor k (i + 1) diff
    | _, _ => .error outOfRange

/-- The swap loop of `applyDifferenceToward` over `diff[t]`, `t = 0..m-1`. -/
def enforceLoop (donor diff : List Int) :
    Nat → Nat → List Int → List Int → Except String (List Int)
  | 0, _, trial, _ => .ok trial
  | k + 1, t, trial, pos =>
    match getE diff (t : Int) with
    | .error e => .error e
    | .ok p =>
      match getE donor p with
      | .error e => .error e
      | .ok val =>
        match getE pos val with
        | .error e => .error e
        | .ok curPos =>
          if curPos = p then enforceLoop donor diff k (t + 1) trial pos
          else
            match getE trial p, getE trial curPos with
            | .ok x, .ok y =>
              match setE (trial.set p.toNat y) curPos x with
              | .error e => .error e
              | .ok trial1 =>
                match setE pos x curPos with
                | .error e => .error e
                | .ok pos1 =>
                  match setE pos1 y p with
                  | .error e => .error e
                  | .ok pos2 => enforceLoop donor diff k (t + 1) trial1 pos2
            | _, _ => .error outOfRange

/-- `ArqOptimizer::applyDifferenceToward`. -/
def applyDifferenceToward (s : ArqOptimizer) (trial donor : List Int) (F : ℚ) (g : Rng) :
    Except String (List Int × Rng) :=
  if s.m_n < 4 then .ok (trial, g)
  else
    match buildPos trial s.m_n 0 (List.replicate s.m_n (-1 : Int)) with
    | .error e => .error e
    | .ok pos =>
      match diffPositions trial donor (s.m_n - 1) 1 [] with
      | .error e => .error e
      | .ok diff =>
        if diff.isEmpty then .ok (trial, g)
        else
          let m0 : Int := roundQ (clamp01 (F / s.m_Fhi) * (diff.length : ℚ))
          let m : Int := max 1 (min (diff.length : Int) (min 600 m0))
          let sh := shuffle diff g
          match enforceLoop donor sh.1 m.toNat 0 trial pos with
          | .error e => .error e
          | .ok trial1 => .ok (trial1, sh.2)

/-- `ArqOptimizer::smallPerturbation`. -/
def smallPerturbation (n : Nat) (ord : List Int) (g : Rng) : List Int × Rng :=
  if n < 6 then (ord, g)
  else
    let a0 := uniformInt 1 (n - 1) g
    let b0 := uniformInt 1 (n - 1) a0.2
    if a0.1 = b0.1 then (ord, b0.2)
    else
      let a := if a0.1 > b0.1 then b0.1 else a0.1
      let b := if a0.1 > b0.1 then a0.1 else b0.1
      if (b : Int) - (a : Int) < 3 then (ord, b0.2)
      else (reverseSegment ord a b, b0.2)

/-- `ArqOptimizer::archiveTrim`: keep the most recent `cap` entries. -/
def archiveTrim (s : ArqOptimizer) : ArqOptimizer :=
  let cap : Int := max 1 (roundQ (s.m_archiveRate * (s.m_popSize : ℚ)))
  if (s.m_archive.length : Int) ≤ cap then s
  else { s with m_archive := s.m_archive.drop (s.m_archive.length - cap.toNat) }

/-- The loop of `restartWorst` over `k = 0..W-1`. -/
def restartLoop (bestOrd : List Int) : Nat → Int → ArqOptimizer → Except String ArqOptimizer
  | 0, _, s => .ok s
  | w + 1, k, s =>
    match getE s.m_rank (s.m_popSize - 1 - k) with
    | .error e => .error e
    | .ok idx =>
      let swaps : Int := max 50 (min 1200 (roundQ (s.m_rsigma * (s.m_n : ℚ))))
      let r := randomizeOrder s.m_n bestOrd swaps s.m_rng
      let c := costOf s.m_instance r.1
      match setE s.m_pop idx r.1, setE s.m_cost idx c with
      | .ok pop1, .ok cost1 =>
        let s1 : ArqOptimizer := { s with m_rng := r.2, m_pop := pop1, m_cost := cost1 }
        if c < s1.m_lastBest then
          match Tour.mkWithOrder s1.m_instance r.1 with
          | .error e => .error e
          | .ok t => restartLoop bestOrd w (k + 1) { s1 with m_best := t, m_lastBest := c }
        else restartLoop bestOrd w (k + 1) s1
      | _, _ => .error outOfRange

/-- `ArqOptimizer::restartWorst`. -/
def restartWorst (s : ArqOptimizer) : Except String ArqOptimizer :=
  let W : Int := max 1 (roundQ (s.m_worstFrac * (s.m_popSize : ℚ)))
  let s0 := if s.m_rank.isEmpty then beginGeneration s else s
  match getE s0.m_rank 0 with
  | .error e => .error e
  | .ok r0 =>
    match getE s0.m_pop r0 with
    | .error e => .error e
    | .ok bestOrd => restartLoop bestOrd W.toNat 0 s0

/-- The update of `m_muCR` and `m_muF` from the successes of a generation. -/
def updateMeans (s : ArqOptimizer) : ArqOptimizer :=
  if s.m_SF.isEmpty then s
  else
    let sum0 : ℚ := s.m_SG.sum
    let sumW : ℚ := if sum0 ≤ 0 then (s.m_SG.length : ℚ) else sum0
    let w : Nat → ℚ := fun i =>
      if s.m_SG.getD i 0 > 0 then s.m_SG.getD i 0 / sumW else 1 / (s.m_SF.length : ℚ)
    let idx := List.range s.m_SF.length
    let meanCR : ℚ := (idx.map fun i => w i * s.m_SCR.getD i 0).sum
    let numF : ℚ := (idx.map fun i => w i * (s.m_SF.getD i 0 * s.m_SF.getD i 0)).sum
    let denF : ℚ := (idx.map fun i => w i * s.m_SF.getD i 0).sum
    let lehmerF : ℚ := if denF > 0 then numF / denF else s.m_muF
    let muCR : ℚ := (1 - s.m_shc) * s.m_muCR + s.m_shc * clamp01 meanCR
    let muF0 : ℚ := (1 - s.m_shc) * s.m_muF + s.m_shc * lehmerF
    let muF1 : ℚ := if muF0 < s.m_Flo then s.m_Flo else muF0
    { s with m_muCR := muCR, m_muF := if muF1 > s.m_Fhi then s.m_Fhi else muF1 }

/-- The test `m_lastBest + 1e-12 < m_bestPrev`. -/
def improvedSincePrev (s : ArqOptimizer) : Bool :=
  match s.m_bestPrev with
  | none => true
  | some b => decide ((s.m_lastBest : ℚ) + 1 / 1000000000000 < (b : ℚ))

/-- `ArqOptimizer::endGeneration`. -/
def endGeneration (s : ArqOptimizer) : Except String ArqOptimizer :=
  let s1 := updateMeans s
  if improvedSincePrev s1 then
    .ok (archiveTrim { s1 with m_bestPrev := some s1.m_lastBest, m_noImproveGen := 0 })
  else
    let s2 : ArqOptimizer := { s1 with m_noImproveGen := s1.m_noImproveGen + 1 }
    if s2.m_noImproveGen ≥ s2.m_stagTrigger then
      match restartWorst s2 with
      | .error e => .error e
      | .ok s3 =>
        .ok (archiveTrim { s3 with m_noImproveGen := 0, m_bestPrev := some s3.m_lastBest })
    else .ok (archiveTrim s2)

/-- The trial of one step of `iterate` for the target slot: the trial order,
the sampled `F` and `CR`, and the generator afterwards. -/
def makeTrial (cauchy normal : ℚ → Nat → Option ℚ) (fuel : Nat) (s : ArqOptimizer) :
    Except String (List Int × ℚ × ℚ × Rng) :=
  match pickPBestIndex s s.m_rng with
  | .error e => .error e
  | .ok (pbestIdx, g1) =>
    match pickDistinctIndex s.m_popSize s.m_target pbestIdx fuel g1 with
    | .error e => .error e
    | .ok (r1, g2) =>
      let useArchive : Bool := !s.m_archive.isEmpty && decide (uni01 (Rng.next g2).1 < 35 / 100)
      let g3 := if s.m_archive.isEmpty then g2 else (Rng.next g2).2
      match getE s.m_pop s.m_target, getE s.m_pop pbestIdx, getE s.m_pop r1 with
      | .ok parent, .ok pbest, .ok _ =>
        let donor2? : Except String (List Int × Rng) :=
          if useArchive then
            let d := uniformInt 0 (s.m_archive.length - 1) g3
            match getE s.m_archive (d.1 : Int) with
            | .error e => .error e
            | .ok x => .ok (x, d.2)
          else
            match pickDistinctIndex s.m_popSize s.m_target r1 fuel g3 with
            | .error e => .error e
            | .ok (r2, g4) =>
              match getE s.m_pop r2 with
              | .error e => .error e
              | .ok x => .ok (x, g4)
        match donor2? with
        | .error e => .error e
        | .ok (donor2, g5) =>
          let F := sampleF cauchy s g5
          let CR := sampleCR normal s F.2
          match orderCrossover s.m_n parent pbest CR.1 CR.2 with
          | .error e => .error e
          | .ok (trial0, g6) =>
            match applyDifferenceToward s trial0 donor2 F.1 g6 with
            | .error e => .error e
            | .ok (trial1, g7) =>
              let u := Rng.next g7
              if uni01 u.1 < 10 / 100 then
                let sp := smallPerturbation s.m_n trial1 u.2
                .ok (sp.1, F.1, CR.1, sp.2)
              else .ok (trial1, F.1, CR.1, u.2)
      | _, _, _ => .error outOfRange

/-- The selection of `iterate`: the trial replaces the parent when it is
cheaper, and the global best is rebuilt when the trial beats it. -/
def select (s : ArqOptimizer) (trial : List Int) (F CR : ℚ) :
    Except String (ArqOptimizer × Bool) :=
  match getE s.m_cost s.m_target, getE s.m_pop s.m_target with
  | .ok f_parent, .ok parent =>
    let f_trial := costOf s.m_instance trial
    if f_trial < f_parent then
      let s1 : ArqOptimizer :=
        { s with
          m_archive := s.m_archive ++ [parent]
          m_pop := s.m_pop.set s.m_target.toNat trial
          m_cost := s.m_cost.set s.m_target.toNat f_trial
          m_SF := s.m_SF ++ [F], m_SCR := s.m_SCR ++ [CR]
          m_SG := s.m_SG ++ [((f_parent - f_trial : Int) : ℚ)] }
      if f_trial < s1.m_lastBest then
        match Tour.mkWithOrder s1.m_instance trial with
        | .error e => .error e
        | .ok t => .ok ({ s1 with m_best := t, m_lastBest := f_trial }, true)
      else .ok (s1, false)
    else .ok (s, false)
  | _, _ => .error outOfRange

/-- The end of `iterate`: `m_target++`, and the end of the generation when
the sweep over the population is complete. -/
def advanceTarget (s : ArqOptimizer) : Except String ArqOptimizer :=
  if s.m_target + 1 ≥ s.m_popSize then endGeneration { s with m_target := 0 }
  else .ok { s with m_target := s.m_target + 1 }

/-- `ArqOptimizer::iterate`: one target slot. `cauchy` and `normal` are the
two real-valued samplers, `fuel` bounds each `pickDistinctIndex` loop. -/
def iterate (cauchy normal : ℚ → Nat → Option ℚ) (fuel : Nat) (s : ArqOptimizer) :
    Except String (ArqOptimizer × Bool) :=
  if s.m_instance.isNone ∨ s.m_n < 2 ∨ s.m_pop.isEmpty then .ok (s, false)
  else
    match makeTrial cauchy normal fuel (if s.m_target = 0 then beginGeneration s else s) with
    | .error e => .error e
    | .ok (trial, F, CR, g) =>
      match select { (if s.m_target = 0 then beginGeneration s else s) with m_rng := g }
          trial F CR with
      | .error e => .error e
      | .ok (s1, improved) =>
        match advanceTarget s1 with
        | .error e => .error e
        | .ok s3 => .ok (s3, improved)

end ArqOptimizer

/-- The invariant of a running `GeneticOptimizer`: the population has
`populationSize ≥ 1` members, `m_lastBest` is the cost of `m_best` and the
least cost in the population. -/
def GeneticOptimizer.Inv (s : GeneticOptimizer) : Prop :=
  1 ≤ s.m_populationSize ∧
  (s.m_population.length : Int) = s.m_populationSize ∧
  s.m_best.m_cost = s.m_lastBest ∧
  (∀ p ∈ s.m_population, s.m_lastBest ≤ p.m_cost) ∧
  (∃ p ∈ s.m_population, p.m_cost = s.m_lastBest)


/-- The valid index pairs `(i, j)`, `i < j`, `j - i > 1`, that `k` rounds of
the sampling loop draw from the generator, in the order they are drawn. -/
def sampledPairs (n : Nat) : Nat → Rng → List (Nat × Nat)
  | 0, _ => []
  | k + 1, g =>
    let i0 := uniformInt 0 (n - 1) g
    let j0 := uniformInt 0 (n - 1) i0.2
    if i0.1 = j0.1 ∨ ((orderPair i0.1 j0.1).2 : Int) - ((orderPair i0.1 j0.1).1 : Int) ≤ 1 then
      sampledPairs n k j0.2
    else orderPair i0.1 j0.1 :: sampledPairs n k j0.2

/-- The cached cost of the tour is in sync: recomputing it changes nothing. -/
def Tour.InSync (t : Tour) : Prop :=
  (Tour.evaluate t).m_cost = t.m_cost

/-- The states of a `TwoOptOptimizer` seeded with an in-sync tour of at least
four nodes over an instance: current and best tour coincide, and the current
tour is in sync. -/
def TwoOptOptimizer.Inv (s : TwoOptOptimizer) : Prop :=
  s.m_best = s.m_current ∧ 4 ≤ s.m_current.size ∧ s.m_current.m_instance.isSome ∧
    Tour.InSync s.m_current

/-! ## Example states -/

/-- Equality of results is decidable when it is for errors and values. -/
instance instDecidableEqExcept {ε α : Type} [DecidableEq ε] [DecidableEq α] :
    DecidableEq (Except ε α) := fun x y =>
  match x, y with
  | .ok a, .ok b => if h : a = b then isTrue (by rw [h]) else isFalse (fun e => h (by injection e))
  | .error a, .error b =>
    if h : a = b then isTrue (by rw [h]) else isFalse (fun e => h (by injection e))
  | .ok _, .error _ => isFalse (fun e => by cases e)
  | .error _, .ok _ => isFalse (fun e => by cases e)

/-- Five points on a line; the identity order visits them as 0, 3, 2, 1, 4
(scaled by 10000), so its middle part runs backwards. -/
def crossingInstance : TspInstance :=
  { m_points := [⟨0, 0⟩, ⟨30000, 0⟩, ⟨20000, 0⟩, ⟨10000, 0⟩, ⟨40000, 0⟩]
    m_minX := 0, m_minY := 0, m_maxX := 40000, m_maxY := 0 }

/-- The identity tour over `crossingInstance`, cost in sync. -/
def crossingTour : Tour := ⟨some crossingInstance, [0, 1, 2, 3, 4], 80000⟩

/-- A 2-opt optimizer whose first sampled pair is (1, 3). -/
def twoOptExample : TwoOptOptimizer := TwoOptOptimizer.create crossingTour 250 [1, 3]

/-- An annealing optimizer whose first sampled pair is (1, 3). -/
def saExample : SimAnnealOptimizer :=
  SimAnnealOptimizer.create crossingTour [1, 3] (999995 / 1000000)

/-- An acceptance test that rejects every uphill move. -/
def neverUphill : Int → ℚ → Nat → Bool := fun _ _ _ => false

/-- A genetic optimizer of three individuals; the draws kill ranks 1 and 2
and give the first clone one segment reversal of positions 1..3. -/
def gaExample : GeneticOptimizer := GeneticOptimizer.create crossingTour 3 2 [0, 0, 0, 1, 2, 1, 3]

/-- A `std::pow` stand-in for the examples: the base, whatever the exponent. -/
def pwExample : ℚ → ℚ → ℚ := fun x _ => x

/-- An ant-colony optimizer over `crossingInstance`, if the construction
ends within the fuel. -/
def acoExample? : Option AcoOptimizer :=
  AcoOptimizer.create crossingTour 20 20 200 1 3 (1 / 10) 1 (List.range 400) 100

/-- The optimizer of `acoExample?`. -/
def acoExample : AcoOptimizer := acoExample?.getD
  { m_instance := none, m_n := 0, m_antsPerIter := 1, m_candidateK := 4, m_candidateSamples := 10
    m_alpha := 1, m_beta := 3, m_rho := 1 / 10, m_Q := 1, m_candidates := [], m_tau := []
    m_rng := [], m_antIndex := 0, m_iterBestCost := none, m_iterBestOrder := []
    m_best := crossingTour, m_baseline := 0, m_lastBest := 0 }

/-- The result of one `iterate` of `acoExample`. -/
def acoNext : AcoOptimizer × Bool :=
  match AcoOptimizer.iterate pwExample acoExample with
  | .ok r => r
  | .error _ => (acoExample, false)

/-- Three points on a line at 0, 10 and 1: the identity order costs 19, the
order 0, 2, 1 costs 10. -/
def lineInstance : TspInstance := { m_points := [⟨0, 0⟩, ⟨10, 0⟩, ⟨1, 0⟩] }

/-- Samplers for the examples that return the centre of the distribution. -/
def centreSampler : ℚ → Nat → Option ℚ := fun mu _ => some mu

/-- The draws of one generation of four steps on `lineInstance`: for each
target the p-best draw, two distinct donors, `F`, `CR` and the perturbation
coin. -/
def generationDraws : List Nat :=
  [0, 1, 2, 0, 0, 0, 0, 2, 0, 0, 0, 0, 0, 1, 0, 0, 0, 0, 0, 1, 0, 0, 0, 0]

/-- The seed of the example run: 48 draws for the constructor (all swaps
trivial), 25 generations, and a restart whose first swap exchanges positions
1 and 2. -/
def arqSeed : Rng :=
  List.replicate 48 0 ++ (List.replicate 25 generationDraws).flatten ++ [0, 1]

/-- `k` calls of `iterate` in a row, `none` if one of them fails. -/
def ArqOptimizer.run (cauchy normal : ℚ → Nat → Option ℚ) (fuel : Nat) :
    Nat → ArqOptimizer → Option ArqOptimizer
  | 0, s => some s
  | k + 1, s =>
    match ArqOptimizer.iterate cauchy normal fuel s with
    | .error _ => none
    | .ok (s1, _) => ArqOptimizer.run cauchy normal fuel k s1

/-- The adaptive optimizer seeded with the identity tour over `lineInstance`,
population size 4. -/
def arqSeeded : Option ArqOptimizer :=
  match Tour.mkIdentity (some lineInstance) with
  | .error _ => none
  | .ok t =>
    match ArqOptimizer.create t 4 arqSeed with
    | .error _ => none
    | .ok s => some s

/-- The state of `arqSeeded` after 99 steps: the last slot of the 25th
generation is the target and 23 generations have passed without improvement. -/
def arqStagnant : ArqOptimizer :=
  { m_instance := some lineInstance
    m_n := 3
    m_popSize := 4
    m_rng := [0, 1, 0, 0, 0, 0, 0, 1]
    m_pop := [[0, 1, 2], [0, 1, 2], [0, 1, 2], [0, 1, 2]]
    m_cost := [19, 19, 19, 19]
    m_rank := [0, 1, 2, 3]
    m_archive := []
    m_target := 3
    m_noImproveGen := 23
    m_bestPrev := some 19
    m_SF := [], m_SCR := [], m_SG := []
    m_best := ⟨some lineInstance, [0, 1, 2], 19⟩
    m_baseline := 19
    m_lastBest := 19 }

/-- The result of the 100th step. -/
def arqNext : ArqOptimizer × Bool :=
  match ArqOptimizer.iterate centreSampler centreSampler 4 arqStagnant with
  | .ok r => r
  | .error _ => (arqStagnant, false)

/-- The ILS state used in the examples: eight nodes on a line, identity order. -/
def ilsExample : IlsOptimizer :=
  { m_checksPerIter := 250, m_stagnationIters := 10, m_noImprove := 0
    m_rng := [0, 0, 0, 0]
    m_current := ⟨none, [0, 1, 2, 3, 4, 5, 6, 7], 0⟩
    m_best := ⟨none, [0, 1, 2, 3, 4, 5, 6, 7], 0⟩
    m_baseline := 0 }

/-- The edge between the last node of `X` and the first node of `Y`, when
both exist (the cost of joining two path pieces). -/
def linkCost (pts : List TspPoint) (X Y : List Int) : Int :=
  match X.getLast?, Y.head? with
  | some a, some b => Tour.edgeCost (ptAt pts a) (ptAt pts b)
  | _, _ => 0

/-- The order is a permutation of the node ids `0, ..., n - 1`. -/
def IsPermutation (ord : List Int) (n : Nat) : Prop :=
  ord.Perm ((List.range n).map Int.ofNat)

/-- The state of `orderCrossover` between two writes: `W` lists the values
written so far; the filled positions of `child` hold exactly these values,
`used` flags exactly these values, and no value is there twice. -/
structure OxState (n : Nat) (child : List Int) (used : List Bool) (W : List Int) : Prop where
  hc : child.length = n
  hu : used.length = n
  hW : (child.filter (fun x => decide (x ≠ -1))).Perm W
  hused : ∀ v : Nat, v < n → (used.getD v false = true ↔ (v : Int) ∈ W)
  hnodup : W.Nodup
  hrange : ∀ x ∈ W, 0 ≤ x ∧ x < n

/-- The cached cost of the tour is the cost of the open path through its
order over the points of `inst`. -/
def Tour.CostIsPath (inst : TspInstance) (t : Tour) : Prop :=
  t.m_instance = some inst ∧ t.m_cost = pathCost inst.m_points t.m_order


/-- What a step of the ant colony may change of the reported data: the
baseline and the instance stay, and the best tour either stays or is built
by the `Tour` constructor from an order. -/
def AcoOptimizer.Frame (s s' : AcoOptimizer) : Prop :=
  s'.m_baseline = s.m_baseline ∧ s'.m_instance = s.m_instance ∧
    (s'.m_best = s.m_best ∨ ∃ ord, Tour.mkWithOrder s.m_instance ord = .ok s'.m_best)

/-- What a step of the adaptive search may change of the reported data: the
baseline and the instance stay, and the best tour either stays or is built
by the `Tour` constructor from an order. -/
def ArqOptimizer.Frame (s s' : ArqOptimizer) : Prop :=
  s'.m_baseline = s.m_baseline ∧ s'.m_instance = s.m_instance ∧
    (s'.m_best = s.m_best ∨ ∃ ord, Tour.mkWithOrder s.m_instance ord = .ok s'.m_best)


/-- A `TwoOptOptimizer` over `inst` whose best tour carries its path cost. -/
def TwoOptOptimizer.Exact (inst : TspInstance) (s : TwoOptOptimizer) : Prop :=
  Tour.CostIsPath inst s.m_best ∧ s.m_current.m_instance = some inst

/-- An `IlsOptimizer` over `inst` whose best tour carries its path cost. -/
def IlsOptimizer.Exact (inst : TspInstance) (s : IlsOptimizer) : Prop :=
  Tour.CostIsPath inst s.m_best ∧ s.m_current.m_instance = some inst

/-- A `SimAnnealOptimizer` over `inst` whose best and current tours carry
their path costs. -/
def SimAnnealOptimizer.Exact (inst : TspInstance) (s : SimAnnealOptimizer) : Prop :=
  Tour.CostIsPath inst s.m_best ∧ Tour.CostIsPath inst s.m_current

/-- A `GeneticOptimizer` over `inst` whose best tour and individuals carry
their path costs. -/
def GeneticOptimizer.Exact (inst : TspInstance) (s : GeneticOptimizer) : Prop :=
  Tour.CostIsPath inst s.m_best ∧ ∀ p ∈ s.m_population, Tour.CostIsPath inst p

/-- An `AcoOptimizer` over `inst` whose best tour carries its path cost. -/
def AcoOptimizer.Exact (inst : TspInstance) (s : AcoOptimizer) : Prop :=
  Tour.CostIsPath inst s.m_best ∧ s.m_instance = some inst

/-- An `ArqOptimizer` over `inst` whose best tour carries its path cost. -/
def ArqOptimizer.Exact (inst : TspInstance) (s : ArqOptimizer) : Prop :=
  Tour.CostIsPath inst s.m_best ∧ s.m_instance = some inst

/-- The Chebyshev distance of two points in exact integer arithmetic:
`max(|a.x - b.x|, |a.y - b.y|)`. -/
def chebyshev (a b : TspPoint) : Int :=
  max |a.x - b.x| |a.y - b.y|

/-- The adjacent pairs of a path, in path order. -/
def adjacencies : List Int → List (Int × Int)
  | [] => []
  | [_] => []
  | a :: b :: rest => (a, b) :: adjacencies (b :: rest)

/-- The pair formed by the last node of `X` and the first node of `Y`, when
both exist. -/
def linkPair (X Y : List Int) : List (Int × Int) :=
  match X.getLast?, Y.head? with
  | some a, some b => [(a, b)]
  | _, _ => []

/-- The position in the old order of the node that the double bridge at
`i < j < k` puts at position `t`. -/
def doubleBridgeSource (i j k t : Nat) : Nat :=
  if t < i then t else if t < i + (k - j) then t - i + j else if t < k then t - (k - j) else t

/-! ## IOptimizer, OptimizerWorker and the main window -/

/-- The floating-point pieces that the strategies take as parameters
(`std::exp` against a draw, `std::pow`, the Cauchy and the normal sampler) and
the fuel of the loops of the adaptive search. -/
structure Numerics where
  expGt : Int → ℚ → Nat → Bool
  pw : ℚ → ℚ → ℚ
  cauchy : ℚ → Nat → Option ℚ
  normal : ℚ → Nat → Option ℚ
  fuel : Nat

/-- An object behind an `IOptimizer` pointer: one of the six strategies. -/
inductive Optimizer where
  | genetic (s : GeneticOptimizer)
  | simAnneal (s : SimAnnealOptimizer)
  | twoOpt (s : TwoOptOptimizer)
  | ils (s : IlsOptimizer)
  | aco (s : AcoOptimizer)
  | arq (s : ArqOptimizer)
deriving DecidableEq

namespace Optimizer

/-- `IOptimizer::bestTour`. -/
def bestTour : Optimizer → Tour
  | genetic s => s.m_best
  | simAnneal s => s.m_best
  | twoOpt s => s.m_best
  | ils s => s.m_best
  | aco s => s.m_best
  | arq s => s.m_best

/-- `IOptimizer::baselineCost`. -/
def baselineCost : Optimizer → Int
  | genetic s => s.m_baseline
  | simAnneal s => s.m_baseline
  | twoOpt s => s.m_baseline
  | ils s => s.m_baseline
  | aco s => s.m_baseline
  | arq s => s.m_baseline

/-- `IOptimizer::iterate` by virtual dispatch; `none` where the strategy's
step fails (undefined behaviour or an escaping exception). -/
def iterate (env : Numerics) : Optimizer → Option (Optimizer × Bool)
  | genetic s =>
    match GeneticOptimizer.iterate s with
    | none => none
    | some r => some (genetic r.1, r.2)
  | simAnneal s =>
    match SimAnnealOptimizer.iterate env.expGt s with
    | none => none
    | some r => some (simAnneal r.1, r.2)
  | twoOpt s => some (twoOpt (TwoOptOptimizer.iterate s).1, (TwoOptOptimizer.iterate s).2)
  | ils s => some (ils (IlsOptimizer.iterate s).1, (IlsOptimizer.iterate s).2)
  | aco s =>
    match AcoOptimizer.iterate env.pw s with
    | .error _ => none
    | .ok r => some (aco r.1, r.2)
  | arq s =>
    match ArqOptimizer.iterate env.cauchy env.normal env.fuel s with
    | .error _ => none
    | .ok r => some (arq r.1, r.2)

/-- The invariant of a running strategy under which its best cost never
rises: the run invariant of the genetic algorithm, `m_lastBest` in step with
the best tour for ant colony and adaptive search, nothing for the others. -/
def Inv : Optimizer → Prop
  | genetic s => GeneticOptimizer.Inv s
  | simAnneal _ => True
  | twoOpt _ => True
  | ils _ => True
  | aco s => s.m_best.m_cost = s.m_lastBest
  | arq s => s.m_best.m_cost = s.m_lastBest

end Optimizer

/-- The arguments of one `bestUpdated` signal. -/
structure BestUpdate where
  bestOrder : List Int
  bestCost : Int
  improvementPercent : ℚ
deriving DecidableEq

/-- A signal emitted by `OptimizerWorker`. -/
inductive WorkerSignal where
  | bestUpdated (u : BestUpdate)
  | finished
deriving DecidableEq

namespace OptimizerWorker

/-- The body of the loop of `OptimizerWorker::run`: one step of the
optimizer, and the signal emitted when the step reports an improvement. -/
def step (env : Numerics) (baseline : Int) (opt : Optimizer) :
    Option (Optimizer × List WorkerSignal) :=
  match opt.iterate env with
  | none => none
  | some (opt1, improved) =>
    if improved then
      some (opt1, [.bestUpdated
        { bestOrder := opt1.bestTour.m_order
          bestCost := opt1.bestTour.m_cost
          improvementPercent :=
            if baseline > 0 then
              ((baseline : ℚ) - (opt1.bestTour.m_cost : ℚ)) / (baseline : ℚ) * 100
            else 0 }])
    else some (opt1, [])

/-- The loop `while (m_running.load())` of `OptimizerWorker::run`; `running`
lists the values that the successive loads of the flag yield (another thread
clears it), an exhausted list reads `false`. -/
def loop (env : Numerics) (baseline : Int) :
    List Bool → Optimizer → Option (Optimizer × List WorkerSignal)
  | [], opt => some (opt, [])
  | false :: _, opt => some (opt, [])
  | true :: rest, opt =>
    match step env baseline opt with
    | none => none
    | some (opt1, sig) =>
      match loop env baseline rest opt1 with
      | none => none
      | some (opt2, sigs) => some (opt2, sig ++ sigs)

/-- `OptimizerWorker::run`: the optimizer afterwards and the signals emitted,
in order. -/
def run (env : Numerics) (m_optimizer : Option Optimizer) (running : List Bool) :
    Option (Option Optimizer × List WorkerSignal) :=
  match m_optimizer with
  | none => some (none, [.finished])
  | some opt =>
    match loop env opt.baselineCost running opt with
    | none => none
    | some (opt1, sigs) => some (some opt1, sigs ++ [.finished])

/-- The steps of a run, as the claim speaks of them: the optimizer after
each step and the flag the step returned. -/
def steps (env : Numerics) : List Bool → Optimizer → Option (List (Optimizer × Bool))
  | [], _ => some []
  | false :: _, _ => some []
  | true :: rest, opt =>
    match opt.iterate env with
    | none => none
    | some r =>
      match steps env rest r.1 with
      | none => none
      | some l => some (r :: l)

end OptimizerWorker

/-- A numerics record for the examples: downhill-only acceptance, `pow` as
its base, samplers at the centre. -/
def exampleNumerics : Numerics :=
  { expGt := neverUphill, pw := pwExample, cauchy := centreSampler, normal := centreSampler
    fuel := 4 }

/-- The worker thread of a run: the optimizer it owns and the baseline that
`run` read before its loop. -/
structure RunningWorker where
  optimizer : Optimizer
  baseline : Int

/-- `MainWindow`, as far as tours and the run are concerned: the loaded
instance, the three tours, the baseline, the worker thread (`none` when
`m_thread` is null), the `bestUpdated` signals queued for the window and not
yet delivered, the tour shown by the view and the percentage of the label. -/
structure MainWindow where
  m_instance : Option TspInstance
  m_original : Tour
  m_current : Tour
  m_best : Tour
  m_baseline : Int
  m_worker : Option RunningWorker
  m_pending : List BestUpdate
  m_viewTour : List Int
  m_improvement : ℚ

namespace MainWindow

/-- `MainWindow::startOptimization` for the selected method index; `seed` is
what `std::random_device` yields. The worker reads the baseline of the
optimizer as its first action. -/
def startOptimization (method : Int) (seed : Rng) (w : MainWindow) : MainWindow :=
  if w.m_instance.isNone ∨ w.m_worker.isSome then w
  else
    let optimizer : Optimizer :=
      if method = 0 then .genetic (GeneticOptimizer.create w.m_current 30 2 seed)
      else if method = 1 then
        .simAnneal (SimAnnealOptimizer.create w.m_current seed (999995 / 1000000))
      else if method = 2 then .twoOpt (TwoOptOptimizer.create w.m_current 4000 seed)
      else if method = 3 then .ils (IlsOptimizer.create w.m_current 2500 150 seed)
      else .simAnneal (SimAnnealOptimizer.create w.m_current seed (999995 / 1000000))
    { w with
      m_baseline := w.m_original.m_cost
      m_worker := some { optimizer := optimizer, baseline := optimizer.baselineCost } }

/-- `MainWindow::stopOptimization`: the worker thread is stopped and joined;
with an instance loaded the current tour becomes the best tour and is shown.
Signals already queued stay queued. -/
def stopOptimization (w : MainWindow) : MainWindow :=
  match w.m_worker with
  | none => w
  | some _ =>
    if w.m_instance.isSome then
      { w with m_worker := none, m_current := w.m_best, m_viewTour := w.m_best.m_order }
    else { w with m_worker := none }

/-- `MainWindow::onBestUpdated`: the best tour is rebuilt from the order of
the signal by the `Tour` constructor (which may throw). -/
def onBestUpdated (u : BestUpdate) (w : MainWindow) : Except String MainWindow :=
  if w.m_instance.isNone then .ok w
  else
    match Tour.mkWithOrder w.m_instance u.bestOrder with
    | .error e => .error e
    | .ok t =>
      .ok { w with m_best := t, m_viewTour := u.bestOrder, m_improvement := u.improvementPercent }

/-- One pass of the worker thread through the loop of `OptimizerWorker::run`:
a step of its optimizer; the signal, if any, is queued for the window. -/
def workerStep (env : Numerics) (w : MainWindow) : Option MainWindow :=
  match w.m_worker with
  | none => some w
  | some r =>
    match OptimizerWorker.step env r.baseline r.optimizer with
    | none => none
    | some (opt1, sigs) =>
      some { w with
        m_worker := some { r with optimizer := opt1 }
        m_pending := w.m_pending ++ sigs.filterMap fun sg =>
          match sg with
          | .bestUpdated u => some u
          | .finished => none }

/-- The event loop of the window delivers the oldest queued signal. -/
def deliver (w : MainWindow) : Option MainWindow :=
  match w.m_pending with
  | [] => some w
  | u :: rest =>
    match onBestUpdated u { w with m_pending := rest } with
    | .error _ => none
    | .ok w1 => some w1

end MainWindow

/-- What can happen while a run is on: the worker thread takes a step, or
the window handles a queued signal. -/
inductive RunEvent where
  | workerStep
  | deliver
deriving DecidableEq

/-- The window after a sequence of events of a run, `none` when one fails. -/
def MainWindow.during (env : Numerics) : List RunEvent → MainWindow → Option MainWindow
  | [], w => some w
  | .workerStep :: rest, w =>
    match MainWindow.workerStep env w with
    | none => none
    | some w1 => MainWindow.during env rest w1
  | .deliver :: rest, w =>
    match MainWindow.deliver w with
    | none => none
    | some w1 => MainWindow.during env rest w1

/-- A window over `crossingInstance` in the middle of a 2-opt run: the window
still holds the identity tour as best tour, the worker has found nothing yet. -/
def windowExample : MainWindow :=
  { m_instance := some crossingInstance
    m_original := crossingTour, m_current := crossingTour, m_best := crossingTour
    m_baseline := 80000
    m_worker := some { optimizer := .twoOpt (TwoOptOptimizer.create crossingTour 4000 []),
                       baseline := 80000 }
    m_pending := [], m_viewTour := [0, 1, 2, 3, 4], m_improvement := 0 }

/-! ## TspInstance::loadFromTspFile -/

/-- `std::isspace` in the "C" locale: blank, tab, line feed, vertical tab,
form feed, carriage return. -/
def isSpace (c : Char) : Bool :=
  c.toNat = 32 || (9 ≤ c.toNat && c.toNat ≤ 13)

/-- `trim` of TspInstance.cpp: the string without its leading and trailing
white space. -/
def trim (s : String) : String :=
  String.mk ((s.data.dropWhile isSpace).reverse.dropWhile isSpace).reverse

/-- The message of the model for a `static_cast<int32_t>` of a `double` whose
truncated value is not an `int32_t` (undefined behaviour in the source). -/
def castOverflow : String := "double to int32 conversion out of range"

/-- A real with its fractional part dropped (rounding toward zero). -/
def truncate (v : ℚ) : Int :=
  if 0 ≤ v then ⌊v⌋ else ⌈v⌉

/-- `static_cast<int32_t>(v)` for a `double` `v`: the truncated value, `none`
where it is not an `int32_t`. -/
def toInt32 (v : ℚ) : Option Int :=
  if -2147483648 ≤ truncate v ∧ truncate v ≤ 2147483647 then some (truncate v) else none

/-- The name given by a header line that starts with `NAME`: the trimmed text
after the first colon, or the old name when the line has no colon. -/
def nameOf (line : String) (old : String) : String :=
  if line.data.take 4 = "NAME".data then
    match line.data.dropWhile (fun c => c ≠ ':') with
    | [] => old
    | _ :: after => trim (String.mk after)
  else old

/-- The loop `while (std::getline(in, line))` of `loadFromTspFile` over the
lines still to read, with the flag `inCoords`, the name and the points read
so far. `extract` stands for `iss >> id >> x >> y` on a line (`none` when the
extraction fails), `fmul` for the product of two `double`s. -/
def loadLoop (extract : String → Option (Int × ℚ × ℚ)) (fmul : ℚ → ℚ → ℚ) :
    List String → Bool → String → List TspPoint → Except String (String × List TspPoint)
  | [], _, name, pts => .ok (name, pts)
  | raw :: rest, inCoords, name, pts =>
    if trim raw = "" then loadLoop extract fmul rest inCoords name pts
    else if inCoords = false then
      loadLoop extract fmul rest (decide (trim raw = "NODE_COORD_SECTION"))
        (nameOf (trim raw) name) pts
    else if trim raw = "EOF" then .ok (name, pts)
    else
      match extract (trim raw) with
      | none => loadLoop extract fmul rest true name pts
      | some (_, x, y) =>
        match toInt32 (fmul x 10000), toInt32 (fmul y 10000) with
        | some px, some py => loadLoop extract fmul rest true name (pts ++ [⟨px, py⟩])
        | _, _ => .error castOverflow

/-- `TspInstance::loadFromTspFile`; `file` is the sequence of lines that
`std::getline` yields, `none` for a file that cannot be opened. The result is
the instance or the message of the exception. -/
def TspInstance.loadFromTspFile (extract : String → Option (Int × ℚ × ℚ)) (fmul : ℚ → ℚ → ℚ)
    (path : String) (file : Option (List String)) : Except String TspInstance :=
  match file with
  | none => .error ("Failed to open file: " ++ path)
  | some lines =>
    match loadLoop extract fmul lines false "" [] with
    | .error e => .error e
    | .ok (name, pts) =>
      match pts with
      | [] => .error ("No coordinates were parsed from: " ++ path)
      | p0 :: _ =>
        .ok { m_points := pts
              m_minX := pts.foldl (fun m p => min m p.x) p0.x
              m_minY := pts.foldl (fun m p => min m p.y) p0.y
              m_maxX := pts.foldl (fun m p => max m p.x) p0.x
              m_maxY := pts.foldl (fun m p => max m p.y) p0.y
              m_filePath := path
              m_name := name }

/-- The lines of the coordinate section, in the words of the claim: the lines
after the first line equal to `NODE_COORD_SECTION` and before the first later
line equal to `EOF` (lines are compared without surrounding white space). -/
def coordSection (lines : List String) : List String :=
  ((lines.dropWhile (fun l => decide (trim l ≠ "NODE_COORD_SECTION"))).drop 1).takeWhile
    (fun l => decide (trim l ≠ "EOF"))

/-- The coordinates of the well-formed lines of the coordinate section, in
file order. -/
def coordValues (extract : String → Option (Int × ℚ × ℚ)) (lines : List String) :
    List (Int × ℚ × ℚ) :=
  (coordSection lines).filterMap (fun l => extract (trim l))

/-- The point of a coordinate pair: each coordinate multiplied by 10000 and
truncated. -/
def scaledPoint (fmul : ℚ → ℚ → ℚ) (v : Int × ℚ × ℚ) : TspPoint :=
  ⟨truncate (fmul v.2.1 10000), truncate (fmul v.2.2 10000)⟩

/-- Both scaled coordinates fit a signed 32-bit integer. -/
def FitsInt32 (fmul : ℚ → ℚ → ℚ) (v : Int × ℚ × ℚ) : Prop :=
  (-2147483648 ≤ truncate (fmul v.2.1 10000) ∧ truncate (fmul v.2.1 10000) ≤ 2147483647) ∧
  (-2147483648 ≤ truncate (fmul v.2.2 10000) ∧ truncate (fmul v.2.2 10000) ≤ 2147483647)

/-- An extraction for the examples: the three lines it knows. -/
def exampleExtract (line : String) : Option (Int × ℚ × ℚ) :=
  if line = "1 0.5 2" then some (1, 1 / 2, 2)
  else if line = "2 -1.25 3 tail" then some (2, -5 / 4, 3)
  else if line = "1 300000 0" then some (1, 300000, 0)
  else none

/-- A small file: header, three coordinate lines (one malformed), `EOF`, and
a line after it. -/
def exampleFile : List String :=
  ["NAME : demo", "TYPE : TSP", "EOF", "", " NODE_COORD_SECTION\r", "1 0.5 2", "x y z",
    "  2 -1.25 3 tail ", "EOF", "1 300000 0"]

/-- The claim's section, word for word: the lines after the first line equal to
`NODE_COORD_SECTION` and before the first later line equal to `EOF`, compared as they
stand in the file. -/
def literalSection (lines : List String) : List String :=
  ((lines.dropWhile (fun l => decide (l ≠ "NODE_COORD_SECTION"))).drop 1).takeWhile
    (fun l => decide (l ≠ "EOF"))

/-- The well-formed lines of the claim's section, in file order. -/
def literalValues (extract : String → Option (Int × ℚ × ℚ)) (lines : List String) :
    List (Int × ℚ × ℚ) :=
  (literalSection lines).filterMap (fun l => extract (trim l))

instance instDecidableFitsInt32 (fmul : ℚ → ℚ → ℚ) (v : Int × ℚ × ℚ) :
    Decidable (FitsInt32 fmul v) := by
  unfold FitsInt32
  exact inferInstance

/-- A file whose marker line carries a leading blank. -/
def indentedMarkerFile : List String := [" NODE_COORD_SECTION", "1 0.5 2", "EOF"]

/-- A file with a coordinate whose scaled value exceeds 32 bits. -/
def largeCoordinateFile : List String := ["NODE_COORD_SECTION", "1 300000 0", "EOF"]

/-- The position a reversal of the positions `i..j` reads position `t` from. -/
def reverseSource (i j t : Nat) : Nat :=
  if i ≤ t ∧ t ≤ j then i + j - t else t

/-- Four points on a line at 0, 3, 1 and 4 (scaled by 10000). -/
def zigzagInstance : TspInstance :=
  { m_points := [⟨0, 0⟩, ⟨30000, 0⟩, ⟨10000, 0⟩, ⟨40000, 0⟩]
    m_minX := 0, m_minY := 0, m_maxX := 40000, m_maxY := 0 }

/-- The identity tour over `zigzagInstance`, cost in sync. -/
def zigzagTour : Tour := ⟨some zigzagInstance, [0, 1, 2, 3], 80000⟩

/-- The candidate lists of the optimizer are built over its `m_n` nodes: there is one
candidate list and one pheromone row per node, of equal length, and every candidate is a
node id of `[0, m_n)`. -/
def AcoOptimizer.CandidatesBuilt (s : AcoOptimizer) : Prop :=
  s.m_candidates.length = s.m_n ∧ s.m_tau.length = s.m_n ∧
  (∀ i, i < s.m_n → (s.m_candidates.getD i []).length = (s.m_tau.getD i []).length) ∧
  (∀ L ∈ s.m_candidates, ∀ c ∈ L, 0 ≤ c ∧ c < (s.m_n : Int))

/-- The state of `constructTour` between two steps: `visited` flags exactly the nodes of
`ord`, which are distinct node ids. -/
def AcoOptimizer.Partial (n : Nat) (visited : List Bool) (ord : List Int) : Prop :=
  visited.length = n ∧ ord.Nodup ∧ (∀ x ∈ ord, 0 ≤ x ∧ x < (n : Int)) ∧
  (∀ j, j < n → (visited.getD j false = true ↔ (j : Int) ∈ ord))

/-- What a step of the ant colony keeps of the candidate structure: the number of nodes,
the candidate lists and the lengths of the pheromone rows. -/
def AcoOptimizer.SameLists (s s' : AcoOptimizer) : Prop :=
  s'.m_n = s.m_n ∧ s'.m_candidates = s.m_candidates ∧
    s'.m_tau.map List.length = s.m_tau.map List.length

/-! ## Tour: the insertion heuristics -/

/-- `std::swap(v[a], v[b])` on a vector of `double`s. -/
def swapAtQ (v : List ℚ) (a b : Nat) : List ℚ :=
  (v.set a (v.getD b 0)).set b (v.getD a 0)

namespace Tour

/-- The lambda `partialCost(size)` of the two heuristics: the cost of the path through the
first `size` entries of `newSol`. -/
def partialCost (pts : List TspPoint) (newSol : List Int) (size : Nat) : Int :=
  (List.range (size - 1)).foldl
    (fun sum k =>
      sum + edgeCost (ptAt pts (newSol.getD k 0)) (ptAt pts (newSol.getD (k + 1) 0))) 0

/-- The search loop `for (j = i; j > lo; --j)` of the two heuristics (`lo` is `1` in
`easyHeuristic` and `0` in `thoroughHeuristic`): the node at position `j` is swapped one
position down, the path through the first `size` entries is measured, and a strictly
shorter length replaces `bestLen` and records `bestPos = j - 1`. The first argument is
`j`. -/
def searchLoop (pts : List TspPoint) (size lo : Nat) :
    Nat → List Int → Int → Nat → List Int × Int × Nat
  | 0, newSol, bestLen, bestPos => (newSol, bestLen, bestPos)
  | j + 1, newSol, bestLen, bestPos =>
    if j + 1 > lo then
      if partialCost pts (swapAt newSol (j + 1) j) size < bestLen then
        searchLoop pts size lo j (swapAt newSol (j + 1) j)
          (partialCost pts (swapAt newSol (j + 1) j) size) j
      else searchLoop pts size lo j (swapAt newSol (j + 1) j) bestLen bestPos
    else (newSol, bestLen, bestPos)

/-- The loop `for (j = lo; j < bestPos; ++j) std::swap(newSol[j], newSol[j + 1])`: `k`
more swaps, the next one at `j`. -/
def shiftLoop : Nat → Nat → List Int → List Int
  | 0, _, newSol => newSol
  | k + 1, j, newSol => shiftLoop k (j + 1) (swapAt newSol j (j + 1))

/-- The bounding-box loop of `thoroughHeuristic`: (maxX, maxY, minX, minY), started at
`pts[0]`. -/
def boundsOf (pts : List TspPoint) : Int × Int × Int × Int :=
  pts.foldl
    (fun b p => (max b.1 p.x, max b.2.1 p.y, min b.2.2.1 p.x, min b.2.2.2 p.y))
    ((ptAt pts 0).x, (ptAt pts 0).y, (ptAt pts 0).x, (ptAt pts 0).y)

/-- The point `(cx, cy)` of `thoroughHeuristic`: `cx = (maxX - minX) / 2.0` and
`cy = (maxY - minY) / 2.0`. -/
def thoroughCentre (pts : List TspPoint) : ℚ × ℚ :=
  ((((boundsOf pts).1 : ℚ) - ((boundsOf pts).2.2.1 : ℚ)) / 2,
    (((boundsOf pts).2.1 : ℚ) - ((boundsOf pts).2.2.2 : ℚ)) / 2)

/-- The key `dist[i]` of the node `id`: `sqrt(dx * dx + dy * dy)` with `dx`, `dy` the
differences to `(cx, cy)`; `sqrtD` is `std::sqrt`. -/
def thoroughDist (sqrtD : ℚ → ℚ) (pts : List TspPoint) (id : Int) : ℚ :=
  sqrtD
    ((((ptAt pts id).x : ℚ) - (thoroughCentre pts).1) *
        (((ptAt pts id).x : ℚ) - (thoroughCentre pts).1) +
      (((ptAt pts id).y : ℚ) - (thoroughCentre pts).2) *
        (((ptAt pts id).y : ℚ) - (thoroughCentre pts).2))

/-- The inner loop of the bubble sort, `for (j = 0; j < n - 1 - i; ++j)`, on the two
vectors `dist` and `ids`: `k` more comparisons, the next one at `j`. -/
def bubblePass : Nat → Nat → List ℚ × List Int → List ℚ × List Int
  | 0, _, v => v
  | k + 1, j, v =>
    if v.1.getD (j + 1) 0 > v.1.getD j 0 then
      bubblePass k (j + 1) (swapAtQ v.1 j (j + 1), swapAt v.2 j (j + 1))
    else bubblePass k (j + 1) v

/-- The outer loop of the bubble sort, `for (i = 0; i < n - 1; ++i)`: `k` more passes,
the next one for the index `i`. -/
def bubbleSort (n : Nat) : Nat → Nat → List ℚ × List Int → List ℚ × List Int
  | 0, _, v => v
  | k + 1, i, v => bubbleSort n k (i + 1) (bubblePass (n - 1 - i) 0 v)

/-- The vector `ids` of `thoroughHeuristic` after the sort: the nodes in the order in
which they are fed to the insertion phase. -/
def thoroughIds (sqrtD : ℚ → ℚ) (pts : List TspPoint) (order : List Int) : List Int :=
  (bubbleSort order.length (order.length - 1) 0
    (order.map (thoroughDist sqrtD pts), order)).2

/-- The vector `newSol` of `thoroughHeuristic` before its insertion loop. -/
def thoroughInit (ids : List Int) : List Int :=
  ((List.replicate ids.length 0).set 0 (ids.getD 0 0)).set 1 (ids.getD 1 0)

/-- One pass of the insertion loop of `thoroughHeuristic` for the index `i`. -/
def thoroughStep (pts : List TspPoint) (ids : List Int) (i : Nat) (newSol : List Int) :
    List Int :=
  let s1 := newSol.set i (ids.getD i 0)
  let r := searchLoop pts (i + 1) 0 i s1 (partialCost pts s1 (i + 1)) i
  shiftLoop r.2.2 0 r.1

/-- The insertion loop of `thoroughHeuristic`: `k` more passes, the next one for the
index `i`. -/
def thoroughLoop (pts : List TspPoint) (ids : List Int) : Nat → Nat → List Int → List Int
  | 0, _, newSol => newSol
  | k + 1, i, newSol => thoroughLoop pts ids k (i + 1) (thoroughStep pts ids i newSol)

/-- `Tour::thoroughHeuristic`; `sqrtD` is `std::sqrt`. -/
def thoroughHeuristic (sqrtD : ℚ → ℚ) (t : Tour) : Tour :=
  match t.m_instance with
  | none => t
  | some inst =>
    if t.m_order.length < 3 then t
    else
      evaluate { t with
        m_order := thoroughLoop inst.m_points (thoroughIds sqrtD inst.m_points t.m_order)
          (t.m_order.length - 2) 2 (thoroughInit (thoroughIds sqrtD inst.m_points t.m_order)) }

end Tour

/-- The centre of the bounding box, `((minX + maxX) / 2, (minY + maxY) / 2)`. -/
def boxCentre (pts : List TspPoint) : ℚ × ℚ :=
  ((((Tour.boundsOf pts).2.2.1 : ℚ) + ((Tour.boundsOf pts).1 : ℚ)) / 2,
    (((Tour.boundsOf pts).2.2.2 : ℚ) + ((Tour.boundsOf pts).2.1 : ℚ)) / 2)

/-- The squared distance of the node `id` from the centre of the bounding box. -/
def boxCentreDistSq (pts : List TspPoint) (id : Int) : ℚ :=
  (((ptAt pts id).x : ℚ) - (boxCentre pts).1) * (((ptAt pts id).x : ℚ) - (boxCentre pts).1) +
    (((ptAt pts id).y : ℚ) - (boxCentre pts).2) * (((ptAt pts id).y : ℚ) - (boxCentre pts).2)

/-- A `std::sqrt` stand-in for the examples: the root of a perfect square below `1000²`,
found by search. -/
def sqrtExample (q : ℚ) : ℚ :=
  (((List.range 1000).find? (fun k => decide (((k * k : Nat) : ℚ) = q))).getD 0 : Nat)

/-- Three points on a line at x = 10, 14 and 20: the bounding box is `[10, 20] × [0, 0]`
and its centre is `(15, 0)`. -/
def offsetInstance : TspInstance :=
  { m_points := [⟨10, 0⟩, ⟨14, 0⟩, ⟨20, 0⟩]
    m_minX := 10, m_minY := 0, m_maxX := 20, m_maxY := 0 }

/-- The identity tour over `offsetInstance`, cost in sync. -/
def offsetTour : Tour := ⟨some offsetInstance, [0, 1, 2], 10⟩

/-- The state after `k` calls of `IlsOptimizer::iterate` in a row. -/
def IlsOptimizer.run : Nat → IlsOptimizer → IlsOptimizer
  | 0, s => s
  | k + 1, s => IlsOptimizer.run k (IlsOptimizer.iterate s).1

/-- The fields of an `ArqOptimizer` that no member function assigns after the
constructor: instance, sizes and the tuning constants. -/
def ArqOptimizer.Params (s s' : ArqOptimizer) : Prop :=
  s'.m_instance = s.m_instance ∧ s'.m_n = s.m_n ∧ s'.m_popSize = s.m_popSize ∧
  s'.m_pbest = s.m_pbest ∧ s'.m_Flo = s.m_Flo ∧ s'.m_Fhi = s.m_Fhi ∧
  s'.m_worstFrac = s.m_worstFrac ∧ s'.m_rsigma = s.m_rsigma ∧
  s'.m_stagTrigger = s.m_stagTrigger ∧ s'.m_shc = s.m_shc ∧
  s'.m_archiveRate = s.m_archiveRate

/-- The local `cap` of `archiveTrim`:
`std::max(1, static_cast<int>(std::round(m_archiveRate * m_popSize)))`. -/
def ArqOptimizer.archiveCap (s : ArqOptimizer) : Int :=
  max 1 (roundQ (s.m_archiveRate * (s.m_popSize : ℚ)))

/-- The archive bound between steps: the target is a slot of the population
and the archive holds at most `cap` entries plus one per slot already
visited in the running generation. -/
def ArqOptimizer.ArchiveBounded (s : ArqOptimizer) : Prop :=
  0 ≤ s.m_target ∧ s.m_target < s.m_popSize ∧
  (s.m_archive.length : Int) ≤ ArqOptimizer.archiveCap s + s.m_target

/-- The weights of the specification: each gain divided by the sum of the gains. -/
def specWeights (gains : List ℚ) : List ℚ := gains.map fun g => g / gains.sum

/-- The weighted sum of the specification: the sum of `w_i * x_i`. -/
def weightedSum (w xs : List ℚ) : ℚ := (List.zipWith (fun a b => a * b) w xs).sum

/-- The crossover mean after a generation with successes, in the words of the
specification: `0.9 * muCR + 0.1 * clamp01(Σ w_i CR_i)`. -/
def ArqOptimizer.specMuCR (s : ArqOptimizer) : ℚ :=
  9 / 10 * s.m_muCR + 1 / 10 * clamp01 (weightedSum (specWeights s.m_SG) s.m_SCR)

/-- The scale mean after a generation with successes, in the words of the
specification: `0.9 * muF + 0.1 * (Σ w_i F_i² / Σ w_i F_i)` clamped to `[Flo, Fhi]`. -/
def ArqOptimizer.specMuF (s : ArqOptimizer) : ℚ :=
  max s.m_Flo (min s.m_Fhi (9 / 10 * s.m_muF + 1 / 10 *
    (weightedSum (specWeights s.m_SG) (s.m_SF.map fun f => f * f) /
      weightedSum (specWeights s.m_SG) s.m_SF)))

/-- The invariant of the two adaptive means and of the success lists: the constants
of the header, both means in range, the three lists of one length, every recorded gain
positive and every recorded `F` inside `[Flo, Fhi]`. -/
def ArqOptimizer.Means (s : ArqOptimizer) : Prop :=
  s.m_Flo = 5 / 100 ∧ s.m_Fhi = 140 / 100 ∧ s.m_shc = 10 / 100 ∧
  5 / 100 ≤ s.m_muF ∧ s.m_muF ≤ 140 / 100 ∧ 0 ≤ s.m_muCR ∧ s.m_muCR ≤ 1 ∧
  s.m_SCR.length = s.m_SF.length ∧ s.m_SG.length = s.m_SF.length ∧
  (∀ g ∈ s.m_SG, 0 < g) ∧ (∀ f ∈ s.m_SF, 5 / 100 ≤ f ∧ f ≤ 140 / 100)

/-- A state at the end of a generation with two recorded successes. -/
def arqTwoSuccesses : ArqOptimizer :=
  { arqStagnant with m_SF := [1 / 2, 1], m_SCR := [9 / 10, 1 / 2], m_SG := [9, 3] }

/-- A list of distinct node ids of `[0, n)`, none of them `i`. -/
def AcoOptimizer.DistinctOthers (n i : Nat) (L : List Int) : Prop :=
  L.Nodup ∧ ∀ c ∈ L, 0 ≤ c ∧ c < (n : Int) ∧ c ≠ (i : Int)

/-- A complete candidate list of node `i`: exactly `K` distinct node ids of `[0, n)`,
none of them `i`. -/
def AcoOptimizer.CandidateList (n K i : Nat) (L : List Int) : Prop :=
  L.length = K ∧ L.Nodup ∧ ∀ c ∈ L, 0 ≤ c ∧ c < (n : Int) ∧ c ≠ (i : Int)

/-- The pheromone value `tau[a][k]`. -/
def AcoOptimizer.tauAt (tau : List (List ℚ)) (a k : Nat) : ℚ := (tau.getD a []).getD k 0

/-- The unordered pair `{a, b}` is an edge of the open path `ord`: two consecutive
entries of `ord` are `a` and `b` in either order. -/
def isPathEdge (ord : List Int) (a b : Int) : Bool :=
  (List.range (ord.length - 1)).any fun i =>
    decide ((ord.getD i 0 = a ∧ ord.getD (i + 1) 0 = b) ∨
      (ord.getD i 0 = b ∧ ord.getD (i + 1) 0 = a))

/-- The invariant of the batch record: the candidate lists are built, no candidate list
holds an id twice, and a recorded batch-best order is a permutation of the nodes. -/
def AcoOptimizer.BatchInv (s : AcoOptimizer) : Prop :=
  AcoOptimizer.CandidatesBuilt s ∧ (∀ L ∈ s.m_candidates, L.Nodup) ∧
  (∀ b, s.m_iterBestCost = some b → IsPermutation s.m_iterBestOrder s.m_n)

/-- The single-ant variant of the example colony: every call completes a batch. -/
def acoSingleAnt : AcoOptimizer := { acoExample with m_antsPerIter := 1 }

/-- The result of one `iterate` of `acoSingleAnt`. -/
def acoSingleNext : AcoOptimizer × Bool :=
  match AcoOptimizer.iterate pwExample acoSingleAnt with
  | .ok r => r
  | .error _ => (acoSingleAnt, false)

/-- The positions of `[0, n)` where `trial` and `donor` hold different nodes. -/
def differing (trial donor : List Int) (n : Nat) : List Nat :=
  (List.range n).filter fun i => decide (trial.getD i 0 ≠ donor.getD i 0)

/-- The position map of `applyDifferenceToward`: `pos[trial[j]] = j` for every position. -/
def PosOf (trial pos : List Int) (n : Nat) : Prop :=
  pos.length = n ∧ ∀ j, j < n → pos.getD (trial.getD j 0).toNat 0 = (j : Int)

/-- Eleven points on a line, visited out of order by the identity tour. -/
def elevenInstance : TspInstance :=
  { m_points := [⟨0, 0⟩, ⟨50000, 0⟩, ⟨10000, 0⟩, ⟨60000, 0⟩, ⟨20000, 0⟩, ⟨70000, 0⟩,
      ⟨30000, 0⟩, ⟨80000, 0⟩, ⟨40000, 0⟩, ⟨90000, 0⟩, ⟨100000, 0⟩] }

/-- The identity tour over `elevenInstance`, cost in sync. -/
def elevenTour : Tour :=
  Tour.evaluate ⟨some elevenInstance, [0, 1, 2, 3, 4, 5, 6, 7, 8, 9, 10], 0⟩

/-- The adaptive optimizer seeded with `elevenTour`, population size 4. -/
def arqEleven : ArqOptimizer :=
  match ArqOptimizer.create elevenTour 4 (List.range 400) with
  | .ok s => s
  | .error _ => arqStagnant

/-- The ranking ranks the current costs: every slot occurs once, in ascending cost. This
is what `beginGeneration` leaves; a success later in the generation changes a cost and not
the ranking. -/
def ArqOptimizer.RankFresh (s : ArqOptimizer) : Prop :=
  s.m_rank.Perm ((List.range s.m_popSize.toNat).map Int.ofNat) ∧
  s.m_rank.Sorted (fun a b => s.m_cost.getD a.toNat 0 ≤ s.m_cost.getD b.toNat 0)

/-- Eleven points on a line in the order of their ids: the identity tour is optimal. -/
def rowInstance : TspInstance :=
  { m_points := [⟨0, 0⟩, ⟨10000, 0⟩, ⟨20000, 0⟩, ⟨30000, 0⟩, ⟨40000, 0⟩, ⟨50000, 0⟩,
      ⟨60000, 0⟩, ⟨70000, 0⟩, ⟨80000, 0⟩, ⟨90000, 0⟩, ⟨100000, 0⟩] }

/-- The identity tour over `rowInstance`, cost in sync. -/
def rowTour : Tour := ⟨some rowInstance, [0, 1, 2, 3, 4, 5, 6, 7, 8, 9, 10], 100000⟩

/-- The draws of the constructor: slot 0 keeps the identity, slot 1 exchanges positions 1
and 2, slot 2 also 3 and 4, slot 3 also 5 and 6; all other swaps are of a position with
itself. -/
def rowSeedDraws : List Nat :=
  List.replicate 44 0 ++ ([0, 1] ++ List.replicate 42 0) ++
    ([0, 1, 2, 3] ++ List.replicate 40 0) ++ ([0, 1, 2, 3, 4, 5] ++ List.replicate 38 0)

/-- A raw draw that `uniform_real_distribution(0, 1)` maps to `0.5`. -/
def halfDraw : Nat := 4503599627370496

/-- The draws of a generation of four steps in which no trial beats its parent. -/
def quietGeneration : List Nat :=
  [0, 1, 2, 0, 0, 0, 0, 0, 0, halfDraw] ++ [1, 0, 3, 0, 0, 0, 0, 0, 0, halfDraw] ++
    [1, 0, 3, 0, 0, 0, 0, 0, 0, halfDraw] ++ [1, 0, 2, 0, 0, 0, 0, 0, 0, 9]

/-- The draws of the last step of the 25th generation: the trial for slot 3 is the identity
order, which beats its parent and not the global best. -/
def successStep : List Nat := [1, 2, 0, 0, 0, 0, 0, halfDraw]

/-- The draws of the restart: positions 9 and 10 are exchanged, all other swaps are of a
position with itself. -/
def restartDraws : List Nat := [8, 9] ++ List.replicate 98 0

/-- The seed of the run. -/
def rowSeed : List Nat :=
  rowSeedDraws ++ (List.replicate 24 quietGeneration).flatten ++
    ([0, 1, 2, 0, 0, 0, 0, 0, 0, halfDraw] ++ [1, 0, 3, 0, 0, 0, 0, 0, 0, halfDraw] ++
      [1, 0, 3, 0, 0, 0, 0, 0, 0, halfDraw]) ++ successStep ++ restartDraws

/-- The state after the constructor and 99 steps: the last slot of the 25th generation is
the target, 23 generations have passed without improvement, the ranking is that of the
start of the generation. -/
def arqRowStale : ArqOptimizer :=
  { m_instance := some rowInstance
    m_n := 11
    m_popSize := 4
    m_rng := successStep ++ restartDraws
    m_pop := [[0, 1, 2, 3, 4, 5, 6, 7, 8, 9, 10], [0, 2, 1, 3, 4, 5, 6, 7, 8, 9, 10],
      [0, 2, 1, 4, 3, 5, 6, 7, 8, 9, 10], [0, 2, 1, 4, 3, 6, 5, 7, 8, 9, 10]]
    m_cost := [100000, 120000, 140000, 160000]
    m_rank := [0, 1, 2, 3]
    m_archive := []
    m_target := 3
    m_noImproveGen := 23
    m_bestPrev := some 100000
    m_SF := [], m_SCR := [], m_SG := []
    m_best := rowTour
    m_baseline := 100000
    m_lastBest := 100000 }

/-- The state of the 100th step after the selection, when the generation ends: slot 3 holds
the identity order at cost 100000, the ranking is unchanged. -/
def arqRowBefore : ArqOptimizer :=
  { arqRowStale with
    m_rng := restartDraws
    m_pop := [[0, 1, 2, 3, 4, 5, 6, 7, 8, 9, 10], [0, 2, 1, 3, 4, 5, 6, 7, 8, 9, 10],
      [0, 2, 1, 4, 3, 5, 6, 7, 8, 9, 10], [0, 1, 2, 3, 4, 5, 6, 7, 8, 9, 10]]
    m_cost := [100000, 120000, 140000, 100000]
    m_archive := [[0, 2, 1, 4, 3, 6, 5, 7, 8, 9, 10]]
    m_SF := [60 / 100], m_SCR := [85 / 100], m_SG := [60000] }

/-- The state after the 100th step. -/
def arqRowAfter : ArqOptimizer :=
  { arqRowBefore with
    m_rng := []
    m_pop := [[0, 1, 2, 3, 4, 5, 6, 7, 8, 9, 10], [0, 2, 1, 3, 4, 5, 6, 7, 8, 9, 10],
      [0, 2, 1, 4, 3, 5, 6, 7, 8, 9, 10], [0, 1, 2, 3, 4, 5, 6, 7, 8, 10, 9]]
    m_cost := [100000, 120000, 140000, 110000]
    m_target := 0
    m_noImproveGen := 0 }

/-- Two points whose distance in `x` is 2147483648, one more than the largest 32-bit
integer; `loadFromTspFile` makes them from the coordinates 214748.3647 and -0.0001. -/
def overflowInstance : TspInstance :=
  { m_points := [⟨2147483647, 0⟩, ⟨-1, 0⟩]
    m_minX := -1, m_minY := 0, m_maxX := 2147483647, m_maxY := 0 }

/-- The cost of the open path through `ord` under the Chebyshev metric in exact integer
arithmetic: the sum of `chebyshev` over consecutive nodes, nothing from the last node back
to the first. -/
def chebyshevPathCost (pts : List TspPoint) : List Int → Int
  | [] => 0
  | [_] => 0
  | a :: b :: rest => chebyshev (ptAt pts a) (ptAt pts b) + chebyshevPathCost pts (b :: rest)

/-- No subtraction of `Tour::edgeCost` overflows on the instance: every two points that
the tour code can read (the points of the instance, and the origin, which the model reads
for an id outside the vector) differ by at most 2147483647 in both coordinates. -/
def TspInstance.DiffsFit (inst : TspInstance) : Prop :=
  ∀ a ∈ (⟨0, 0⟩ : TspPoint) :: inst.m_points, ∀ b ∈ (⟨0, 0⟩ : TspPoint) :: inst.m_points,
    |a.x - b.x| ≤ 2147483647 ∧ |a.y - b.y| ≤ 2147483647

/-- Four points on a line at 214748, 0, -0.5 and -1 (scaled by 10000): the first and the
last are 2147490000 apart, more than the largest 32-bit integer. -/
def wideInstance : TspInstance :=
  { m_points := [⟨2147480000, 0⟩, ⟨0, 0⟩, ⟨-5000, 0⟩, ⟨-10000, 0⟩]
    m_minX := -10000, m_minY := 0, m_maxX := 2147480000, m_maxY := 0 }

/-- The identity tour over `wideInstance`; its cached cost is what `Tour::evaluate`
computes, and it is the Chebyshev cost of the path (no edge of this path overflows). -/
def wideTour : Tour := ⟨some wideInstance, [0, 1, 2, 3], 2147490000⟩

theorem foldl_add_shift (f : Nat → Int) (l : List Nat) (c : Int) :
    l.foldl (fun sum i => sum + f i) c = c + l.foldl (fun sum i => sum + f i) 0 := by
  induction l generalizing c with
  | nil => simp
  | cons a l ih =>
    simp only [List.foldl_cons]
    rw [ih (c + f a), ih (0 + f a)]
    omega

theorem foldl_range_eq_sum (f : Nat → Int) (n : Nat) :
    (List.range n).foldl (fun sum i => sum + f i) 0 = ∑ k in Finset.range n, f k := by
  induction n with
  | zero => simp
  | succ n ih =>
    rw [List.range_succ, List.foldl_append, ih, Finset.sum_range_succ]
    simp

theorem evaluateLoop_eq_sum (pts : List TspPoint) (ord : List Int) :
    Tour.evaluateLoop pts ord =
      ∑ k in Finset.range (ord.length - 1),
        Tour.edgeCost (ptAt pts (ord.getD k 0)) (ptAt pts (ord.getD (k + 1) 0)) := by
  unfold Tour.evaluateLoop
  exact foldl_range_eq_sum _ _

theorem evaluateLoop_cons_cons (pts : List TspPoint) (a b : Int) (rest : List Int) :
    Tour.evaluateLoop pts (a :: b :: rest) =
      Tour.edgeCost (ptAt pts a) (ptAt pts b) + Tour.evaluateLoop pts (b :: rest) := by
  rw [evaluateLoop_eq_sum, evaluateLoop_eq_sum]
  simp only [List.length_cons, Nat.add_sub_cancel]
  rw [Finset.sum_range_succ']
  simp only [List.getD_cons_zero, List.getD_cons_succ, zero_add]
  rw [add_comm]

theorem evaluateLoop_eq_pathCost (pts : List TspPoint) (ord : List Int) :
    Tour.evaluateLoop pts ord = pathCost pts ord := by
  induction ord with
  | nil => rfl
  | cons a l ih =>
    cases l with
    | nil => rfl
    | cons b rest => rw [evaluateLoop_cons_cons, ih, pathCost]

theorem evaluate_cost_some (inst : TspInstance) (ord : List Int) (c : Int) :
    (Tour.evaluate ⟨some inst, ord, c⟩).m_cost = pathCost inst.m_points ord := by
  unfold Tour.evaluate
  cases ord with
  | nil => simp [pathCost]
  | cons a l => simp [evaluateLoop_eq_pathCost]

theorem evaluate_order (t : Tour) : (Tour.evaluate t).m_order = t.m_order := by
  unfold Tour.evaluate
  cases t.m_instance with
  | none => rfl
  | some inst => dsimp only; split <;> rfl

theorem evaluate_instance (t : Tour) : (Tour.evaluate t).m_instance = t.m_instance := by
  unfold Tour.evaluate
  cases h : t.m_instance with
  | none => simp [h]
  | some inst => dsimp only; split <;> simp [h]

/-! ## Reorderings are permutations -/

theorem getD_eq_getElem (v : List Int) (a : Nat) (ha : a < v.length) : v.getD a 0 = v[a] := by
  simp [List.getD_eq_getElem?_getD, List.getElem?_eq_getElem ha]

theorem swapAt_perm (v : List Int) (a b : Nat) (ha : a < v.length) (hb : b < v.length) :
    (swapAt v a b).Perm v := by
  unfold swapAt
  rw [List.perm_iff_count]
  intro x
  have hb' : b < (v.set a (v.getD b 0)).length := by simpa using hb
  rw [List.count_set _ _ _ _ hb', List.count_set _ _ _ _ ha]
  have e1 : (v.set a (v.getD b 0))[b] = v[b] := by
    rw [List.getElem_set]
    split
    · rw [getD_eq_getElem v b hb]
    · rfl
  rw [e1, getD_eq_getElem v a ha, getD_eq_getElem v b hb]
  have ma : (v[a] == x) = true → 1 ≤ v.count x := by
    intro h
    have : v[a] = x := by simpa using h
    exact List.count_pos_iff.mpr (this ▸ List.getElem_mem ha)
  have mb : (v[b] == x) = true → 1 ≤ v.count x := by
    intro h
    have : v[b] = x := by simpa using h
    exact List.count_pos_iff.mpr (this ▸ List.getElem_mem hb)
  by_cases h1 : (v[a] == x) = true
  · have := ma h1
    by_cases h2 : (v[b] == x) = true
    · simp only [h1, h2, if_true]; omega
    · simp only [h1, h2, if_true, if_false, Bool.false_eq_true]; omega
  · by_cases h2 : (v[b] == x) = true
    · have := mb h2
      simp only [h1, h2, if_true, if_false, Bool.false_eq_true]; omega
    · simp only [h1, h2, if_false, Bool.false_eq_true]; omega

theorem swapAt_length (v : List Int) (a b : Nat) : (swapAt v a b).length = v.length := by
  simp [swapAt]

theorem reverseSegment_perm (v : List Int) (i j : Nat) (h : i ≤ j + 1) :
    (reverseSegment v i j).Perm v := by
  unfold reverseSegment
  have e : v = v.take i ++ ((v.drop i).take (j + 1 - i)) ++ v.drop (j + 1) := by
    have : v.drop (j + 1) = (v.drop i).drop (j + 1 - i) := by
      rw [List.drop_drop]; congr 1; omega
    rw [this, List.append_assoc, List.take_append_drop, List.take_append_drop]
  conv_rhs => rw [e]
  exact (List.Perm.append_left _ (List.reverse_perm _)).append_right _

theorem eraseIdx_insertIdx_perm (v : List Int) (e k : Nat) (he : e < v.length)
    (hk : k ≤ v.length - 1) :
    ((v.eraseIdx e).insertIdx k (v.getD e 0)).Perm v := by
  have hl : (v.eraseIdx e).length = v.length - 1 := List.length_eraseIdx_of_lt he
  have h1 := List.perm_insertIdx (v.getD e 0) (v.eraseIdx e) (n := k) (by omega)
  refine h1.trans ?_
  rw [getD_eq_getElem v e he, List.eraseIdx_eq_take_drop_succ]
  have e2 : v = v.take e ++ v[e] :: v.drop (e + 1) := by
    rw [← List.drop_eq_getElem_cons he, List.take_append_drop]
  conv_rhs => rw [e2]
  exact List.perm_middle.symm

/-! ## Path cost of joined and reversed pieces -/

theorem abs32_wrap32_sub_comm (a b : Int) : abs32 (wrap32 (a - b)) = abs32 (wrap32 (b - a)) := by
  unfold abs32 wrap32
  split <;> split <;> omega

theorem edgeCost_comm (a b : TspPoint) : Tour.edgeCost a b = Tour.edgeCost b a := by
  unfold Tour.edgeCost
  rw [abs32_wrap32_sub_comm a.x b.x, abs32_wrap32_sub_comm a.y b.y]

theorem pathCost_cons (pts : List TspPoint) (a : Int) (Y : List Int) :
    pathCost pts (a :: Y) = linkCost pts [a] Y + pathCost pts Y := by
  cases Y with
  | nil => simp [pathCost, linkCost]
  | cons b r => simp [pathCost, linkCost]

theorem pathCost_append (pts : List TspPoint) (X Y : List Int) :
    pathCost pts (X ++ Y) = pathCost pts X + linkCost pts X Y + pathCost pts Y := by
  induction X with
  | nil => simp [pathCost, linkCost]
  | cons a X ih =>
    cases X with
    | nil =>
      simp only [List.singleton_append, pathCost_cons pts a Y]
      simp [pathCost]
    | cons b X =>
      have h1 : pathCost pts (a :: b :: X ++ Y) =
          Tour.edgeCost (ptAt pts a) (ptAt pts b) + pathCost pts (b :: X ++ Y) := by
        simp [pathCost]
      have h2 : linkCost pts (a :: b :: X) Y = linkCost pts (b :: X) Y := by
        simp [linkCost, List.getLast?_cons_cons]
      rw [h1, ih, h2]
      simp only [pathCost]
      ring

theorem pathCost_reverse (pts : List TspPoint) (X : List Int) :
    pathCost pts X.reverse = pathCost pts X := by
  induction X with
  | nil => rfl
  | cons a X ih =>
    rw [List.reverse_cons, pathCost_append, ih, pathCost_cons]
    cases X with
    | nil => simp [pathCost, linkCost]
    | cons b X =>
      simp [pathCost, linkCost, edgeCost_comm (ptAt pts a) (ptAt pts b)]
      ring

theorem getElem?_eq_some_getD (v : List Int) (a : Nat) (ha : a < v.length) :
    v[a]? = some (v.getD a 0) := by
  rw [getD_eq_getElem v a ha, List.getElem?_eq_getElem ha]

theorem getLast?_take_getD (v : List Int) (i : Nat) (h0 : 0 < i) (hi : i ≤ v.length) :
    (v.take i).getLast? = some (v.getD (i - 1) 0) := by
  rw [List.getLast?_eq_getElem?, List.length_take, List.getElem?_take_of_lt (by omega),
    Nat.min_eq_left hi]
  exact getElem?_eq_some_getD v (i - 1) (by omega)

theorem head?_drop_getD (v : List Int) (i : Nat) (hi : i < v.length) :
    (v.drop i).head? = some (v.getD i 0) := by
  rw [List.head?_drop]
  exact getElem?_eq_some_getD v i hi

theorem head?_mid_getD (v : List Int) (i j : Nat) (hij : i ≤ j) (hj : j < v.length) :
    ((v.drop i).take (j + 1 - i)).head? = some (v.getD i 0) := by
  rw [List.head?_take, if_neg (by omega)]
  exact head?_drop_getD v i (by omega)

theorem getLast?_mid_getD (v : List Int) (i j : Nat) (hij : i ≤ j) (hj : j < v.length) :
    ((v.drop i).take (j + 1 - i)).getLast? = some (v.getD j 0) := by
  rw [List.getLast?_eq_getElem?, List.length_take, List.length_drop,
    List.getElem?_take_of_lt (by omega), List.getElem?_drop]
  have : i + (min (j + 1 - i) (v.length - i) - 1) = j := by omega
  rw [this]
  exact getElem?_eq_some_getD v j hj

theorem linkCost_nil_left (pts : List TspPoint) (Y : List Int) : linkCost pts [] Y = 0 := by
  simp [linkCost]

theorem linkCost_nil_right (pts : List TspPoint) (X : List Int) : linkCost pts X [] = 0 := by
  unfold linkCost
  cases X.getLast? <;> simp

theorem linkCost_of (pts : List TspPoint) (X Y : List Int) (a b : Int)
    (hx : X.getLast? = some a) (hy : Y.head? = some b) :
    linkCost pts X Y = Tour.edgeCost (ptAt pts a) (ptAt pts b) := by
  simp [linkCost, hx, hy]

theorem linkCost_append_left (pts : List TspPoint) (A M C : List Int) (hM : M ≠ []) :
    linkCost pts (A ++ M) C = linkCost pts M C := by
  unfold linkCost
  rw [List.getLast?_append_of_ne_nil A hM]

theorem linkCost_append_right (pts : List TspPoint) (A M C : List Int) (hM : M ≠ []) :
    linkCost pts A (M ++ C) = linkCost pts A M := by
  unfold linkCost
  rw [List.head?_append_of_ne_nil M hM]

/-- Reversing a non-empty middle piece changes only the two joining edges. -/
theorem pathCost_reverse_middle (pts : List TspPoint) (A M C : List Int) (hM : M ≠ []) :
    pathCost pts (A ++ M.reverse ++ C) - pathCost pts (A ++ M ++ C) =
      (linkCost pts A M.reverse - linkCost pts A M)
        + (linkCost pts M.reverse C - linkCost pts M C) := by
  have hR : M.reverse ≠ [] := by simpa using hM
  rw [pathCost_append pts (A ++ M.reverse) C, pathCost_append pts A M.reverse,
    pathCost_append pts (A ++ M) C, pathCost_append pts A M,
    linkCost_append_left pts A M C hM, linkCost_append_left pts A M.reverse C hR,
    pathCost_reverse]
  ring

theorem take_mid_drop (v : List Int) (i j : Nat) (hij : i ≤ j + 1) :
    v.take i ++ (v.drop i).take (j + 1 - i) ++ v.drop (j + 1) = v := by
  have : v.drop (j + 1) = (v.drop i).drop (j + 1 - i) := by
    rw [List.drop_drop]; congr 1; omega
  rw [this, List.append_assoc, List.take_append_drop, List.take_append_drop]

/-- The closed-form change of the path cost when positions `i..j` are reversed. -/
theorem pathCost_reverseSegment (pts : List TspPoint) (ord : List Int) (i j : Nat)
    (hij : i < j) (hj : j < ord.length) :
    pathCost pts (reverseSegment ord i j) - pathCost pts ord =
      (if i > 0 then
        Tour.edgeCost (ptAt pts (ord.getD (i - 1) 0)) (ptAt pts (ord.getD j 0))
          - Tour.edgeCost (ptAt pts (ord.getD (i - 1) 0)) (ptAt pts (ord.getD i 0))
       else 0)
      + (if j < ord.length - 1 then
          Tour.edgeCost (ptAt pts (ord.getD i 0)) (ptAt pts (ord.getD (j + 1) 0))
            - Tour.edgeCost (ptAt pts (ord.getD j 0)) (ptAt pts (ord.getD (j + 1) 0))
         else 0) := by
  have hM : (ord.drop i).take (j + 1 - i) ≠ [] := by
    intro h
    have := congrArg List.length h
    simp at this
    omega
  have hh := head?_mid_getD ord i j (by omega) hj
  have hl := getLast?_mid_getD ord i j (by omega) hj
  have key := pathCost_reverse_middle pts (ord.take i) ((ord.drop i).take (j + 1 - i))
    (ord.drop (j + 1)) hM
  rw [take_mid_drop ord i j (by omega)] at key
  unfold reverseSegment
  rw [key]
  congr 1
  · by_cases h0 : i > 0
    · rw [if_pos h0]
      rw [linkCost_of pts _ _ _ _ (getLast?_take_getD ord i h0 (by omega))
            (by rw [List.head?_reverse]; exact hl),
          linkCost_of pts _ _ _ _ (getLast?_take_getD ord i h0 (by omega)) hh]
    · have : i = 0 := by omega
      subst this
      simp [linkCost_nil_left]
  · by_cases h1 : j < ord.length - 1
    · rw [if_pos h1]
      rw [linkCost_of pts _ _ _ _ (by rw [List.getLast?_reverse]; exact hh)
            (head?_drop_getD ord (j + 1) (by omega)),
          linkCost_of pts _ _ _ _ hl (head?_drop_getD ord (j + 1) (by omega))]
    · rw [if_neg h1]
      have : ord.drop (j + 1) = [] := List.drop_eq_nil_of_le (by omega)
      rw [this, linkCost_nil_right, linkCost_nil_right]
      rfl

theorem twoOpt_delta_eq (pts : List TspPoint) (ord : List Int) (i j : Nat)
    (hn : 4 ≤ ord.length) (hij : i + 1 < j) (hj : j < ord.length) :
    TwoOptOptimizer.deltaReverseOpen pts ord i j =
      pathCost pts (reverseSegment ord i j) - pathCost pts ord := by
  rw [pathCost_reverseSegment pts ord i j (by omega) hj]
  unfold TwoOptOptimizer.deltaReverseOpen
  rw [if_neg (by omega), if_neg (by omega), if_neg (by omega)]
  split
  · next h =>
    rw [if_neg (by omega), if_neg (by omega)]
    rfl
  · rfl

theorem ils_delta_eq_twoOpt : IlsOptimizer.deltaReverseOpen = TwoOptOptimizer.deltaReverseOpen := rfl

theorem sa_delta_eq (pts : List TspPoint) (ord : List Int) (i j : Nat)
    (hij : i + 1 < j) (hj : j < ord.length) :
    SimAnnealOptimizer.inlineDelta pts ord ord.length i j =
      pathCost pts (reverseSegment ord i j) - pathCost pts ord := by
  rw [pathCost_reverseSegment pts ord i j (by omega) hj]
  rfl


/-- C4: for an order of at least four nodes and positions `i < j` more than
one apart, the delta of `TwoOptOptimizer::deltaReverseOpen`, of
`IlsOptimizer::deltaReverseOpen` and of the inline code of
`SimAnnealOptimizer::iterate` each equal the recomputed cost after reversing
positions `i..j` minus the recomputed cost before; for the whole path
(`i = 0`, `j = n - 1`) that value is `0`. -/
theorem C4_delta_formula_exact (inst : TspInstance) (ord : List Int) (c : Int) (i j : Nat)
    (hn : 4 ≤ ord.length) (hij : i + 1 < j) (hj : j < ord.length) :
    TwoOptOptimizer.deltaReverseOpen inst.m_points ord i j =
        (Tour.evaluate ⟨some inst, reverseSegment ord i j, c⟩).m_cost
          - (Tour.evaluate ⟨some inst, ord, c⟩).m_cost ∧
    IlsOptimizer.deltaReverseOpen inst.m_points ord i j =
        (Tour.evaluate ⟨some inst, reverseSegment ord i j, c⟩).m_cost
          - (Tour.evaluate ⟨some inst, ord, c⟩).m_cost ∧
    SimAnnealOptimizer.inlineDelta inst.m_points ord ord.length i j =
        (Tour.evaluate ⟨some inst, reverseSegment ord i j, c⟩).m_cost
          - (Tour.evaluate ⟨some inst, ord, c⟩).m_cost ∧
    (i = 0 → j = ord.length - 1 →
      (Tour.evaluate ⟨some inst, reverseSegment ord i j, c⟩).m_cost
          - (Tour.evaluate ⟨some inst, ord, c⟩).m_cost = 0) := by
  rw [evaluate_cost_some, evaluate_cost_some]
  refine ⟨twoOpt_delta_eq _ _ _ _ hn hij hj, ?_, sa_delta_eq _ _ _ _ hij hj, ?_⟩
  · rw [ils_delta_eq_twoOpt]; exact twoOpt_delta_eq _ _ _ _ hn hij hj
  · intro hi hj'
    rw [← twoOpt_delta_eq _ _ _ _ hn hij hj]
    unfold TwoOptOptimizer.deltaReverseOpen
    rw [if_neg (by omega), if_neg (by omega), if_neg (by omega), if_pos ⟨hi, hj'⟩]

/-- C4 at the unit square: reversing positions `0..2` of the identity order. -/
theorem C4_delta_formula_exact_witness :
    TwoOptOptimizer.deltaReverseOpen squareInstance.m_points [0, 1, 2, 3] 0 2 =
      (Tour.evaluate ⟨some squareInstance, reverseSegment [0, 1, 2, 3] 0 2, 0⟩).m_cost
        - (Tour.evaluate ⟨some squareInstance, [0, 1, 2, 3], 0⟩).m_cost :=
  (C4_delta_formula_exact squareInstance [0, 1, 2, 3] 0 0 2 (by decide) (by decide)
    (by decide)).1

theorem uniformInt_ge (lo hi : Nat) (g : Rng) : lo ≤ (uniformInt lo hi g).1 := by
  unfold uniformInt; simp

theorem uniformInt_le (lo hi : Nat) (g : Rng) (h : lo ≤ hi) : (uniformInt lo hi g).1 ≤ hi := by
  unfold uniformInt
  have := Nat.mod_lt (Rng.next g).1 (show 0 < hi - lo + 1 by omega)
  simp only
  omega

/-- Every value of the range is produced by some generator state. -/
theorem uniformInt_surj (lo hi v : Nat) (h1 : lo ≤ v) (h2 : v ≤ hi) (rest : Rng) :
    uniformInt lo hi ((v - lo) :: rest) = (v, rest) := by
  unfold uniformInt Rng.next
  simp only
  rw [Nat.mod_eq_of_lt (by omega)]
  congr 1
  omega

theorem randomizeLoop_perm (n k : Nat) (ord : List Int) (g : Rng) (hn : 0 < n)
    (hl : ord.length = n) :
    (Tour.randomizeLoop n k ord g).1.Perm ord := by
  induction k generalizing ord g with
  | zero => exact List.Perm.refl _
  | succ k ih =>
    unfold Tour.randomizeLoop
    have ha := uniformInt_le 0 (n - 1) g (by omega)
    have hb := uniformInt_le 0 (n - 1) (uniformInt 0 (n - 1) g).2 (by omega)
    exact (ih _ _ (by rw [swapAt_length, hl])).trans
      (swapAt_perm ord _ _ (by omega) (by omega))

theorem randomize_perm (t : Tour) (swaps : Int) (g : Rng) :
    (Tour.randomize t swaps g).1.m_order.Perm t.m_order := by
  unfold Tour.randomize
  split
  · exact List.Perm.refl _
  · rw [evaluate_order]
    exact randomizeLoop_perm _ _ _ _ (by omega) rfl

theorem mutateSwap_perm (t : Tour) (g : Rng) :
    (Tour.mutateSwap t g).1.m_order.Perm t.m_order := by
  unfold Tour.mutateSwap
  split
  · exact List.Perm.refl _
  · have ha := uniformInt_le 1 (t.m_order.length - 2) g (by omega)
    have hb := uniformInt_le 1 (t.m_order.length - 2) (uniformInt 1 (t.m_order.length - 2) g).2
      (by omega)
    exact swapAt_perm _ _ _ (by omega) (by omega)

theorem mutateInsertion_perm (t : Tour) (g : Rng) :
    (Tour.mutateInsertion t g).1.m_order.Perm t.m_order := by
  unfold Tour.mutateInsertion
  split
  · exact List.Perm.refl _
  · have ha := uniformInt_le 1 (t.m_order.length - 2) g (by omega)
    have hb := uniformInt_le 1 (t.m_order.length - 2) (uniformInt 1 (t.m_order.length - 2) g).2
      (by omega)
    have hb1 := uniformInt_ge 1 (t.m_order.length - 2) (uniformInt 1 (t.m_order.length - 2) g).2
    dsimp only
    split
    · exact List.Perm.refl _
    · apply eraseIdx_insertIdx_perm _ _ _ (by omega)
      split <;> omega

theorem mutateReverseSegment_perm (t : Tour) (g : Rng) :
    (Tour.mutateReverseSegment t g).1.m_order.Perm t.m_order := by
  unfold Tour.mutateReverseSegment
  split
  · exact List.Perm.refl _
  · dsimp only
    split
    · exact List.Perm.refl _
    · split
      · exact List.Perm.refl _
      · apply reverseSegment_perm
        omega

/-- C3: `Tour::randomize`, `Tour::mutateSwap`, `Tour::mutateInsertion` and
`Tour::mutateReverseSegment` each turn a permutation of `[0, n)` into a
permutation of `[0, n)` of the same length, whatever is drawn. -/
theorem C3_mutations_preserve_permutation (t : Tour) (n : Nat) (swaps : Int) (g : Rng)
    (hperm : IsPermutation t.m_order n) :
    (IsPermutation (Tour.randomize t swaps g).1.m_order n ∧
      (Tour.randomize t swaps g).1.m_order.length = n) ∧
    (IsPermutation (Tour.mutateSwap t g).1.m_order n ∧
      (Tour.mutateSwap t g).1.m_order.length = n) ∧
    (IsPermutation (Tour.mutateInsertion t g).1.m_order n ∧
      (Tour.mutateInsertion t g).1.m_order.length = n) ∧
    (IsPermutation (Tour.mutateReverseSegment t g).1.m_order n ∧
      (Tour.mutateReverseSegment t g).1.m_order.length = n) := by
  have hlen : t.m_order.length = n := by
    have := hperm.length_eq
    simpa using this
  have key : ∀ l : List Int, l.Perm t.m_order → IsPermutation l n ∧ l.length = n :=
    fun l h => ⟨h.trans hperm, by rw [h.length_eq, hlen]⟩
  exact ⟨key _ (randomize_perm t swaps g), key _ (mutateSwap_perm t g),
    key _ (mutateInsertion_perm t g), key _ (mutateReverseSegment_perm t g)⟩

/-- C3 at a five-node tour, with draws that make `mutateInsertion` move node
`1` behind node `3`. -/
theorem C3_mutations_preserve_permutation_witness :
    IsPermutation (Tour.mutateInsertion ⟨none, [0, 1, 2, 3, 4], 0⟩ [0, 2]).1.m_order 5 ∧
    (Tour.mutateInsertion ⟨none, [0, 1, 2, 3, 4], 0⟩ [0, 2]).1.m_order = [0, 2, 3, 1, 4] :=
  ⟨(C3_mutations_preserve_permutation ⟨none, [0, 1, 2, 3, 4], 0⟩ 5 3 [0, 2]
      (List.Perm.refl _)).2.2.1.1, by decide⟩


theorem doubleBridgeAt_perm (ord : List Int) (i j k l : Nat) (hij : i ≤ j) (hjk : j ≤ k)
    (hkl : k ≤ l) : (IlsOptimizer.doubleBridgeAt ord i j k l).Perm ord := by
  have e : ord = ord.take i ++ (ord.drop i).take (j - i) ++ (ord.drop j).take (k - j)
      ++ (ord.drop k).take (l - k) ++ ord.drop l := by
    have h1 : ord.drop l = (ord.drop k).drop (l - k) := by
      rw [List.drop_drop]; congr 1; omega
    have h2 : ord.drop k = (ord.drop j).drop (k - j) := by
      rw [List.drop_drop]; congr 1; omega
    have h3 : ord.drop j = (ord.drop i).drop (j - i) := by
      rw [List.drop_drop]; congr 1; omega
    rw [h1, List.append_assoc _ _ (List.drop (l - k) (List.drop k ord)), List.take_append_drop,
      h2, List.append_assoc _ _ (List.drop (k - j) (List.drop j ord)), List.take_append_drop,
      h3, List.append_assoc _ _ (List.drop (j - i) (List.drop i ord)), List.take_append_drop,
      List.take_append_drop]
  unfold IlsOptimizer.doubleBridgeAt
  conv_rhs => rw [e]
  refine List.Perm.append_right _ (List.Perm.append_right _ ?_)
  rw [List.append_assoc, List.append_assoc]
  exact List.Perm.append_left _ List.perm_append_comm

theorem doubleBridgeCuts_admissible (n : Nat) (g : Rng) (hn : 8 ≤ n) :
    1 ≤ (IlsOptimizer.doubleBridgeCuts n g).1.1 ∧
    (IlsOptimizer.doubleBridgeCuts n g).1.1 < (IlsOptimizer.doubleBridgeCuts n g).1.2.1 ∧
    (IlsOptimizer.doubleBridgeCuts n g).1.2.1 < (IlsOptimizer.doubleBridgeCuts n g).1.2.2.1 ∧
    (IlsOptimizer.doubleBridgeCuts n g).1.2.2.1 < (IlsOptimizer.doubleBridgeCuts n g).1.2.2.2 ∧
    (IlsOptimizer.doubleBridgeCuts n g).1.2.2.2 ≤ n - 2 := by
  unfold IlsOptimizer.doubleBridgeCuts
  dsimp only
  have i1 := uniformInt_ge 1 (n - 6) g
  have i2 := uniformInt_le 1 (n - 6) g (by omega)
  have j1 := uniformInt_ge ((uniformInt 1 (n - 6) g).1 + 1) (n - 5) (uniformInt 1 (n - 6) g).2
  have j2 := uniformInt_le ((uniformInt 1 (n - 6) g).1 + 1) (n - 5) (uniformInt 1 (n - 6) g).2
    (by omega)
  generalize uniformInt ((uniformInt 1 (n - 6) g).1 + 1) (n - 5) (uniformInt 1 (n - 6) g).2 = J
    at j1 j2 ⊢
  have k1 := uniformInt_ge (J.1 + 1) (n - 4) J.2
  have k2 := uniformInt_le (J.1 + 1) (n - 4) J.2 (by omega)
  generalize uniformInt (J.1 + 1) (n - 4) J.2 = K at k1 k2 ⊢
  have l1 := uniformInt_ge (K.1 + 1) (n - 2) K.2
  have l2 := uniformInt_le (K.1 + 1) (n - 2) K.2 (by omega)
  omega

/-- C8: on a tour of at least eight nodes `doubleBridgePerturbation` yields
an order of the same length with exactly the same node ids (a permutation of
its input), and so does the reordering at every admissible choice of cut
points `1 ≤ i < j < k < l ≤ n - 2`. -/
theorem C8_double_bridge_same_nodes (s : IlsOptimizer) (h8 : 8 ≤ s.m_current.size) :
    ((IlsOptimizer.doubleBridgePerturbation s).m_current.m_order.Perm s.m_current.m_order ∧
      (IlsOptimizer.doubleBridgePerturbation s).m_current.m_order.length =
        s.m_current.m_order.length) ∧
    (∀ i j k l : Nat, 1 ≤ i → i < j → j < k → k < l → l ≤ s.m_current.size - 2 →
      (IlsOptimizer.doubleBridgeAt s.m_current.m_order i j k l).Perm s.m_current.m_order ∧
      (IlsOptimizer.doubleBridgeAt s.m_current.m_order i j k l).length =
        s.m_current.m_order.length) := by
  have key : ∀ i j k l : Nat, i < j → j < k → k < l →
      (IlsOptimizer.doubleBridgeAt s.m_current.m_order i j k l).Perm s.m_current.m_order ∧
      (IlsOptimizer.doubleBridgeAt s.m_current.m_order i j k l).length =
        s.m_current.m_order.length := by
    intro i j k l h1 h2 h3
    have hp := doubleBridgeAt_perm s.m_current.m_order i j k l (by omega) (by omega) (by omega)
    exact ⟨hp, hp.length_eq⟩
  refine ⟨?_, fun i j k l _ h1 h2 h3 _ => key i j k l h1 h2 h3⟩
  have hc := doubleBridgeCuts_admissible s.m_current.size s.m_rng h8
  unfold IlsOptimizer.doubleBridgePerturbation
  rw [if_neg (by omega)]
  exact key _ _ _ _ hc.2.1 hc.2.2.1 hc.2.2.2.1

/-- C8 at an eight-node tour: the cut points 1, 2, 3, 4 swap nodes 1 and 2. -/
theorem C8_double_bridge_same_nodes_witness :
    (IlsOptimizer.doubleBridgePerturbation ilsExample).m_current.m_order.Perm
        ilsExample.m_current.m_order ∧
    (IlsOptimizer.doubleBridgePerturbation ilsExample).m_current.m_order =
        [0, 2, 1, 3, 4, 5, 6, 7] :=
  ⟨(C8_double_bridge_same_nodes ilsExample (by decide)).1.1, by decide⟩

/-- C9: the constructor from an explicit order throws exactly when the
instance is absent or the order's length differs from the instance size, and
otherwise yields the tour with that order and the cost set by `evaluate`; the
identity constructor throws exactly when the instance is absent and otherwise
yields the order `0, 1, ..., n - 1` with the cost set by `evaluate`. -/
theorem C9_constructors :
    (∀ (i? : Option TspInstance) (ord : List Int),
      (∃ e, Tour.mkWithOrder i? ord = .error e) ↔
        (i? = none ∨ ∃ inst, i? = some inst ∧ ord.length ≠ inst.size)) ∧
    (∀ (inst : TspInstance) (ord : List Int), ord.length = inst.size →
      Tour.mkWithOrder (some inst) ord = .ok (Tour.evaluate ⟨some inst, ord, 0⟩) ∧
      (Tour.evaluate ⟨some inst, ord, 0⟩).m_order = ord ∧
      (Tour.evaluate ⟨some inst, ord, 0⟩).m_instance = some inst) ∧
    (∀ i? : Option TspInstance, (∃ e, Tour.mkIdentity i? = .error e) ↔ i? = none) ∧
    (∀ inst : TspInstance,
      Tour.mkIdentity (some inst) =
        .ok (Tour.evaluate ⟨some inst, (List.range inst.size).map Int.ofNat, 0⟩) ∧
      (Tour.evaluate ⟨some inst, (List.range inst.size).map Int.ofNat, 0⟩).m_order =
        (List.range inst.size).map Int.ofNat) := by
  refine ⟨?_, ?_, ?_, ?_⟩
  · intro i? ord
    cases i? with
    | none => simp [Tour.mkWithOrder]
    | some inst =>
      by_cases h : ord.length = inst.size <;> simp [Tour.mkWithOrder, h]
  · intro inst ord h
    refine ⟨by simp [Tour.mkWithOrder, h], evaluate_order _, evaluate_instance _⟩
  · intro i?
    cases i? with
    | none => simp [Tour.mkIdentity]
    | some inst => simp [Tour.mkIdentity]
  · intro inst
    exact ⟨rfl, evaluate_order _⟩


/-- C9 at the unit square with the identity order given explicitly. -/
theorem C9_constructors_witness :
    Tour.mkWithOrder (some squareInstance) [0, 1, 2, 3] =
      .ok (Tour.evaluate ⟨some squareInstance, [0, 1, 2, 3], 0⟩) :=
  (C9_constructors.2.1 squareInstance [0, 1, 2, 3] rfl).1

/-! ## Genetic optimizer: one step -/


theorem sortByCost_perm (l : List Tour) : (sortByCost l).Perm l :=
  List.perm_insertionSort _ l

theorem sortByCost_head_le (l : List Tour) (q0 : Tour) (qrest : List Tour)
    (h : sortByCost l = q0 :: qrest) : ∀ p ∈ l, q0.m_cost ≤ p.m_cost := by
  intro p hp
  have hs : List.Sorted (fun a b : Tour => a.m_cost ≤ b.m_cost) (sortByCost l) := by
    unfold sortByCost
    haveI : IsTotal Tour (fun a b : Tour => a.m_cost ≤ b.m_cost) := ⟨fun a b => le_total _ _⟩
    haveI : IsTrans Tour (fun a b : Tour => a.m_cost ≤ b.m_cost) :=
      ⟨fun a b c h1 h2 => le_trans h1 h2⟩
    exact List.sorted_insertionSort _ l
  have hp' : p ∈ sortByCost l := (sortByCost_perm l).mem_iff.mpr hp
  rw [h] at hs hp'
  rcases List.mem_cons.mp hp' with rfl | hmem
  · exact le_refl _
  · exact List.rel_of_sorted_cons hs p hmem

theorem deathLoop_spec (pop : List Tour) (N : Int) (k i : Nat) (g : Rng) (surv : List Tour)
    (h : i + k ≤ pop.length) :
    ∃ extra g', GeneticOptimizer.deathLoop pop N k i g surv = some (surv ++ extra, g') ∧
      (∀ p ∈ extra, p ∈ pop) ∧ extra.length ≤ k := by
  induction k generalizing i g surv with
  | zero => exact ⟨[], g, by simp [GeneticOptimizer.deathLoop], by simp, by simp⟩
  | succ k ih =>
    unfold GeneticOptimizer.deathLoop
    split
    · have hi : i < pop.length := by omega
      rw [List.get?_eq_get hi]
      obtain ⟨extra, g', h1, h2, h3⟩ := ih (i + 1) (Rng.next g).2 (surv ++ [pop.get ⟨i, hi⟩])
        (by omega)
      refine ⟨pop.get ⟨i, hi⟩ :: extra, g', by simpa using h1, ?_, by simp; omega⟩
      intro p hp
      rcases List.mem_cons.mp hp with rfl | hp
      · exact List.get_mem _ _ _
      · exact h2 p hp
    · obtain ⟨extra, g', h1, h2, h3⟩ := ih (i + 1) (Rng.next g).2 surv (by omega)
      exact ⟨extra, g', h1, h2, by omega⟩

theorem repopulate_spec (nSurv : Nat) (mr : Int) (d : Nat) (surv : List Tour) (g : Rng)
    (h1 : 1 ≤ nSurv) (h2 : nSurv ≤ surv.length) :
    ∃ babies g', GeneticOptimizer.repopulate nSurv mr d surv g = some (surv ++ babies, g') ∧
      babies.length = d := by
  induction d generalizing surv g with
  | zero => exact ⟨[], g, by simp [GeneticOptimizer.repopulate], rfl⟩
  | succ d ih =>
    unfold GeneticOptimizer.repopulate
    have hp := uniformInt_le 0 (nSurv - 1) g (by omega)
    have hlt : (uniformInt 0 (nSurv - 1) g).1 < surv.length := by omega
    dsimp only
    rw [List.get?_eq_get hlt]
    dsimp only
    generalize hb : Tour.evaluate _ = baby
    generalize hg : (GeneticOptimizer.mutateLoop _ _ _).2 = g2
    obtain ⟨babies, g', e1, e2⟩ := ih (surv ++ [baby]) g2 (by simp; omega)
    exact ⟨baby :: babies, g', by simpa using e1, by simp [e2]⟩


theorem ga_step (s : GeneticOptimizer) (h : GeneticOptimizer.Inv s) :
    ∃ s' b, GeneticOptimizer.iterate s = some (s', b) ∧ GeneticOptimizer.Inv s' ∧
      s'.m_best.m_cost ≤ s.m_best.m_cost ∧
      (b = true ↔ s'.m_best.m_cost < s.m_best.m_cost) := by
  obtain ⟨hN, hlen, hbest, hmin, pm, hpm, hpmc⟩ := h
  have hperm := sortByCost_perm s.m_population
  cases hs : sortByCost s.m_population with
  | nil =>
    rw [hs] at hperm
    have := hperm.length_eq
    simp at this
    omega
  | cons p0 rest =>
    rw [hs] at hperm
    have hp0 : p0 ∈ s.m_population := hperm.mem_iff.mp (List.mem_cons_self _ _)
    have hp0c : p0.m_cost = s.m_lastBest := by
      have a := sortByCost_head_le _ _ _ hs pm hpm
      have b := hmin p0 hp0
      omega
    have hl2 : (p0 :: rest).length = s.m_population.length := hperm.length_eq
    obtain ⟨extra, g1, hdl, hex, hexl⟩ := deathLoop_spec (p0 :: rest) s.m_populationSize
      (s.m_populationSize - 1).toNat 1 s.m_rng [p0] (by rw [hl2]; omega)
    have hne : ([p0] ++ extra).isEmpty = false := rfl
    obtain ⟨babies, g2, hrp, hbl⟩ := repopulate_spec ([p0] ++ extra).length s.m_mutationRate
      (s.m_populationSize - (([p0] ++ extra).length : Int)).toNat ([p0] ++ extra) g1
      (by simp) (le_refl _)
    have hpoplen : ((([p0] ++ extra) ++ babies).length : Int) = s.m_populationSize := by
      simp only [List.length_append, hbl, List.length_singleton, Nat.cast_add, Nat.cast_one] at hexl ⊢
      omega
    have hperm2 := sortByCost_perm (([p0] ++ extra) ++ babies)
    cases hs2 : sortByCost (([p0] ++ extra) ++ babies) with
    | nil =>
      rw [hs2] at hperm2
      have := hperm2.length_eq
      simp at this
    | cons q0 qrest =>
      rw [hs2] at hperm2
      have hq0le : q0.m_cost ≤ p0.m_cost :=
        sortByCost_head_le _ _ _ hs2 p0 (by simp)
      have hqmin : ∀ p ∈ q0 :: qrest, q0.m_cost ≤ p.m_cost := fun p hp =>
        sortByCost_head_le _ _ _ hs2 p (hperm2.mem_iff.mp hp)
      have hqlen : ((q0 :: qrest).length : Int) = s.m_populationSize := by
        rw [hperm2.length_eq]; exact hpoplen
      by_cases hlt : q0.m_cost < s.m_lastBest
      · refine ⟨{ s with
                    m_rng := g2, m_population := q0 :: qrest, m_best := q0
                    m_lastBest := q0.m_cost }, true, ?_, ?_, ?_, ?_⟩
        · simp only [GeneticOptimizer.iterate, hs, hdl, hne, Bool.false_eq_true, if_false, hrp, hs2,
            if_pos hlt]
        · exact ⟨hN, hqlen, rfl, hqmin, q0, List.mem_cons_self _ _, rfl⟩
        · simp only; omega
        · simp only [true_iff]; omega
      · refine ⟨{ s with m_rng := g2, m_population := q0 :: qrest, m_best := p0 }, false,
          ?_, ?_, ?_, ?_⟩
        · simp only [GeneticOptimizer.iterate, hs, hdl, hne, Bool.false_eq_true, if_false, hrp, hs2,
            if_neg hlt]
        · refine ⟨hN, hqlen, hp0c, ?_, q0, List.mem_cons_self _ _, ?_⟩
          · intro p hp
            have := hqmin p hp
            simp only
            omega
          · simp only; omega
        · simp only; omega
        · simp only [Bool.false_eq_true, false_iff]; omega

theorem ga_create_inv (initial : Tour) (populationSize mutationRate : Int) (seed : Rng)
    (h : 1 ≤ populationSize) :
    GeneticOptimizer.Inv (GeneticOptimizer.create initial populationSize mutationRate seed) := by
  refine ⟨h, ?_, rfl, ?_, initial, ?_, rfl⟩
  · simp [GeneticOptimizer.create]; omega
  · intro p hp
    simp only [GeneticOptimizer.create] at hp ⊢
    rw [List.eq_of_mem_replicate hp]
  · simp only [GeneticOptimizer.create]
    exact List.mem_replicate.mpr ⟨by omega, rfl⟩


/-! ## Local search and annealing: one step -/

theorem twoOpt_step (s : TwoOptOptimizer) :
    (TwoOptOptimizer.iterate s).1.m_best.m_cost ≤ s.m_best.m_cost ∧
    ((TwoOptOptimizer.iterate s).2 = true ↔
      (TwoOptOptimizer.iterate s).1.m_best.m_cost < s.m_best.m_cost) := by
  unfold TwoOptOptimizer.iterate
  split
  · simp
  · split
    · simp
    · dsimp only
      split
      · split
        · next h => simp only [true_iff]; omega
        · simp
      · simp

theorem ils_applyBest_best (s : IlsOptimizer) :
    (IlsOptimizer.applyBest2OptMove s).1.m_best = s.m_best := by
  unfold IlsOptimizer.applyBest2OptMove
  split
  · rfl
  · split
    · rfl
    · dsimp only
      split <;> rfl

theorem ils_doubleBridge_best (t : IlsOptimizer) :
    (IlsOptimizer.doubleBridgePerturbation t).m_best = t.m_best := by
  unfold IlsOptimizer.doubleBridgePerturbation
  split <;> rfl

theorem ils_record (t : IlsOptimizer) :
    (IlsOptimizer.recordIfBetter t).1.m_best.m_cost ≤ t.m_best.m_cost ∧
    ((IlsOptimizer.recordIfBetter t).2 = true ↔
      (IlsOptimizer.recordIfBetter t).1.m_best.m_cost < t.m_best.m_cost) := by
  unfold IlsOptimizer.recordIfBetter
  split
  · simp only [true_iff]; omega
  · simp

theorem ils_step (s : IlsOptimizer) :
    (IlsOptimizer.iterate s).1.m_best.m_cost ≤ s.m_best.m_cost ∧
    ((IlsOptimizer.iterate s).2 = true ↔
      (IlsOptimizer.iterate s).1.m_best.m_cost < s.m_best.m_cost) := by
  have hA := ils_applyBest_best s
  unfold IlsOptimizer.iterate
  split
  · simp
  · dsimp only
    split
    · have h := ils_record { (IlsOptimizer.applyBest2OptMove s).1 with m_noImprove := 0 }
      simpa only [hA] using h
    · split
      · have h := ils_record
          { IlsOptimizer.doubleBridgePerturbation
              { (IlsOptimizer.applyBest2OptMove s).1 with
                m_noImprove := (IlsOptimizer.applyBest2OptMove s).1.m_noImprove + 1 } with
            m_current := Tour.evaluate
              (IlsOptimizer.doubleBridgePerturbation
                { (IlsOptimizer.applyBest2OptMove s).1 with
                  m_noImprove := (IlsOptimizer.applyBest2OptMove s).1.m_noImprove + 1 }).m_current
            m_noImprove := 0 }
        simpa only [ils_doubleBridge_best, hA] using h
      · simp [hA]

theorem sa_record (t : SimAnnealOptimizer) :
    (SimAnnealOptimizer.coolAndRecord t).1.m_best.m_cost ≤ t.m_best.m_cost ∧
    ((SimAnnealOptimizer.coolAndRecord t).2 = true ↔
      (SimAnnealOptimizer.coolAndRecord t).1.m_best.m_cost < t.m_best.m_cost) := by
  unfold SimAnnealOptimizer.coolAndRecord
  dsimp only
  split
  · simp only [true_iff]; omega
  · simp

theorem sa_applyMove (expGt : Int → ℚ → Nat → Bool) (s : SimAnnealOptimizer)
    (inst : TspInstance) (i j : Nat) (g : Rng) :
    (SimAnnealOptimizer.applyMove expGt s inst i j g).1.m_best.m_cost ≤ s.m_best.m_cost ∧
    ((SimAnnealOptimizer.applyMove expGt s inst i j g).2 = true ↔
      (SimAnnealOptimizer.applyMove expGt s inst i j g).1.m_best.m_cost < s.m_best.m_cost) := by
  unfold SimAnnealOptimizer.applyMove
  exact sa_record _

theorem sa_step (expGt : Int → ℚ → Nat → Bool) (s s' : SimAnnealOptimizer) (b : Bool)
    (h : SimAnnealOptimizer.iterate expGt s = some (s', b)) :
    s'.m_best.m_cost ≤ s.m_best.m_cost ∧ (b = true ↔ s'.m_best.m_cost < s.m_best.m_cost) := by
  unfold SimAnnealOptimizer.iterate at h
  split at h
  · cases h; simp
  · dsimp only at h
    split at h
    · cases h; simp
    · split at h
      · cases h; simp
      · split at h
        · cases h
        · simp only [Option.some.injEq] at h
          have hs := congrArg Prod.fst h
          have hb := congrArg Prod.snd h
          dsimp only at hs hb
          subst hs hb
          exact sa_applyMove expGt s _ _ _ _

theorem sa_total (expGt : Int → ℚ → Nat → Bool) (s : SimAnnealOptimizer)
    (h : s.m_current.m_instance.isSome) :
    ∃ s' b, SimAnnealOptimizer.iterate expGt s = some (s', b) := by
  unfold SimAnnealOptimizer.iterate
  split
  · exact ⟨_, _, rfl⟩
  · dsimp only
    split
    · exact ⟨_, _, rfl⟩
    · split
      · exact ⟨_, _, rfl⟩
      · split
        · next hn => rw [hn] at h; cases h
        · exact ⟨_, _, rfl⟩


theorem costOf_eq_pathCost (inst : TspInstance) (ord : List Int) :
    costOf (some inst) ord = pathCost inst.m_points ord := by
  unfold costOf
  dsimp only
  split
  · next h =>
    match ord, h with
    | [], _ => rfl
    | [_], _ => rfl
  · exact evaluateLoop_eq_pathCost _ _

theorem mkWithOrder_ok (i? : Option TspInstance) (ord : List Int) (t : Tour)
    (h : Tour.mkWithOrder i? ord = .ok t) :
    t.m_cost = costOf i? ord ∧ t.m_order = ord ∧ t.m_instance = i? := by
  unfold Tour.mkWithOrder at h
  cases i? with
  | none => cases h
  | some inst =>
    dsimp only at h
    split at h
    · cases h
    · injection h with h
      subst h
      exact ⟨by rw [evaluate_cost_some, costOf_eq_pathCost], evaluate_order _,
        evaluate_instance _⟩

/-! ## Ant colony: one step -/

theorem aco_pheromoneUpdate_best (s : AcoOptimizer) :
    (AcoOptimizer.pheromoneUpdate s).m_best = s.m_best ∧
    (AcoOptimizer.pheromoneUpdate s).m_lastBest = s.m_lastBest := ⟨rfl, rfl⟩

theorem aco_endOfAnt_best (s : AcoOptimizer) :
    (AcoOptimizer.endOfAnt s).m_best = s.m_best ∧
    (AcoOptimizer.endOfAnt s).m_lastBest = s.m_lastBest := by
  unfold AcoOptimizer.endOfAnt
  split
  · exact aco_pheromoneUpdate_best _
  · exact ⟨rfl, rfl⟩

theorem aco_recordBatchBest_best (s : AcoOptimizer) (ord : List Int) (c : Int) :
    (AcoOptimizer.recordBatchBest s ord c).m_best = s.m_best ∧
    (AcoOptimizer.recordBatchBest s ord c).m_lastBest = s.m_lastBest ∧
    (AcoOptimizer.recordBatchBest s ord c).m_instance = s.m_instance := by
  unfold AcoOptimizer.recordBatchBest
  split
  · exact ⟨rfl, rfl, rfl⟩
  · split <;> exact ⟨rfl, rfl, rfl⟩

theorem aco_updateBest (s s' : AcoOptimizer) (ord : List Int) (b : Bool)
    (hinv : s.m_best.m_cost = s.m_lastBest)
    (h : AcoOptimizer.updateBest s ord (costOf s.m_instance ord) = .ok (s', b)) :
    s'.m_best.m_cost = s'.m_lastBest ∧ s'.m_best.m_cost ≤ s.m_best.m_cost ∧
      (b = true ↔ s'.m_best.m_cost < s.m_best.m_cost) := by
  unfold AcoOptimizer.updateBest at h
  split at h
  · next hlt =>
    split at h
    · cases h
    · next t ht =>
      injection h with h
      injection h with h1 h2
      subst h1 h2
      have := (mkWithOrder_ok _ _ _ ht).1
      dsimp only
      refine ⟨rfl, by omega, by simp only [true_iff]; omega⟩
  · next hlt =>
    injection h with h
    injection h with h1 h2
    subst h1 h2
    exact ⟨hinv, le_refl _, by simp⟩

theorem aco_step (pw : ℚ → ℚ → ℚ) (s s' : AcoOptimizer) (b : Bool)
    (hinv : s.m_best.m_cost = s.m_lastBest)
    (h : AcoOptimizer.iterate pw s = .ok (s', b)) :
    s'.m_best.m_cost = s'.m_lastBest ∧ s'.m_best.m_cost ≤ s.m_best.m_cost ∧
      (b = true ↔ s'.m_best.m_cost < s.m_best.m_cost) := by
  unfold AcoOptimizer.iterate at h
  split at h
  · injection h with h
    injection h with h1 h2
    subst h1 h2
    exact ⟨hinv, le_refl _, by simp⟩
  · next inst hinst =>
    split at h
    · injection h with h
      injection h with h1 h2
      subst h1 h2
      exact ⟨hinv, le_refl _, by simp⟩
    · dsimp only at h
      split at h
      · cases h
      · next s2 improved hu =>
        injection h with h
        injection h with h1 h2
        subst h1 h2
        obtain ⟨e1, e2, e3⟩ := aco_recordBatchBest_best
          { s with m_rng := (AcoOptimizer.constructTour pw s inst.m_points).2 }
          (AcoOptimizer.constructTour pw s inst.m_points).1
          (costOf s.m_instance (AcoOptimizer.constructTour pw s inst.m_points).1)
        have hu' := aco_updateBest _ s2 _ improved (by rw [e1, e2]; exact hinv)
          (by rw [e3]; exact hu)
        rw [e1] at hu'
        obtain ⟨f1, f2⟩ := aco_endOfAnt_best s2
        rw [f1, f2]
        exact hu'

theorem aco_create_inv (initial : Tour) (ants k samples : Int) (alpha beta rho q : ℚ)
    (seed : Rng) (fuel : Nat) (s : AcoOptimizer)
    (h : AcoOptimizer.create initial ants k samples alpha beta rho q seed fuel = some s) :
    s.m_best = initial ∧ s.m_lastBest = initial.m_cost ∧ s.m_baseline = initial.m_cost := by
  unfold AcoOptimizer.create at h
  dsimp only at h
  split at h
  · unfold AcoOptimizer.buildCandidateLists at h
    dsimp only at h
    split at h
    · cases h; exact ⟨rfl, rfl, rfl⟩
    · split at h
      · cases h; exact ⟨rfl, rfl, rfl⟩
      · split at h
        · cases h
        · cases h; exact ⟨rfl, rfl, rfl⟩
  · cases h; exact ⟨rfl, rfl, rfl⟩


/-! ## Adaptive search: one step -/

theorem arq_beginGeneration_best (s : ArqOptimizer) :
    (ArqOptimizer.beginGeneration s).m_best = s.m_best ∧
    (ArqOptimizer.beginGeneration s).m_lastBest = s.m_lastBest ∧
    (ArqOptimizer.beginGeneration s).m_instance = s.m_instance := ⟨rfl, rfl, rfl⟩

theorem arq_updateMeans_best (s : ArqOptimizer) :
    (ArqOptimizer.updateMeans s).m_best = s.m_best ∧
    (ArqOptimizer.updateMeans s).m_lastBest = s.m_lastBest ∧
    (ArqOptimizer.updateMeans s).m_noImproveGen = s.m_noImproveGen ∧
    (ArqOptimizer.updateMeans s).m_stagTrigger = s.m_stagTrigger := by
  unfold ArqOptimizer.updateMeans
  split <;> exact ⟨rfl, rfl, rfl, rfl⟩

theorem arq_archiveTrim_best (s : ArqOptimizer) :
    (ArqOptimizer.archiveTrim s).m_best = s.m_best ∧
    (ArqOptimizer.archiveTrim s).m_lastBest = s.m_lastBest := by
  unfold ArqOptimizer.archiveTrim
  dsimp only
  split <;> exact ⟨rfl, rfl⟩

theorem arq_select (s s' : ArqOptimizer) (trial : List Int) (F CR : ℚ) (b : Bool)
    (hinv : s.m_best.m_cost = s.m_lastBest)
    (h : ArqOptimizer.select s trial F CR = .ok (s', b)) :
    s'.m_best.m_cost = s'.m_lastBest ∧ s'.m_best.m_cost ≤ s.m_best.m_cost ∧
      (b = true ↔ s'.m_best.m_cost < s.m_best.m_cost) := by
  unfold ArqOptimizer.select at h
  split at h
  · dsimp only at h
    split at h
    · split at h
      · split at h
        · cases h
        · next hlt t ht =>
          injection h with h
          injection h with h1 h2
          subst h1 h2
          have := (mkWithOrder_ok _ _ _ ht).1
          dsimp only at this hlt ⊢
          refine ⟨by omega, by omega, by simp only [true_iff]; omega⟩
      · injection h with h
        injection h with h1 h2
        subst h1 h2
        exact ⟨hinv, le_refl _, by simp⟩
    · injection h with h
      injection h with h1 h2
      subst h1 h2
      exact ⟨hinv, le_refl _, by simp⟩
  · cases h

theorem arq_restartLoop (bestOrd : List Int) (w : Nat) (k : Int) (s s' : ArqOptimizer)
    (hinv : s.m_best.m_cost = s.m_lastBest)
    (h : ArqOptimizer.restartLoop bestOrd w k s = .ok s') :
    s'.m_best.m_cost = s'.m_lastBest ∧ s'.m_lastBest ≤ s.m_lastBest := by
  induction w generalizing k s with
  | zero =>
    unfold ArqOptimizer.restartLoop at h
    injection h with h
    subst h
    exact ⟨hinv, le_refl _⟩
  | succ w ih =>
    unfold ArqOptimizer.restartLoop at h
    split at h
    · cases h
    · dsimp only at h
      split at h
      · split at h
        · split at h
          · cases h
          · next hlt t ht =>
            have hc := (mkWithOrder_ok _ _ _ ht).1
            have := ih _ _ (by dsimp only; exact hc) h
            dsimp only at this hlt
            exact ⟨this.1, by omega⟩
        · have key := fun hh => ih _ _ hh h
          exact key hinv
      · cases h

theorem arq_restartWorst (s s' : ArqOptimizer) (hinv : s.m_best.m_cost = s.m_lastBest)
    (h : ArqOptimizer.restartWorst s = .ok s') :
    s'.m_best.m_cost = s'.m_lastBest ∧ s'.m_lastBest ≤ s.m_lastBest := by
  unfold ArqOptimizer.restartWorst at h
  dsimp only at h
  split at h
  · cases h
  · split at h
    · cases h
    · have hb : (if s.m_rank.isEmpty = true then ArqOptimizer.beginGeneration s else s).m_best.m_cost
          = (if s.m_rank.isEmpty = true then ArqOptimizer.beginGeneration s else s).m_lastBest := by
        split <;> exact hinv
      have hl : (if s.m_rank.isEmpty = true then ArqOptimizer.beginGeneration s else s).m_lastBest
          = s.m_lastBest := by
        split <;> rfl
      have := arq_restartLoop _ _ _ _ _ hb h
      rw [hl] at this
      exact this

theorem arq_endGeneration (s s' : ArqOptimizer) (hinv : s.m_best.m_cost = s.m_lastBest)
    (h : ArqOptimizer.endGeneration s = .ok s') :
    s'.m_best.m_cost = s'.m_lastBest ∧ s'.m_lastBest ≤ s.m_lastBest := by
  obtain ⟨u1, u2, -, -⟩ := arq_updateMeans_best s
  unfold ArqOptimizer.endGeneration at h
  dsimp only at h
  split at h
  · injection h with h
    subst h
    obtain ⟨a1, a2⟩ := arq_archiveTrim_best
      { ArqOptimizer.updateMeans s with
        m_bestPrev := some (ArqOptimizer.updateMeans s).m_lastBest, m_noImproveGen := 0 }
    rw [a1, a2]
    dsimp only
    rw [u1, u2]
    exact ⟨hinv, le_refl _⟩
  · split at h
    · split at h
      · cases h
      · next s3 hr =>
        injection h with h
        subst h
        have := arq_restartWorst _ s3 (by dsimp only; rw [u1, u2]; exact hinv) hr
        dsimp only at this
        rw [u2] at this
        obtain ⟨a1, a2⟩ := arq_archiveTrim_best
          { s3 with m_noImproveGen := 0, m_bestPrev := some s3.m_lastBest }
        rw [a1, a2]
        exact this
    · injection h with h
      subst h
      obtain ⟨a1, a2⟩ := arq_archiveTrim_best
        { ArqOptimizer.updateMeans s with
          m_noImproveGen := (ArqOptimizer.updateMeans s).m_noImproveGen + 1 }
      rw [a1, a2]
      dsimp only
      rw [u1, u2]
      exact ⟨hinv, le_refl _⟩

theorem arq_advanceTarget (s s' : ArqOptimizer) (hinv : s.m_best.m_cost = s.m_lastBest)
    (h : ArqOptimizer.advanceTarget s = .ok s') :
    s'.m_best.m_cost = s'.m_lastBest ∧ s'.m_lastBest ≤ s.m_lastBest := by
  unfold ArqOptimizer.advanceTarget at h
  split at h
  · have key := fun hh => arq_endGeneration _ _ hh h
    exact key hinv
  · injection h with h
    subst h
    exact ⟨hinv, le_refl _⟩

theorem arq_step (cauchy normal : ℚ → Nat → Option ℚ) (fuel : Nat) (s s' : ArqOptimizer)
    (b : Bool) (hinv : s.m_best.m_cost = s.m_lastBest)
    (h : ArqOptimizer.iterate cauchy normal fuel s = .ok (s', b)) :
    s'.m_best.m_cost = s'.m_lastBest ∧ s'.m_best.m_cost ≤ s.m_best.m_cost ∧
      (b = true → s'.m_best.m_cost < s.m_best.m_cost) := by
  unfold ArqOptimizer.iterate at h
  split at h
  · injection h with h
    injection h with h1 h2
    subst h1 h2
    exact ⟨hinv, le_refl _, by simp⟩
  · split at h
    · cases h
    · next trial F CR g hm =>
      split at h
      · cases h
      · next s1 improved hs =>
        split at h
        · cases h
        · next s3 ha =>
          injection h with h
          injection h with h1 h2
          subst h1 h2
          have hb : ({ (if s.m_target = 0 then ArqOptimizer.beginGeneration s else s) with
              m_rng := g } : ArqOptimizer).m_best.m_cost =
              ({ (if s.m_target = 0 then ArqOptimizer.beginGeneration s else s) with
              m_rng := g } : ArqOptimizer).m_lastBest := by
            dsimp only
            split <;> exact hinv
          have hbe : ({ (if s.m_target = 0 then ArqOptimizer.beginGeneration s else s) with
              m_rng := g } : ArqOptimizer).m_best = s.m_best := by
            dsimp only
            split <;> rfl
          obtain ⟨i1, i2, i3⟩ := arq_select _ s1 trial F CR improved hb hs
          obtain ⟨j1, j2⟩ := arq_advanceTarget s1 s3 i1 ha
          rw [hbe] at i2 i3
          refine ⟨j1, by omega, fun hi => ?_⟩
          have := i3.mp hi
          omega


/-! ## The 2-opt sampling loop -/

theorem orderPair_lt (i j : Nat) (h : i ≠ j) : (orderPair i j).1 < (orderPair i j).2 := by
  unfold orderPair
  split <;> simp <;> omega

theorem orderPair_le_max (i j m : Nat) (hi : i ≤ m) (hj : j ≤ m) : (orderPair i j).2 ≤ m := by
  unfold orderPair
  split <;> simp <;> omega

theorem sampledPairs_valid (n k : Nat) (g : Rng) (hn : 0 < n) :
    ∀ p ∈ sampledPairs n k g, p.1 + 1 < p.2 ∧ p.2 < n := by
  induction k generalizing g with
  | zero => intro p hp; simp [sampledPairs] at hp
  | succ k ih =>
    intro p hp
    unfold sampledPairs at hp
    dsimp only at hp
    split at hp
    · exact ih _ p hp
    · next hc =>
      rcases List.mem_cons.mp hp with rfl | hp
      · have h1 := uniformInt_le 0 (n - 1) g (by omega)
        have h2 := uniformInt_le 0 (n - 1) (uniformInt 0 (n - 1) g).2 (by omega)
        have h3 := orderPair_le_max _ _ _ h1 h2
        omega
      · exact ih _ p hp

theorem sampleLoop_spec (delta : Nat → Nat → Int) (n k : Nat) (g : Rng) (acc : BestMove) :
    ((sampleLoop delta n k g acc).1 = acc ∧
      ∀ p ∈ sampledPairs n k g, acc.bestDelta ≤ delta p.1 p.2) ∨
    (∃ pre p post, sampledPairs n k g = pre ++ p :: post ∧
      (sampleLoop delta n k g acc).1 = ⟨delta p.1 p.2, (p.1 : Int), (p.2 : Int)⟩ ∧
      delta p.1 p.2 < acc.bestDelta ∧
      (∀ q ∈ pre, delta p.1 p.2 < delta q.1 q.2) ∧
      (∀ q ∈ post, delta p.1 p.2 ≤ delta q.1 q.2)) := by
  induction k generalizing g acc with
  | zero => left; simp [sampleLoop, sampledPairs]
  | succ k ih =>
    unfold sampleLoop sampledPairs
    dsimp only
    by_cases h1 : (uniformInt 0 (n - 1) g).1 = (uniformInt 0 (n - 1) (uniformInt 0 (n - 1) g).2).1
    · rw [if_pos h1, if_pos (Or.inl h1)]
      exact ih _ _
    · rw [if_neg h1]
      by_cases h2 : ((orderPair (uniformInt 0 (n - 1) g).1
          (uniformInt 0 (n - 1) (uniformInt 0 (n - 1) g).2).1).2 : Int) -
          ((orderPair (uniformInt 0 (n - 1) g).1
          (uniformInt 0 (n - 1) (uniformInt 0 (n - 1) g).2).1).1 : Int) ≤ 1
      · rw [if_pos h2, if_pos (Or.inr h2)]
        exact ih _ _
      · have hor : ¬ ((uniformInt 0 (n - 1) g).1 =
            (uniformInt 0 (n - 1) (uniformInt 0 (n - 1) g).2).1 ∨
            ((orderPair (uniformInt 0 (n - 1) g).1
              (uniformInt 0 (n - 1) (uniformInt 0 (n - 1) g).2).1).2 : Int) -
            ((orderPair (uniformInt 0 (n - 1) g).1
              (uniformInt 0 (n - 1) (uniformInt 0 (n - 1) g).2).1).1 : Int) ≤ 1) := by
          intro h; rcases h with h | h
          · exact h1 h
          · exact h2 h
        rw [if_neg h2, if_neg hor]
        generalize orderPair (uniformInt 0 (n - 1) g).1
          (uniformInt 0 (n - 1) (uniformInt 0 (n - 1) g).2).1 = p0
        generalize (uniformInt 0 (n - 1) (uniformInt 0 (n - 1) g).2).2 = g2
        by_cases h3 : delta p0.1 p0.2 < acc.bestDelta
        · rw [if_pos h3]
          rcases ih g2 ⟨delta p0.1 p0.2, p0.1, p0.2⟩ with
            ⟨e, hall⟩ | ⟨pre, p, post, hp, e, hlt, hpre, hpost⟩
          · right
            exact ⟨[], p0, sampledPairs n k g2, rfl, e, h3, by simp, hall⟩
          · right
            refine ⟨p0 :: pre, p, post, by rw [hp]; rfl, e, ?_, ?_, hpost⟩
            · dsimp only at hlt; omega
            · intro q hq
              rcases List.mem_cons.mp hq with rfl | hq
              · exact hlt
              · exact hpre q hq
        · rw [if_neg h3]
          rcases ih g2 acc with ⟨e, hall⟩ | ⟨pre, p, post, hp, e, hlt, hpre, hpost⟩
          · left
            refine ⟨e, ?_⟩
            intro q hq
            rcases List.mem_cons.mp hq with rfl | hq
            · omega
            · exact hall q hq
          · right
            refine ⟨p0 :: pre, p, post, by rw [hp]; rfl, e, hlt, ?_, hpost⟩
            intro q hq
            rcases List.mem_cons.mp hq with rfl | hq
            · omega
            · exact hpre q hq


theorem inSync_iff (inst : TspInstance) (ord : List Int) (c : Int) :
    Tour.InSync ⟨some inst, ord, c⟩ ↔ c = pathCost inst.m_points ord := by
  unfold Tour.InSync
  rw [evaluate_cost_some]
  exact eq_comm

theorem evaluate_some_eq (inst : TspInstance) (ord : List Int) (c : Int) :
    Tour.evaluate ⟨some inst, ord, c⟩ = ⟨some inst, ord, pathCost inst.m_points ord⟩ := by
  unfold Tour.evaluate
  cases ord with
  | nil => simp [pathCost]
  | cons a l => simp [evaluateLoop_eq_pathCost]

theorem evaluate_inSync (t : Tour) : Tour.InSync (Tour.evaluate t) := by
  rcases t with ⟨_ | inst, ord, c⟩
  · rfl
  · rw [evaluate_some_eq, inSync_iff]

/-- C10: in a `TwoOptOptimizer` seeded with an in-sync tour of at least four
nodes (current and best tour coincide and are in sync, which the constructor
establishes and every step keeps): if some valid pair sampled in the step has
negative delta, `iterate` reverses exactly the segment of the sampled pair of
least delta, the first such in sampling order, the current and the best cost
both change by exactly that delta, and the result is `true`; if no sampled
pair has negative delta, the tours are unchanged and the result is `false`. -/
theorem C10_two_opt_step (s : TwoOptOptimizer) (inst : TspInstance)
    (hbest : s.m_best = s.m_current) (hn : 4 ≤ s.m_current.size)
    (hinst : s.m_current.m_instance = some inst) (hsync : Tour.InSync s.m_current) :
    ((∃ p ∈ sampledPairs s.m_current.size s.m_checksPerIter.toNat s.m_rng,
        TwoOptOptimizer.deltaReverseOpen inst.m_points s.m_current.m_order p.1 p.2 < 0) →
      ∃ pre p post,
        sampledPairs s.m_current.size s.m_checksPerIter.toNat s.m_rng = pre ++ p :: post ∧
        (∀ q ∈ pre, TwoOptOptimizer.deltaReverseOpen inst.m_points s.m_current.m_order p.1 p.2
          < TwoOptOptimizer.deltaReverseOpen inst.m_points s.m_current.m_order q.1 q.2) ∧
        (∀ q ∈ post, TwoOptOptimizer.deltaReverseOpen inst.m_points s.m_current.m_order p.1 p.2
          ≤ TwoOptOptimizer.deltaReverseOpen inst.m_points s.m_current.m_order q.1 q.2) ∧
        (TwoOptOptimizer.iterate s).1.m_current.m_order =
          reverseSegment s.m_current.m_order p.1 p.2 ∧
        (TwoOptOptimizer.iterate s).1.m_current.m_cost = s.m_current.m_cost
          + TwoOptOptimizer.deltaReverseOpen inst.m_points s.m_current.m_order p.1 p.2 ∧
        (TwoOptOptimizer.iterate s).1.m_best.m_cost = s.m_best.m_cost
          + TwoOptOptimizer.deltaReverseOpen inst.m_points s.m_current.m_order p.1 p.2 ∧
        (TwoOptOptimizer.iterate s).2 = true) ∧
    ((∀ p ∈ sampledPairs s.m_current.size s.m_checksPerIter.toNat s.m_rng,
        0 ≤ TwoOptOptimizer.deltaReverseOpen inst.m_points s.m_current.m_order p.1 p.2) →
      (TwoOptOptimizer.iterate s).1.m_current = s.m_current ∧
      (TwoOptOptimizer.iterate s).1.m_best = s.m_best ∧
      (TwoOptOptimizer.iterate s).2 = false) ∧
    TwoOptOptimizer.Inv (TwoOptOptimizer.iterate s).1 ∧
    (∀ (initial : Tour) (checksPerIter : Int) (seed : Rng), 4 ≤ initial.size →
      initial.m_instance.isSome → Tour.InSync initial →
      TwoOptOptimizer.Inv (TwoOptOptimizer.create initial checksPerIter seed)) := by
  have hsz : s.m_current.size = s.m_current.m_order.length := rfl
  have hcost : s.m_current.m_cost = pathCost inst.m_points s.m_current.m_order := by
    have := hsync
    unfold Tour.InSync at this
    rw [← this]
    have e : s.m_current = ⟨some inst, s.m_current.m_order, s.m_current.m_cost⟩ := by
      rw [← hinst]
    rw [e, evaluate_cost_some]
  have hit : TwoOptOptimizer.iterate s =
      (let r := sampleLoop (TwoOptOptimizer.deltaReverseOpen inst.m_points s.m_current.m_order)
        s.m_current.size s.m_checksPerIter.toNat s.m_rng ⟨0, -1, -1⟩
       if r.1.bestI ≥ 0 then
        let cur := Tour.evaluate
          { s.m_current with
            m_order := reverseSegment s.m_current.m_order r.1.bestI.toNat r.1.bestJ.toNat }
        if cur.m_cost < s.m_best.m_cost then
          ({ s with m_rng := r.2, m_current := cur, m_best := cur }, true)
        else ({ s with m_rng := r.2, m_current := cur }, false)
       else ({ s with m_rng := r.2 }, false)) := by
    unfold TwoOptOptimizer.iterate
    rw [if_neg (by omega)]
    rw [hinst]
  have hvalid := sampledPairs_valid s.m_current.size s.m_checksPerIter.toNat s.m_rng (by omega)
  have hspec := sampleLoop_spec (TwoOptOptimizer.deltaReverseOpen inst.m_points s.m_current.m_order)
    s.m_current.size s.m_checksPerIter.toNat s.m_rng ⟨0, -1, -1⟩
  -- the two possible outcomes of the sampling loop
  have hA : (∀ p ∈ sampledPairs s.m_current.size s.m_checksPerIter.toNat s.m_rng,
        0 ≤ TwoOptOptimizer.deltaReverseOpen inst.m_points s.m_current.m_order p.1 p.2) →
      TwoOptOptimizer.iterate s = ({ s with m_rng := (sampleLoop
        (TwoOptOptimizer.deltaReverseOpen inst.m_points s.m_current.m_order)
        s.m_current.size s.m_checksPerIter.toNat s.m_rng ⟨0, -1, -1⟩).2 }, false) := by
    intro hall
    rcases hspec with ⟨e, -⟩ | ⟨pre, p, post, hp, -, hlt, -, -⟩
    · rw [hit]
      dsimp only
      rw [e]
      rfl
    · have := hall p (by rw [hp]; simp)
      dsimp only at hlt
      omega
  have hB : ∀ pre p post,
      sampledPairs s.m_current.size s.m_checksPerIter.toNat s.m_rng = pre ++ p :: post →
      (sampleLoop (TwoOptOptimizer.deltaReverseOpen inst.m_points s.m_current.m_order)
        s.m_current.size s.m_checksPerIter.toNat s.m_rng ⟨0, -1, -1⟩).1 =
        ⟨TwoOptOptimizer.deltaReverseOpen inst.m_points s.m_current.m_order p.1 p.2,
          (p.1 : Int), (p.2 : Int)⟩ →
      TwoOptOptimizer.deltaReverseOpen inst.m_points s.m_current.m_order p.1 p.2 < 0 →
      TwoOptOptimizer.iterate s =
        ({ s with
            m_rng := (sampleLoop
              (TwoOptOptimizer.deltaReverseOpen inst.m_points s.m_current.m_order)
              s.m_current.size s.m_checksPerIter.toNat s.m_rng ⟨0, -1, -1⟩).2
            m_current := ⟨some inst, reverseSegment s.m_current.m_order p.1 p.2,
              s.m_current.m_cost
                + TwoOptOptimizer.deltaReverseOpen inst.m_points s.m_current.m_order p.1 p.2⟩
            m_best := ⟨some inst, reverseSegment s.m_current.m_order p.1 p.2,
              s.m_current.m_cost
                + TwoOptOptimizer.deltaReverseOpen inst.m_points s.m_current.m_order p.1 p.2⟩ },
          true) := by
    intro pre p post hp e hlt
    have hv := hvalid p (by rw [hp]; simp)
    have hd := twoOpt_delta_eq inst.m_points s.m_current.m_order p.1 p.2 (by omega) hv.1
      (by omega)
    have hev : Tour.evaluate { s.m_current with
        m_order := reverseSegment s.m_current.m_order p.1 p.2 } =
        ⟨some inst, reverseSegment s.m_current.m_order p.1 p.2,
          s.m_current.m_cost
            + TwoOptOptimizer.deltaReverseOpen inst.m_points s.m_current.m_order p.1 p.2⟩ := by
      have e1 : ({ s.m_current with m_order := reverseSegment s.m_current.m_order p.1 p.2 } : Tour)
          = ⟨some inst, reverseSegment s.m_current.m_order p.1 p.2, s.m_current.m_cost⟩ := by
        rw [← hinst]
      rw [e1]
      rw [evaluate_some_eq]
      congr 1
      omega
    rw [hit]
    dsimp only
    rw [e]
    dsimp only
    rw [if_pos (by omega), Int.toNat_ofNat, Int.toNat_ofNat, hev]
    dsimp only
    rw [if_pos (by rw [hbest]; omega)]
  refine ⟨?_, ?_, ?_, ?_⟩
  · rintro ⟨p1, hp1, hneg⟩
    rcases hspec with ⟨-, hall⟩ | ⟨pre, p, post, hp, e, hlt, hpre, hpost⟩
    · have := hall p1 hp1
      dsimp only at this
      omega
    · dsimp only at hlt
      refine ⟨pre, p, post, hp, hpre, hpost, ?_⟩
      rw [hB pre p post hp e hlt]
      refine ⟨rfl, rfl, ?_, rfl⟩
      dsimp only
      rw [hbest]
  · intro hall
    rw [hA hall]
    exact ⟨rfl, rfl, rfl⟩
  · rcases hspec with ⟨e, hall⟩ | ⟨pre, p, post, hp, e, hlt, hpre, hpost⟩
    · rw [hA hall]
      exact ⟨hbest, hn, by rw [hinst]; rfl, hsync⟩
    · dsimp only at hlt
      have hv := hvalid p (by rw [hp]; simp)
      have hd := twoOpt_delta_eq inst.m_points s.m_current.m_order p.1 p.2 (by omega) hv.1
        (by omega)
      rw [hB pre p post hp e hlt]
      refine ⟨rfl, ?_, rfl, ?_⟩
      · have := (reverseSegment_perm s.m_current.m_order p.1 p.2 (by omega)).length_eq
        show 4 ≤ (reverseSegment s.m_current.m_order p.1 p.2).length
        omega
      · rw [inSync_iff]
        omega
  · intro initial checksPerIter seed h4 hi hs
    exact ⟨rfl, h4, hi, hs⟩


/-! ## Constructors and totality -/


theorem arq_seedLoop (base : List Int) (k : Nat) (i : Int) (s s' : ArqOptimizer)
    (hinv : s.m_best.m_cost = s.m_lastBest)
    (h : ArqOptimizer.seedLoop base k i s = .ok s') :
    s'.m_best.m_cost = s'.m_lastBest ∧ s'.m_lastBest ≤ s.m_lastBest ∧
      s'.m_baseline = s.m_baseline := by
  induction k generalizing i s with
  | zero =>
    unfold ArqOptimizer.seedLoop at h
    injection h with h
    subst h
    exact ⟨hinv, le_refl _, rfl⟩
  | succ k ih =>
    unfold ArqOptimizer.seedLoop at h
    dsimp only at h
    split at h
    · split at h
      · cases h
      · next hlt t ht =>
        have hc := (mkWithOrder_ok _ _ _ ht).1
        have key := fun hh => ih _ _ hh h
        have := key hc
        dsimp only at this hlt
        exact ⟨this.1, by omega, this.2.2⟩
    · have key := fun hh => ih _ _ hh h
      exact key hinv

theorem arq_create_inv (initial : Tour) (populationSize : Int) (seed : Rng) (s : ArqOptimizer)
    (h : ArqOptimizer.create initial populationSize seed = .ok s) :
    s.m_best.m_cost = s.m_lastBest ∧ s.m_lastBest ≤ initial.m_cost ∧
      s.m_baseline = initial.m_cost := by
  unfold ArqOptimizer.create at h
  dsimp only at h
  split at h
  · injection h with h
    subst h
    exact ⟨rfl, le_refl _, rfl⟩
  · split at h
    · cases h
    · next s1 hs =>
      injection h with h
      subst h
      have key := fun hh => arq_seedLoop _ _ _ _ s1 hh hs
      exact key rfl

/-- For `4 ≤ n ≤ 10` the segment length is clamped up to `10`, which exceeds
the `n - 1` free positions: the start distribution has an empty range. -/
theorem orderCrossover_small (n : Nat) (a b : List Int) (CR : ℚ) (g : Rng)
    (h4 : 4 ≤ n) (h10 : n ≤ 10) :
    ArqOptimizer.orderCrossover n a b CR g = .error badRange := by
  unfold ArqOptimizer.orderCrossover
  rw [if_neg (by omega)]
  dsimp only
  rw [if_pos]
  have h1 : min ((n : Int) - 1) 800 ≤ 9 := by omega
  have h2 := min_le_left (min ((n : Int) - 1) 800) (roundQ (CR * (((n : Int) - 1 : Int) : ℚ)))
  have h3 : max 10 (min (min ((n : Int) - 1) 800) (roundQ (CR * (((n : Int) - 1 : Int) : ℚ)))) = 10 :=
    max_eq_left (by omega)
  rw [h3]
  omega

/-! ### The crossover for `n ≥ 11` -/

theorem getE_ok {α : Type} (v : List α) (i : Nat) (h : i < v.length) :
    getE v (i : Int) = .ok v[i] := by
  unfold getE
  rw [if_pos (by omega), Int.toNat_ofNat, List.get?_eq_get h]
  rfl

theorem setE_ok {α : Type} (v : List α) (i : Nat) (x : α) (h : i < v.length) :
    setE v (i : Int) x = .ok (v.set i x) := by
  unfold setE
  rw [if_pos ⟨by omega, by rw [Int.toNat_ofNat]; exact h⟩, Int.toNat_ofNat]

theorem isPermutation_length (a : List Int) (n : Nat) (h : IsPermutation a n) : a.length = n := by
  have := h.length_eq
  simpa using this

theorem isPermutation_mem (a : List Int) (n : Nat) (h : IsPermutation a n) (x : Int) :
    x ∈ a ↔ 0 ≤ x ∧ x < n := by
  rw [h.mem_iff]
  simp only [List.mem_map, List.mem_range]
  constructor
  · rintro ⟨k, hk, rfl⟩
    exact ⟨Int.ofNat_nonneg k, Int.ofNat_lt.mpr hk⟩
  · rintro ⟨h0, h1⟩
    refine ⟨x.toNat, by omega, ?_⟩
    exact Int.toNat_of_nonneg h0

theorem isPermutation_nodup (a : List Int) (n : Nat) (h : IsPermutation a n) : a.Nodup := by
  rw [h.nodup_iff]
  exact (List.nodup_range n).map (fun _ _ h => Int.ofNat.inj h)

theorem OxState.perm {n : Nat} {child : List Int} {used : List Bool} {W W' : List Int}
    (h : OxState n child used W) (hp : W.Perm W') : OxState n child used W' :=
  ⟨h.hc, h.hu, h.hW.trans hp, fun v hv => (h.hused v hv).trans hp.mem_iff,
    hp.nodup_iff.mp h.hnodup, fun x hx => h.hrange x (hp.mem_iff.mpr hx)⟩

theorem filter_set_hole (child : List Int) (p : Nat) (v : Int) (hp : p < child.length)
    (he : child[p] = -1) (hv : v ≠ -1) :
    ((child.set p v).filter (fun x => decide (x ≠ -1))).Perm
      (v :: child.filter (fun x => decide (x ≠ -1))) := by
  have e : child = child.take p ++ child[p] :: child.drop (p + 1) := by
    rw [← List.drop_eq_getElem_cons hp, List.take_append_drop]
  have hlen : (child.take p).length = p := by
    rw [List.length_take]; omega
  have e2 : child.set p v = child.take p ++ v :: child.drop (p + 1) := by
    conv_lhs => rw [e]
    rw [List.set_append_right _ _ (by omega)]
    rw [hlen, Nat.sub_self, List.set_cons_zero]
  rw [e2]
  conv_rhs => rw [e]
  rw [he]
  simp only [List.filter_append, List.filter_cons]
  simp only [hv, ne_eq, not_false_eq_true, decide_True, if_true, not_true_eq_false,
    decide_False, Bool.false_eq_true, if_false]
  exact List.perm_middle

theorem OxState.write {n : Nat} {child : List Int} {used : List Bool} {W : List Int}
    (h : OxState n child used W) (p : Nat) (v : Nat) (hp : p < n) (hv : v < n)
    (he : child.getD p 0 = -1) (hu : (v : Int) ∉ W) :
    OxState n (child.set p (v : Int)) (used.set v true) ((v : Int) :: W) := by
  have hpc : p < child.length := by rw [h.hc]; exact hp
  have he' : child[p] = -1 := by
    rw [← getD_eq_getElem child p hpc]; exact he
  refine ⟨by rw [List.length_set]; exact h.hc, by rw [List.length_set]; exact h.hu, ?_, ?_, ?_, ?_⟩
  · exact (filter_set_hole child p v hpc he' (by omega)).trans (List.Perm.cons _ h.hW)
  · intro v' hv'
    rw [List.getD_eq_getElem?_getD, List.getElem?_set]
    by_cases hvv : v = v'
    · subst hvv
      rw [if_pos rfl, if_pos (by rw [h.hu]; exact hv)]
      simp
    · rw [if_neg hvv, ← List.getD_eq_getElem?_getD, h.hused v' hv', List.mem_cons]
      constructor
      · exact Or.inr
      · rintro (h1 | h1)
        · exact absurd (by exact_mod_cast h1.symm) hvv
        · exact h1
  · exact List.nodup_cons.mpr ⟨hu, h.hnodup⟩
  · intro x hx
    rcases List.mem_cons.mp hx with rfl | hx
    · exact ⟨by omega, by exact_mod_cast hv⟩
    · exact h.hrange x hx

theorem getD_set_int (child : List Int) (p q : Nat) (v : Int) (hp : p < child.length) :
    (child.set p v).getD q 0 = if q = p then v else child.getD q 0 := by
  rw [List.getD_eq_getElem?_getD, List.getElem?_set]
  by_cases h : p = q
  · subst h
    rw [if_pos rfl, if_pos hp, if_pos rfl]
    rfl
  · rw [if_neg h, if_neg (fun e => h e.symm), List.getD_eq_getElem?_getD]

/-- The copy loop stays in bounds, fills exactly the positions `i, ..., i + k
- 1` and records their values. -/
theorem copySegment_spec (n : Nat) (b : List Int) (hb : IsPermutation b n) (k i : Nat)
    (child : List Int) (used : List Bool) (W : List Int)
    (hik : i + k ≤ n) (hst : OxState n child used W)
    (hemp : ∀ p, i ≤ p → p < i + k → child.getD p 0 = -1)
    (hnd : ((b.drop i).take k ++ W).Nodup) :
    ∃ child' used', ArqOptimizer.copySegment b k (i : Int) child used = .ok (child', used') ∧
      OxState n child' used' ((b.drop i).take k ++ W) ∧
      (∀ p, p < n → (child'.getD p 0 = -1 ↔ (child.getD p 0 = -1 ∧ ¬ (i ≤ p ∧ p < i + k)))) ∧
      (∀ p, p < i → child'.getD p 0 = child.getD p 0) := by
  induction k generalizing i child used W with
  | zero =>
    refine ⟨child, used, rfl, ?_, ?_, fun _ _ => rfl⟩
    · simpa using hst
    · intro p _
      constructor
      · intro h; exact ⟨h, by omega⟩
      · intro h; exact h.1
  | succ k ih =>
    have hbl := isPermutation_length b n hb
    have hi : i < b.length := by omega
    have hmem : b[i] ∈ b := List.getElem_mem hi
    obtain ⟨h0, h1⟩ := (isPermutation_mem b n hb b[i]).mp hmem
    obtain ⟨v, hv⟩ := Int.eq_ofNat_of_zero_le h0
    have hvn : v < n := by omega
    have hdrop : (b.drop i).take (k + 1) = (v : Int) :: (b.drop (i + 1)).take k := by
      rw [List.drop_eq_getElem_cons hi, List.take_succ_cons, hv]
    rw [hdrop] at hnd ⊢
    have hvW : (v : Int) ∉ W := by
      intro hmem
      have := (List.nodup_cons.mp hnd).1
      exact this (List.mem_append_right _ hmem)
    have hci : i < child.length := by rw [hst.hc]; omega
    have hst1 := hst.write i v (by omega) hvn (hemp i (le_refl _) (by omega)) hvW
    have hnd1 : ((b.drop (i + 1)).take k ++ (v : Int) :: W).Nodup :=
      (List.perm_middle.nodup_iff).mpr hnd
    obtain ⟨child', used', e1, e2, e3, e4⟩ := ih (i + 1) (child.set i (v : Int))
      (used.set v true) ((v : Int) :: W) (by omega) hst1
      (by
        intro p hp1 hp2
        rw [getD_set_int child i p _ hci, if_neg (by omega)]
        exact hemp p (by omega) (by omega))
      hnd1
    refine ⟨child', used', ?_, ?_, ?_, ?_⟩
    · unfold ArqOptimizer.copySegment
      rw [getE_ok b i hi]
      simp only
      rw [setE_ok child i _ hci]
      simp only
      rw [hv, setE_ok used v true (by rw [hst.hu]; exact hvn)]
      simp only
      rw [← e1]
      congr 1
    · exact e2.perm List.perm_middle
    · intro p hp
      rw [e3 p hp, getD_set_int child i p _ hci]
      by_cases hpi : p = i
      · subst hpi
        rw [if_pos rfl]
        constructor
        · intro h; omega
        · intro h; omega
      · rw [if_neg hpi]
        constructor
        · intro h; exact ⟨h.1, by omega⟩
        · intro h; exact ⟨h.1, by omega⟩
    · intro p hp
      rw [e4 p (by omega), getD_set_int child i p _ hci, if_neg (by omega)]


/-- The free positions after a write at `wp`: those before, `wp` apart. -/
theorem emp_step (n s e wp p : Nat) (hs : 1 ≤ s) (hse : s ≤ e) (hen : e < n)
    (hwp1 : 1 ≤ wp) (hwpn : wp < n) (hp : p < n)
    (hcnt : 1 ≤ (if e < wp then (n - wp) + (s - 1) else s - wp)) :
    (p ≠ wp ∧ (if e < wp then (wp ≤ p ∨ (1 ≤ p ∧ p < s)) else (wp ≤ p ∧ p < s))) ↔
      (if e < (if wp + 1 ≥ n then 1 else wp + 1) then
        ((if wp + 1 ≥ n then 1 else wp + 1) ≤ p ∨ (1 ≤ p ∧ p < s))
       else ((if wp + 1 ≥ n then 1 else wp + 1) ≤ p ∧ p < s)) := by
  by_cases h1 : e < wp
  · by_cases h2 : wp + 1 ≥ n
    · simp only [h1, h2, if_true]
      rw [if_neg (by omega)]
      constructor <;> intro h <;> omega
    · simp only [h1, h2, if_true, if_false]
      rw [if_pos (by omega)]
      constructor <;> intro h <;> omega
  · have h2 : ¬ (wp + 1 ≥ n) := by
      rw [if_neg h1] at hcnt; omega
    simp only [h1, h2, if_false]
    rw [if_neg h1] at hcnt
    rw [if_neg (by omega)]
    constructor <;> intro h <;> omega

/-- A write takes one free position. -/
theorem cnt_step (n s e wp : Nat) (hs : 1 ≤ s) (hse : s ≤ e) (hen : e < n)
    (hwpn : wp < n) (c : Nat)
    (hcnt : (if e < wp then (n - wp) + (s - 1) else s - wp) = c + 1) :
    (if e < (if wp + 1 ≥ n then 1 else wp + 1) then
        (n - (if wp + 1 ≥ n then 1 else wp + 1)) + (s - 1)
       else s - (if wp + 1 ≥ n then 1 else wp + 1)) = c := by
  by_cases h1 : e < wp
  · by_cases h2 : wp + 1 ≥ n
    · simp only [h1, h2, if_true] at hcnt ⊢
      rw [if_neg (by omega)]
      omega
    · simp only [h1, h2, if_true, if_false] at hcnt ⊢
      rw [if_pos (by omega)]
      omega
  · have h2 : ¬ (wp + 1 ≥ n) := by
      rw [if_neg h1] at hcnt; omega
    simp only [h1, h2, if_false] at hcnt ⊢
    rw [if_neg (by omega)]
    omega

theorem skipSegment_outside (n : Nat) (s e wp : Nat) (h : ¬ (s ≤ wp ∧ wp ≤ e)) :
    ArqOptimizer.skipSegment n (s : Int) (e : Int) (wp : Int) = .ok (wp : Int) := by
  unfold ArqOptimizer.skipSegment
  rw [if_neg (by omega)]

/-- The fill loop stays in bounds and leaves no position free: the free
positions are those from the write position on, cyclically and the segment
apart, and there are as many of them as unused values left in `a`. -/
theorem fillFromA_spec (n : Nat) (a : List Int) (ha : IsPermutation a n) (s e : Nat)
    (hs : 1 ≤ s) (hse : s ≤ e) (hen : e < n) (k i : Nat)
    (child : List Int) (used : List Bool) (W : List Int) (wp : Nat)
    (hik : i + k = n) (hi1 : 1 ≤ i) (hst : OxState n child used W)
    (hwp1 : 1 ≤ wp) (hwpn : wp < n)
    (hemp : ∀ p, p < n → (child.getD p 0 = -1 ↔
      if e < wp then (wp ≤ p ∨ (1 ≤ p ∧ p < s)) else (wp ≤ p ∧ p < s)))
    (hcnt : (if e < wp then (n - wp) + (s - 1) else s - wp) =
      ((a.drop i).filter (fun v => decide (v ∉ W))).length) :
    ∃ child' used' W', ArqOptimizer.fillFromA n a (s : Int) (e : Int) k (i : Int) child used
        (wp : Int) = .ok (child', used') ∧
      OxState n child' used' W' ∧ (∀ x ∈ W, x ∈ W') ∧ (∀ x ∈ a.drop i, x ∈ W') ∧
      (∀ p, p < n → child'.getD p 0 ≠ -1) ∧ child'.getD 0 0 = child.getD 0 0 := by
  induction k generalizing i child used W wp with
  | zero =>
    have hal := isPermutation_length a n ha
    have hin : i = n := by omega
    subst hin
    rw [List.drop_of_length_le (by omega)] at hcnt
    simp only [List.filter_nil, List.length_nil] at hcnt
    refine ⟨child, used, W, rfl, hst, fun x hx => hx, ?_, ?_, rfl⟩
    · intro x hx
      rw [List.drop_of_length_le (by omega)] at hx
      exact absurd hx (List.not_mem_nil x)
    · intro p hp hc
      have := (hemp p hp).mp hc
      split_ifs at this hcnt <;> omega
  | succ k ih =>
    have hal := isPermutation_length a n ha
    have hi : i < a.length := by omega
    have hmem : a[i] ∈ a := List.getElem_mem hi
    obtain ⟨h0, h1⟩ := (isPermutation_mem a n ha a[i]).mp hmem
    obtain ⟨v, hv⟩ := Int.eq_ofNat_of_zero_le h0
    have hvn : v < n := by omega
    have hdrop : a.drop i = (v : Int) :: a.drop (i + 1) := by
      rw [List.drop_eq_getElem_cons hi, hv]
    have hvu : v < used.length := by rw [hst.hu]; exact hvn
    have hcast : ((i : Int) + 1) = ((i + 1 : Nat) : Int) := by push_cast; rfl
    by_cases hu : used.getD v false = true
    · -- the value is in the child already
      have hvW : (v : Int) ∈ W := (hst.hused v hvn).mp hu
      have hcnt' : (if e < wp then (n - wp) + (s - 1) else s - wp) =
          ((a.drop (i + 1)).filter (fun v => decide (v ∉ W))).length := by
        rw [hcnt, hdrop, List.filter_cons]
        simp [hvW]
      obtain ⟨child', used', W', e1, e2, e3, e4, e5, e6⟩ :=
        ih (i + 1) child used W wp (by omega) (by omega) hst hwp1 hwpn hemp hcnt'
      refine ⟨child', used', W', ?_, e2, e3, ?_, e5, e6⟩
      · unfold ArqOptimizer.fillFromA
        rw [getE_ok a i hi]
        simp only
        rw [hv, getE_ok used v hvu]
        have : used[v] = true := by
          rw [← List.getD_eq_getElem used false hvu]; exact hu
        rw [this]
        simp only
        rw [hcast]
        exact e1
      · intro x hx
        rw [hdrop] at hx
        rcases List.mem_cons.mp hx with rfl | hx
        · exact e3 _ hvW
        · exact e4 x hx
    · -- the value is written at the write position
      have hvW : (v : Int) ∉ W := fun hm => hu ((hst.hused v hvn).mpr hm)
      have hcnt1 : (if e < wp then (n - wp) + (s - 1) else s - wp) =
          ((a.drop (i + 1)).filter (fun v => decide (v ∉ W))).length + 1 := by
        rw [hcnt, hdrop, List.filter_cons]
        simp [hvW]
      have hout : ¬ (s ≤ wp ∧ wp ≤ e) := by
        split_ifs at hcnt1 <;> omega
      have hhole : child.getD wp 0 = -1 := by
        rw [hemp wp hwpn]
        split_ifs at hcnt1 ⊢ <;> omega
      have hst1 := hst.write wp v hwpn hvn hhole hvW
      have hwpc : wp < child.length := by rw [hst.hc]; exact hwpn
      have hnodup := isPermutation_nodup a n ha
      have hvrest : (v : Int) ∉ a.drop (i + 1) := by
        have : (a.drop i).Nodup := hnodup.sublist (List.drop_sublist _ _)
        rw [hdrop] at this
        exact (List.nodup_cons.mp this).1
      have hfilter : (a.drop (i + 1)).filter (fun x => decide (x ∉ (v : Int) :: W)) =
          (a.drop (i + 1)).filter (fun x => decide (x ∉ W)) := by
        apply List.filter_congr
        intro x hx
        have hxv : x ≠ (v : Int) := fun e => hvrest (e ▸ hx)
        simp [hxv]
      obtain ⟨child', used', W', e1, e2, e3, e4, e5, e6⟩ :=
        ih (i + 1) (child.set wp (v : Int)) (used.set v true) ((v : Int) :: W)
          (if wp + 1 ≥ n then 1 else wp + 1) (by omega) (by omega) hst1
          (by split_ifs <;> omega) (by split_ifs <;> omega)
          (by
            intro p hp
            rw [getD_set_int child wp p _ hwpc]
            rw [← emp_step n s e wp p hs hse hen hwp1 hwpn hp (by rw [hcnt1]; omega)]
            by_cases hpw : p = wp
            · rw [if_pos hpw]
              constructor
              · intro h; omega
              · intro h; exact absurd hpw h.1
            · rw [if_neg hpw, hemp p hp]
              constructor
              · intro h; exact ⟨hpw, h⟩
              · intro h; exact h.2)
          (by
            rw [hfilter]
            exact cnt_step n s e wp hs hse hen hwpn _ hcnt1)
      refine ⟨child', used', W', ?_, e2, fun x hx => e3 x (List.mem_cons_of_mem _ hx), ?_, e5, ?_⟩
      · unfold ArqOptimizer.fillFromA
        rw [getE_ok a i hi]
        simp only
        rw [hv, getE_ok used v hvu]
        have : used[v] = false := by
          rw [← List.getD_eq_getElem used false hvu]
          simpa using hu
        rw [this]
        simp only
        rw [skipSegment_outside n s e wp hout]
        simp only
        rw [setE_ok child wp _ hwpc]
        simp only
        rw [setE_ok used v true hvu]
        simp only
        rw [hcast]
        have hw : (if (wp : Int) + 1 ≥ (n : Int) then (1 : Int) else (wp : Int) + 1) =
            ((if wp + 1 ≥ n then 1 else wp + 1 : Nat) : Int) := by
          split_ifs <;> first | rfl | omega
        rw [hw]
        exact e1
      · intro x hx
        rw [hdrop] at hx
        rcases List.mem_cons.mp hx with rfl | hx
        · exact e3 _ (List.mem_cons_self _ _)
        · exact e4 x hx
      · rw [e6, getD_set_int child wp 0 _ hwpc, if_neg (by omega)]

theorem ox_count_split (X S Y : List Int) (hnd : (X ++ (S ++ Y)).Nodup)
    (h0 : (0 : Int) ∉ X ++ (S ++ Y)) :
    ((X ++ (S ++ Y)).filter (fun v => decide (v ∉ S ++ [0]))).length = X.length + Y.length := by
  have hX : X.filter (fun v => decide (v ∉ S ++ [0])) = X := by
    rw [List.filter_eq_self]
    intro x hx
    have h1 : x ∉ S := fun hs =>
      (List.nodup_append.mp hnd).2.2 hx (List.mem_append_left _ hs)
    have h2 : x ≠ 0 := fun e => h0 (e ▸ List.mem_append_left _ hx)
    simp [h1, h2]
  have hS : S.filter (fun v => decide (v ∉ S ++ [0])) = [] := by
    rw [List.filter_eq_nil_iff]
    intro x hx
    simp [hx]
  have hY : Y.filter (fun v => decide (v ∉ S ++ [0])) = Y := by
    rw [List.filter_eq_self]
    intro x hx
    have hsy := (List.nodup_append.mp (List.nodup_append.mp hnd).2.1)
    have h1 : x ∉ S := fun hs => hsy.2.2 hs hx
    have h2 : x ≠ 0 := fun e =>
      h0 (e ▸ List.mem_append_right _ (List.mem_append_right _ hx))
    simp [h1, h2]
  rw [List.filter_append, List.filter_append, hX, hS, hY]
  simp

theorem ox_count (ta bt : List Int) (hperm : ta.Perm bt) (hnd : bt.Nodup) (h0 : (0 : Int) ∉ bt)
    (j L : Nat) (h : j + L ≤ bt.length) :
    (ta.filter (fun v => decide (v ∉ (bt.drop j).take L ++ [0]))).length + L = bt.length := by
  rw [(hperm.filter _).length_eq]
  have e : bt = bt.take j ++ ((bt.drop j).take L ++ (bt.drop j).drop L) := by
    rw [List.take_append_drop, List.take_append_drop]
  have hc := ox_count_split (bt.take j) ((bt.drop j).take L) ((bt.drop j).drop L)
    (by rw [← e]; exact hnd) (by rw [← e]; exact h0)
  rw [← e] at hc
  rw [hc]
  simp only [List.length_take, List.length_drop]
  omega

theorem fillHoles_full (n : Nat) (k i : Nat) (child : List Int) (used : List Bool)
    (h : ∀ p, i ≤ p → p < i + k → child.getD p 0 ≠ -1) :
    ArqOptimizer.fillHoles n k i child used = child := by
  induction k generalizing i with
  | zero => rfl
  | succ k ih =>
    unfold ArqOptimizer.fillHoles
    rw [if_pos (h i (le_refl _) (by omega))]
    exact ih (i + 1) (fun p h1 h2 => h p (by omega) (by omega))

theorem child0_getD (m p : Nat) (hp : p < m + 1) :
    (((List.replicate (m + 1) (-1 : Int)).set 0 0).getD p 0) = if p = 0 then 0 else -1 := by
  rw [List.replicate_succ, List.set_cons_zero]
  cases p with
  | zero => rfl
  | succ p =>
    rw [List.getD_cons_succ, if_neg (by omega), List.getD_eq_getElem?_getD,
      List.getElem?_replicate, if_pos (by omega)]
    rfl

theorem used0_getD (m p : Nat) (hp : p < m + 1) :
    (((List.replicate (m + 1) false).set 0 true).getD p false) = decide (p = 0) := by
  rw [List.replicate_succ, List.set_cons_zero]
  cases p with
  | zero => rfl
  | succ p =>
    rw [List.getD_cons_succ, List.getD_eq_getElem?_getD,
      List.getElem?_replicate, if_pos (by omega)]
    simp


/-- The three loops of the crossover for a start `s` and a segment of `L`
positions ending at `e` within the order. -/
theorem ox_core (n : Nat) (a b : List Int) (ha : IsPermutation a n) (ha0 : a.head? = some 0)
    (hb : IsPermutation b n) (hb0 : b.head? = some 0) (s L e : Nat) (hs : 1 ≤ s) (hL : 1 ≤ L)
    (hsl : s + L ≤ n) (he : e + 1 = s + L) :
    ∃ child1 used1 child2 used2,
      ArqOptimizer.copySegment b L (s : Int) ((List.replicate n (-1 : Int)).set 0 0)
        ((List.replicate n false).set 0 true) = .ok (child1, used1) ∧
      ArqOptimizer.fillFromA n a (s : Int) (e : Int) (n - 1) ((1 : Nat) : Int)
        child1 used1 ((if e + 1 ≥ n then 1 else e + 1 : Nat) : Int) =
          .ok (child2, used2) ∧
      ArqOptimizer.fillHoles n (n - 1) 1 child2 used2 = child2 ∧
      IsPermutation child2 n ∧ child2.head? = some 0 := by
  obtain ⟨m, rfl⟩ : ∃ m, n = m + 1 := ⟨n - 1, by omega⟩
  have hal := isPermutation_length a _ ha
  have hbl := isPermutation_length b _ hb
  obtain ⟨ta, rfl⟩ : ∃ ta, a = 0 :: ta := by
    cases a with
    | nil => simp at ha0
    | cons x ta => simp at ha0; exact ⟨ta, by rw [ha0]⟩
  obtain ⟨bt, rfl⟩ : ∃ bt, b = 0 :: bt := by
    cases b with
    | nil => simp at hb0
    | cons x bt => simp at hb0; exact ⟨bt, by rw [hb0]⟩
  have hand := isPermutation_nodup _ _ ha
  have hbnd := isPermutation_nodup _ _ hb
  have hb0n : (0 : Int) ∉ bt := (List.nodup_cons.mp hbnd).1
  have hbtnd : bt.Nodup := (List.nodup_cons.mp hbnd).2
  have hperm : ta.Perm bt :=
    (List.perm_cons (0 : Int)).mp (ha.trans hb.symm)
  have hdrops : (0 :: bt).drop s = bt.drop (s - 1) := by
    obtain ⟨j, rfl⟩ : ∃ j, s = j + 1 := ⟨s - 1, by omega⟩
    rfl
  have hsub : ((bt.drop (s - 1)).take L).Sublist bt :=
    (List.take_sublist _ _).trans (List.drop_sublist _ _)
  -- the initial child
  have hst0 : OxState (m + 1) ((List.replicate (m + 1) (-1 : Int)).set 0 0)
      ((List.replicate (m + 1) false).set 0 true) [0] := by
    refine ⟨by simp, by simp, ?_, ?_, by simp, ?_⟩
    · rw [List.replicate_succ, List.set_cons_zero, List.filter_cons]
      simp [List.filter_replicate]
    · intro v hv
      rw [used0_getD m v hv]
      simp
    · intro x hx
      simp at hx
      subst hx
      exact ⟨le_refl _, by omega⟩
  obtain ⟨child1, used1, c1, c2, c3, c4⟩ := copySegment_spec (m + 1) (0 :: bt) hb L s _ _ [0]
    hsl hst0
    (by
      intro p hp1 hp2
      rw [child0_getD m p (by omega), if_neg (by omega)])
    (by
      rw [hdrops]
      refine (List.perm_append_singleton _ _).nodup_iff.mpr (List.nodup_cons.mpr ⟨?_, ?_⟩)
      · exact fun h => hb0n (hsub.subset h)
      · exact hbtnd.sublist hsub)
  have hcount := ox_count ta bt hperm hbtnd hb0n (s - 1) L (by simp at hbl; omega)
  have hbtl : bt.length = m := by simpa using hbl
  obtain ⟨child2, used2, W', f1, f2, f3, f4, f5, f6⟩ := fillFromA_spec (m + 1) (0 :: ta) ha s
    e hs (by omega) (by omega) m 1 child1 used1 _
    (if e + 1 ≥ m + 1 then 1 else e + 1) (by omega) (le_refl _) c2
    (by split_ifs <;> omega) (by split_ifs <;> omega)
    (by
      intro p hp
      rw [c3 p hp, child0_getD m p hp]
      split_ifs <;> constructor <;> intro h <;>
        first | omega | exact h.1.elim)
    (by
      rw [hdrops]
      have : (0 :: ta).drop 1 = ta := rfl
      rw [this]
      split_ifs <;> omega)
  have hc2l : child2.length = m + 1 := f2.hc
  have hnoholes : ∀ x ∈ child2, x ≠ -1 := by
    intro x hx
    obtain ⟨p, hp, rfl⟩ := List.getElem_of_mem hx
    rw [← getD_eq_getElem child2 p hp]
    exact f5 p (by omega)
  have hfil : child2.filter (fun x => decide (x ≠ -1)) = child2 := by
    rw [List.filter_eq_self]
    intro x hx
    simpa using hnoholes x hx
  have hW' : W'.Perm (0 :: ta) := by
    rw [List.perm_ext_iff_of_nodup f2.hnodup hand]
    intro x
    constructor
    · intro hx
      exact (isPermutation_mem _ _ ha x).mpr (by
        have := f2.hrange x hx
        exact ⟨this.1, by exact_mod_cast this.2⟩)
    · intro hx
      rcases List.mem_cons.mp hx with rfl | hx
      · exact f3 _ (by simp)
      · exact f4 x hx
  refine ⟨child1, used1, child2, used2, c1, f1, ?_, ?_, ?_⟩
  · exact fillHoles_full _ _ _ _ _ (fun p h1 h2 => f5 p (by omega))
  · have := f2.hW
    rw [hfil] at this
    exact (this.trans hW').trans ha
  · have h0 : child2.getD 0 0 = 0 := by
      rw [f6, c4 0 (by omega), child0_getD m 0 (by omega), if_pos rfl]
    cases child2 with
    | nil => simp at hc2l
    | cons x rest =>
      simp at h0
      simp [h0]

/-- For `n ≥ 11` the crossover returns a permutation with node 0 first. -/
theorem orderCrossover_large (n : Nat) (a b : List Int) (CR : ℚ) (g : Rng) (hn : 11 ≤ n)
    (ha : IsPermutation a n) (ha0 : a.head? = some 0)
    (hb : IsPermutation b n) (hb0 : b.head? = some 0) :
    ∃ child g', ArqOptimizer.orderCrossover n a b CR g = .ok (child, g') ∧
      IsPermutation child n ∧ child.head? = some 0 := by
  unfold ArqOptimizer.orderCrossover
  rw [if_neg (by omega)]
  dsimp only
  generalize hseg : max (10 : Int) (min (min ((n : Int) - 1) 800)
    (roundQ (CR * (((n : Int) - 1 : Int) : ℚ)))) = segLen
  have hL1 : 10 ≤ segLen := by rw [← hseg]; exact le_max_left _ _
  have hL2 : segLen ≤ (n : Int) - 1 := by
    rw [← hseg]
    refine max_le (by omega) ?_
    exact le_trans (min_le_left _ _) (min_le_left _ _)
  obtain ⟨L, rfl⟩ := Int.eq_ofNat_of_zero_le (show 0 ≤ segLen by omega)
  have hhi : ((n : Int) - 1 - (L : Int) + 1) = ((n - L : Nat) : Int) := by omega
  rw [hhi, if_neg (by omega), Int.toNat_ofNat, Int.toNat_ofNat]
  have hs1 := uniformInt_ge 1 (n - L) g
  have hs2 := uniformInt_le 1 (n - L) g (by omega)
  generalize uniformInt 1 (n - L) g = st at hs1 hs2
  obtain ⟨child1, used1, child2, used2, e1, e2, e3, e4, e5⟩ :=
    ox_core n a b ha ha0 hb hb0 st.1 L (st.1 + L - 1) hs1 (by omega) (by omega) (by omega)
  have hstop : ((st.1 : Int) + (L : Int) - 1) = ((st.1 + L - 1 : Nat) : Int) := by omega
  have hwp : (if ((st.1 + L - 1 : Nat) : Int) + 1 ≥ (n : Int) then (1 : Int)
      else ((st.1 + L - 1 : Nat) : Int) + 1) =
      ((if st.1 + L - 1 + 1 ≥ n then 1 else st.1 + L - 1 + 1 : Nat) : Int) := by
    split_ifs <;> omega
  rw [hstop, hwp, e1]
  dsimp only
  have h1 : (1 : Int) = ((1 : Nat) : Int) := rfl
  rw [h1, e2]
  dsimp only
  rw [e3]
  exact ⟨child2, st.2, rfl, e4, e5⟩


theorem aco_constructLoop_length (pw : ℚ → ℚ → ℚ) (s : AcoOptimizer) (pts : List TspPoint)
    (k : Nat) (current : Int) (visited : List Bool) (ord : List Int) (g : Rng) :
    (AcoOptimizer.constructLoop pw s pts k current visited ord g).1.length = ord.length + k := by
  induction k generalizing current visited ord g with
  | zero => rfl
  | succ k ih =>
    unfold AcoOptimizer.constructLoop
    dsimp only
    rw [ih]
    simp
    omega

theorem aco_updateBest_total (s : AcoOptimizer) (ord : List Int) (c : Int) (inst : TspInstance)
    (hi : s.m_instance = some inst) (hlen : ord.length = inst.size) :
    ∃ s' b, AcoOptimizer.updateBest s ord c = .ok (s', b) := by
  unfold AcoOptimizer.updateBest
  split
  · rw [hi]
    unfold Tour.mkWithOrder
    dsimp only
    rw [if_neg (by rw [hlen]; simp)]
    exact ⟨_, _, rfl⟩
  · exact ⟨_, _, rfl⟩

theorem aco_total (pw : ℚ → ℚ → ℚ) (s : AcoOptimizer) (inst : TspInstance)
    (hi : s.m_instance = some inst) (hn : s.m_n = inst.size) :
    ∃ s' b, AcoOptimizer.iterate pw s = .ok (s', b) := by
  unfold AcoOptimizer.iterate
  split
  · next h => rw [hi] at h; cases h
  · next inst' h =>
    have hii : inst' = inst := by
      rw [hi] at h
      injection h with h
      exact h.symm
    subst hii
    split
    · exact ⟨_, _, rfl⟩
    · have hlen : (AcoOptimizer.constructTour pw s inst'.m_points).1.length = inst'.size := by
        unfold AcoOptimizer.constructTour
        rw [aco_constructLoop_length]
        simp only [List.length_singleton]
        omega
      dsimp only
      obtain ⟨e1, e2, e3⟩ := aco_recordBatchBest_best
        { s with m_rng := (AcoOptimizer.constructTour pw s inst'.m_points).2 }
        (AcoOptimizer.constructTour pw s inst'.m_points).1
        (costOf s.m_instance (AcoOptimizer.constructTour pw s inst'.m_points).1)
      obtain ⟨s2, b, h2⟩ := aco_updateBest_total
        (AcoOptimizer.recordBatchBest
          { s with m_rng := (AcoOptimizer.constructTour pw s inst'.m_points).2 }
          (AcoOptimizer.constructTour pw s inst'.m_points).1
          (costOf s.m_instance (AcoOptimizer.constructTour pw s inst'.m_points).1))
        (AcoOptimizer.constructTour pw s inst'.m_points).1
        (costOf s.m_instance (AcoOptimizer.constructTour pw s inst'.m_points).1) inst'
        (by rw [e3]; exact hi) hlen
      rw [h2]
      exact ⟨_, _, rfl⟩


/-! ## The stepping contract -/


/-- C2: `bestTour().cost()` after a call of `iterate` is at most its value
before the call, for each strategy: 2-opt and ILS in every state; annealing
for every acceptance test, and the call returns whenever the instance is
present; the genetic algorithm in every state of a run with `populationSize
≥ 1` (the invariant `Inv`, which the constructor establishes and every step
keeps, and under which the call returns); ant colony and the adaptive search
in every state where `m_lastBest` is the cost of the best tour (which their
constructors establish and every returning call keeps), for every returning
call, and the ant-colony call returns whenever the tour size is the instance
size. -/
theorem C2_best_cost_never_increases :
    (∀ s : TwoOptOptimizer, (TwoOptOptimizer.iterate s).1.m_best.m_cost ≤ s.m_best.m_cost) ∧
    (∀ s : IlsOptimizer, (IlsOptimizer.iterate s).1.m_best.m_cost ≤ s.m_best.m_cost) ∧
    ((∀ (expGt : Int → ℚ → Nat → Bool) (s s' : SimAnnealOptimizer) (b : Bool),
        SimAnnealOptimizer.iterate expGt s = some (s', b) →
          s'.m_best.m_cost ≤ s.m_best.m_cost) ∧
      (∀ (expGt : Int → ℚ → Nat → Bool) (s : SimAnnealOptimizer),
        s.m_current.m_instance.isSome → ∃ s' b, SimAnnealOptimizer.iterate expGt s = some (s', b))) ∧
    ((∀ (initial : Tour) (populationSize mutationRate : Int) (seed : Rng),
        1 ≤ populationSize →
          GeneticOptimizer.Inv (GeneticOptimizer.create initial populationSize mutationRate seed)) ∧
      (∀ s : GeneticOptimizer, GeneticOptimizer.Inv s →
        ∃ s' b, GeneticOptimizer.iterate s = some (s', b) ∧ GeneticOptimizer.Inv s' ∧
          s'.m_best.m_cost ≤ s.m_best.m_cost)) ∧
    ((∀ (initial : Tour) (ants k samples : Int) (alpha beta rho q : ℚ) (seed : Rng) (fuel : Nat)
        (s : AcoOptimizer),
        AcoOptimizer.create initial ants k samples alpha beta rho q seed fuel = some s →
          s.m_best.m_cost = s.m_lastBest) ∧
      (∀ (pw : ℚ → ℚ → ℚ) (s s' : AcoOptimizer) (b : Bool),
        s.m_best.m_cost = s.m_lastBest → AcoOptimizer.iterate pw s = .ok (s', b) →
          s'.m_best.m_cost = s'.m_lastBest ∧ s'.m_best.m_cost ≤ s.m_best.m_cost) ∧
      (∀ (pw : ℚ → ℚ → ℚ) (s : AcoOptimizer) (inst : TspInstance),
        s.m_instance = some inst → s.m_n = inst.size →
          ∃ s' b, AcoOptimizer.iterate pw s = .ok (s', b))) ∧
    ((∀ (initial : Tour) (populationSize : Int) (seed : Rng) (s : ArqOptimizer),
        ArqOptimizer.create initial populationSize seed = .ok s →
          s.m_best.m_cost = s.m_lastBest) ∧
      (∀ (cauchy normal : ℚ → Nat → Option ℚ) (fuel : Nat) (s s' : ArqOptimizer) (b : Bool),
        s.m_best.m_cost = s.m_lastBest →
        ArqOptimizer.iterate cauchy normal fuel s = .ok (s', b) →
          s'.m_best.m_cost = s'.m_lastBest ∧ s'.m_best.m_cost ≤ s.m_best.m_cost)) := by
  refine ⟨fun s => (twoOpt_step s).1, fun s => (ils_step s).1,
    ⟨fun e s s' b h => (sa_step e s s' b h).1, sa_total⟩, ⟨ga_create_inv, ?_⟩,
    ⟨?_, ?_, aco_total⟩, ⟨?_, ?_⟩⟩
  · intro s h
    obtain ⟨s', b, h1, h2, h3, -⟩ := ga_step s h
    exact ⟨s', b, h1, h2, h3⟩
  · intro initial ants k samples alpha beta rho q seed fuel s h
    obtain ⟨h1, h2, -⟩ := aco_create_inv _ _ _ _ _ _ _ _ _ _ s h
    rw [h1, h2]
  · intro pw s s' b hinv h
    obtain ⟨h1, h2, -⟩ := aco_step pw s s' b hinv h
    exact ⟨h1, h2⟩
  · intro initial populationSize seed s h
    exact (arq_create_inv _ _ _ s h).1
  · intro c n fuel s s' b hinv h
    obtain ⟨h1, h2, -⟩ := arq_step c n fuel s s' b hinv h
    exact ⟨h1, h2⟩

set_option maxRecDepth 100000 in
/-- C2 at concrete runs: the genetic, annealing, ant-colony and adaptive
examples each return, and none raises the best cost. -/
theorem C2_best_cost_never_increases_witness :
    (∃ s' b, GeneticOptimizer.iterate gaExample = some (s', b) ∧ GeneticOptimizer.Inv s' ∧
      s'.m_best.m_cost ≤ gaExample.m_best.m_cost) ∧
    (∃ s' b, SimAnnealOptimizer.iterate neverUphill saExample = some (s', b)) ∧
    acoNext.1.m_best.m_cost ≤ acoExample.m_best.m_cost ∧
    arqNext.1.m_best.m_cost ≤ arqStagnant.m_best.m_cost :=
  ⟨C2_best_cost_never_increases.2.2.2.1.2 gaExample
      (C2_best_cost_never_increases.2.2.2.1.1 crossingTour 3 2 [0, 0, 0, 1, 2, 1, 3] (by decide)),
    C2_best_cost_never_increases.2.2.1.2 neverUphill saExample (by decide!),
    (C2_best_cost_never_increases.2.2.2.2.1.2.1 pwExample acoExample acoNext.1 acoNext.2
      (by decide!) (by decide!)).2,
    (C2_best_cost_never_increases.2.2.2.2.2.2 centreSampler centreSampler 4 arqStagnant
      arqNext.1 arqNext.2 (by decide!) (by decide!)).2⟩

/-- C5: for 2-opt, ILS, annealing, the genetic algorithm (`populationSize ≥
1`) and ant colony, `iterate` returns `true` exactly when the cost of the
best tour after the call is strictly below its cost before the call. -/
theorem C5_returns_true_iff_improved :
    (∀ s : TwoOptOptimizer, (TwoOptOptimizer.iterate s).2 = true ↔
      (TwoOptOptimizer.iterate s).1.m_best.m_cost < s.m_best.m_cost) ∧
    (∀ s : IlsOptimizer, (IlsOptimizer.iterate s).2 = true ↔
      (IlsOptimizer.iterate s).1.m_best.m_cost < s.m_best.m_cost) ∧
    (∀ (expGt : Int → ℚ → Nat → Bool) (s s' : SimAnnealOptimizer) (b : Bool),
      SimAnnealOptimizer.iterate expGt s = some (s', b) →
        (b = true ↔ s'.m_best.m_cost < s.m_best.m_cost)) ∧
    (∀ s : GeneticOptimizer, GeneticOptimizer.Inv s →
      ∃ s' b, GeneticOptimizer.iterate s = some (s', b) ∧ GeneticOptimizer.Inv s' ∧
        (b = true ↔ s'.m_best.m_cost < s.m_best.m_cost)) ∧
    (∀ (pw : ℚ → ℚ → ℚ) (s s' : AcoOptimizer) (b : Bool),
      s.m_best.m_cost = s.m_lastBest → AcoOptimizer.iterate pw s = .ok (s', b) →
        s'.m_best.m_cost = s'.m_lastBest ∧ (b = true ↔ s'.m_best.m_cost < s.m_best.m_cost)) := by
  refine ⟨fun s => (twoOpt_step s).2, fun s => (ils_step s).2,
    fun e s s' b h => (sa_step e s s' b h).2, ?_, ?_⟩
  · intro s h
    obtain ⟨s', b, h1, h2, -, h4⟩ := ga_step s h
    exact ⟨s', b, h1, h2, h4⟩
  · intro pw s s' b hinv h
    obtain ⟨h1, -, h3⟩ := aco_step pw s s' b hinv h
    exact ⟨h1, h3⟩

set_option maxRecDepth 100000 in
/-- C5 at concrete runs: the ant-colony example returns `true` and lowers the
best cost from 80000 to 40000; the genetic example returns. -/
theorem C5_returns_true_iff_improved_witness :
    (acoNext.2 = true ∧ acoNext.1.m_best.m_cost = 40000 ∧ acoExample.m_best.m_cost = 80000) ∧
    (∃ s' b, GeneticOptimizer.iterate gaExample = some (s', b) ∧ GeneticOptimizer.Inv s' ∧
      (b = true ↔ s'.m_best.m_cost < gaExample.m_best.m_cost)) :=
  ⟨⟨((C5_returns_true_iff_improved.2.2.2.2 pwExample acoExample acoNext.1 acoNext.2
      (by decide!) (by decide!)).2).mpr (by decide!), by decide!, by decide!⟩,
    C5_returns_true_iff_improved.2.2.2.1 gaExample
      (ga_create_inv crossingTour 3 2 [0, 0, 0, 1, 2, 1, 3] (by decide))⟩

set_option maxRecDepth 1000000 in
/-- C6 fails on the code: the adaptive optimizer seeded with the identity
tour over three points on a line reaches, after 99 calls, a state in which
the 100th call ends a generation and triggers the stagnation restart; the
restart lowers the cost of the best tour from 19 to 10, and the call returns
`false`. The other half of the claim holds: in every state where
`m_lastBest` is the cost of the best tour, a call that returns `true` has
lowered the cost of the best tour. -/
theorem C6_restart_improvement_not_reported :
    arqSeeded.bind (ArqOptimizer.run centreSampler centreSampler 4 99) = some arqStagnant ∧
    ArqOptimizer.iterate centreSampler centreSampler 4 arqStagnant = .ok arqNext ∧
    arqNext.2 = false ∧
    arqStagnant.m_best.m_cost = 19 ∧
    arqNext.1.m_best.m_cost = 10 ∧
    arqNext.1.m_best.m_order = [0, 2, 1] ∧
    (∀ (cauchy normal : ℚ → Nat → Option ℚ) (fuel : Nat) (s s1 : ArqOptimizer) (b : Bool),
      s.m_best.m_cost = s.m_lastBest →
      ArqOptimizer.iterate cauchy normal fuel s = .ok (s1, b) →
        b = true → s1.m_best.m_cost < s.m_best.m_cost) := by
  refine ⟨by decide!, by decide!, by decide!, by decide!, by decide!, by decide!, ?_⟩
  intro c n fuel s s1 b hinv h
  exact (arq_step c n fuel s s1 b hinv h).2.2

set_option maxRecDepth 100000 in
/-- C7 fails on the code for `4 ≤ n ≤ 10`: the segment length is raised to
`10`, more than the `n - 1` positions after node 0, so the range of the start
distribution is empty (and every choice of start would copy past the end of
`b`). At `n = 5` with identity parents the model reports the invalid range,
and so it does for all parents, rates and draws at every such size. For `n <
4` the first parent is returned unchanged. For `n ≥ 11` the claim holds: for
parents that are permutations of `[0, n)` with node 0 first, every rate and
every draw, the call returns with every access in bounds, and the child is a
permutation of `[0, n)` with node 0 first; at `n = 13` with the identity and
its mirror as parents the child is the mirror with its last two nodes
exchanged. -/
theorem C7_crossover_fails_for_small_n :
    ArqOptimizer.orderCrossover 5 [0, 1, 2, 3, 4] [0, 1, 2, 3, 4] (85 / 100) [0] =
      .error badRange ∧
    (∀ (n : Nat) (a b : List Int) (CR : ℚ) (g : Rng), 4 ≤ n → n ≤ 10 →
      ArqOptimizer.orderCrossover n a b CR g = .error badRange) ∧
    (∀ (n : Nat) (a b : List Int) (CR : ℚ) (g : Rng), n < 4 →
      ArqOptimizer.orderCrossover n a b CR g = .ok (a, g)) ∧
    (∀ (n : Nat) (a b : List Int) (CR : ℚ) (g : Rng), 11 ≤ n →
      IsPermutation a n → a.head? = some 0 → IsPermutation b n → b.head? = some 0 →
      ∃ child g1, ArqOptimizer.orderCrossover n a b CR g = .ok (child, g1) ∧
        IsPermutation child n ∧ child.head? = some 0) ∧
    ArqOptimizer.orderCrossover 13 [0, 1, 2, 3, 4, 5, 6, 7, 8, 9, 10, 11, 12]
      [0, 12, 11, 10, 9, 8, 7, 6, 5, 4, 3, 2, 1] (85 / 100) [0] =
      .ok ([0, 12, 11, 10, 9, 8, 7, 6, 5, 4, 3, 1, 2], []) := by
  refine ⟨orderCrossover_small 5 _ _ _ _ (by decide) (by decide),
    fun n a b CR g h4 h10 => orderCrossover_small n a b CR g h4 h10, ?_,
    fun n a b CR g hn ha ha0 hb hb0 => orderCrossover_large n a b CR g hn ha ha0 hb hb0,
    by decide!⟩
  intro n a b CR g h
  unfold ArqOptimizer.orderCrossover
  rw [if_pos h]

set_option maxRecDepth 100000 in
/-- C10 at the five-point example: the only valid sampled pair is (1, 3),
its delta is negative, and the step returns `true`. -/
theorem C10_two_opt_step_witness :
    ∃ pre p post,
      sampledPairs twoOptExample.m_current.size twoOptExample.m_checksPerIter.toNat
        twoOptExample.m_rng = pre ++ p :: post ∧
      (TwoOptOptimizer.iterate twoOptExample).1.m_current.m_order =
        reverseSegment twoOptExample.m_current.m_order p.1 p.2 ∧
      (TwoOptOptimizer.iterate twoOptExample).2 = true := by
  obtain ⟨pre, p, post, h1, -, -, h4, -, -, h7⟩ :=
    (C10_two_opt_step twoOptExample crossingInstance rfl (by decide) rfl
      (by unfold Tour.InSync; decide!)).1
      ⟨(1, 3), by decide!, by decide!⟩
  exact ⟨pre, p, post, h1, h4, h7⟩

/-! ## The cached cost of the best tour -/

theorem evaluate_costIsPath (inst : TspInstance) (t : Tour) (h : t.m_instance = some inst) :
    Tour.CostIsPath inst (Tour.evaluate t) := by
  obtain ⟨i, ord, c⟩ := t
  dsimp only at h
  subst h
  rw [evaluate_some_eq]
  exact ⟨rfl, rfl⟩

theorem twoOpt_exact (inst : TspInstance) (s : TwoOptOptimizer)
    (hb : Tour.CostIsPath inst s.m_best) (hc : s.m_current.m_instance = some inst) :
    Tour.CostIsPath inst (TwoOptOptimizer.iterate s).1.m_best ∧
      (TwoOptOptimizer.iterate s).1.m_current.m_instance = some inst := by
  unfold TwoOptOptimizer.iterate
  split
  · exact ⟨hb, hc⟩
  · split
    · exact ⟨hb, hc⟩
    · dsimp only
      split
      · split
        · exact ⟨evaluate_costIsPath inst _ (by exact hc), (evaluate_costIsPath inst _ (by exact hc)).1⟩
        · exact ⟨hb, (evaluate_costIsPath inst _ (by exact hc)).1⟩
      · exact ⟨hb, hc⟩

theorem ils_applyBest_exact (inst : TspInstance) (s : IlsOptimizer)
    (hc : s.m_current.m_instance = some inst) :
    (IlsOptimizer.applyBest2OptMove s).1.m_current.m_instance = some inst ∧
      ((IlsOptimizer.applyBest2OptMove s).2 = true →
        Tour.CostIsPath inst (IlsOptimizer.applyBest2OptMove s).1.m_current) := by
  unfold IlsOptimizer.applyBest2OptMove
  split
  · exact ⟨hc, by simp⟩
  · split
    · exact ⟨hc, by simp⟩
    · dsimp only
      split
      · exact ⟨(evaluate_costIsPath inst _ (by exact hc)).1, fun _ => evaluate_costIsPath inst _ (by exact hc)⟩
      · exact ⟨hc, by simp⟩

theorem ils_record_exact (inst : TspInstance) (t : IlsOptimizer)
    (hb : Tour.CostIsPath inst t.m_best) (hc : Tour.CostIsPath inst t.m_current) :
    Tour.CostIsPath inst (IlsOptimizer.recordIfBetter t).1.m_best ∧
      (IlsOptimizer.recordIfBetter t).1.m_current.m_instance = some inst := by
  unfold IlsOptimizer.recordIfBetter
  split
  · exact ⟨hc, hc.1⟩
  · exact ⟨hb, hc.1⟩

theorem ils_doubleBridge_instance (t : IlsOptimizer) :
    (IlsOptimizer.doubleBridgePerturbation t).m_current.m_instance = t.m_current.m_instance := by
  unfold IlsOptimizer.doubleBridgePerturbation
  split <;> rfl

theorem ils_exact (inst : TspInstance) (s : IlsOptimizer)
    (hb : Tour.CostIsPath inst s.m_best) (hc : s.m_current.m_instance = some inst) :
    Tour.CostIsPath inst (IlsOptimizer.iterate s).1.m_best ∧
      (IlsOptimizer.iterate s).1.m_current.m_instance = some inst := by
  have hA := ils_applyBest_best s
  obtain ⟨hi, hx⟩ := ils_applyBest_exact inst s hc
  unfold IlsOptimizer.iterate
  split
  · exact ⟨hb, hc⟩
  · dsimp only
    split
    · next ha =>
      exact ils_record_exact inst _ (by dsimp only; rw [hA]; exact hb) (hx ha)
    · split
      · refine ils_record_exact inst _ ?_ ?_
        · dsimp only
          rw [ils_doubleBridge_best]
          dsimp only
          rw [hA]
          exact hb
        · dsimp only
          exact evaluate_costIsPath inst _ (by rw [ils_doubleBridge_instance]; exact hi)
      · dsimp only
        rw [hA]
        exact ⟨hb, hi⟩

theorem sa_record_exact (inst : TspInstance) (t : SimAnnealOptimizer)
    (hb : Tour.CostIsPath inst t.m_best) (hc : Tour.CostIsPath inst t.m_current) :
    Tour.CostIsPath inst (SimAnnealOptimizer.coolAndRecord t).1.m_best ∧
      Tour.CostIsPath inst (SimAnnealOptimizer.coolAndRecord t).1.m_current := by
  unfold SimAnnealOptimizer.coolAndRecord
  dsimp only
  split
  · exact ⟨hc, hc⟩
  · exact ⟨hb, hc⟩

theorem sa_exact (inst : TspInstance) (expGt : Int → ℚ → Nat → Bool)
    (s s' : SimAnnealOptimizer) (b : Bool)
    (hb : Tour.CostIsPath inst s.m_best) (hc : Tour.CostIsPath inst s.m_current)
    (h : SimAnnealOptimizer.iterate expGt s = some (s', b)) :
    Tour.CostIsPath inst s'.m_best ∧ Tour.CostIsPath inst s'.m_current := by
  unfold SimAnnealOptimizer.iterate at h
  split at h
  · cases h; exact ⟨hb, hc⟩
  · dsimp only at h
    split at h
    · cases h; exact ⟨hb, hc⟩
    · split at h
      · cases h; exact ⟨hb, hc⟩
      · split at h
        · cases h
        · simp only [Option.some.injEq] at h
          have hs := congrArg Prod.fst h
          dsimp only at hs
          subst hs
          unfold SimAnnealOptimizer.applyMove
          refine sa_record_exact inst _ hb ?_
          dsimp only
          split
          · exact evaluate_costIsPath inst _ (by exact hc.1)
          · exact hc

theorem mutateSwap_instance (t : Tour) (g : Rng) :
    (Tour.mutateSwap t g).1.m_instance = t.m_instance := by
  unfold Tour.mutateSwap
  split <;> rfl

theorem mutateInsertion_instance (t : Tour) (g : Rng) :
    (Tour.mutateInsertion t g).1.m_instance = t.m_instance := by
  unfold Tour.mutateInsertion
  split
  · rfl
  · dsimp only
    split <;> rfl

theorem mutateReverseSegment_instance (t : Tour) (g : Rng) :
    (Tour.mutateReverseSegment t g).1.m_instance = t.m_instance := by
  unfold Tour.mutateReverseSegment
  split
  · rfl
  · dsimp only
    split
    · rfl
    · split <;> rfl

theorem mutateLoop_instance (k : Nat) (t : Tour) (g : Rng) :
    (GeneticOptimizer.mutateLoop k t g).1.m_instance = t.m_instance := by
  induction k generalizing t g with
  | zero => rfl
  | succ k ih =>
    unfold GeneticOptimizer.mutateLoop
    dsimp only
    rw [ih]
    split
    · exact mutateInsertion_instance _ _
    · split
      · exact mutateSwap_instance _ _
      · exact mutateReverseSegment_instance _ _

theorem deathLoop_mem (pop : List Tour) (N : Int) (k i : Nat) (g g1 : Rng)
    (surv r : List Tour) (h : GeneticOptimizer.deathLoop pop N k i g surv = some (r, g1)) :
    ∀ p ∈ r, p ∈ surv ∨ p ∈ pop := by
  induction k generalizing i g surv with
  | zero =>
    unfold GeneticOptimizer.deathLoop at h
    cases h
    exact fun p hp => Or.inl hp
  | succ k ih =>
    unfold GeneticOptimizer.deathLoop at h
    split at h
    · split at h
      · cases h
      · next q hq =>
        intro p hp
        rcases ih _ _ _ h p hp with h1 | h1
        · rcases List.mem_append.mp h1 with h2 | h2
          · exact Or.inl h2
          · rw [List.mem_singleton] at h2
            subst h2
            exact Or.inr (List.get?_mem hq)
        · exact Or.inr h1
    · exact ih _ _ _ h

theorem repopulate_exact (inst : TspInstance) (nSurv : Nat) (mr : Int) (d : Nat)
    (surv r : List Tour) (g g1 : Rng) (hs : ∀ p ∈ surv, Tour.CostIsPath inst p)
    (h : GeneticOptimizer.repopulate nSurv mr d surv g = some (r, g1)) :
    ∀ p ∈ r, Tour.CostIsPath inst p := by
  induction d generalizing surv g with
  | zero =>
    unfold GeneticOptimizer.repopulate at h
    cases h
    exact hs
  | succ d ih =>
    unfold GeneticOptimizer.repopulate at h
    dsimp only at h
    split at h
    · cases h
    · next parent hp =>
      refine ih _ _ ?_ h
      intro p hp1
      rcases List.mem_append.mp hp1 with h2 | h2
      · exact hs p h2
      · rw [List.mem_singleton] at h2
        subst h2
        refine evaluate_costIsPath inst _ ?_
        rw [mutateLoop_instance]
        exact (hs parent (List.get?_mem hp)).1

theorem ga_exact (inst : TspInstance) (s s' : GeneticOptimizer) (b : Bool)
    (hpop : ∀ p ∈ s.m_population, Tour.CostIsPath inst p)
    (h : GeneticOptimizer.iterate s = some (s', b)) :
    Tour.CostIsPath inst s'.m_best ∧ ∀ p ∈ s'.m_population, Tour.CostIsPath inst p := by
  unfold GeneticOptimizer.iterate at h
  split at h
  · cases h
  · next p0 rest hsort =>
    have hperm := sortByCost_perm s.m_population
    rw [hsort] at hperm
    have hsorted : ∀ p ∈ p0 :: rest, Tour.CostIsPath inst p :=
      fun p hp => hpop p (hperm.mem_iff.mp hp)
    split at h
    · cases h
    · next surv0 g1 hd =>
      have hsurv0 : ∀ p ∈ surv0, Tour.CostIsPath inst p := by
        intro p hp
        rcases deathLoop_mem _ _ _ _ _ _ _ _ hd p hp with h1 | h1
        · rw [List.mem_singleton] at h1
          subst h1
          exact hsorted _ (List.mem_cons_self _ _)
        · exact hsorted p h1
      dsimp only at h
      split at h
      · cases h
      · next pop g2 hr =>
        have hpop2 : ∀ p ∈ pop, Tour.CostIsPath inst p := by
          refine repopulate_exact inst _ _ _ _ _ _ _ ?_ hr
          intro p hp
          split at hp
          · rcases List.mem_append.mp hp with h2 | h2
            · exact hsurv0 p h2
            · rw [List.mem_singleton] at h2
              subst h2
              exact hsorted _ (List.mem_cons_self _ _)
          · exact hsurv0 p hp
        split at h
        · cases h
        · next q0 qrest hsort2 =>
          have hperm2 := sortByCost_perm pop
          rw [hsort2] at hperm2
          have hq : ∀ p ∈ q0 :: qrest, Tour.CostIsPath inst p :=
            fun p hp => hpop2 p (hperm2.mem_iff.mp hp)
          split at h
          · cases h
            exact ⟨hq _ (List.mem_cons_self _ _), hq⟩
          · cases h
            exact ⟨hsorted _ (List.mem_cons_self _ _), hq⟩

theorem aco_frame_refl (s : AcoOptimizer) : AcoOptimizer.Frame s s := ⟨rfl, rfl, Or.inl rfl⟩

theorem aco_endOfAnt_frame (s : AcoOptimizer) : AcoOptimizer.Frame s (AcoOptimizer.endOfAnt s) := by
  unfold AcoOptimizer.endOfAnt
  split
  · exact ⟨rfl, rfl, Or.inl rfl⟩
  · exact ⟨rfl, rfl, Or.inl rfl⟩

theorem aco_recordBatchBest_frame (s : AcoOptimizer) (ord : List Int) (c : Int) :
    AcoOptimizer.Frame s (AcoOptimizer.recordBatchBest s ord c) := by
  unfold AcoOptimizer.recordBatchBest
  split
  · exact ⟨rfl, rfl, Or.inl rfl⟩
  · split <;> exact ⟨rfl, rfl, Or.inl rfl⟩

theorem aco_updateBest_frame (s s' : AcoOptimizer) (ord : List Int) (c : Int) (b : Bool)
    (h : AcoOptimizer.updateBest s ord c = .ok (s', b)) : AcoOptimizer.Frame s s' := by
  unfold AcoOptimizer.updateBest at h
  split at h
  · split at h
    · cases h
    · next t ht =>
      injection h with h
      injection h with h1 h2
      subst h1
      exact ⟨rfl, rfl, Or.inr ⟨ord, ht⟩⟩
  · injection h with h
    injection h with h1 h2
    subst h1
    exact aco_frame_refl _

theorem aco_frame (pw : ℚ → ℚ → ℚ) (s s' : AcoOptimizer) (b : Bool)
    (h : AcoOptimizer.iterate pw s = .ok (s', b)) : AcoOptimizer.Frame s s' := by
  unfold AcoOptimizer.iterate at h
  split at h
  · injection h with h
    injection h with h1 h2
    subst h1
    exact aco_frame_refl _
  · next inst hinst =>
    split at h
    · injection h with h
      injection h with h1 h2
      subst h1
      exact aco_frame_refl _
    · dsimp only at h
      split at h
      · cases h
      · next s2 improved hu =>
        injection h with h
        injection h with h1 h2
        subst h1
        obtain ⟨a1, a2, a3⟩ := aco_recordBatchBest_frame
          { s with m_rng := (AcoOptimizer.constructTour pw s inst.m_points).2 }
          (AcoOptimizer.constructTour pw s inst.m_points).1
          (costOf s.m_instance (AcoOptimizer.constructTour pw s inst.m_points).1)
        obtain ⟨b1, b2, b3⟩ := aco_updateBest_frame _ s2 _ _ improved hu
        obtain ⟨c1, c2, c3⟩ := aco_endOfAnt_frame s2
        dsimp only at a1 a2 a3
        refine ⟨by rw [c1, b1, a1], by rw [c2, b2, a2], ?_⟩
        rcases c3 with c3 | ⟨o, c3⟩
        · rw [c3]
          rcases b3 with b3 | ⟨o, b3⟩
          · rw [b3]
            rcases a3 with a3 | ⟨o, a3⟩
            · exact Or.inl a3
            · exact Or.inr ⟨o, a3⟩
          · rw [a2] at b3
            exact Or.inr ⟨o, b3⟩
        · rw [b2, a2] at c3
          exact Or.inr ⟨o, c3⟩

theorem arq_frame_refl (s : ArqOptimizer) : ArqOptimizer.Frame s s := ⟨rfl, rfl, Or.inl rfl⟩

theorem arq_frame_trans (s s1 s2 : ArqOptimizer) (h1 : ArqOptimizer.Frame s s1)
    (h2 : ArqOptimizer.Frame s1 s2) : ArqOptimizer.Frame s s2 := by
  obtain ⟨a1, a2, a3⟩ := h1
  obtain ⟨b1, b2, b3⟩ := h2
  refine ⟨by rw [b1, a1], by rw [b2, a2], ?_⟩
  rcases b3 with b3 | ⟨o, b3⟩
  · rw [b3]; exact a3
  · rw [a2] at b3
    exact Or.inr ⟨o, b3⟩

theorem arq_beginGeneration_frame (s : ArqOptimizer) :
    ArqOptimizer.Frame s (ArqOptimizer.beginGeneration s) := ⟨rfl, rfl, Or.inl rfl⟩

theorem arq_updateMeans_frame (s : ArqOptimizer) :
    ArqOptimizer.Frame s (ArqOptimizer.updateMeans s) := by
  unfold ArqOptimizer.updateMeans
  split <;> exact ⟨rfl, rfl, Or.inl rfl⟩

theorem arq_archiveTrim_frame (s : ArqOptimizer) :
    ArqOptimizer.Frame s (ArqOptimizer.archiveTrim s) := by
  unfold ArqOptimizer.archiveTrim
  dsimp only
  split <;> exact ⟨rfl, rfl, Or.inl rfl⟩

theorem arq_select_frame (s s' : ArqOptimizer) (trial : List Int) (F CR : ℚ) (b : Bool)
    (h : ArqOptimizer.select s trial F CR = .ok (s', b)) : ArqOptimizer.Frame s s' := by
  unfold ArqOptimizer.select at h
  split at h
  · dsimp only at h
    split at h
    · split at h
      · split at h
        · cases h
        · next hlt t ht =>
          injection h with h
          injection h with h1 h2
          subst h1
          exact ⟨rfl, rfl, Or.inr ⟨trial, ht⟩⟩
      · injection h with h
        injection h with h1 h2
        subst h1
        exact ⟨rfl, rfl, Or.inl rfl⟩
    · injection h with h
      injection h with h1 h2
      subst h1
      exact arq_frame_refl _
  · cases h

theorem arq_restartLoop_frame (bestOrd : List Int) (w : Nat) (k : Int) (s s' : ArqOptimizer)
    (h : ArqOptimizer.restartLoop bestOrd w k s = .ok s') : ArqOptimizer.Frame s s' := by
  induction w generalizing k s with
  | zero =>
    unfold ArqOptimizer.restartLoop at h
    injection h with h
    subst h
    exact arq_frame_refl _
  | succ w ih =>
    unfold ArqOptimizer.restartLoop at h
    split at h
    · cases h
    · dsimp only at h
      split at h
      · split at h
        · split at h
          · cases h
          · next hlt t ht =>
            refine arq_frame_trans _ _ _ ?_ (ih _ _ h)
            exact ⟨rfl, rfl, Or.inr ⟨_, ht⟩⟩
        · refine arq_frame_trans _ _ _ ?_ (ih _ _ h)
          exact ⟨rfl, rfl, Or.inl rfl⟩
      · cases h

theorem arq_restartWorst_frame (s s' : ArqOptimizer)
    (h : ArqOptimizer.restartWorst s = .ok s') : ArqOptimizer.Frame s s' := by
  unfold ArqOptimizer.restartWorst at h
  dsimp only at h
  split at h
  · cases h
  · split at h
    · cases h
    · refine arq_frame_trans _ _ _ ?_ (arq_restartLoop_frame _ _ _ _ _ h)
      split
      · exact arq_beginGeneration_frame s
      · exact arq_frame_refl s

theorem arq_endGeneration_frame (s s' : ArqOptimizer)
    (h : ArqOptimizer.endGeneration s = .ok s') : ArqOptimizer.Frame s s' := by
  have hu := arq_updateMeans_frame s
  unfold ArqOptimizer.endGeneration at h
  dsimp only at h
  split at h
  · injection h with h
    subst h
    refine arq_frame_trans _ _ _ (arq_frame_trans _ _ _ hu ?_) (arq_archiveTrim_frame _)
    exact ⟨rfl, rfl, Or.inl rfl⟩
  · split at h
    · split at h
      · cases h
      · next s3 hr =>
        injection h with h
        subst h
        have h3 := arq_restartWorst_frame _ s3 hr
        refine arq_frame_trans _ _ _ (arq_frame_trans _ _ _ (arq_frame_trans _ _ _ hu ?_) h3)
          (arq_frame_trans _ _ _ ?_ (arq_archiveTrim_frame _))
        · exact ⟨rfl, rfl, Or.inl rfl⟩
        · exact ⟨rfl, rfl, Or.inl rfl⟩
    · injection h with h
      subst h
      refine arq_frame_trans _ _ _ (arq_frame_trans _ _ _ hu ?_) (arq_archiveTrim_frame _)
      exact ⟨rfl, rfl, Or.inl rfl⟩

theorem arq_advanceTarget_frame (s s' : ArqOptimizer)
    (h : ArqOptimizer.advanceTarget s = .ok s') : ArqOptimizer.Frame s s' := by
  unfold ArqOptimizer.advanceTarget at h
  split at h
  · refine arq_frame_trans _ _ _ ?_ (arq_endGeneration_frame _ _ h)
    exact ⟨rfl, rfl, Or.inl rfl⟩
  · injection h with h
    subst h
    exact ⟨rfl, rfl, Or.inl rfl⟩

theorem arq_frame (cauchy normal : ℚ → Nat → Option ℚ) (fuel : Nat) (s s' : ArqOptimizer)
    (b : Bool) (h : ArqOptimizer.iterate cauchy normal fuel s = .ok (s', b)) :
    ArqOptimizer.Frame s s' := by
  unfold ArqOptimizer.iterate at h
  split at h
  · injection h with h
    injection h with h1 h2
    subst h1
    exact arq_frame_refl _
  · split at h
    · cases h
    · next trial F CR g hm =>
      split at h
      · cases h
      · next s1 improved hs =>
        split at h
        · cases h
        · next s3 ha =>
          injection h with h
          injection h with h1 h2
          subst h1
          refine arq_frame_trans _ _ _ (arq_frame_trans _ _ _ ?_ (arq_select_frame _ _ _ _ _ _ hs))
            (arq_advanceTarget_frame _ _ ha)
          dsimp only
          split
          · exact ⟨rfl, rfl, Or.inl rfl⟩
          · exact ⟨rfl, rfl, Or.inl rfl⟩

theorem arq_seedLoop_frame (base : List Int) (k : Nat) (i : Int) (s s' : ArqOptimizer)
    (h : ArqOptimizer.seedLoop base k i s = .ok s') : ArqOptimizer.Frame s s' := by
  induction k generalizing i s with
  | zero =>
    unfold ArqOptimizer.seedLoop at h
    injection h with h
    subst h
    exact arq_frame_refl _
  | succ k ih =>
    unfold ArqOptimizer.seedLoop at h
    dsimp only at h
    split at h
    · split at h
      · cases h
      · next hlt t ht =>
        refine arq_frame_trans _ _ _ ?_ (ih _ _ h)
        exact ⟨rfl, rfl, Or.inr ⟨_, ht⟩⟩
    · refine arq_frame_trans _ _ _ ?_ (ih _ _ h)
      exact ⟨rfl, rfl, Or.inl rfl⟩

theorem mkWithOrder_costIsPath (inst : TspInstance) (ord : List Int) (t : Tour)
    (h : Tour.mkWithOrder (some inst) ord = .ok t) : Tour.CostIsPath inst t := by
  obtain ⟨h1, h2, h3⟩ := mkWithOrder_ok _ _ _ h
  exact ⟨h3, by rw [h1, h2, costOf_eq_pathCost]⟩

theorem aco_create_instance (initial : Tour) (ants k samples : Int) (alpha beta rho q : ℚ)
    (seed : Rng) (fuel : Nat) (s : AcoOptimizer)
    (h : AcoOptimizer.create initial ants k samples alpha beta rho q seed fuel = some s) :
    s.m_instance = initial.m_instance := by
  unfold AcoOptimizer.create at h
  dsimp only at h
  split at h
  · unfold AcoOptimizer.buildCandidateLists at h
    dsimp only at h
    split at h
    · cases h; rfl
    · split at h
      · cases h; rfl
      · split at h
        · cases h
        · cases h; rfl
  · cases h; rfl

theorem arq_create_frame (initial : Tour) (populationSize : Int) (seed : Rng) (s : ArqOptimizer)
    (h : ArqOptimizer.create initial populationSize seed = .ok s) :
    s.m_baseline = initial.m_cost ∧ s.m_instance = initial.m_instance ∧
      (s.m_best = initial ∨ ∃ ord, Tour.mkWithOrder initial.m_instance ord = .ok s.m_best) := by
  unfold ArqOptimizer.create at h
  dsimp only at h
  split at h
  · injection h with h
    subst h
    exact ⟨rfl, rfl, Or.inl rfl⟩
  · split at h
    · cases h
    · next s1 hs =>
      injection h with h
      subst h
      exact arq_frame_trans _ _ _ (arq_seedLoop_frame _ _ _ _ s1 hs)
        (arq_beginGeneration_frame s1)

/-! ## Cost of the best tour, small tours, baseline -/

/-- The invariant `Exact` of the six strategies, in the code's own edge cost: for a
strategy seeded with a tour over an instance whose cached cost is `pathCost` of its order,
each constructor establishes `Exact` and every step that returns keeps it; the annealing
call returns in every such state. -/
theorem best_cost_exact_invariant (inst : TspInstance) (initial : Tour)
    (hinit : Tour.CostIsPath inst initial) :
    ((∀ (c : Int) (seed : Rng),
        TwoOptOptimizer.Exact inst (TwoOptOptimizer.create initial c seed)) ∧
      (∀ s : TwoOptOptimizer, TwoOptOptimizer.Exact inst s →
        TwoOptOptimizer.Exact inst (TwoOptOptimizer.iterate s).1)) ∧
    ((∀ (c st : Int) (seed : Rng),
        IlsOptimizer.Exact inst (IlsOptimizer.create initial c st seed)) ∧
      (∀ s : IlsOptimizer, IlsOptimizer.Exact inst s →
        IlsOptimizer.Exact inst (IlsOptimizer.iterate s).1)) ∧
    ((∀ (seed : Rng) (alpha : ℚ),
        SimAnnealOptimizer.Exact inst (SimAnnealOptimizer.create initial seed alpha)) ∧
      (∀ (expGt : Int → ℚ → Nat → Bool) (s s1 : SimAnnealOptimizer) (b : Bool),
        SimAnnealOptimizer.Exact inst s → SimAnnealOptimizer.iterate expGt s = some (s1, b) →
          SimAnnealOptimizer.Exact inst s1) ∧
      (∀ (expGt : Int → ℚ → Nat → Bool) (s : SimAnnealOptimizer),
        SimAnnealOptimizer.Exact inst s → ∃ s1 b, SimAnnealOptimizer.iterate expGt s = some (s1, b))) ∧
    ((∀ (populationSize mutationRate : Int) (seed : Rng),
        GeneticOptimizer.Exact inst
          (GeneticOptimizer.create initial populationSize mutationRate seed)) ∧
      (∀ (s s1 : GeneticOptimizer) (b : Bool),
        GeneticOptimizer.Exact inst s → GeneticOptimizer.iterate s = some (s1, b) →
          GeneticOptimizer.Exact inst s1)) ∧
    ((∀ (ants k samples : Int) (alpha beta rho q : ℚ) (seed : Rng) (fuel : Nat)
        (s : AcoOptimizer),
        AcoOptimizer.create initial ants k samples alpha beta rho q seed fuel = some s →
          AcoOptimizer.Exact inst s) ∧
      (∀ (pw : ℚ → ℚ → ℚ) (s s1 : AcoOptimizer) (b : Bool),
        AcoOptimizer.Exact inst s → AcoOptimizer.iterate pw s = .ok (s1, b) →
          AcoOptimizer.Exact inst s1)) ∧
    ((∀ (populationSize : Int) (seed : Rng) (s : ArqOptimizer),
        ArqOptimizer.create initial populationSize seed = .ok s → ArqOptimizer.Exact inst s) ∧
      (∀ (cauchy normal : ℚ → Nat → Option ℚ) (fuel : Nat) (s s1 : ArqOptimizer) (b : Bool),
        ArqOptimizer.Exact inst s → ArqOptimizer.iterate cauchy normal fuel s = .ok (s1, b) →
          ArqOptimizer.Exact inst s1)) := by
  refine ⟨⟨fun _ _ => ⟨hinit, hinit.1⟩, fun s h => twoOpt_exact inst s h.1 h.2⟩,
    ⟨fun _ _ _ => ⟨hinit, hinit.1⟩, fun s h => ils_exact inst s h.1 h.2⟩,
    ⟨fun _ _ => ⟨hinit, hinit⟩, fun e s s1 b h hit => sa_exact inst e s s1 b h.1 h.2 hit,
      fun e s h => sa_total e s (by rw [h.2.1]; rfl)⟩,
    ⟨fun N _ _ => ⟨hinit, fun p hp => ?_⟩, fun s s1 b h hit => ga_exact inst s s1 b h.2 hit⟩,
    ⟨fun ants k samples alpha beta rho q seed fuel s h => ?_, fun pw s s1 b h hit => ?_⟩,
    ⟨fun N seed s h => ?_, fun c n fuel s s1 b h hit => ?_⟩⟩
  · simp only [GeneticOptimizer.create] at hp
    rw [List.eq_of_mem_replicate hp]
    exact hinit
  · obtain ⟨h1, -, -⟩ := aco_create_inv _ _ _ _ _ _ _ _ _ _ s h
    have h2 := aco_create_instance _ _ _ _ _ _ _ _ _ _ s h
    exact ⟨by rw [h1]; exact hinit, by rw [h2]; exact hinit.1⟩
  · obtain ⟨-, f2, f3⟩ := aco_frame pw s s1 b hit
    refine ⟨?_, by rw [f2]; exact h.2⟩
    rcases f3 with f3 | ⟨o, f3⟩
    · rw [f3]; exact h.1
    · rw [h.2] at f3
      exact mkWithOrder_costIsPath inst o _ f3
  · obtain ⟨-, f2, f3⟩ := arq_create_frame _ _ _ s h
    refine ⟨?_, by rw [f2]; exact hinit.1⟩
    rcases f3 with f3 | ⟨o, f3⟩
    · rw [f3]; exact hinit
    · rw [hinit.1] at f3
      exact mkWithOrder_costIsPath inst o _ f3
  · obtain ⟨-, f2, f3⟩ := arq_frame c n fuel s s1 b hit
    refine ⟨?_, by rw [f2]; exact h.2⟩
    rcases f3 with f3 | ⟨o, f3⟩
    · rw [f3]; exact h.1
    · rw [h.2] at f3
      exact mkWithOrder_costIsPath inst o _ f3

/-- C12: with fewer than four nodes, `iterate` of the 2-opt, ILS and annealing
optimizers returns `false` and leaves the whole optimizer state, and so the
current and the best tour, as it was (the annealing call returns, also
without an instance); with fewer than eight nodes the double bridge leaves the
optimizer as it was. -/
theorem C12_small_tours_are_left_alone :
    (∀ s : TwoOptOptimizer, s.m_current.size < 4 → TwoOptOptimizer.iterate s = (s, false)) ∧
    (∀ s : IlsOptimizer, s.m_current.size < 4 → IlsOptimizer.iterate s = (s, false)) ∧
    (∀ (expGt : Int → ℚ → Nat → Bool) (s : SimAnnealOptimizer), s.m_current.size < 4 →
      SimAnnealOptimizer.iterate expGt s = some (s, false)) ∧
    (∀ s : IlsOptimizer, s.m_current.size < 8 → IlsOptimizer.doubleBridgePerturbation s = s) := by
  refine ⟨fun s h => ?_, fun s h => ?_, fun e s h => ?_, fun s h => ?_⟩
  · unfold TwoOptOptimizer.iterate
    rw [if_pos h]
  · unfold IlsOptimizer.iterate
    rw [if_pos h]
  · unfold SimAnnealOptimizer.iterate
    rw [if_pos h]
  · unfold IlsOptimizer.doubleBridgePerturbation
    rw [if_pos h]

theorem twoOpt_baseline (s : TwoOptOptimizer) :
    (TwoOptOptimizer.iterate s).1.m_baseline = s.m_baseline := by
  unfold TwoOptOptimizer.iterate
  split
  · rfl
  · split
    · rfl
    · dsimp only
      split
      · split <;> rfl
      · rfl

theorem ils_applyBest_baseline (s : IlsOptimizer) :
    (IlsOptimizer.applyBest2OptMove s).1.m_baseline = s.m_baseline := by
  unfold IlsOptimizer.applyBest2OptMove
  split
  · rfl
  · split
    · rfl
    · dsimp only
      split <;> rfl

theorem ils_doubleBridge_baseline (t : IlsOptimizer) :
    (IlsOptimizer.doubleBridgePerturbation t).m_baseline = t.m_baseline := by
  unfold IlsOptimizer.doubleBridgePerturbation
  split <;> rfl

theorem ils_record_baseline (t : IlsOptimizer) :
    (IlsOptimizer.recordIfBetter t).1.m_baseline = t.m_baseline := by
  unfold IlsOptimizer.recordIfBetter
  split <;> rfl

theorem ils_baseline (s : IlsOptimizer) :
    (IlsOptimizer.iterate s).1.m_baseline = s.m_baseline := by
  have hA := ils_applyBest_baseline s
  unfold IlsOptimizer.iterate
  split
  · rfl
  · dsimp only
    split
    · rw [ils_record_baseline]
      exact hA
    · split
      · rw [ils_record_baseline]
        dsimp only
        rw [ils_doubleBridge_baseline]
        exact hA
      · exact hA

theorem sa_record_baseline (t : SimAnnealOptimizer) :
    (SimAnnealOptimizer.coolAndRecord t).1.m_baseline = t.m_baseline := by
  unfold SimAnnealOptimizer.coolAndRecord
  dsimp only
  split <;> rfl

theorem sa_baseline (expGt : Int → ℚ → Nat → Bool) (s s' : SimAnnealOptimizer) (b : Bool)
    (h : SimAnnealOptimizer.iterate expGt s = some (s', b)) : s'.m_baseline = s.m_baseline := by
  unfold SimAnnealOptimizer.iterate at h
  split at h
  · cases h; rfl
  · dsimp only at h
    split at h
    · cases h; rfl
    · split at h
      · cases h; rfl
      · split at h
        · cases h
        · simp only [Option.some.injEq] at h
          have hs := congrArg Prod.fst h
          dsimp only at hs
          subst hs
          unfold SimAnnealOptimizer.applyMove
          rw [sa_record_baseline]

theorem ga_baseline (s s' : GeneticOptimizer) (b : Bool)
    (h : GeneticOptimizer.iterate s = some (s', b)) : s'.m_baseline = s.m_baseline := by
  unfold GeneticOptimizer.iterate at h
  split at h
  · cases h
  · split at h
    · cases h
    · dsimp only at h
      split at h
      · cases h
      · split at h
        · cases h
        · split at h
          · cases h; rfl
          · cases h; rfl

/-- C13: for each of the six strategies the baseline is the cached cost of
the tour given to the constructor, and no call of `iterate` changes it (for
the strategies whose constructor or step can fail: whenever it returns). -/
theorem C13_baseline_is_fixed :
    ((∀ (initial : Tour) (c : Int) (seed : Rng),
        (TwoOptOptimizer.create initial c seed).m_baseline = initial.m_cost) ∧
      (∀ s : TwoOptOptimizer, (TwoOptOptimizer.iterate s).1.m_baseline = s.m_baseline)) ∧
    ((∀ (initial : Tour) (c st : Int) (seed : Rng),
        (IlsOptimizer.create initial c st seed).m_baseline = initial.m_cost) ∧
      (∀ s : IlsOptimizer, (IlsOptimizer.iterate s).1.m_baseline = s.m_baseline)) ∧
    ((∀ (initial : Tour) (seed : Rng) (alpha : ℚ),
        (SimAnnealOptimizer.create initial seed alpha).m_baseline = initial.m_cost) ∧
      (∀ (expGt : Int → ℚ → Nat → Bool) (s s1 : SimAnnealOptimizer) (b : Bool),
        SimAnnealOptimizer.iterate expGt s = some (s1, b) → s1.m_baseline = s.m_baseline)) ∧
    ((∀ (initial : Tour) (populationSize mutationRate : Int) (seed : Rng),
        (GeneticOptimizer.create initial populationSize mutationRate seed).m_baseline =
          initial.m_cost) ∧
      (∀ (s s1 : GeneticOptimizer) (b : Bool),
        GeneticOptimizer.iterate s = some (s1, b) → s1.m_baseline = s.m_baseline)) ∧
    ((∀ (initial : Tour) (ants k samples : Int) (alpha beta rho q : ℚ) (seed : Rng)
        (fuel : Nat) (s : AcoOptimizer),
        AcoOptimizer.create initial ants k samples alpha beta rho q seed fuel = some s →
          s.m_baseline = initial.m_cost) ∧
      (∀ (pw : ℚ → ℚ → ℚ) (s s1 : AcoOptimizer) (b : Bool),
        AcoOptimizer.iterate pw s = .ok (s1, b) → s1.m_baseline = s.m_baseline)) ∧
    ((∀ (initial : Tour) (populationSize : Int) (seed : Rng) (s : ArqOptimizer),
        ArqOptimizer.create initial populationSize seed = .ok s →
          s.m_baseline = initial.m_cost) ∧
      (∀ (cauchy normal : ℚ → Nat → Option ℚ) (fuel : Nat) (s s1 : ArqOptimizer) (b : Bool),
        ArqOptimizer.iterate cauchy normal fuel s = .ok (s1, b) →
          s1.m_baseline = s.m_baseline)) := by
  refine ⟨⟨fun _ _ _ => rfl, twoOpt_baseline⟩, ⟨fun _ _ _ _ => rfl, ils_baseline⟩,
    ⟨fun _ _ _ => rfl, sa_baseline⟩, ⟨fun _ _ _ _ => rfl, ga_baseline⟩,
    ⟨fun initial ants k samples alpha beta rho q seed fuel s h =>
        (aco_create_inv _ _ _ _ _ _ _ _ _ _ s h).2.2,
      fun pw s s1 b h => (aco_frame pw s s1 b h).1⟩,
    ⟨fun initial N seed s h => (arq_create_frame _ _ _ s h).1,
      fun c n fuel s s1 b h => (arq_frame c n fuel s s1 b h).1⟩⟩

/-! ## The edge cost and 32-bit arithmetic -/

theorem abs32_wrap32_small (d : Int) (h : |d| ≤ 2147483647) : abs32 (wrap32 d) = |d| := by
  have h1 := abs_le.mp h
  have hw : wrap32 d = d := by unfold wrap32; omega
  rw [hw]
  unfold abs32
  split
  · rw [abs_of_neg (by omega)]
    unfold wrap32; omega
  · rw [abs_of_nonneg (by omega)]
    unfold wrap32; omega

theorem edgeCost_eq_chebyshev (a b : TspPoint) (hx : |a.x - b.x| ≤ 2147483647)
    (hy : |a.y - b.y| ≤ 2147483647) : Tour.edgeCost a b = chebyshev a b := by
  unfold Tour.edgeCost chebyshev
  dsimp only
  rw [abs32_wrap32_small _ hx, abs32_wrap32_small _ hy]
  split
  · next h => exact (max_eq_left (le_of_lt h)).symm
  · next h => exact (max_eq_right (not_lt.mp h)).symm

/-- C17 fails on the code: the two coordinate differences are formed and
their absolute values taken in 32-bit arithmetic. For the points
(2147483647, 0) and (-1, 0) the Chebyshev distance is 2147483648, the
subtraction overflows, and with wrap-around the edge cost is 0; for
(2147483647, 2147483647) and (-1, -1) it is -2147483648, a negative cost.
The claim holds for all points whose coordinate differences are at most
2147483647 in absolute value (the edge cost is then the Chebyshev distance
and not negative), and the edge cost is symmetric for all points. -/
theorem C17_edge_cost_overflows :
    Tour.edgeCost ⟨2147483647, 0⟩ ⟨-1, 0⟩ = 0 ∧
    chebyshev ⟨2147483647, 0⟩ ⟨-1, 0⟩ = 2147483648 ∧
    Tour.edgeCost ⟨2147483647, 2147483647⟩ ⟨-1, -1⟩ = -2147483648 ∧
    (∀ a b : TspPoint, |a.x - b.x| ≤ 2147483647 → |a.y - b.y| ≤ 2147483647 →
      Tour.edgeCost a b = chebyshev a b ∧ 0 ≤ Tour.edgeCost a b) ∧
    (∀ a b : TspPoint, Tour.edgeCost a b = Tour.edgeCost b a) := by
  refine ⟨by decide, by decide, by decide, fun a b hx hy => ?_, edgeCost_comm⟩
  have h := edgeCost_eq_chebyshev a b hx hy
  refine ⟨h, ?_⟩
  rw [h]
  exact le_trans (abs_nonneg _) (le_max_left _ _)

/-! ## Path costs and the Chebyshev metric -/

theorem ptAt_mem (pts : List TspPoint) (i : Int) : ptAt pts i ∈ (⟨0, 0⟩ : TspPoint) :: pts := by
  unfold ptAt
  split
  · rw [List.getD_eq_getElem?_getD]
    cases h : pts[i.toNat]? with
    | none => exact List.mem_cons_self _ _
    | some p =>
      obtain ⟨hl, e⟩ := List.getElem?_eq_some_iff.mp h
      exact List.mem_cons_of_mem _ (e ▸ List.getElem_mem hl)
  · exact List.mem_cons_self _ _

theorem pathCost_eq_chebyshev (inst : TspInstance) (hfit : inst.DiffsFit) (ord : List Int) :
    pathCost inst.m_points ord = chebyshevPathCost inst.m_points ord := by
  induction ord with
  | nil => rfl
  | cons a l ih =>
    cases l with
    | nil => rfl
    | cons b rest =>
      have h := hfit _ (ptAt_mem inst.m_points a) _ (ptAt_mem inst.m_points b)
      rw [pathCost, chebyshevPathCost, ih, edgeCost_eq_chebyshev _ _ h.1 h.2]

theorem chebyshevPathCost_eq_sum (pts : List TspPoint) (ord : List Int) :
    chebyshevPathCost pts ord =
      ∑ k in Finset.range (ord.length - 1),
        chebyshev (ptAt pts (ord.getD k 0)) (ptAt pts (ord.getD (k + 1) 0)) := by
  induction ord with
  | nil => rfl
  | cons a l ih =>
    cases l with
    | nil => rfl
    | cons b rest =>
      rw [chebyshevPathCost, ih]
      simp only [List.length_cons, Nat.add_sub_cancel]
      rw [Finset.sum_range_succ']
      simp only [List.getD_cons_zero, List.getD_cons_succ, zero_add]
      rw [add_comm]

/-- C1 fails on the code where a coordinate difference does not fit 32 bits: the cached
cost after `Tour::evaluate` is the sum, over `k` from `0` to `n - 2`, of `Tour::edgeCost`
between the points of `order[k]` and `order[k + 1]` (no closing edge, `0` for an empty and
for a single-node order), and `Tour::edgeCost` is the Chebyshev distance only when both
coordinate differences are at most 2147483647 in absolute value. For the identity tour
over the points (2147483647, 0) and (-1, 0) the cached cost is 0 where the sum of the
Chebyshev edge costs is 2147483648. Whenever the differences of all consecutive points of
the order fit, the cached cost is the sum of the Chebyshev edge costs, as the claim says;
the identity tour over the unit square scaled by 10000 costs 30000. -/
theorem C1_evaluate_sum_overflows :
    (Tour.mkIdentity (some overflowInstance) = .ok ⟨some overflowInstance, [0, 1], 0⟩ ∧
      (∑ k in Finset.range (([0, 1] : List Int).length - 1),
        chebyshev (ptAt overflowInstance.m_points (([0, 1] : List Int).getD k 0))
          (ptAt overflowInstance.m_points (([0, 1] : List Int).getD (k + 1) 0))) = 2147483648) ∧
    (∀ (inst : TspInstance) (ord : List Int) (c : Int),
      (∀ k, k + 1 < ord.length →
        |(ptAt inst.m_points (ord.getD k 0)).x - (ptAt inst.m_points (ord.getD (k + 1) 0)).x|
          ≤ 2147483647 ∧
        |(ptAt inst.m_points (ord.getD k 0)).y - (ptAt inst.m_points (ord.getD (k + 1) 0)).y|
          ≤ 2147483647) →
      (Tour.evaluate ⟨some inst, ord, c⟩).m_cost =
        ∑ k in Finset.range (ord.length - 1),
          chebyshev (ptAt inst.m_points (ord.getD k 0))
            (ptAt inst.m_points (ord.getD (k + 1) 0))) ∧
    (∀ (inst : TspInstance) (ord : List Int) (c : Int),
      (Tour.evaluate ⟨some inst, ord, c⟩).m_cost =
        ∑ k in Finset.range (ord.length - 1),
          Tour.edgeCost (ptAt inst.m_points (ord.getD k 0))
            (ptAt inst.m_points (ord.getD (k + 1) 0))) ∧
    (∀ (inst : TspInstance) (c : Int), (Tour.evaluate ⟨some inst, [], c⟩).m_cost = 0) ∧
    (∀ (inst : TspInstance) (v c : Int), (Tour.evaluate ⟨some inst, [v], c⟩).m_cost = 0) ∧
    (Tour.mkIdentity (some squareInstance) = .ok ⟨some squareInstance, [0, 1, 2, 3], 30000⟩ ∧
      (∑ k in Finset.range (([0, 1, 2, 3] : List Int).length - 1),
        chebyshev (ptAt squareInstance.m_points (([0, 1, 2, 3] : List Int).getD k 0))
          (ptAt squareInstance.m_points (([0, 1, 2, 3] : List Int).getD (k + 1) 0))) = 30000) := by
  refine ⟨⟨by decide, ?_⟩, ?_, ?_, ?_, ?_, by decide, ?_⟩
  · rw [← chebyshevPathCost_eq_sum]; decide
  · intro inst ord c hfit
    rw [evaluate_cost_some, ← evaluateLoop_eq_pathCost, evaluateLoop_eq_sum]
    apply Finset.sum_congr rfl
    intro k hk
    have hk' := Finset.mem_range.mp hk
    have h := hfit k (by omega)
    exact edgeCost_eq_chebyshev _ _ h.1 h.2
  · intro inst ord c
    rw [evaluate_cost_some, ← evaluateLoop_eq_pathCost, evaluateLoop_eq_sum]
  · intro inst c
    rw [evaluate_cost_some]; rfl
  · intro inst v c
    rw [evaluate_cost_some]; rfl
  · rw [← chebyshevPathCost_eq_sum]; decide

theorem diffsFit_crossing : crossingInstance.DiffsFit := by
  unfold TspInstance.DiffsFit
  decide

set_option maxRecDepth 100000 in
/-- C11 fails on the code where a coordinate difference does not fit 32 bits (the defect
of `Tour::edgeCost`). Over the points (2147480000, 0), (0, 0), (-5000, 0), (-10000, 0) the
identity tour, as its constructor makes it, is a permutation whose cached cost 2147490000
is its Chebyshev path cost; the 2-opt step that samples the pair (1, 3) computes the delta
-2704 and reverses positions 1..3, and afterwards the best tour is 0, 3, 2, 1 with cost
2147487296, while the Chebyshev cost of that path is 2147500000. On an instance all of whose coordinate differences fit, the claim holds for
every strategy: seeded with a tour whose cached cost is its Chebyshev path cost, the
constructor establishes the invariant `Exact`, every call of `iterate` that returns keeps
it (the annealing call returns in every such state), and in every state with the invariant
the cost of the best tour is the sum of the Chebyshev edge costs along the open path of the
best order. -/
theorem C11_best_cost_overflows :
    (Tour.mkIdentity (some wideInstance) = .ok wideTour ∧
      IsPermutation wideTour.m_order 4 ∧
      wideTour.m_instance = some wideInstance ∧
      wideTour.m_cost = chebyshevPathCost wideInstance.m_points wideTour.m_order ∧
      TwoOptOptimizer.deltaReverseOpen wideInstance.m_points wideTour.m_order 1 3 = -2704 ∧
      (TwoOptOptimizer.iterate (TwoOptOptimizer.create wideTour 250 [1, 3])).1.m_best.m_order =
        [0, 3, 2, 1] ∧
      (TwoOptOptimizer.iterate (TwoOptOptimizer.create wideTour 250 [1, 3])).1.m_best.m_cost =
        2147487296 ∧
      chebyshevPathCost wideInstance.m_points [0, 3, 2, 1] = 2147500000) ∧
    (∀ (inst : TspInstance) (initial : Tour), inst.DiffsFit →
      initial.m_instance = some inst →
      initial.m_cost = chebyshevPathCost inst.m_points initial.m_order →
      ((∀ (c : Int) (seed : Rng),
          TwoOptOptimizer.Exact inst (TwoOptOptimizer.create initial c seed)) ∧
        (∀ s : TwoOptOptimizer, TwoOptOptimizer.Exact inst s →
          TwoOptOptimizer.Exact inst (TwoOptOptimizer.iterate s).1) ∧
        (∀ s : TwoOptOptimizer, TwoOptOptimizer.Exact inst s →
          s.m_best.m_cost = chebyshevPathCost inst.m_points s.m_best.m_order)) ∧
      ((∀ (c st : Int) (seed : Rng),
          IlsOptimizer.Exact inst (IlsOptimizer.create initial c st seed)) ∧
        (∀ s : IlsOptimizer, IlsOptimizer.Exact inst s →
          IlsOptimizer.Exact inst (IlsOptimizer.iterate s).1) ∧
        (∀ s : IlsOptimizer, IlsOptimizer.Exact inst s →
          s.m_best.m_cost = chebyshevPathCost inst.m_points s.m_best.m_order)) ∧
      ((∀ (seed : Rng) (alpha : ℚ),
          SimAnnealOptimizer.Exact inst (SimAnnealOptimizer.create initial seed alpha)) ∧
        (∀ (expGt : Int → ℚ → Nat → Bool) (s s1 : SimAnnealOptimizer) (b : Bool),
          SimAnnealOptimizer.Exact inst s → SimAnnealOptimizer.iterate expGt s = some (s1, b) →
            SimAnnealOptimizer.Exact inst s1) ∧
        (∀ (expGt : Int → ℚ → Nat → Bool) (s : SimAnnealOptimizer),
          SimAnnealOptimizer.Exact inst s →
            ∃ s1 b, SimAnnealOptimizer.iterate expGt s = some (s1, b)) ∧
        (∀ s : SimAnnealOptimizer, SimAnnealOptimizer.Exact inst s →
          s.m_best.m_cost = chebyshevPathCost inst.m_points s.m_best.m_order)) ∧
      ((∀ (populationSize mutationRate : Int) (seed : Rng),
          GeneticOptimizer.Exact inst
            (GeneticOptimizer.create initial populationSize mutationRate seed)) ∧
        (∀ (s s1 : GeneticOptimizer) (b : Bool),
          GeneticOptimizer.Exact inst s → GeneticOptimizer.iterate s = some (s1, b) →
            GeneticOptimizer.Exact inst s1) ∧
        (∀ s : GeneticOptimizer, GeneticOptimizer.Exact inst s →
          s.m_best.m_cost = chebyshevPathCost inst.m_points s.m_best.m_order)) ∧
      ((∀ (ants k samples : Int) (alpha beta rho q : ℚ) (seed : Rng) (fuel : Nat)
          (s : AcoOptimizer),
          AcoOptimizer.create initial ants k samples alpha beta rho q seed fuel = some s →
            AcoOptimizer.Exact inst s) ∧
        (∀ (pw : ℚ → ℚ → ℚ) (s s1 : AcoOptimizer) (b : Bool),
          AcoOptimizer.Exact inst s → AcoOptimizer.iterate pw s = .ok (s1, b) →
            AcoOptimizer.Exact inst s1) ∧
        (∀ s : AcoOptimizer, AcoOptimizer.Exact inst s →
          s.m_best.m_cost = chebyshevPathCost inst.m_points s.m_best.m_order)) ∧
      ((∀ (populationSize : Int) (seed : Rng) (s : ArqOptimizer),
          ArqOptimizer.create initial populationSize seed = .ok s → ArqOptimizer.Exact inst s) ∧
        (∀ (cauchy normal : ℚ → Nat → Option ℚ) (fuel : Nat) (s s1 : ArqOptimizer) (b : Bool),
          ArqOptimizer.Exact inst s → ArqOptimizer.iterate cauchy normal fuel s = .ok (s1, b) →
            ArqOptimizer.Exact inst s1) ∧
        (∀ s : ArqOptimizer, ArqOptimizer.Exact inst s →
          s.m_best.m_cost = chebyshevPathCost inst.m_points s.m_best.m_order))) := by
  refine ⟨⟨by decide!, by unfold IsPermutation; decide!, rfl, by decide!, by decide!,
    by decide!, by decide!, by decide!⟩, ?_⟩
  intro inst initial hfit hi hc
  have hinit : Tour.CostIsPath inst initial :=
    ⟨hi, by rw [hc, pathCost_eq_chebyshev inst hfit]⟩
  have key : ∀ t : Tour, Tour.CostIsPath inst t →
      t.m_cost = chebyshevPathCost inst.m_points t.m_order := by
    intro t ht
    rw [ht.2, pathCost_eq_chebyshev inst hfit]
  obtain ⟨a, b, c, d, e, f⟩ := best_cost_exact_invariant inst initial hinit
  exact ⟨⟨a.1, a.2, fun s h => key _ h.1⟩, ⟨b.1, b.2, fun s h => key _ h.1⟩,
    ⟨c.1, c.2.1, c.2.2, fun s h => key _ h.1⟩, ⟨d.1, d.2, fun s h => key _ h.1⟩,
    ⟨e.1, e.2, fun s h => key _ h.1⟩, ⟨f.1, f.2, fun s h => key _ h.1⟩⟩

set_option maxRecDepth 100000 in
/-- C11 on the five-point example, whose coordinate differences fit: the tour is in sync,
and after one 2-opt step that reverses positions 1..3 the best tour is 0, 3, 2, 1, 4 with
cost 40000, the Chebyshev cost of that path. -/
theorem C11_best_cost_overflows_witness :
    crossingInstance.DiffsFit ∧
    crossingTour.m_cost = chebyshevPathCost crossingInstance.m_points crossingTour.m_order ∧
    (TwoOptOptimizer.iterate twoOptExample).1.m_best.m_order = [0, 3, 2, 1, 4] ∧
    (TwoOptOptimizer.iterate twoOptExample).1.m_best.m_cost = 40000 ∧
    (TwoOptOptimizer.iterate twoOptExample).1.m_best.m_cost =
      chebyshevPathCost crossingInstance.m_points
        (TwoOptOptimizer.iterate twoOptExample).1.m_best.m_order :=
  ⟨diffsFit_crossing, by decide!, by decide!, by decide!,
    (C11_best_cost_overflows.2 crossingInstance crossingTour diffsFit_crossing rfl
      (by decide!)).1.2.2 _
      ((C11_best_cost_overflows.2 crossingInstance crossingTour diffsFit_crossing rfl
        (by decide!)).1.2.1 _
        ((C11_best_cost_overflows.2 crossingInstance crossingTour diffsFit_crossing rfl
          (by decide!)).1.1 250 [1, 3]))⟩

/-! ## The double bridge -/

theorem db_split (ord : List Int) (i j k : Nat) (hij : i ≤ j) (hjk : j ≤ k) :
    ord = ord.take i ++ (ord.drop i).take (j - i) ++ (ord.drop j).take (k - j) ++ ord.drop k := by
  have h2 : ord.drop k = (ord.drop j).drop (k - j) := by
    rw [List.drop_drop]; congr 1; omega
  have h3 : ord.drop j = (ord.drop i).drop (j - i) := by
    rw [List.drop_drop]; congr 1; omega
  rw [h2, List.append_assoc _ _ (List.drop (k - j) (List.drop j ord)), List.take_append_drop,
    h3, List.append_assoc _ _ (List.drop (j - i) (List.drop i ord)), List.take_append_drop,
    List.take_append_drop]

theorem db_tail (ord : List Int) (k l : Nat) (hkl : k ≤ l) :
    (ord.drop k).take (l - k) ++ ord.drop l = ord.drop k := by
  have h1 : ord.drop l = (ord.drop k).drop (l - k) := by
    rw [List.drop_drop]; congr 1; omega
  rw [h1, List.take_append_drop]

theorem db_eq (ord : List Int) (i j k l : Nat) (hkl : k ≤ l) :
    IlsOptimizer.doubleBridgeAt ord i j k l =
      ord.take i ++ (ord.drop j).take (k - j) ++ (ord.drop i).take (j - i) ++ ord.drop k := by
  unfold IlsOptimizer.doubleBridgeAt
  rw [List.append_assoc _ _ (List.drop l ord), db_tail ord k l hkl]

/-- C18: on a tour of `n ≥ 8` nodes the cut points drawn by
`doubleBridgePerturbation` satisfy `1 ≤ i < j < k < l ≤ n - 2`; the order is
`A ++ B ++ C ++ D ++ E` with the five segments `[0, i)`, `[i, j)`, `[j, k)`,
`[k, l)`, `[l, n)`, none of them empty, and the new order is
`A ++ C ++ B ++ D ++ E`; the first and the last node stay where they are. -/
theorem C18_double_bridge_segments (s : IlsOptimizer) (h8 : 8 ≤ s.m_current.size) :
    ∃ (i j k l : Nat) (A B C D E : List Int),
      (IlsOptimizer.doubleBridgeCuts s.m_current.size s.m_rng).1 = (i, j, k, l) ∧
      (1 ≤ i ∧ i < j ∧ j < k ∧ k < l ∧ l ≤ s.m_current.size - 2) ∧
      s.m_current.m_order = A ++ B ++ C ++ D ++ E ∧
      (A.length = i ∧ B.length = j - i ∧ C.length = k - j ∧ D.length = l - k ∧
        E.length = s.m_current.size - l) ∧
      (A ≠ [] ∧ B ≠ [] ∧ C ≠ [] ∧ D ≠ [] ∧ E ≠ []) ∧
      (IlsOptimizer.doubleBridgePerturbation s).m_current.m_order = A ++ C ++ B ++ D ++ E ∧
      (IlsOptimizer.doubleBridgePerturbation s).m_current.m_order.head? =
        s.m_current.m_order.head? ∧
      (IlsOptimizer.doubleBridgePerturbation s).m_current.m_order.getLast? =
        s.m_current.m_order.getLast? := by
  obtain ⟨c1, c2, c3, c4, c5⟩ := doubleBridgeCuts_admissible s.m_current.size s.m_rng h8
  generalize hc : IlsOptimizer.doubleBridgeCuts s.m_current.size s.m_rng = cuts at c1 c2 c3 c4 c5
  obtain ⟨⟨i, j, k, l⟩, g⟩ := cuts
  dsimp only at c1 c2 c3 c4 c5
  have hn : s.m_current.m_order.length = s.m_current.size := rfl
  have hA : (s.m_current.m_order.take i).length = i := by
    rw [List.length_take]; omega
  have hB : ((s.m_current.m_order.drop i).take (j - i)).length = j - i := by
    rw [List.length_take, List.length_drop]; omega
  have hC : ((s.m_current.m_order.drop j).take (k - j)).length = k - j := by
    rw [List.length_take, List.length_drop]; omega
  have hD : ((s.m_current.m_order.drop k).take (l - k)).length = l - k := by
    rw [List.length_take, List.length_drop]; omega
  have hE : (s.m_current.m_order.drop l).length = s.m_current.size - l := by
    rw [List.length_drop, hn]
  have hsplit : s.m_current.m_order =
      s.m_current.m_order.take i ++ (s.m_current.m_order.drop i).take (j - i)
        ++ (s.m_current.m_order.drop j).take (k - j)
        ++ (s.m_current.m_order.drop k).take (l - k) ++ s.m_current.m_order.drop l := by
    rw [List.append_assoc _ _ (List.drop l s.m_current.m_order),
      db_tail _ k l (by omega)]
    exact db_split _ i j k (by omega) (by omega)
  have hne : ∀ (X : List Int) (m : Nat), X.length = m → 0 < m → X ≠ [] := by
    intro X m h1 h2 h3
    rw [h3] at h1
    simp at h1
    omega
  have hAne := hne _ _ hA (by omega)
  have hEne := hne _ _ hE (by omega)
  have hnew : (IlsOptimizer.doubleBridgePerturbation s).m_current.m_order =
      s.m_current.m_order.take i ++ (s.m_current.m_order.drop j).take (k - j)
        ++ (s.m_current.m_order.drop i).take (j - i)
        ++ (s.m_current.m_order.drop k).take (l - k) ++ s.m_current.m_order.drop l := by
    unfold IlsOptimizer.doubleBridgePerturbation
    rw [if_neg (by omega)]
    dsimp only
    rw [hc]
    rfl
  refine ⟨i, j, k, l, _, _, _, _, _, rfl, ⟨c1, c2, c3, c4, c5⟩, hsplit, ⟨hA, hB, hC, hD, hE⟩,
    ⟨hAne, hne _ _ hB (by omega), hne _ _ hC (by omega), hne _ _ hD (by omega), hEne⟩,
    hnew, ?_, ?_⟩
  · rw [hnew]
    conv_rhs => rw [hsplit]
    simp only [List.append_assoc]
    rw [List.head?_append_of_ne_nil _ hAne, List.head?_append_of_ne_nil _ hAne]
  · rw [hnew]
    conv_rhs => rw [hsplit]
    rw [List.getLast?_append_of_ne_nil _ hEne, List.getLast?_append_of_ne_nil _ hEne]

set_option maxRecDepth 100000 in
/-- C18 at the eight-node example: the cut points are 1, 2, 3, 4 and the new
order is 0, 2, 1, 3, 4, 5, 6, 7. -/
theorem C18_double_bridge_segments_witness :
    ∃ (i j k l : Nat) (A B C D E : List Int),
      (IlsOptimizer.doubleBridgeCuts ilsExample.m_current.size ilsExample.m_rng).1 =
        (i, j, k, l) ∧
      ilsExample.m_current.m_order = A ++ B ++ C ++ D ++ E ∧
      (IlsOptimizer.doubleBridgePerturbation ilsExample).m_current.m_order =
        A ++ C ++ B ++ D ++ E ∧
      (IlsOptimizer.doubleBridgePerturbation ilsExample).m_current.m_order =
        [0, 2, 1, 3, 4, 5, 6, 7] := by
  obtain ⟨i, j, k, l, A, B, C, D, E, h1, -, h3, -, -, h6, -, -⟩ :=
    C18_double_bridge_segments ilsExample (by decide)
  exact ⟨i, j, k, l, A, B, C, D, E, h1, h3, h6, by decide⟩

theorem adjacencies_append (X Y : List Int) :
    adjacencies (X ++ Y) = adjacencies X ++ linkPair X Y ++ adjacencies Y := by
  induction X with
  | nil => simp [adjacencies, linkPair]
  | cons a X ih =>
    cases X with
    | nil =>
      cases Y with
      | nil => simp [adjacencies, linkPair]
      | cons b Y => simp [adjacencies, linkPair]
    | cons b X =>
      have h1 : adjacencies (a :: b :: X ++ Y) = (a, b) :: adjacencies (b :: X ++ Y) := by
        simp [adjacencies]
      have h2 : linkPair (a :: b :: X) Y = linkPair (b :: X) Y := by
        simp [linkPair, List.getLast?_cons_cons]
      rw [h1, ih, h2]
      simp [adjacencies]

theorem linkPair_of (X Y : List Int) (a b : Int) (hx : X.getLast? = some a)
    (hy : Y.head? = some b) : linkPair X Y = [(a, b)] := by
  simp [linkPair, hx, hy]

theorem linkPair_append_left (A M C : List Int) (hM : M ≠ []) :
    linkPair (A ++ M) C = linkPair M C := by
  unfold linkPair
  rw [List.getLast?_append_of_ne_nil A hM]

theorem linkPair_append_right (A M C : List Int) (hM : M ≠ []) :
    linkPair A (M ++ C) = linkPair A M := by
  unfold linkPair
  rw [List.head?_append_of_ne_nil M hM]

/-- The adjacencies of four non-empty pieces in a row. -/
theorem adjacencies_four (A B C R : List Int) (a b1 b2 c1 c2 d : Int)
    (hA : A.getLast? = some a) (hB1 : B.head? = some b1) (hB2 : B.getLast? = some b2)
    (hC1 : C.head? = some c1) (hC2 : C.getLast? = some c2) (hR : R.head? = some d) :
    adjacencies (A ++ B ++ C ++ R) =
      adjacencies A ++ [(a, b1)] ++ adjacencies B ++ [(b2, c1)] ++ adjacencies C ++ [(c2, d)]
        ++ adjacencies R := by
  have hBne : B ≠ [] := by
    intro h; rw [h] at hB1; simp at hB1
  have hCne : C ≠ [] := by
    intro h; rw [h] at hC1; simp at hC1
  rw [adjacencies_append (A ++ B ++ C) R, adjacencies_append (A ++ B) C, adjacencies_append A B,
    linkPair_append_left (A ++ B) C R hCne, linkPair_append_left A B C hBne,
    linkPair_of A B a b1 hA hB1, linkPair_of B C b2 c1 hB2 hC1, linkPair_of C R c2 d hC2 hR]

/-- C20: the reordering of the double bridge does not depend on the fourth
cut point: every `l'` with `k ≤ l'` gives the order of `l`, because the
segments D and E stay adjacent in their order. The adjacent pairs of the new
order are those of the old one except for three: the pairs at the old
junctions A|B, B|C and C|D are replaced by the pairs at the new junctions
A|C, C|B and B|D. -/
theorem C20_double_bridge_ignores_last_cut (ord : List Int) (i j k l : Nat)
    (hi : 1 ≤ i) (hij : i < j) (hjk : j < k) (hkl : k < l) (hl : l ≤ ord.length - 2) :
    (∀ l1 : Nat, k ≤ l1 →
      IlsOptimizer.doubleBridgeAt ord i j k l1 = IlsOptimizer.doubleBridgeAt ord i j k l) ∧
    ∃ P : List (Int × Int),
      (adjacencies ord).Perm
        (P ++ [(ord.getD (i - 1) 0, ord.getD i 0), (ord.getD (j - 1) 0, ord.getD j 0),
          (ord.getD (k - 1) 0, ord.getD k 0)]) ∧
      (adjacencies (IlsOptimizer.doubleBridgeAt ord i j k l)).Perm
        (P ++ [(ord.getD (i - 1) 0, ord.getD j 0), (ord.getD (k - 1) 0, ord.getD i 0),
          (ord.getD (j - 1) 0, ord.getD k 0)]) := by
  refine ⟨fun l1 h1 => by rw [db_eq ord i j k l1 h1, db_eq ord i j k l (by omega)], ?_⟩
  have hA := getLast?_take_getD ord i (by omega) (by omega)
  have hB1 : ((ord.drop i).take (j - i)).head? = some (ord.getD i 0) := by
    have := head?_mid_getD ord i (j - 1) (by omega) (by omega)
    rwa [show j - 1 + 1 - i = j - i by omega] at this
  have hB2 : ((ord.drop i).take (j - i)).getLast? = some (ord.getD (j - 1) 0) := by
    have := getLast?_mid_getD ord i (j - 1) (by omega) (by omega)
    rwa [show j - 1 + 1 - i = j - i by omega] at this
  have hC1 : ((ord.drop j).take (k - j)).head? = some (ord.getD j 0) := by
    have := head?_mid_getD ord j (k - 1) (by omega) (by omega)
    rwa [show k - 1 + 1 - j = k - j by omega] at this
  have hC2 : ((ord.drop j).take (k - j)).getLast? = some (ord.getD (k - 1) 0) := by
    have := getLast?_mid_getD ord j (k - 1) (by omega) (by omega)
    rwa [show k - 1 + 1 - j = k - j by omega] at this
  have hR := head?_drop_getD ord k (by omega)
  have e1 := adjacencies_four _ _ _ _ _ _ _ _ _ _ hA hB1 hB2 hC1 hC2 hR
  have e2 := adjacencies_four _ _ _ _ _ _ _ _ _ _ hA hC1 hC2 hB1 hB2 hR
  rw [← db_split ord i j k (by omega) (by omega)] at e1
  rw [← db_eq ord i j k l (by omega)] at e2
  refine ⟨adjacencies (ord.take i) ++ adjacencies ((ord.drop i).take (j - i))
    ++ adjacencies ((ord.drop j).take (k - j)) ++ adjacencies (ord.drop k), ?_, ?_⟩
  · rw [e1, List.perm_iff_count]
    intro x
    simp only [List.count_append, List.count_cons, List.count_nil]
    omega
  · rw [e2, List.perm_iff_count]
    intro x
    simp only [List.count_append, List.count_cons, List.count_nil]
    omega

/-- C20 at an eight-node order with the cuts 1, 3, 5: the fourth cut 6 gives
the same order as 7, and the three junction pairs are exchanged. -/
theorem C20_double_bridge_ignores_last_cut_witness :
    IlsOptimizer.doubleBridgeAt [0, 1, 2, 3, 4, 5, 6, 7, 8] 1 3 5 7 =
      IlsOptimizer.doubleBridgeAt [0, 1, 2, 3, 4, 5, 6, 7, 8] 1 3 5 6 ∧
    IlsOptimizer.doubleBridgeAt [0, 1, 2, 3, 4, 5, 6, 7, 8] 1 3 5 6 =
      [0, 3, 4, 1, 2, 5, 6, 7, 8] :=
  ⟨(C20_double_bridge_ignores_last_cut [0, 1, 2, 3, 4, 5, 6, 7, 8] 1 3 5 6
      (by decide) (by decide) (by decide) (by decide) (by decide)).1 7 (by decide),
    by decide⟩
theorem db_getD (ord : List Int) (i j k l t : Nat) (hij : i ≤ j) (hjk : j ≤ k) (hkl : k ≤ l)
    (hk : k ≤ ord.length) :
    (IlsOptimizer.doubleBridgeAt ord i j k l).getD t 0 =
      ord.getD (doubleBridgeSource i j k t) 0 := by
  rw [db_eq ord i j k l hkl]
  unfold doubleBridgeSource
  simp only [List.getD_eq_getElem?_getD, List.getElem?_append, List.length_append,
    List.length_take, List.length_drop, List.getElem?_take, List.getElem?_drop]
  have e1 : min i ord.length = i := by omega
  have e2 : min (k - j) (ord.length - j) = k - j := by omega
  have e3 : min (j - i) (ord.length - i) = j - i := by omega
  rw [e1, e2, e3]
  split_ifs <;> first | rfl | omega | (congr 2; omega)

theorem rs_getD (v : List Int) (p q t : Nat) (hpq : p ≤ q) (hq : q < v.length) :
    (reverseSegment v p q).getD t 0 = v.getD (if p ≤ t ∧ t ≤ q then p + q - t else t) 0 := by
  unfold reverseSegment
  simp only [List.getD_eq_getElem?_getD, List.getElem?_append, List.length_append,
    List.length_take, List.length_drop, List.length_reverse, List.getElem?_take,
    List.getElem?_drop]
  have e1 : min p v.length = p := by omega
  have e2 : min (q + 1 - p) (v.length - p) = q + 1 - p := by omega
  rw [e1, e2]
  by_cases h1 : t < p
  · rw [if_pos (by omega), if_pos h1, if_pos h1, if_neg (by omega)]
  · by_cases h2 : t ≤ q
    · rw [if_pos (by omega), if_neg h1, if_pos ⟨by omega, h2⟩,
        List.getElem?_reverse (by rw [List.length_take, List.length_drop]; omega),
        List.length_take, List.length_drop, e2, List.getElem?_take, if_pos (by omega),
        List.getElem?_drop]
      congr 2
      omega
    · rw [if_neg (by omega), if_neg (by omega)]
      congr 2
      omega

theorem getD_inj (ord : List Int) (hnd : ord.Nodup) (a b : Nat) (ha : a < ord.length)
    (hb : b < ord.length) (h : ord.getD a 0 = ord.getD b 0) : a = b := by
  rw [getD_eq_getElem ord a ha, getD_eq_getElem ord b hb] at h
  exact (hnd.getElem_inj_iff).mp h

theorem doubleBridgeSource_lt (i j k n t : Nat) (hjk : j ≤ k) (hk : k ≤ n)
    (ht : t < n) : doubleBridgeSource i j k t < n := by
  unfold doubleBridgeSource
  split_ifs <;> omega

/-- C19: on an order of distinct node ids, the double bridge at admissible
cut points changes the order, and no reversal of positions `p..q` with
`q - p > 1` of the new order gives the old order back. -/
theorem C19_double_bridge_not_undone_by_two_opt (ord : List Int) (hnd : ord.Nodup)
    (i j k l : Nat) (hi : 1 ≤ i) (hij : i < j) (hjk : j < k) (hkl : k < l)
    (hl : l ≤ ord.length - 2) :
    IlsOptimizer.doubleBridgeAt ord i j k l ≠ ord ∧
    ∀ p q : Nat, p + 1 < q → q < ord.length →
      reverseSegment (IlsOptimizer.doubleBridgeAt ord i j k l) p q ≠ ord := by
  have hlen : (IlsOptimizer.doubleBridgeAt ord i j k l).length = ord.length :=
    (doubleBridgeAt_perm ord i j k l (by omega) (by omega) (by omega)).length_eq
  have hsrc : ∀ t, t < ord.length → doubleBridgeSource i j k t < ord.length :=
    fun t ht => doubleBridgeSource_lt i j k ord.length t (by omega) (by omega) ht
  have hget : ∀ t, (IlsOptimizer.doubleBridgeAt ord i j k l).getD t 0 =
      ord.getD (doubleBridgeSource i j k t) 0 :=
    fun t => db_getD ord i j k l t (by omega) (by omega) (by omega) (by omega)
  constructor
  · intro h
    have h1 := congrArg (fun v => v.getD i 0) h
    dsimp only at h1
    rw [hget] at h1
    have h2 := getD_inj ord hnd _ _ (hsrc i (by omega)) (by omega) h1
    unfold doubleBridgeSource at h2
    split_ifs at h2 <;> omega
  · intro p q hpq hq h
    have key : ∀ t, t < ord.length →
        doubleBridgeSource i j k (if p ≤ t ∧ t ≤ q then p + q - t else t) = t := by
      intro t ht
      have h1 := congrArg (fun v => v.getD t 0) h
      dsimp only at h1
      rw [rs_getD _ p q t (by omega) (by rw [hlen]; exact hq), hget] at h1
      refine getD_inj ord hnd _ _ (hsrc _ ?_) ht h1
      split_ifs <;> omega
    have k1 := key q hq
    have k2 := key p (by omega)
    have k3 := key (p + 1) (by omega)
    rw [if_pos (by omega)] at k1 k2 k3
    unfold doubleBridgeSource at k1 k2 k3
    split_ifs at k1 k2 k3 <;> omega

/-- C19 at an eight-node order: the double bridge at 1, 2, 3, 4 exchanges
nodes 1 and 2, and reversing positions 0..2 of the result does not give the
old order. -/
theorem C19_double_bridge_not_undone_by_two_opt_witness :
    IlsOptimizer.doubleBridgeAt [0, 1, 2, 3, 4, 5, 6, 7] 1 2 3 4 = [0, 2, 1, 3, 4, 5, 6, 7] ∧
    reverseSegment (IlsOptimizer.doubleBridgeAt [0, 1, 2, 3, 4, 5, 6, 7] 1 2 3 4) 0 2 ≠
      [0, 1, 2, 3, 4, 5, 6, 7] :=
  ⟨by decide,
    (C19_double_bridge_not_undone_by_two_opt [0, 1, 2, 3, 4, 5, 6, 7] (by decide) 1 2 3 4
      (by decide) (by decide) (by decide) (by decide) (by decide)).2 0 2 (by decide) (by decide)⟩

/-! ## The worker -/

theorem worker_loop_spec (env : Numerics) (baseline : Int) (running : List Bool)
    (opt final : Optimizer) (sigs : List WorkerSignal)
    (h : OptimizerWorker.loop env baseline running opt = some (final, sigs)) :
    ∃ st, OptimizerWorker.steps env running opt = some st ∧
      sigs = (st.filter (fun r => r.2)).map (fun r =>
        WorkerSignal.bestUpdated
          { bestOrder := r.1.bestTour.m_order
            bestCost := r.1.bestTour.m_cost
            improvementPercent :=
              if baseline > 0 then
                ((baseline : ℚ) - (r.1.bestTour.m_cost : ℚ)) / (baseline : ℚ) * 100
              else 0 }) := by
  induction running generalizing opt sigs with
  | nil =>
    unfold OptimizerWorker.loop at h
    cases h
    exact ⟨[], rfl, rfl⟩
  | cons b rest ih =>
    cases b with
    | false =>
      unfold OptimizerWorker.loop at h
      cases h
      exact ⟨[], rfl, rfl⟩
    | true =>
      unfold OptimizerWorker.loop at h
      unfold OptimizerWorker.step at h
      unfold OptimizerWorker.steps
      cases hit : Optimizer.iterate env opt with
      | none => rw [hit] at h; cases h
      | some r =>
        obtain ⟨opt1, improved⟩ := r
        rw [hit] at h
        dsimp only at h ⊢
        cases improved with
        | true =>
          rw [if_pos rfl] at h
          dsimp only at h
          cases hl : OptimizerWorker.loop env baseline rest opt1 with
          | none => rw [hl] at h; cases h
          | some r2 =>
            obtain ⟨opt2, sigs2⟩ := r2
            rw [hl] at h
            dsimp only at h
            cases h
            obtain ⟨st, h1, h2⟩ := ih opt1 sigs2 hl
            rw [h1]
            refine ⟨_, rfl, ?_⟩
            rw [List.filter_cons_of_pos rfl, List.map_cons, h2]
            rfl
        | false =>
          rw [if_neg (by decide)] at h
          dsimp only at h
          cases hl : OptimizerWorker.loop env baseline rest opt1 with
          | none => rw [hl] at h; cases h
          | some r2 =>
            obtain ⟨opt2, sigs2⟩ := r2
            rw [hl] at h
            dsimp only at h
            cases h
            obtain ⟨st, h1, h2⟩ := ih opt1 sigs2 hl
            rw [h1]
            refine ⟨_, rfl, ?_⟩
            rw [List.filter_cons_of_neg (by simp), h2]
            rfl

theorem worker_loop_total (env : Numerics) (baseline : Int) (running : List Bool)
    (opt : Optimizer) (st : List (Optimizer × Bool))
    (h : OptimizerWorker.steps env running opt = some st) :
    ∃ final, OptimizerWorker.loop env baseline running opt = some (final,
      (st.filter (fun r => r.2)).map (fun r =>
        WorkerSignal.bestUpdated
          { bestOrder := r.1.bestTour.m_order
            bestCost := r.1.bestTour.m_cost
            improvementPercent :=
              if baseline > 0 then
                ((baseline : ℚ) - (r.1.bestTour.m_cost : ℚ)) / (baseline : ℚ) * 100
              else 0 })) := by
  induction running generalizing opt st with
  | nil =>
    unfold OptimizerWorker.steps at h
    cases h
    exact ⟨opt, rfl⟩
  | cons b rest ih =>
    cases b with
    | false =>
      unfold OptimizerWorker.steps at h
      cases h
      exact ⟨opt, rfl⟩
    | true =>
      unfold OptimizerWorker.steps at h
      unfold OptimizerWorker.loop OptimizerWorker.step
      cases hit : Optimizer.iterate env opt with
      | none => rw [hit] at h; cases h
      | some r =>
        obtain ⟨opt1, improved⟩ := r
        rw [hit] at h
        dsimp only at h ⊢
        cases hs : OptimizerWorker.steps env rest opt1 with
        | none => rw [hs] at h; cases h
        | some l =>
          rw [hs] at h
          dsimp only at h
          cases h
          obtain ⟨final, hf⟩ := ih opt1 l hs
          cases improved with
          | true =>
            rw [if_pos rfl]
            dsimp only
            rw [hf]
            exact ⟨final, rfl⟩
          | false =>
            rw [if_neg (by decide)]
            dsimp only
            rw [hf]
            refine ⟨final, ?_⟩
            rw [List.filter_cons_of_neg (by simp)]
            rfl

/-- C16: without an optimizer `run` emits `finished` only. With one, the
baseline is read once before the loop, and the signals of a run are, in
order, one `bestUpdated` for each step that returned `true` and none for the
others, then `finished`; each `bestUpdated` carries the order and the cost of
the best tour after its step and the percentage `(baseline - bestCost) /
baseline * 100`, or `0` when the baseline is not positive. The run returns
whenever all its steps do. -/
theorem C16_worker_notifications (env : Numerics) :
    (∀ running : List Bool, OptimizerWorker.run env none running = some (none, [.finished])) ∧
    (∀ (opt : Optimizer) (running : List Bool) (final : Option Optimizer)
        (sigs : List WorkerSignal),
      OptimizerWorker.run env (some opt) running = some (final, sigs) →
      ∃ st, OptimizerWorker.steps env running opt = some st ∧
        sigs = (st.filter (fun r => r.2)).map (fun r =>
          WorkerSignal.bestUpdated
            { bestOrder := r.1.bestTour.m_order
              bestCost := r.1.bestTour.m_cost
              improvementPercent :=
                if opt.baselineCost > 0 then
                  ((opt.baselineCost : ℚ) - (r.1.bestTour.m_cost : ℚ))
                    / (opt.baselineCost : ℚ) * 100
                else 0 }) ++ [.finished]) ∧
    (∀ (opt : Optimizer) (running : List Bool) (st : List (Optimizer × Bool)),
      OptimizerWorker.steps env running opt = some st →
        ∃ final sigs, OptimizerWorker.run env (some opt) running = some (final, sigs)) := by
  refine ⟨fun _ => rfl, fun opt running final sigs h => ?_, fun opt running st h => ?_⟩
  · unfold OptimizerWorker.run at h
    dsimp only at h
    cases hl : OptimizerWorker.loop env opt.baselineCost running opt with
    | none => rw [hl] at h; cases h
    | some r =>
      obtain ⟨opt1, sigs1⟩ := r
      rw [hl] at h
      dsimp only at h
      cases h
      obtain ⟨st, h1, h2⟩ := worker_loop_spec env _ running opt opt1 sigs1 hl
      exact ⟨st, h1, by rw [h2]⟩
  · obtain ⟨final, hf⟩ := worker_loop_total env opt.baselineCost running opt st h
    unfold OptimizerWorker.run
    dsimp only
    rw [hf]
    exact ⟨_, _, rfl⟩

set_option maxRecDepth 100000 in
/-- C16 at the five-point example: the worker runs two steps of the 2-opt
optimizer; the first lowers the cost from 80000 to 40000 and is notified
with 50 percent, the second finds nothing and is not notified. -/
theorem C16_worker_notifications_witness :
    OptimizerWorker.run exampleNumerics none [true, true] = some (none, [.finished]) ∧
    (OptimizerWorker.run exampleNumerics (some (.twoOpt twoOptExample)) [true, true]).map
        (fun r => r.2) =
      some [.bestUpdated
          { bestOrder := [0, 3, 2, 1, 4], bestCost := 40000, improvementPercent := 50 },
        .finished] :=
  ⟨(C16_worker_notifications exampleNumerics).1 [true, true], by decide!⟩

/-! ## The main window: stop and restart -/

theorem optimizer_step (env : Numerics) (o o1 : Optimizer) (b : Bool)
    (hinv : Optimizer.Inv o) (h : Optimizer.iterate env o = some (o1, b)) :
    Optimizer.Inv o1 ∧ o1.bestTour.m_cost ≤ o.bestTour.m_cost := by
  cases o with
  | genetic s =>
    obtain ⟨s', b', h1, h2, h3, -⟩ := ga_step s hinv
    simp only [Optimizer.iterate, h1] at h
    cases h
    exact ⟨h2, h3⟩
  | simAnneal s =>
    cases hs : SimAnnealOptimizer.iterate env.expGt s with
    | none => simp only [Optimizer.iterate, hs] at h; cases h
    | some r =>
      simp only [Optimizer.iterate, hs] at h
      cases h
      exact ⟨trivial, (sa_step env.expGt s r.1 r.2 hs).1⟩
  | twoOpt s =>
    simp only [Optimizer.iterate] at h
    cases h
    exact ⟨trivial, (twoOpt_step s).1⟩
  | ils s =>
    simp only [Optimizer.iterate] at h
    cases h
    exact ⟨trivial, (ils_step s).1⟩
  | aco s =>
    cases hs : AcoOptimizer.iterate env.pw s with
    | error e => simp only [Optimizer.iterate, hs] at h; cases h
    | ok r =>
      simp only [Optimizer.iterate, hs] at h
      cases h
      obtain ⟨h1, h2, -⟩ := aco_step env.pw s r.1 r.2 hinv hs
      exact ⟨h1, h2⟩
  | arq s =>
    cases hs : ArqOptimizer.iterate env.cauchy env.normal env.fuel s with
    | error e => simp only [Optimizer.iterate, hs] at h; cases h
    | ok r =>
      simp only [Optimizer.iterate, hs] at h
      cases h
      obtain ⟨h1, h2, -⟩ := arq_step env.cauchy env.normal env.fuel s r.1 r.2 hinv hs
      exact ⟨h1, h2⟩

theorem window_workerStep (env : Numerics) (w w1 : MainWindow) (r : RunningWorker) (c : Int)
    (hw : w.m_worker = some r) (hinv : Optimizer.Inv r.optimizer)
    (hc : r.optimizer.bestTour.m_cost ≤ c) (h : MainWindow.workerStep env w = some w1) :
    ∃ r1, w1.m_worker = some r1 ∧ Optimizer.Inv r1.optimizer ∧
      r1.optimizer.bestTour.m_cost ≤ c := by
  unfold MainWindow.workerStep at h
  rw [hw] at h
  dsimp only at h
  unfold OptimizerWorker.step at h
  cases hit : Optimizer.iterate env r.optimizer with
  | none => rw [hit] at h; cases h
  | some x =>
    obtain ⟨o1, b⟩ := x
    rw [hit] at h
    obtain ⟨h1, h2⟩ := optimizer_step env r.optimizer o1 b hinv hit
    dsimp only at h
    cases b with
    | true =>
      rw [if_pos rfl] at h
      dsimp only at h
      cases h
      exact ⟨_, rfl, h1, by dsimp only; omega⟩
    | false =>
      rw [if_neg (by decide)] at h
      dsimp only at h
      cases h
      exact ⟨_, rfl, h1, by dsimp only; omega⟩

theorem window_deliver (w w1 : MainWindow) (h : MainWindow.deliver w = some w1) :
    w1.m_worker = w.m_worker := by
  unfold MainWindow.deliver at h
  split at h
  · cases h; rfl
  · unfold MainWindow.onBestUpdated at h
    dsimp only at h
    split at h
    · cases h
    · next w2 hw2 =>
      cases h
      split at hw2
      · cases hw2; rfl
      · split at hw2
        · cases hw2
        · cases hw2; rfl

theorem window_during (env : Numerics) (events : List RunEvent) (w w1 : MainWindow)
    (r : RunningWorker) (c : Int)
    (hw : w.m_worker = some r) (hinv : Optimizer.Inv r.optimizer)
    (hc : r.optimizer.bestTour.m_cost ≤ c) (h : MainWindow.during env events w = some w1) :
    ∃ r1, w1.m_worker = some r1 ∧ r1.optimizer.bestTour.m_cost ≤ c := by
  induction events generalizing w r with
  | nil =>
    unfold MainWindow.during at h
    cases h
    exact ⟨r, hw, hc⟩
  | cons e rest ih =>
    cases e with
    | workerStep =>
      unfold MainWindow.during at h
      split at h
      · cases h
      · next w2 hw2 =>
        obtain ⟨r1, a1, a2, a3⟩ := window_workerStep env w w2 r c hw hinv hc hw2
        exact ih w2 r1 a1 a2 a3 h
    | deliver =>
      unfold MainWindow.during at h
      split at h
      · cases h
      · next w2 hw2 =>
        have := window_deliver w w2 hw2
        exact ih w2 r (by rw [this]; exact hw) hinv hc h

theorem window_start (method : Int) (seed : Rng) (w : MainWindow)
    (hi : w.m_instance.isSome) (hw : w.m_worker = none) :
    ∃ r, (MainWindow.startOptimization method seed w).m_worker = some r ∧
      r.optimizer.bestTour = w.m_current ∧ Optimizer.Inv r.optimizer := by
  unfold MainWindow.startOptimization
  have hn : ¬ (w.m_instance.isNone = true ∨ w.m_worker.isSome = true) := by
    rw [hw]
    cases hinst : w.m_instance with
    | none => rw [hinst] at hi; cases hi
    | some x => simp
  rw [if_neg hn]
  dsimp only
  refine ⟨_, rfl, ?_, ?_⟩
  · dsimp only
    split_ifs <;> rfl
  · dsimp only
    split_ifs
    · exact ga_create_inv _ 30 2 seed (by decide)
    · trivial
    · trivial
    · trivial
    · trivial

/-- C14: with an instance loaded and a run on, `stopOptimization` ends the
run and makes the current tour the best tour the window holds, and
`startOptimization` right after it creates, for every method and seed, an
optimizer whose best tour is that tour; at every later point of the new run
(any sequence of worker steps and delivered signals that does not fail) the
cost of the best tour of the running optimizer is at most the cost of the
best tour held at the stop. -/
theorem C14_restart_keeps_best (env : Numerics) (w : MainWindow)
    (hi : w.m_instance.isSome) (hrun : w.m_worker.isSome) :
    (MainWindow.stopOptimization w).m_current = w.m_best ∧
    (MainWindow.stopOptimization w).m_worker = none ∧
    ∀ (method : Int) (seed : Rng),
      (∃ r, (MainWindow.startOptimization method seed (MainWindow.stopOptimization w)).m_worker =
          some r ∧ r.optimizer.bestTour = w.m_best) ∧
      ∀ (events : List RunEvent) (w1 : MainWindow),
        MainWindow.during env events
            (MainWindow.startOptimization method seed (MainWindow.stopOptimization w)) =
          some w1 →
        ∃ r1, w1.m_worker = some r1 ∧ r1.optimizer.bestTour.m_cost ≤ w.m_best.m_cost := by
  have hstop : MainWindow.stopOptimization w =
      { w with m_worker := none, m_current := w.m_best, m_viewTour := w.m_best.m_order } := by
    unfold MainWindow.stopOptimization
    cases hw : w.m_worker with
    | none => rw [hw] at hrun; cases hrun
    | some r =>
      dsimp only
      rw [if_pos hi]
  refine ⟨by rw [hstop], by rw [hstop], fun method seed => ?_⟩
  obtain ⟨r, h1, h2, h3⟩ := window_start method seed (MainWindow.stopOptimization w)
    (by rw [hstop]; exact hi) (by rw [hstop])
  have h2' : r.optimizer.bestTour = w.m_best := by rw [h2, hstop]
  refine ⟨⟨r, h1, h2'⟩, fun events w1 h => ?_⟩
  exact window_during env events _ w1 r w.m_best.m_cost h1 h3 (by rw [h2']) h

set_option maxRecDepth 100000 in
/-- C14 at the example window: after stop, restart with 2-opt and one worker
step that draws the pair (1, 3), the best tour of the new optimizer costs
40000, not more than the 80000 held at the stop. -/
theorem C14_restart_keeps_best_witness :
    ∃ w1 r1,
      MainWindow.during exampleNumerics [.workerStep]
          (MainWindow.startOptimization 2 [1, 3] (MainWindow.stopOptimization windowExample)) =
        some w1 ∧
      w1.m_worker = some r1 ∧ r1.optimizer.bestTour.m_cost ≤ windowExample.m_best.m_cost ∧
      r1.optimizer.bestTour.m_cost = 40000 := by
  have hd : ∃ w1, MainWindow.during exampleNumerics [.workerStep]
      (MainWindow.startOptimization 2 [1, 3] (MainWindow.stopOptimization windowExample)) =
        some w1 ∧ (w1.m_worker.map fun r => r.optimizer.bestTour.m_cost) = some 40000 := by
    have hs : (MainWindow.during exampleNumerics [.workerStep]
        (MainWindow.startOptimization 2 [1, 3]
          (MainWindow.stopOptimization windowExample))).isSome = true := by
      decide!
    obtain ⟨w1, h⟩ := Option.isSome_iff_exists.mp hs
    refine ⟨w1, h, ?_⟩
    have : (MainWindow.during exampleNumerics [.workerStep]
      (MainWindow.startOptimization 2 [1, 3]
        (MainWindow.stopOptimization windowExample))).bind
        (fun w => w.m_worker.map fun r => r.optimizer.bestTour.m_cost) = some 40000 := by
      decide!
    rw [h] at this
    exact this
  obtain ⟨w1, e1, e2⟩ := hd
  obtain ⟨r1, f1, f2⟩ := ((C14_restart_keeps_best exampleNumerics windowExample rfl rfl).2.2
    2 [1, 3]).2 [.workerStep] w1 e1
  refine ⟨w1, r1, e1, f1, f2, ?_⟩
  rw [f1] at e2
  simpa using e2

/-! ## The loader -/

theorem toInt32_fits (v : ℚ) (h : -2147483648 ≤ truncate v ∧ truncate v ≤ 2147483647) :
    toInt32 v = some (truncate v) := by
  unfold toInt32
  rw [if_pos h]

theorem filterMap_skip {α β : Type} (f : α → Option β) (a : α) (l : List α) (h : f a = none) :
    (a :: l).filterMap f = l.filterMap f := List.filterMap_cons_none h

theorem filterMap_keep {α β : Type} (f : α → Option β) (a : α) (l : List α) (b : β)
    (h : f a = some b) : (a :: l).filterMap f = b :: l.filterMap f :=
  List.filterMap_cons_some h

theorem loadLoop_section (extract : String → Option (Int × ℚ × ℚ)) (fmul : ℚ → ℚ → ℚ)
    (hext : extract "" = none) (lines : List String) (name : String) (pts : List TspPoint)
    (hfit : ∀ l ∈ lines.takeWhile (fun l => decide (trim l ≠ "EOF")),
      ∀ v, extract (trim l) = some v → FitsInt32 fmul v) :
    loadLoop extract fmul lines true name pts =
      .ok (name, pts ++ ((lines.takeWhile (fun l => decide (trim l ≠ "EOF"))).filterMap
        (fun l => extract (trim l))).map (scaledPoint fmul)) := by
  induction lines generalizing pts with
  | nil => simp [loadLoop]
  | cons raw rest ih =>
    unfold loadLoop
    by_cases h1 : trim raw = ""
    · have hne : trim raw ≠ "EOF" := by rw [h1]; decide
      have htw : (raw :: rest).takeWhile (fun l => decide (trim l ≠ "EOF")) =
          raw :: rest.takeWhile (fun l => decide (trim l ≠ "EOF")) := by
        rw [List.takeWhile_cons_of_pos (by simpa using hne)]
      have hn : (fun l => extract (trim l)) raw = none := by dsimp only; rw [h1]; exact hext
      rw [if_pos h1, htw, filterMap_skip (fun l => extract (trim l)) raw _ hn]
      refine ih pts (fun l hl v hv => hfit l ?_ v hv)
      rw [htw]
      exact List.mem_cons_of_mem _ hl
    · rw [if_neg h1, if_neg (by decide)]
      by_cases h2 : trim raw = "EOF"
      · rw [if_pos h2, List.takeWhile_cons_of_neg (by simpa using h2)]
        simp
      · have htw : (raw :: rest).takeWhile (fun l => decide (trim l ≠ "EOF")) =
            raw :: rest.takeWhile (fun l => decide (trim l ≠ "EOF")) := by
          rw [List.takeWhile_cons_of_pos (by simpa using h2)]
        have hfit' : ∀ l ∈ rest.takeWhile (fun l => decide (trim l ≠ "EOF")),
            ∀ v, extract (trim l) = some v → FitsInt32 fmul v := by
          intro l hl v hv
          refine hfit l ?_ v hv
          rw [htw]
          exact List.mem_cons_of_mem _ hl
        rw [if_neg h2, htw]
        cases he : extract (trim raw) with
        | none =>
          have hn : (fun l => extract (trim l)) raw = none := he
          dsimp only
          rw [filterMap_skip (fun l => extract (trim l)) raw _ hn]
          exact ih pts hfit'
        | some v =>
          obtain ⟨id, x, y⟩ := v
          have hf := hfit raw (by rw [htw]; exact List.mem_cons_self _ _) _ he
          have hs : (fun l => extract (trim l)) raw = some (id, x, y) := he
          dsimp only
          rw [toInt32_fits _ hf.1, toInt32_fits _ hf.2, filterMap_keep (fun l => extract (trim l)) raw _ _ hs]
          dsimp only
          rw [ih _ hfit', List.map_cons, List.append_assoc]
          rfl

theorem loadLoop_cons (extract : String → Option (Int × ℚ × ℚ)) (fmul : ℚ → ℚ → ℚ)
    (raw : String) (rest : List String) (inCoords : Bool) (name : String)
    (pts : List TspPoint) :
    loadLoop extract fmul (raw :: rest) inCoords name pts =
      if trim raw = "" then loadLoop extract fmul rest inCoords name pts
      else if inCoords = false then
        loadLoop extract fmul rest (decide (trim raw = "NODE_COORD_SECTION"))
          (nameOf (trim raw) name) pts
      else if trim raw = "EOF" then .ok (name, pts)
      else
        match extract (trim raw) with
        | none => loadLoop extract fmul rest true name pts
        | some (_, x, y) =>
          match toInt32 (fmul x 10000), toInt32 (fmul y 10000) with
          | some px, some py => loadLoop extract fmul rest true name (pts ++ [⟨px, py⟩])
          | _, _ => .error castOverflow := by
  rw [loadLoop]

theorem loadLoop_header (extract : String → Option (Int × ℚ × ℚ)) (fmul : ℚ → ℚ → ℚ)
    (lines : List String) (name : String) (pts : List TspPoint) :
    ∃ name1, loadLoop extract fmul lines false name pts =
      loadLoop extract fmul
        ((lines.dropWhile (fun l => decide (trim l ≠ "NODE_COORD_SECTION"))).drop 1)
        true name1 pts := by
  induction lines generalizing name with
  | nil => exact ⟨name, by simp [loadLoop]⟩
  | cons raw rest ih =>
    rw [loadLoop_cons]
    by_cases h1 : trim raw = ""
    · have hne : trim raw ≠ "NODE_COORD_SECTION" := by rw [h1]; decide
      rw [if_pos h1, List.dropWhile_cons_of_pos (by simpa using hne)]
      exact ih name
    · rw [if_neg h1, if_pos rfl]
      by_cases h2 : trim raw = "NODE_COORD_SECTION"
      · rw [List.dropWhile_cons_of_neg (by simpa using h2)]
        refine ⟨nameOf (trim raw) name, ?_⟩
        rw [decide_eq_true h2]
        rfl
      · rw [List.dropWhile_cons_of_pos (by simpa using h2), decide_eq_false h2]
        exact ih _

theorem load_spec (extract : String → Option (Int × ℚ × ℚ)) (fmul : ℚ → ℚ → ℚ)
    (path : String) (lines : List String) (hext : extract "" = none)
    (hfit : ∀ v ∈ coordValues extract lines, FitsInt32 fmul v) :
    (coordValues extract lines = [] →
      TspInstance.loadFromTspFile extract fmul path (some lines) =
        .error ("No coordinates were parsed from: " ++ path)) ∧
    (coordValues extract lines ≠ [] →
      ∃ inst, TspInstance.loadFromTspFile extract fmul path (some lines) = .ok inst ∧
        inst.m_points = (coordValues extract lines).map (scaledPoint fmul)) := by
  obtain ⟨name1, h1⟩ := loadLoop_header extract fmul lines "" []
  have h2 := loadLoop_section extract fmul hext
    ((lines.dropWhile (fun l => decide (trim l ≠ "NODE_COORD_SECTION"))).drop 1) name1 []
    (by
      intro l hl v hv
      exact hfit v (List.mem_filterMap.mpr ⟨l, hl, hv⟩))
  rw [List.nil_append] at h2
  have h3 : loadLoop extract fmul lines false "" [] =
      .ok (name1, (coordValues extract lines).map (scaledPoint fmul)) := by
    rw [h1, h2]
    rfl
  constructor
  · intro he
    unfold TspInstance.loadFromTspFile
    dsimp only
    rw [h3, he]
    rfl
  · intro hne
    unfold TspInstance.loadFromTspFile
    dsimp only
    rw [h3]
    cases hv : coordValues extract lines with
    | nil => exact absurd hv hne
    | cons v rest => exact ⟨_, rfl, rfl⟩

/-- C15, as stated, fails on the code: the loader compares every line after trimming it, so
a file whose marker line is ` NODE_COORD_SECTION` has no line equal to the marker (the
claim's list is empty, the load should fail) and is loaded with one point; and a
coordinate 300000 is a well-formed line of the claim's list whose scaled value 3000000000
is outside the range of the 32-bit conversion, so no point 3000000000 is stored. -/
theorem C15_load_is_not_the_literal_section :
    (literalValues exampleExtract indentedMarkerFile = [] ∧
      (TspInstance.loadFromTspFile exampleExtract (fun a b => a * b) "a.tsp"
        (some indentedMarkerFile)).toOption.map (fun inst => inst.m_points) =
          some [⟨5000, 20000⟩]) ∧
    (literalValues exampleExtract largeCoordinateFile = [(1, 300000, 0)] ∧
      scaledPoint (fun a b => a * b) (1, 300000, 0) = ⟨3000000000, 0⟩ ∧
      TspInstance.loadFromTspFile exampleExtract (fun a b => a * b) "b.tsp"
        (some largeCoordinateFile) = .error castOverflow) := by
  decide!

/-- C15 (amended): with every line compared after trimming, a line counted as well formed
when the stream extraction of id, x and y succeeds on it, and every scaled coordinate
within the 32-bit range, loadFromTspFile fails with the no-coordinates error exactly when
no line between the first marker line and the next `EOF` line (or the end of the input)
is well formed, and otherwise returns an instance whose points are those lines in file
order, each coordinate multiplied by 10000 and truncated towards zero. -/
theorem C15_load_points_after_trim (extract : String → Option (Int × ℚ × ℚ))
    (fmul : ℚ → ℚ → ℚ) (path : String) (lines : List String) (hext : extract "" = none)
    (hfit : ∀ v ∈ coordValues extract lines, FitsInt32 fmul v) :
    (coordValues extract lines = [] ↔
      TspInstance.loadFromTspFile extract fmul path (some lines) =
        .error ("No coordinates were parsed from: " ++ path)) ∧
    (coordValues extract lines = [] ↔
      ∀ inst, TspInstance.loadFromTspFile extract fmul path (some lines) ≠ .ok inst) ∧
    (coordValues extract lines ≠ [] →
      ∃ inst, TspInstance.loadFromTspFile extract fmul path (some lines) = .ok inst ∧
        inst.m_points = (coordValues extract lines).map (scaledPoint fmul) ∧
        inst.m_points.length = (coordValues extract lines).length) := by
  have h := load_spec extract fmul path lines hext hfit
  refine ⟨⟨h.1, ?_⟩, ⟨?_, ?_⟩, ?_⟩
  · intro he
    by_contra hne
    obtain ⟨inst, hi, _⟩ := h.2 hne
    rw [hi] at he
    cases he
  · intro he inst hi
    rw [h.1 he] at hi
    cases hi
  · intro hall
    by_contra hne
    obtain ⟨inst, hi, _⟩ := h.2 hne
    exact hall inst hi
  · intro hne
    obtain ⟨inst, hi, hp⟩ := h.2 hne
    exact ⟨inst, hi, hp, by rw [hp, List.length_map]⟩

/-- The amended C15 at the example file: header lines (an `EOF` among them), an indented
marker with a carriage return, a malformed line, a line with trailing text, and a line
after `EOF`. -/
theorem C15_load_points_after_trim_witness :
    ∃ inst, TspInstance.loadFromTspFile exampleExtract (fun a b => a * b) "demo.tsp"
        (some exampleFile) = .ok inst ∧
      inst.m_points = [⟨5000, 20000⟩, ⟨-12500, 30000⟩] ∧ inst.m_name = "demo" := by
  obtain ⟨inst, hi, hp, _⟩ :=
    (C15_load_points_after_trim exampleExtract (fun a b => a * b) "demo.tsp" exampleFile
      (by decide) (by decide!)).2.2 (by decide!)
  refine ⟨inst, hi, ?_, ?_⟩
  · rw [hp]
    decide!
  · have hn : (TspInstance.loadFromTspFile exampleExtract (fun a b => a * b) "demo.tsp"
        (some exampleFile)).toOption.map (fun i => i.m_name) = some "demo" := by decide!
    rw [hi] at hn
    simpa [Except.toOption] using hn

/-! ## The point mutations: what they move and what they keep -/

theorem swapAt_getElem? (v : List Int) (a b t : Nat) (ha : a < v.length) (hb : b < v.length) :
    (swapAt v a b)[t]? = if t = b then v[a]? else if t = a then v[b]? else v[t]? := by
  unfold swapAt
  rw [List.getElem?_set, List.getElem?_set, List.length_set, getD_eq_getElem v a ha,
    getD_eq_getElem v b hb]
  by_cases h1 : t = b
  · subst h1
    simp [hb, List.getElem?_eq_getElem ha]
  · by_cases h2 : t = a
    · subst h2
      simp [h1, Ne.symm h1, ha, List.getElem?_eq_getElem hb]
    · simp [h1, h2, Ne.symm h1, Ne.symm h2]

theorem reverseSegment_getElem? (v : List Int) (p q t : Nat) (hpq : p ≤ q) (hq : q < v.length) :
    (reverseSegment v p q)[t]? = v[reverseSource p q t]? := by
  unfold reverseSegment reverseSource
  simp only [List.getElem?_append, List.length_append, List.length_take, List.length_drop,
    List.length_reverse, List.getElem?_take, List.getElem?_drop]
  have e1 : min p v.length = p := by omega
  have e2 : min (q + 1 - p) (v.length - p) = q + 1 - p := by omega
  rw [e1, e2]
  by_cases h1 : t < p
  · rw [if_pos (by omega), if_pos h1, if_pos h1, if_neg (by omega)]
  · by_cases h2 : t ≤ q
    · rw [if_pos (by omega), if_neg h1, if_pos ⟨by omega, h2⟩,
        List.getElem?_reverse (by simp; omega)]
      simp only [List.length_take, List.length_drop, List.getElem?_take, List.getElem?_drop]
      rw [e2, if_pos (by omega)]
      congr 1
      omega
    · rw [if_neg (by omega), if_neg (by omega)]
      congr 1
      omega

theorem insertIdx_getElem?_self (l : List Int) (x : Int) (k : Nat) (hk : k ≤ l.length) :
    (l.insertIdx k x)[k]? = some x := by
  have hlen : (l.insertIdx k x).length = l.length + 1 := List.length_insertIdx k l hk
  rw [List.getElem?_eq_getElem (by omega), List.getElem_insertIdx_self l x k hk]

theorem insertIdx_getElem?_lt (l : List Int) (x : Int) (k t : Nat) (hk : k ≤ l.length)
    (ht : t < k) : (l.insertIdx k x)[t]? = l[t]? := by
  have hlen : (l.insertIdx k x).length = l.length + 1 := List.length_insertIdx k l hk
  rw [List.getElem?_eq_getElem (by omega), List.getElem?_eq_getElem (by omega),
    List.getElem_insertIdx_of_lt l x k t ht (by omega)]

theorem insertIdx_getElem?_gt (l : List Int) (x : Int) (k t : Nat) (hk : k ≤ l.length)
    (ht : k < t) : (l.insertIdx k x)[t]? = l[t - 1]? := by
  have hlen : (l.insertIdx k x).length = l.length + 1 := List.length_insertIdx k l hk
  by_cases h : t - 1 < l.length
  · obtain ⟨d, rfl⟩ : ∃ d, t = k + d + 1 := ⟨t - k - 1, by omega⟩
    rw [List.getElem?_eq_getElem (by omega), List.getElem?_eq_getElem (by omega),
      List.getElem_insertIdx_add_succ l x k d (by omega)]
    rfl
  · rw [List.getElem?_eq_none (by omega), List.getElem?_eq_none (by omega)]

/-- C21: for every tour and all draws, `mutateSwap` and `mutateInsertion` keep the length
of the order and the nodes at position `0` and at position `n - 1`; when `mutateInsertion`
draws two distinct positions (on a tour of at least four nodes), the node formerly at the
position `insertAfter` is at some position `p` with `1 ≤ p` and `p + 1 ≤ n - 2`, and the
moved node (formerly at the position `element`) is at position `p + 1`. -/
theorem C21_swap_and_insertion_keep_endpoints (t : Tour) (g : Rng) :
    ((Tour.mutateSwap t g).1.m_order.length = t.m_order.length ∧
      (Tour.mutateSwap t g).1.m_order[0]? = t.m_order[0]? ∧
      (Tour.mutateSwap t g).1.m_order[t.m_order.length - 1]? =
        t.m_order[t.m_order.length - 1]?) ∧
    ((Tour.mutateInsertion t g).1.m_order.length = t.m_order.length ∧
      (Tour.mutateInsertion t g).1.m_order[0]? = t.m_order[0]? ∧
      (Tour.mutateInsertion t g).1.m_order[t.m_order.length - 1]? =
        t.m_order[t.m_order.length - 1]?) ∧
    (4 ≤ t.m_order.length →
      (uniformInt 1 (t.m_order.length - 2) g).1 ≠
        (uniformInt 1 (t.m_order.length - 2) (uniformInt 1 (t.m_order.length - 2) g).2).1 →
      ∃ p, 1 ≤ p ∧ p + 1 ≤ t.m_order.length - 2 ∧
        (Tour.mutateInsertion t g).1.m_order[p]? =
          t.m_order[(uniformInt 1 (t.m_order.length - 2)
            (uniformInt 1 (t.m_order.length - 2) g).2).1]? ∧
        (Tour.mutateInsertion t g).1.m_order[p + 1]? =
          t.m_order[(uniformInt 1 (t.m_order.length - 2) g).1]? ∧
        ((Tour.mutateInsertion t g).1.m_order[p + 1]?).isSome) := by
  refine ⟨⟨(mutateSwap_perm t g).length_eq, ?_, ?_⟩, ?_⟩
  · unfold Tour.mutateSwap
    split
    · rfl
    · have ha := uniformInt_le 1 (t.m_order.length - 2) g (by omega)
      have ha1 := uniformInt_ge 1 (t.m_order.length - 2) g
      have hb := uniformInt_le 1 (t.m_order.length - 2)
        (uniformInt 1 (t.m_order.length - 2) g).2 (by omega)
      have hb1 := uniformInt_ge 1 (t.m_order.length - 2)
        (uniformInt 1 (t.m_order.length - 2) g).2
      dsimp only
      rw [swapAt_getElem? _ _ _ _ (by omega) (by omega), if_neg (by omega), if_neg (by omega)]
  · unfold Tour.mutateSwap
    split
    · rfl
    · have ha := uniformInt_le 1 (t.m_order.length - 2) g (by omega)
      have ha1 := uniformInt_ge 1 (t.m_order.length - 2) g
      have hb := uniformInt_le 1 (t.m_order.length - 2)
        (uniformInt 1 (t.m_order.length - 2) g).2 (by omega)
      have hb1 := uniformInt_ge 1 (t.m_order.length - 2)
        (uniformInt 1 (t.m_order.length - 2) g).2
      dsimp only
      rw [swapAt_getElem? _ _ _ _ (by omega) (by omega), if_neg (by omega), if_neg (by omega)]
  · have key : ∀ (e a : Nat), 4 ≤ t.m_order.length → 1 ≤ e → e ≤ t.m_order.length - 2 →
        1 ≤ a → a ≤ t.m_order.length - 2 → e ≠ a →
        ((t.m_order.eraseIdx e).insertIdx ((if a > e then a - 1 else a) + 1)
            (t.m_order.getD e 0))[0]? = t.m_order[0]? ∧
        ((t.m_order.eraseIdx e).insertIdx ((if a > e then a - 1 else a) + 1)
            (t.m_order.getD e 0))[t.m_order.length - 1]? = t.m_order[t.m_order.length - 1]? ∧
        ((t.m_order.eraseIdx e).insertIdx ((if a > e then a - 1 else a) + 1)
            (t.m_order.getD e 0))[if a > e then a - 1 else a]? = t.m_order[a]? ∧
        ((t.m_order.eraseIdx e).insertIdx ((if a > e then a - 1 else a) + 1)
            (t.m_order.getD e 0))[(if a > e then a - 1 else a) + 1]? = t.m_order[e]? ∧
        1 ≤ (if a > e then a - 1 else a) ∧
        (if a > e then a - 1 else a) + 1 ≤ t.m_order.length - 2 := by
      intro e a hn he1 he2 ha1 ha2 hne
      have hl : (t.m_order.eraseIdx e).length = t.m_order.length - 1 :=
        List.length_eraseIdx_of_lt (by omega)
      generalize hq : (if a > e then a - 1 else a) = q
      have hq1 : 1 ≤ q := by rw [← hq]; split <;> omega
      have hq2 : q + 1 ≤ t.m_order.length - 2 := by rw [← hq]; split <;> omega
      refine ⟨?_, ?_, ?_, ?_, hq1, hq2⟩
      · rw [insertIdx_getElem?_lt _ _ _ _ (by omega) (by omega), List.getElem?_eraseIdx,
          if_pos (by omega)]
      · rw [insertIdx_getElem?_gt _ _ _ _ (by omega) (by omega), List.getElem?_eraseIdx,
          if_neg (by omega)]
        congr 1
        omega
      · rw [insertIdx_getElem?_lt _ _ _ _ (by omega) (by omega), List.getElem?_eraseIdx]
        by_cases hae : a > e
        · rw [if_pos hae] at hq
          rw [if_neg (by omega)]
          congr 1
          omega
        · rw [if_neg hae] at hq
          rw [if_pos (by omega), hq]
      · rw [insertIdx_getElem?_self _ _ _ (by omega), getD_eq_getElem _ _ (by omega),
          List.getElem?_eq_getElem (by omega)]
    have ha := uniformInt_le 1 (t.m_order.length - 2) g
    have ha1 := uniformInt_ge 1 (t.m_order.length - 2) g
    have hb := uniformInt_le 1 (t.m_order.length - 2) (uniformInt 1 (t.m_order.length - 2) g).2
    have hb1 := uniformInt_ge 1 (t.m_order.length - 2)
      (uniformInt 1 (t.m_order.length - 2) g).2
    refine ⟨⟨(mutateInsertion_perm t g).length_eq, ?_, ?_⟩, ?_⟩
    · unfold Tour.mutateInsertion
      split
      · rfl
      · dsimp only
        split
        · rfl
        · next hn hne =>
          exact (key _ _ (by omega) ha1 (ha (by omega)) hb1 (hb (by omega)) hne).1
    · unfold Tour.mutateInsertion
      split
      · rfl
      · dsimp only
        split
        · rfl
        · next hn hne =>
          exact (key _ _ (by omega) ha1 (ha (by omega)) hb1 (hb (by omega)) hne).2.1
    · intro hn hne
      obtain ⟨-, -, k3, k4, k5, k6⟩ :=
        key _ _ hn ha1 (ha (by omega)) hb1 (hb (by omega)) hne
      refine ⟨_, k5, k6, ?_, ?_, ?_⟩
      · unfold Tour.mutateInsertion
        rw [if_neg (by omega)]
        dsimp only
        rw [if_neg hne]
        exact k3
      · unfold Tour.mutateInsertion
        rw [if_neg (by omega)]
        dsimp only
        rw [if_neg hne]
        exact k4
      · unfold Tour.mutateInsertion
        rw [if_neg (by omega)]
        dsimp only
        rw [if_neg hne, k4, List.getElem?_eq_getElem (by omega)]
        rfl

/-- C21 on the order 0, 1, 2, 3, 4 with the draws `element = 1`, `insertAfter = 3`: the
result is 0, 2, 3, 1, 4, node 1 directly behind node 3, both ends in place. -/
theorem C21_swap_and_insertion_keep_endpoints_witness :
    (Tour.mutateInsertion ⟨none, [0, 1, 2, 3, 4], 0⟩ [0, 2]).1.m_order = [0, 2, 3, 1, 4] ∧
    ∃ p, 1 ≤ p ∧ p + 1 ≤ 3 ∧
      (Tour.mutateInsertion ⟨none, [0, 1, 2, 3, 4], 0⟩ [0, 2]).1.m_order[p]? = some 3 ∧
      (Tour.mutateInsertion ⟨none, [0, 1, 2, 3, 4], 0⟩ [0, 2]).1.m_order[p + 1]? = some 1 := by
  obtain ⟨p, h1, h2, h3, h4, -⟩ :=
    (C21_swap_and_insertion_keep_endpoints ⟨none, [0, 1, 2, 3, 4], 0⟩ [0, 2]).2.2
      (by decide) (by decide)
  exact ⟨by decide, p, h1, h2, h3, h4⟩

/-- C22, as stated, fails on the code: `mutateReverseSegment` draws its two positions from
`[0, n - 1]`, so the reversed segment can contain both ends. On the order 0, 1, 2, 3 with
the draws 0 and 3 the whole order is reversed, and on the draws 0 and 2 the node at
position 0 changes while the last one stays. -/
theorem C22_reverse_can_move_the_endpoints :
    (Tour.mutateReverseSegment ⟨none, [0, 1, 2, 3], 0⟩ [0, 3]).1.m_order = [3, 2, 1, 0] ∧
    (Tour.mutateReverseSegment ⟨none, [0, 1, 2, 3], 0⟩ [0, 2]).1.m_order = [2, 1, 0, 3] ∧
    (Tour.mutateReverseSegment ⟨none, [0, 1, 2, 3], 0⟩ [1, 3]).1.m_order = [0, 3, 2, 1] := by
  decide

/-- C22 (amended): `mutateReverseSegment` draws two positions `a`, `b` from `[0, n - 1]`;
on a tour of fewer than four nodes, or when the positions are less than two apart, the
order is unchanged; otherwise exactly the positions `min a b .. max a b` are reversed (a
segment of at least three nodes that may contain position `0` or `n - 1`). So the node at
position `0` is unchanged when the smaller position is not `0`, and is the node formerly at
the larger position when it is; the node at position `n - 1` is unchanged when the larger
position is not `n - 1`. -/
theorem C22_reverse_segment_between_draws (t : Tour) (g : Rng) (a b : Nat)
    (ha : a = (uniformInt 0 (t.m_order.length - 1) g).1)
    (hb : b = (uniformInt 0 (t.m_order.length - 1)
      (uniformInt 0 (t.m_order.length - 1) g).2).1) :
    (Tour.mutateReverseSegment t g).1.m_order.length = t.m_order.length ∧
    (t.m_order.length < 4 ∨ max a b ≤ min a b + 1 →
      (Tour.mutateReverseSegment t g).1.m_order = t.m_order) ∧
    (4 ≤ t.m_order.length → min a b + 1 < max a b →
      max a b ≤ t.m_order.length - 1 ∧
      (Tour.mutateReverseSegment t g).1.m_order = reverseSegment t.m_order (min a b) (max a b) ∧
      (∀ p, (Tour.mutateReverseSegment t g).1.m_order[p]? =
        t.m_order[reverseSource (min a b) (max a b) p]?) ∧
      (0 < min a b → (Tour.mutateReverseSegment t g).1.m_order[0]? = t.m_order[0]?) ∧
      (min a b = 0 → (Tour.mutateReverseSegment t g).1.m_order[0]? = t.m_order[max a b]?) ∧
      (max a b < t.m_order.length - 1 →
        (Tour.mutateReverseSegment t g).1.m_order[t.m_order.length - 1]? =
          t.m_order[t.m_order.length - 1]?)) := by
  refine ⟨(mutateReverseSegment_perm t g).length_eq, ?_, ?_⟩
  · intro h
    unfold Tour.mutateReverseSegment
    split
    · rfl
    · dsimp only
      rw [← ha, ← hb]
      split
      · rfl
      · rw [if_pos (by omega)]
  · intro hn hlt
    have hale := uniformInt_le 0 (t.m_order.length - 1) g (by omega)
    have hble := uniformInt_le 0 (t.m_order.length - 1)
      (uniformInt 0 (t.m_order.length - 1) g).2 (by omega)
    rw [← ha] at hale
    rw [← hb] at hble
    have hmax : max a b ≤ t.m_order.length - 1 := by omega
    have heq : (Tour.mutateReverseSegment t g).1.m_order =
        reverseSegment t.m_order (min a b) (max a b) := by
      unfold Tour.mutateReverseSegment
      rw [if_neg (by omega)]
      dsimp only
      rw [← ha, ← hb, if_neg (by omega), if_neg (by omega)]
    have hall : ∀ p, (Tour.mutateReverseSegment t g).1.m_order[p]? =
        t.m_order[reverseSource (min a b) (max a b) p]? := by
      intro p
      rw [heq, reverseSegment_getElem? _ _ _ _ (by omega) (by omega)]
    refine ⟨hmax, heq, hall, ?_, ?_, ?_⟩
    · intro h0
      rw [hall 0]
      unfold reverseSource
      rw [if_neg (by omega)]
    · intro h0
      rw [hall 0]
      unfold reverseSource
      rw [if_pos (by omega)]
      congr 1
      omega
    · intro hl
      rw [hall]
      unfold reverseSource
      rw [if_neg (by omega)]

/-- The amended C22 on the order 0, 1, 2, 3, 4 with the draws 3 and 1: positions 1..3 are
reversed, both ends stay. -/
theorem C22_reverse_segment_between_draws_witness :
    (Tour.mutateReverseSegment ⟨none, [0, 1, 2, 3, 4], 0⟩ [3, 1]).1.m_order = [0, 3, 2, 1, 4] ∧
    (Tour.mutateReverseSegment ⟨none, [0, 1, 2, 3, 4], 0⟩ [3, 1]).1.m_order[0]? = some 0 ∧
    (Tour.mutateReverseSegment ⟨none, [0, 1, 2, 3, 4], 0⟩ [3, 1]).1.m_order[4]? = some 4 := by
  have h := (C22_reverse_segment_between_draws ⟨none, [0, 1, 2, 3, 4], 0⟩ [3, 1] 3 1
    (by decide) (by decide)).2.2 (by decide) (by decide)
  exact ⟨h.2.1.trans (by decide), h.2.2.2.1 (by decide), h.2.2.2.2.2 (by decide)⟩

/-- C23: `mutateSwap`, `mutateInsertion` and `mutateReverseSegment` leave the cached cost
(and the instance) as they were, for every tour and all draws, also when the order
changes: on the in-sync tour 0, 1, 2, 3 over four points of a line each of them changes the
order and the cost of the path while `cost()` still returns 80000. -/
theorem C23_mutations_keep_cached_cost :
    (∀ (t : Tour) (g : Rng),
      (Tour.mutateSwap t g).1.m_cost = t.m_cost ∧
      (Tour.mutateInsertion t g).1.m_cost = t.m_cost ∧
      (Tour.mutateReverseSegment t g).1.m_cost = t.m_cost) ∧
    (pathCost zigzagInstance.m_points zigzagTour.m_order = zigzagTour.m_cost ∧
      zigzagTour.m_cost = 80000) ∧
    ((Tour.mutateSwap zigzagTour [0, 1]).1.m_order = [0, 2, 1, 3] ∧
      (Tour.mutateSwap zigzagTour [0, 1]).1.m_cost = 80000 ∧
      pathCost zigzagInstance.m_points (Tour.mutateSwap zigzagTour [0, 1]).1.m_order = 40000) ∧
    ((Tour.mutateInsertion zigzagTour [0, 1]).1.m_order = [0, 2, 1, 3] ∧
      (Tour.mutateInsertion zigzagTour [0, 1]).1.m_cost = 80000 ∧
      pathCost zigzagInstance.m_points (Tour.mutateInsertion zigzagTour [0, 1]).1.m_order =
        40000) ∧
    ((Tour.mutateReverseSegment zigzagTour [0, 2]).1.m_order = [2, 1, 0, 3] ∧
      (Tour.mutateReverseSegment zigzagTour [0, 2]).1.m_cost = 80000 ∧
      pathCost zigzagInstance.m_points
        (Tour.mutateReverseSegment zigzagTour [0, 2]).1.m_order = 90000) := by
  refine ⟨fun t g => ⟨?_, ?_, ?_⟩, by decide!, by decide!, by decide!, by decide!⟩
  · unfold Tour.mutateSwap
    split <;> rfl
  · unfold Tour.mutateInsertion
    split
    · rfl
    · dsimp only
      split <;> rfl
  · unfold Tour.mutateReverseSegment
    split
    · rfl
    · dsimp only
      split
      · rfl
      · split <;> rfl

/-! ## Annealing: the temperature -/

theorem orderPair_eq (i j : Nat) : orderPair i j = (min i j, max i j) := by
  unfold orderPair
  split
  · rw [min_eq_right (by omega), max_eq_left (by omega)]
  · rw [min_eq_left (by omega), max_eq_right (by omega)]

theorem sa_coolAndRecord_temp (t : SimAnnealOptimizer) :
    (SimAnnealOptimizer.coolAndRecord t).1.m_temp = max (1 / 1000000) (t.m_temp * t.m_alpha) ∧
    (SimAnnealOptimizer.coolAndRecord t).1.m_alpha = t.m_alpha := by
  have e : (if t.m_temp * t.m_alpha < 1 / 1000000 then (1 / 1000000 : ℚ)
      else t.m_temp * t.m_alpha) = max (1 / 1000000) (t.m_temp * t.m_alpha) := by
    split
    · next h => rw [max_eq_left (le_of_lt h)]
    · next h => rw [max_eq_right (not_lt.mp h)]
  unfold SimAnnealOptimizer.coolAndRecord
  dsimp only
  split
  · exact ⟨e, rfl⟩
  · exact ⟨e, rfl⟩

theorem sa_applyMove_temp (expGt : Int → ℚ → Nat → Bool) (s : SimAnnealOptimizer)
    (inst : TspInstance) (i j : Nat) (g : Rng) :
    (SimAnnealOptimizer.applyMove expGt s inst i j g).1.m_temp =
      max (1 / 1000000) (s.m_temp * s.m_alpha) ∧
    (SimAnnealOptimizer.applyMove expGt s inst i j g).1.m_alpha = s.m_alpha := by
  unfold SimAnnealOptimizer.applyMove
  exact sa_coolAndRecord_temp _

/-- C27, as stated, fails on the code: `iterate` returns before the cooling when the two
drawn positions are equal or adjacent. On a tour of five nodes at temperature 16000 with
cooling factor 0.999995 the draws (2, 2) and (1, 2) leave the temperature at 16000, where
the claim says 15999.92; the draw (1, 3) cools it. -/
theorem C27_rejected_draw_skips_cooling :
    (SimAnnealOptimizer.create crossingTour [2, 2] (999995 / 1000000)).m_temp = 16000 ∧
    (SimAnnealOptimizer.create crossingTour [2, 2] (999995 / 1000000)).m_alpha =
      999995 / 1000000 ∧
    max (1 / 1000000 : ℚ) (16000 * (999995 / 1000000)) = 1599992 / 100 ∧
    (SimAnnealOptimizer.iterate neverUphill
      (SimAnnealOptimizer.create crossingTour [2, 2] (999995 / 1000000))).map
        (fun r => r.1.m_temp) = some 16000 ∧
    (SimAnnealOptimizer.iterate neverUphill
      (SimAnnealOptimizer.create crossingTour [1, 2] (999995 / 1000000))).map
        (fun r => r.1.m_temp) = some 16000 ∧
    (SimAnnealOptimizer.iterate neverUphill
      (SimAnnealOptimizer.create crossingTour [1, 3] (999995 / 1000000))).map
        (fun r => r.1.m_temp) = some (1599992 / 100) := by
  decide!

/-- C27 (amended): the constructor stores `alpha` clamped to `[0.90, 0.9999999]` and no
call changes it. A call of `iterate` on a tour of at least four nodes over an instance
returns; when the two drawn positions are more than one apart the temperature after the
call is `max(1e-6, temperature before * m_alpha)`, whatever the acceptance test says, and
when they are equal or adjacent the call returns `false` at once: the temperature, the
current tour, the best tour and the baseline are unchanged, only the two draws are
consumed. -/
theorem C27_temperature_after_step (expGt : Int → ℚ → Nat → Bool) (s : SimAnnealOptimizer)
    (i j : Nat) (hn : 4 ≤ s.m_current.size) (hinst : s.m_current.m_instance.isSome)
    (hi : i = (uniformInt 0 (s.m_current.size - 1) s.m_rng).1)
    (hj : j = (uniformInt 0 (s.m_current.size - 1)
      (uniformInt 0 (s.m_current.size - 1) s.m_rng).2).1) :
    (∀ (initial : Tour) (seed : Rng) (alpha : ℚ),
      (SimAnnealOptimizer.create initial seed alpha).m_alpha =
        max (9 / 10) (min alpha (9999999 / 10000000))) ∧
    ∃ s' b, SimAnnealOptimizer.iterate expGt s = some (s', b) ∧
      s'.m_alpha = s.m_alpha ∧
      (min i j + 1 < max i j → s'.m_temp = max (1 / 1000000) (s.m_temp * s.m_alpha)) ∧
      (max i j ≤ min i j + 1 → s'.m_temp = s.m_temp) ∧
      (max i j ≤ min i j + 1 →
        b = false ∧ s'.m_current = s.m_current ∧ s'.m_best = s.m_best ∧
        s'.m_baseline = s.m_baseline ∧
        s'.m_rng = (uniformInt 0 (s.m_current.size - 1)
          (uniformInt 0 (s.m_current.size - 1) s.m_rng).2).2) := by
  constructor
  · intro initial seed alpha
    unfold SimAnnealOptimizer.create SimAnnealOptimizer.clamp
    dsimp only
    split
    · next h =>
      rw [min_eq_left (by linarith), max_eq_left (le_of_lt h)]
    · next h =>
      split
      · next h2 => rw [min_eq_right (le_of_lt h2), max_eq_right (by norm_num)]
      · next h2 => rw [min_eq_left (not_lt.mp h2), max_eq_right (not_lt.mp h)]
  · cases hinst' : s.m_current.m_instance with
    | none => rw [hinst'] at hinst; cases hinst
    | some inst =>
      unfold SimAnnealOptimizer.iterate
      rw [if_neg (by omega)]
      dsimp only
      rw [← hi, ← hj, orderPair_eq]
      dsimp only
      by_cases h1 : i = j
      · rw [if_pos h1]
        refine ⟨_, _, rfl, rfl, ?_, fun _ => rfl, fun _ => ⟨rfl, rfl, rfl, rfl, rfl⟩⟩
        intro h
        subst h1
        simp at h
      · rw [if_neg h1]
        by_cases h2 : ((max i j : Nat) : Int) - ((min i j : Nat) : Int) ≤ 1
        · rw [if_pos h2]
          refine ⟨_, _, rfl, rfl, ?_, fun _ => rfl, fun _ => ⟨rfl, rfl, rfl, rfl, rfl⟩⟩
          intro h
          omega
        · rw [if_neg h2, hinst']
          dsimp only
          exact ⟨(SimAnnealOptimizer.applyMove expGt s inst (min i j) (max i j) _).1,
            (SimAnnealOptimizer.applyMove expGt s inst (min i j) (max i j) _).2, rfl,
            (sa_applyMove_temp expGt s inst _ _ _).2,
            fun _ => (sa_applyMove_temp expGt s inst _ _ _).1, fun h => by omega,
            fun h => by omega⟩

set_option maxRecDepth 100000 in
/-- The amended C27 on the example optimizer: the draw (1, 3) cools the temperature from
16000 to 15999.92; the adjacent draw (1, 2) returns `false` and leaves the temperature at
16000 and both tours as they were. -/
theorem C27_temperature_after_step_witness :
    (∃ s' b, SimAnnealOptimizer.iterate neverUphill saExample = some (s', b) ∧
      s'.m_temp = 1599992 / 100) ∧
    (∃ s' b, SimAnnealOptimizer.iterate neverUphill
        (SimAnnealOptimizer.create crossingTour [1, 2] (999995 / 1000000)) = some (s', b) ∧
      b = false ∧ s'.m_temp = 16000 ∧ s'.m_current = crossingTour ∧
      s'.m_best = crossingTour) := by
  constructor
  · obtain ⟨s', b, h, -, ht, -⟩ :=
      (C27_temperature_after_step neverUphill saExample 1 3 (by decide) (by decide)
        (by decide) (by decide)).2
    refine ⟨s', b, h, ?_⟩
    rw [ht (by decide)]
    decide!
  · obtain ⟨s', b, h, -, -, ht, hs⟩ :=
      (C27_temperature_after_step neverUphill
        (SimAnnealOptimizer.create crossingTour [1, 2] (999995 / 1000000)) 1 2
        (by decide) (by decide) (by decide) (by decide)).2
    obtain ⟨hb, hc, hbest, -, -⟩ := hs (by decide)
    refine ⟨s', b, h, hb, ?_, ?_, ?_⟩
    · rw [ht (by decide)]; decide!
    · rw [hc]; rfl
    · rw [hbest]; rfl

/-! ## Genetic optimizer: who survives and who is cloned -/

theorem pickRandomTries_spec (n : Nat) (visited : List Bool) (hn : 1 ≤ n) (t : Nat) (g : Rng)
    (j : Nat) (h : (AcoOptimizer.pickRandomTries n visited t g).1 = some j) :
    j < n ∧ visited.getD j false = false := by
  induction t generalizing g with
  | zero => simp [AcoOptimizer.pickRandomTries] at h
  | succ t ih =>
    unfold AcoOptimizer.pickRandomTries at h
    dsimp only at h
    split at h
    · exact ih _ h
    · next hv =>
      simp only [Option.some.injEq] at h
      subst h
      have := uniformInt_le 0 (n - 1) g (by omega)
      exact ⟨by omega, by simpa using hv⟩

theorem pickRandomUnvisited_spec (n : Nat) (visited : List Bool) (g : Rng)
    (h : ∃ j, j < n ∧ visited.getD j false = false) :
    0 ≤ (AcoOptimizer.pickRandomUnvisited n visited g).1 ∧
    (AcoOptimizer.pickRandomUnvisited n visited g).1 < (n : Int) ∧
    visited.getD (AcoOptimizer.pickRandomUnvisited n visited g).1.toNat false = false := by
  obtain ⟨j0, hj0, hj0v⟩ := h
  unfold AcoOptimizer.pickRandomUnvisited
  split
  · next j g1 heq =>
    have := pickRandomTries_spec n visited (by omega) 1024 g j (by rw [heq])
    dsimp only
    exact ⟨Int.ofNat_nonneg _, by omega, by simpa using this.2⟩
  · next g1 heq =>
    split
    · next j hf =>
      have h1 := List.find?_some hf
      have h2 := List.mem_range.mp (List.mem_of_find?_eq_some hf)
      dsimp only
      exact ⟨Int.ofNat_nonneg _, by omega, by simpa using h1⟩
    · next hf =>
      rw [List.find?_eq_none] at hf
      have := hf j0 (List.mem_range.mpr hj0)
      rw [hj0v] at this
      simp at this

theorem rouletteLoop_mem (r : ℚ) (l : List (Int × ℚ)) (acc : ℚ) (c : Int)
    (h : AcoOptimizer.rouletteLoop r l acc = some c) : ∃ wk, (c, wk) ∈ l ∧ 0 < wk := by
  induction l generalizing acc with
  | nil => simp [AcoOptimizer.rouletteLoop] at h
  | cons p rest ih =>
    obtain ⟨c0, w0⟩ := p
    unfold AcoOptimizer.rouletteLoop at h
    split at h
    · obtain ⟨wk, h1, h2⟩ := ih _ h
      exact ⟨wk, List.mem_cons_of_mem _ h1, h2⟩
    · next hw =>
      split at h
      · simp only [Option.some.injEq] at h
        subst h
        exact ⟨w0, List.mem_cons_self _ _, not_le.mp hw⟩
      · obtain ⟨wk, h1, h2⟩ := ih _ h
        exact ⟨wk, List.mem_cons_of_mem _ h1, h2⟩

theorem weights_length (pw : ℚ → ℚ → ℚ) (s : AcoOptimizer) (pts : List TspPoint)
    (current : Int) (visited : List Bool) :
    (AcoOptimizer.weights pw s pts current visited).length =
      (s.m_candidates.getD current.toNat []).length := by
  simp [AcoOptimizer.weights]

theorem weights_zip_mem (pw : ℚ → ℚ → ℚ) (s : AcoOptimizer) (pts : List TspPoint)
    (current : Int) (visited : List Bool) (c : Int) (wk : ℚ)
    (h : (c, wk) ∈ (s.m_candidates.getD current.toNat []).zip
      (AcoOptimizer.weights pw s pts current visited))
    (hw : 0 < wk) :
    c ∈ s.m_candidates.getD current.toNat [] ∧ visited.getD c.toNat false = false := by
  obtain ⟨k, hk, hkeq⟩ := List.mem_iff_getElem.mp h
  rw [List.getElem_zip] at hkeq
  have hk1 : k < (s.m_candidates.getD current.toNat []).length := by
    simp only [List.length_zip] at hk
    omega
  have hc : (s.m_candidates.getD current.toNat [])[k] = c := congrArg Prod.fst hkeq
  have hkw : k < (AcoOptimizer.weights pw s pts current visited).length := by
    rw [weights_length]; exact hk1
  have hwk : (AcoOptimizer.weights pw s pts current visited)[k] = wk :=
    congrArg Prod.snd hkeq
  refine ⟨by rw [← hc]; exact List.getElem_mem _, ?_⟩
  simp only [AcoOptimizer.weights, List.getElem_map, List.getElem_range] at hwk
  have hcd : (s.m_candidates.getD current.toNat []).getD k 0 = c := by
    rw [getD_eq_getElem _ _ hk1, hc]
  rw [hcd] at hwk
  by_contra hv
  rw [if_pos (by simpa using hv)] at hwk
  rw [← hwk] at hw
  exact lt_irrefl _ hw

theorem weights_positive_of_sum (l : List ℚ) (h : 0 < l.sum) : ∃ x ∈ l, 0 < x := by
  induction l with
  | nil => simp at h
  | cons a rest ih =>
    rw [List.sum_cons] at h
    by_cases ha : 0 < a
    · exact ⟨a, List.mem_cons_self _ _, ha⟩
    · obtain ⟨x, hx, hx0⟩ := ih (by linarith)
      exact ⟨x, List.mem_cons_of_mem _ hx, hx0⟩

theorem chooseNext_spec (pw : ℚ → ℚ → ℚ) (s : AcoOptimizer) (pts : List TspPoint)
    (current : Int) (visited : List Bool) (g : Rng)
    (hb : AcoOptimizer.CandidatesBuilt s) (hc0 : 0 ≤ current) (hc1 : current < (s.m_n : Int))
    (hun : ∃ j, j < s.m_n ∧ visited.getD j false = false) :
    (0 ≤ (AcoOptimizer.chooseNext pw s pts current visited g).1 ∧
      (AcoOptimizer.chooseNext pw s pts current visited g).1 < (s.m_n : Int) ∧
      visited.getD (AcoOptimizer.chooseNext pw s pts current visited g).1.toNat false = false) ∧
    (0 < (AcoOptimizer.weights pw s pts current visited).sum →
      (AcoOptimizer.chooseNext pw s pts current visited g).1 ∈
        s.m_candidates.getD current.toNat []) ∧
    ((AcoOptimizer.weights pw s pts current visited).sum ≤ 0 →
      AcoOptimizer.chooseNext pw s pts current visited g =
        AcoOptimizer.pickRandomUnvisited s.m_n visited g) := by
  obtain ⟨hcl, -, -, hrange⟩ := hb
  have hcur : current.toNat < s.m_candidates.length := by omega
  have hLmem : s.m_candidates.getD current.toNat [] ∈ s.m_candidates := by
    rw [List.getD_eq_getElem _ _ hcur]
    exact List.getElem_mem _
  have hcand : ∀ c wk, (c, wk) ∈ (s.m_candidates.getD current.toNat []).zip
      (AcoOptimizer.weights pw s pts current visited) → 0 < wk →
      (0 ≤ c ∧ c < (s.m_n : Int) ∧ visited.getD c.toNat false = false) ∧
      c ∈ s.m_candidates.getD current.toNat [] := by
    intro c wk h hw
    obtain ⟨h1, h2⟩ := weights_zip_mem pw s pts current visited c wk h hw
    exact ⟨⟨(hrange _ hLmem c h1).1, (hrange _ hLmem c h1).2, h2⟩, h1⟩
  by_cases hs : (AcoOptimizer.weights pw s pts current visited).sum ≤ 0
  · have e : AcoOptimizer.chooseNext pw s pts current visited g =
        AcoOptimizer.pickRandomUnvisited s.m_n visited g := by
      unfold AcoOptimizer.chooseNext
      dsimp only
      rw [if_pos hs]
    refine ⟨?_, fun h => absurd hs (not_le.mpr h), fun _ => e⟩
    rw [e]
    exact pickRandomUnvisited_spec _ _ _ hun
  · have key : ((0 ≤ (AcoOptimizer.chooseNext pw s pts current visited g).1 ∧
        (AcoOptimizer.chooseNext pw s pts current visited g).1 < (s.m_n : Int) ∧
        visited.getD (AcoOptimizer.chooseNext pw s pts current visited g).1.toNat false
          = false) ∧
        (AcoOptimizer.chooseNext pw s pts current visited g).1 ∈
          s.m_candidates.getD current.toNat []) := by
      unfold AcoOptimizer.chooseNext
      dsimp only
      rw [if_neg hs]
      split
      · next c hr =>
        obtain ⟨wk, h1, h2⟩ := rouletteLoop_mem _ _ _ _ hr
        exact hcand c wk h1 h2
      · split
        · next p hf =>
          have h1 := List.find?_some hf
          have h2 := List.mem_of_find?_eq_some hf
          exact hcand p.1 p.2 h2 (by simpa using h1)
        · next hf =>
          exfalso
          obtain ⟨x, hx, hx0⟩ := weights_positive_of_sum _ (not_le.mp hs)
          obtain ⟨k, hk, hkeq⟩ := List.mem_iff_getElem.mp hx
          have hk' : k < (s.m_candidates.getD current.toNat []).length := by
            rw [← weights_length pw s pts current visited]; exact hk
          rw [List.find?_eq_none] at hf
          have := hf ((s.m_candidates.getD current.toNat [])[k],
            (AcoOptimizer.weights pw s pts current visited)[k]) (by
              rw [List.mem_iff_getElem]
              exact ⟨k, by simp only [List.length_zip]; omega, by rw [List.getElem_zip]⟩)
          rw [hkeq] at this
          simp at this
          linarith
    exact ⟨key.1, fun _ => key.2, fun h => absurd h hs⟩

theorem sum_pos_of_mem_pos (l : List ℚ) (hnn : ∀ x ∈ l, 0 ≤ x) (x : ℚ) (hx : x ∈ l)
    (hpos : 0 < x) : 0 < l.sum := by
  induction l with
  | nil => cases hx
  | cons a rest ih =>
    rw [List.sum_cons]
    have ha := hnn a (List.mem_cons_self _ _)
    have hrest : 0 ≤ rest.sum := List.sum_nonneg (fun y hy => hnn y (List.mem_cons_of_mem _ hy))
    rcases List.mem_cons.mp hx with rfl | hmem
    · linarith
    · have := ih (fun y hy => hnn y (List.mem_cons_of_mem _ hy)) hmem
      linarith

theorem partial_exists_unvisited (n : Nat) (visited : List Bool) (ord : List Int)
    (hP : AcoOptimizer.Partial n visited ord) (hlen : ord.length < n) :
    ∃ j, j < n ∧ visited.getD j false = false := by
  obtain ⟨-, hnd, -, hflag⟩ := hP
  by_contra hne
  push_neg at hne
  have hsub : (List.range n).map Int.ofNat ⊆ ord := by
    intro x hx
    obtain ⟨j, hj, rfl⟩ := List.mem_map.mp hx
    have hj' := List.mem_range.mp hj
    have hv : visited.getD j false = true := by
      have := hne j hj'
      cases hb : visited.getD j false
      · exact absurd hb this
      · rfl
    exact (hflag j hj').mp hv
  have hnd2 : ((List.range n).map Int.ofNat).Nodup :=
    (List.nodup_range n).map (fun _ _ h => Int.ofNat.inj h)
  have := (List.subperm_of_subset hnd2 hsub).length_le
  simp at this
  omega

theorem partial_step (n : Nat) (visited : List Bool) (ord : List Int) (nxt : Int)
    (hP : AcoOptimizer.Partial n visited ord) (h0 : 0 ≤ nxt) (h1 : nxt < (n : Int))
    (hv : visited.getD nxt.toNat false = false) :
    AcoOptimizer.Partial n (visited.set nxt.toNat true) (ord ++ [nxt]) := by
  obtain ⟨hl, hnd, hr, hflag⟩ := hP
  have hnt : nxt.toNat < n := by omega
  have hcast : ((nxt.toNat : Nat) : Int) = nxt := Int.toNat_of_nonneg h0
  have hnot : nxt ∉ ord := by
    intro hmem
    have := (hflag nxt.toNat hnt).mpr (by rw [hcast]; exact hmem)
    rw [hv] at this
    cases this
  refine ⟨by simp [hl], ?_, ?_, ?_⟩
  · rw [List.nodup_append]
    refine ⟨hnd, List.nodup_singleton _, ?_⟩
    intro x hx hx2
    rw [List.mem_singleton] at hx2
    subst hx2
    exact hnot hx
  · intro x hx
    rcases List.mem_append.mp hx with h | h
    · exact hr x h
    · rw [List.mem_singleton] at h
      subst h
      exact ⟨h0, h1⟩
  · intro j hj
    rw [List.getD_eq_getElem?_getD, List.getElem?_set]
    by_cases hjm : nxt.toNat = j
    · rw [if_pos hjm, if_pos (by omega)]
      simp only [Option.getD_some, true_iff]
      rw [← hjm, hcast]
      simp
    · rw [if_neg hjm, ← List.getD_eq_getElem?_getD, hflag j hj]
      simp only [List.mem_append, List.mem_singleton]
      constructor
      · exact Or.inl
      · rintro (h | h)
        · exact h
        · exfalso
          apply hjm
          omega

theorem constructLoop_partial (pw : ℚ → ℚ → ℚ) (s : AcoOptimizer) (pts : List TspPoint)
    (hb : AcoOptimizer.CandidatesBuilt s) (k : Nat) (current : Int) (visited : List Bool)
    (ord : List Int) (g : Rng) (hc0 : 0 ≤ current) (hc1 : current < (s.m_n : Int))
    (hP : AcoOptimizer.Partial s.m_n visited ord) (hlen : ord.length + k = s.m_n) :
    (AcoOptimizer.constructLoop pw s pts k current visited ord g).1.Nodup ∧
    (∀ x ∈ (AcoOptimizer.constructLoop pw s pts k current visited ord g).1,
      0 ≤ x ∧ x < (s.m_n : Int)) ∧
    ∃ tail, (AcoOptimizer.constructLoop pw s pts k current visited ord g).1 = ord ++ tail := by
  induction k generalizing current visited ord g with
  | zero =>
    unfold AcoOptimizer.constructLoop
    exact ⟨hP.2.1, hP.2.2.1, [], by simp⟩
  | succ k ih =>
    unfold AcoOptimizer.constructLoop
    dsimp only
    have hun := partial_exists_unvisited _ _ _ hP (by omega)
    obtain ⟨⟨n0, n1, nv⟩, -, -⟩ := chooseNext_spec pw s pts current visited g hb hc0 hc1 hun
    obtain ⟨a, b, tail, ht⟩ := ih _ _ _ _ n0 n1 (partial_step _ _ _ _ hP n0 n1 nv)
      (by simp; omega)
    exact ⟨a, b, (AcoOptimizer.chooseNext pw s pts current visited g).1 :: tail,
      by rw [ht]; simp⟩

/-! ### The candidate lists made by the constructor -/

theorem sampleCandidates_range (pts : List TspPoint) (n i K : Nat) (hn : 1 ≤ n) (S : Nat)
    (g : Rng) (best : List (Int × Int)) (h : ∀ p ∈ best, 0 ≤ p.2 ∧ p.2 < (n : Int)) :
    ∀ p ∈ (AcoOptimizer.sampleCandidates pts n i K S g best).1, 0 ≤ p.2 ∧ p.2 < (n : Int) := by
  induction S generalizing g best with
  | zero => exact h
  | succ S ih =>
    unfold AcoOptimizer.sampleCandidates
    dsimp only
    have hj := uniformInt_le 0 (n - 1) g (by omega)
    have hnew : ∀ d : Int, 0 ≤ ((d, ((uniformInt 0 (n - 1) g).1 : Int)) : Int × Int).2 ∧
        ((d, ((uniformInt 0 (n - 1) g).1 : Int)) : Int × Int).2 < (n : Int) := by
      intro d
      dsimp only
      omega
    split
    · exact ih _ _ h
    · split
      · apply ih
        intro p hp
        rcases List.mem_append.mp hp with hp | hp
        · exact h p hp
        · rw [List.mem_singleton] at hp
          subst hp
          exact hnew _
      · split
        · apply ih
          intro p hp
          rcases List.mem_or_eq_of_mem_set hp with hp | hp
          · exact h p hp
          · subst hp
            exact hnew _
        · exact ih _ _ h

theorem uniqueIds_spec (i K : Nat) (l : List (Int × Int)) (cand : List Int) (n : Nat)
    (hl : ∀ p ∈ l, 0 ≤ p.2 ∧ p.2 < (n : Int)) (hc : ∀ c ∈ cand, 0 ≤ c ∧ c < (n : Int))
    (hlen : cand.length ≤ K) :
    (∀ c ∈ AcoOptimizer.uniqueIds i K l cand, 0 ≤ c ∧ c < (n : Int)) ∧
    (AcoOptimizer.uniqueIds i K l cand).length ≤ K := by
  induction l generalizing cand with
  | nil => exact ⟨hc, hlen⟩
  | cons p rest ih =>
    have hrest : ∀ q ∈ rest, 0 ≤ q.2 ∧ q.2 < (n : Int) :=
      fun q hq => hl q (List.mem_cons_of_mem _ hq)
    unfold AcoOptimizer.uniqueIds
    split
    · exact ⟨hc, hlen⟩
    · split
      · exact ih cand hrest hc hlen
      · split
        · exact ih cand hrest hc hlen
        · apply ih _ hrest
          · intro c hcm
            rcases List.mem_append.mp hcm with h | h
            · exact hc c h
            · rw [List.mem_singleton] at h
              subst h
              exact hl p (List.mem_cons_self _ _)
          · simp only [List.length_append, List.length_singleton]
            omega

theorem fillCandidates_spec (n i K : Nat) (hn : 1 ≤ n) (fuel : Nat) (cand : List Int) (g : Rng)
    (hc : ∀ c ∈ cand, 0 ≤ c ∧ c < (n : Int)) (hlen : cand.length ≤ K)
    (r : List Int) (g1 : Rng) (h : AcoOptimizer.fillCandidates n i K fuel cand g = some (r, g1)) :
    (∀ c ∈ r, 0 ≤ c ∧ c < (n : Int)) ∧ r.length = K := by
  induction fuel generalizing cand g with
  | zero =>
    unfold AcoOptimizer.fillCandidates at h
    split at h
    · cases h
    · simp only [Option.some.injEq, Prod.mk.injEq] at h
      rw [← h.1]
      exact ⟨hc, by omega⟩
  | succ fuel ih =>
    unfold AcoOptimizer.fillCandidates at h
    split at h
    · dsimp only at h
      have hj := uniformInt_le 0 (n - 1) g (by omega)
      split at h
      · exact ih _ _ hc hlen h
      · split at h
        · exact ih _ _ hc hlen h
        · refine ih _ _ ?_ ?_ h
          · intro c hcm
            rcases List.mem_append.mp hcm with h' | h'
            · exact hc c h'
            · rw [List.mem_singleton] at h'
              subst h'
              omega
          · simp only [List.length_append, List.length_singleton]
            omega
    · simp only [Option.some.injEq, Prod.mk.injEq] at h
      rw [← h.1]
      exact ⟨hc, by omega⟩

theorem candidatesOf_spec (pts : List TspPoint) (n K S fuel i : Nat) (hn : 1 ≤ n) (g : Rng)
    (r : List Int) (g1 : Rng) (h : AcoOptimizer.candidatesOf pts n K S fuel i g = some (r, g1)) :
    (∀ c ∈ r, 0 ≤ c ∧ c < (n : Int)) ∧ r.length = K := by
  unfold AcoOptimizer.candidatesOf at h
  dsimp only at h
  have h1 := sampleCandidates_range pts n i K hn S g [] (by simp)
  have h2 : ∀ p ∈ (AcoOptimizer.sampleCandidates pts n i K S g []).1.insertionSort
      (fun a b => a.1 ≤ b.1), 0 ≤ p.2 ∧ p.2 < (n : Int) :=
    fun p hp => h1 p ((List.perm_insertionSort _ _).mem_iff.mp hp)
  have h3 := uniqueIds_spec i K _ [] n h2 (by simp) (by simp)
  exact fillCandidates_spec n i K hn fuel _ _ h3.1 h3.2 r g1 h

theorem buildLoop_spec (pts : List TspPoint) (n K S fuel : Nat) (hn : 1 ≤ n) (k i : Nat)
    (g : Rng) (cands : List (List Int)) (tau : List (List ℚ))
    (hc : ∀ L ∈ cands, ∀ c ∈ L, 0 ≤ c ∧ c < (n : Int))
    (hrow : ∀ t, (cands.getD t []).length = (tau.getD t []).length)
    (hlen : cands.length = tau.length)
    (cands1 : List (List Int)) (tau1 : List (List ℚ)) (g1 : Rng)
    (h : AcoOptimizer.buildLoop pts n K S fuel k i g cands tau = some (cands1, tau1, g1)) :
    (∀ L ∈ cands1, ∀ c ∈ L, 0 ≤ c ∧ c < (n : Int)) ∧
    (∀ t, (cands1.getD t []).length = (tau1.getD t []).length) ∧
    cands1.length = cands.length + k ∧ tau1.length = tau.length + k := by
  induction k generalizing i g cands tau with
  | zero =>
    unfold AcoOptimizer.buildLoop at h
    simp only [Option.some.injEq, Prod.mk.injEq] at h
    obtain ⟨rfl, rfl, -⟩ := h
    exact ⟨hc, hrow, rfl, rfl⟩
  | succ k ih =>
    unfold AcoOptimizer.buildLoop at h
    split at h
    · cases h
    · next cand g2 hco =>
      obtain ⟨hr1, hr2⟩ := candidatesOf_spec pts n K S fuel i hn g cand g2 hco
      obtain ⟨a, b, c, d⟩ := ih (i + 1) g2 (cands ++ [cand]) (tau ++ [List.replicate K 1])
        (by
          intro L hL
          rcases List.mem_append.mp hL with hL | hL
          · exact hc L hL
          · rw [List.mem_singleton] at hL
            subst hL
            exact hr1)
        (by
          intro t
          simp only [List.getD_eq_getElem?_getD, List.getElem?_append, hlen]
          have := hrow t
          simp only [List.getD_eq_getElem?_getD] at this
          by_cases ht : t < tau.length
          · rw [if_pos ht, if_pos ht]
            exact this
          · rw [if_neg ht, if_neg ht]
            by_cases ht0 : t - tau.length = 0
            · rw [ht0]
              simp [hr2]
            · rw [List.getElem?_eq_none (by simp; omega), List.getElem?_eq_none (by simp; omega)]
              rfl)
        (by simp [hlen]) h
      refine ⟨a, b, ?_, ?_⟩
      · rw [c]; simp; omega
      · rw [d]; simp; omega

theorem aco_create_built (initial : Tour) (ants k samples : Int) (alpha beta rho q : ℚ)
    (seed : Rng) (fuel : Nat) (s : AcoOptimizer)
    (h : AcoOptimizer.create initial ants k samples alpha beta rho q seed fuel = some s)
    (hi : initial.m_instance.isSome) (hn : 2 ≤ initial.size) :
    AcoOptimizer.CandidatesBuilt s ∧ s.m_n = initial.size := by
  unfold AcoOptimizer.create at h
  dsimp only at h
  rw [if_pos ⟨hi, by omega⟩] at h
  unfold AcoOptimizer.buildCandidateLists at h
  dsimp only at h
  cases hinst : initial.m_instance with
  | none => rw [hinst] at hi; cases hi
  | some inst =>
    rw [hinst] at h
    dsimp only at h
    rw [if_neg (by omega)] at h
    split at h
    · cases h
    · next cands tau g hbl =>
      simp only [Option.some.injEq] at h
      subst h
      obtain ⟨a, b, c, d⟩ := buildLoop_spec _ _ _ _ _ (by omega) _ _ _ _ _
        (by simp) (by simp) rfl _ _ _ hbl
      simp only [List.length_nil, Nat.zero_add] at c d
      exact ⟨⟨c, d, fun i _ => b i, a⟩, rfl⟩

/-! ### The candidate structure is kept by every step -/

theorem depositEdge_shape (cands : List (List Int)) (tau : List (List ℚ)) (a b : Int)
    (delta : ℚ) :
    (AcoOptimizer.depositEdge cands tau a b delta).map List.length = tau.map List.length := by
  unfold AcoOptimizer.depositEdge
  dsimp only
  split
  · rw [List.map_set]
    by_cases h : a.toNat < tau.length
    · rw [List.length_set, List.getD_eq_getElem _ _ h]
      apply List.ext_getElem
      · simp
      · intro i h1 h2
        rw [List.getElem_set]
        split
        · next he => subst he; simp
        · rfl
    · rw [List.set_eq_of_length_le (by simp; omega)]
  · rfl

theorem deposit_fold_shape (cands : List (List Int)) (ord : List Int) (delta : ℚ)
    (l : List Nat) (tau : List (List ℚ)) :
    (l.foldl (fun tau i =>
        AcoOptimizer.depositEdge cands
          (AcoOptimizer.depositEdge cands tau (ord.getD i 0) (ord.getD (i + 1) 0) delta)
          (ord.getD (i + 1) 0) (ord.getD i 0) delta) tau).map List.length =
      tau.map List.length := by
  induction l generalizing tau with
  | nil => rfl
  | cons i rest ih =>
    rw [List.foldl_cons, ih, depositEdge_shape, depositEdge_shape]

theorem evaporate_shape (n : Nat) (keep : ℚ) (tau : List (List ℚ)) :
    (tau.enum.map fun p => if p.1 < n then p.2.map (· * keep) else p.2).map List.length =
      tau.map List.length := by
  rw [List.map_map]
  have : (List.length ∘ fun p : Nat × List ℚ => if p.1 < n then p.2.map (· * keep) else p.2) =
      List.length ∘ Prod.snd := by
    funext p
    simp only [Function.comp]
    split
    · simp
    · rfl
  rw [this, ← List.map_map, List.enum_map_snd]

theorem aco_pheromoneUpdate_lists (s : AcoOptimizer) :
    AcoOptimizer.SameLists s (AcoOptimizer.pheromoneUpdate s) := by
  refine ⟨rfl, rfl, ?_⟩
  unfold AcoOptimizer.pheromoneUpdate
  dsimp only
  split
  · exact evaporate_shape _ _ _
  · split
    · rw [deposit_fold_shape]
      exact evaporate_shape _ _ _
    · exact evaporate_shape _ _ _

theorem aco_iterate_lists (pw : ℚ → ℚ → ℚ) (s s' : AcoOptimizer) (b : Bool)
    (h : AcoOptimizer.iterate pw s = .ok (s', b)) : AcoOptimizer.SameLists s s' := by
  unfold AcoOptimizer.iterate at h
  split at h
  · injection h with h
    injection h with h1 h2
    subst h1
    exact ⟨rfl, rfl, rfl⟩
  · next inst hinst =>
    split at h
    · injection h with h
      injection h with h1 h2
      subst h1
      exact ⟨rfl, rfl, rfl⟩
    · dsimp only at h
      split at h
      · cases h
      · next s2 improved hu =>
        injection h with h
        injection h with h1 h2
        subst h1
        have e1 : AcoOptimizer.SameLists s s2 := by
          unfold AcoOptimizer.updateBest at hu
          split at hu
          · split at hu
            · cases hu
            · injection hu with hu
              injection hu with hu1 hu2
              subst hu1
              unfold AcoOptimizer.recordBatchBest
              split
              · exact ⟨rfl, rfl, rfl⟩
              · split <;> exact ⟨rfl, rfl, rfl⟩
          · injection hu with hu
            injection hu with hu1 hu2
            subst hu1
            unfold AcoOptimizer.recordBatchBest
            split
            · exact ⟨rfl, rfl, rfl⟩
            · split <;> exact ⟨rfl, rfl, rfl⟩
        have e2 : AcoOptimizer.SameLists s2 (AcoOptimizer.endOfAnt s2) := by
          unfold AcoOptimizer.endOfAnt
          split
          · exact aco_pheromoneUpdate_lists _
          · exact ⟨rfl, rfl, rfl⟩
        exact ⟨e2.1.trans e1.1, e2.2.1.trans e1.2.1, e2.2.2.trans e1.2.2⟩

theorem candidatesBuilt_of_sameLists (s s' : AcoOptimizer) (h : AcoOptimizer.SameLists s s')
    (hb : AcoOptimizer.CandidatesBuilt s) : AcoOptimizer.CandidatesBuilt s' := by
  obtain ⟨h1, h2, h3⟩ := h
  obtain ⟨b1, b2, b3, b4⟩ := hb
  have hl : s'.m_tau.length = s.m_tau.length := by
    have := congrArg List.length h3
    simpa using this
  have hrow : ∀ i, (s'.m_tau.getD i []).length = (s.m_tau.getD i []).length := by
    intro i
    have := congrArg (fun l => l.getD i 0) h3
    simp only [List.getD_eq_getElem?_getD, List.getElem?_map] at this ⊢
    cases h1' : s'.m_tau[i]? <;> cases h2' : s.m_tau[i]? <;> simp_all
  refine ⟨by rw [h2, h1]; exact b1, by rw [hl, h1]; exact b2, ?_, ?_⟩
  · intro i hi
    rw [h2, hrow]
    exact b3 i (by rw [← h1]; exact hi)
  · rw [h2, h1]
    exact b4


/-- C30: in an optimizer whose candidate lists are built, for a current node of `[0, n)`
and a `visited` vector with at least one unvisited node, `chooseNext` returns an unvisited
node of `[0, n)`, for every pheromone state and every draw. When the total weight is
positive the node is a member of the current node's candidate list, and otherwise it is the
result of `pickRandomUnvisited`, which is unvisited as well. With weights that are not
negative the total weight is positive exactly when some unvisited candidate has a positive
weight. Every vector read of `chooseNext` is within range. -/
theorem C30_choose_next_unvisited (pw : ℚ → ℚ → ℚ) (s : AcoOptimizer) (pts : List TspPoint)
    (current : Int) (visited : List Bool) (g : Rng)
    (hb : AcoOptimizer.CandidatesBuilt s) (hc0 : 0 ≤ current) (hc1 : current < (s.m_n : Int))
    (hv : visited.length = s.m_n) (hp : pts.length = s.m_n)
    (hun : ∃ j, j < s.m_n ∧ visited.getD j false = false) :
    (0 ≤ (AcoOptimizer.chooseNext pw s pts current visited g).1 ∧
      (AcoOptimizer.chooseNext pw s pts current visited g).1 < (s.m_n : Int) ∧
      visited.getD (AcoOptimizer.chooseNext pw s pts current visited g).1.toNat false = false) ∧
    (0 < (AcoOptimizer.weights pw s pts current visited).sum →
      (AcoOptimizer.chooseNext pw s pts current visited g).1 ∈
        s.m_candidates.getD current.toNat []) ∧
    ((AcoOptimizer.weights pw s pts current visited).sum ≤ 0 →
      AcoOptimizer.chooseNext pw s pts current visited g =
        AcoOptimizer.pickRandomUnvisited s.m_n visited g) ∧
    (∀ g1, 0 ≤ (AcoOptimizer.pickRandomUnvisited s.m_n visited g1).1 ∧
      (AcoOptimizer.pickRandomUnvisited s.m_n visited g1).1 < (s.m_n : Int) ∧
      visited.getD (AcoOptimizer.pickRandomUnvisited s.m_n visited g1).1.toNat false =
        false) ∧
    ((∀ w ∈ AcoOptimizer.weights pw s pts current visited, 0 ≤ w) →
      (0 < (AcoOptimizer.weights pw s pts current visited).sum ↔
        ∃ p ∈ (s.m_candidates.getD current.toNat []).zip
          (AcoOptimizer.weights pw s pts current visited),
          0 < p.2 ∧ visited.getD p.1.toNat false = false)) ∧
    (current.toNat < s.m_candidates.length ∧ current.toNat < s.m_tau.length ∧
      current.toNat < pts.length ∧
      (s.m_tau.getD current.toNat []).length = (s.m_candidates.getD current.toNat []).length ∧
      ∀ c ∈ s.m_candidates.getD current.toNat [],
        0 ≤ c ∧ c.toNat < visited.length ∧ c.toNat < pts.length) := by
  obtain ⟨h1, h2, h3⟩ := chooseNext_spec pw s pts current visited g hb hc0 hc1 hun
  refine ⟨h1, h2, h3, fun g1 => pickRandomUnvisited_spec _ _ _ hun, ?_, ?_⟩
  · intro hnn
    constructor
    · intro hs
      obtain ⟨x, hx, hx0⟩ := weights_positive_of_sum _ hs
      obtain ⟨k, hk, hkeq⟩ := List.mem_iff_getElem.mp hx
      have hk' : k < (s.m_candidates.getD current.toNat []).length := by
        rw [← weights_length pw s pts current visited]; exact hk
      have hmem : ((s.m_candidates.getD current.toNat [])[k],
          (AcoOptimizer.weights pw s pts current visited)[k]) ∈
          (s.m_candidates.getD current.toNat []).zip
            (AcoOptimizer.weights pw s pts current visited) := by
        rw [List.mem_iff_getElem]
        exact ⟨k, by simp only [List.length_zip]; omega, by rw [List.getElem_zip]⟩
      refine ⟨_, hmem, by rw [hkeq]; exact hx0, ?_⟩
      exact (weights_zip_mem pw s pts current visited _ _ hmem (by rw [hkeq]; exact hx0)).2
    · rintro ⟨p, hp1, hp2, -⟩
      exact sum_pos_of_mem_pos _ hnn p.2 (List.of_mem_zip hp1).2 hp2
  · obtain ⟨hcl, htl, hrow, hrange⟩ := hb
    have hcur : current.toNat < s.m_n := by omega
    have hLmem : s.m_candidates.getD current.toNat [] ∈ s.m_candidates := by
      rw [List.getD_eq_getElem _ _ (by omega)]
      exact List.getElem_mem _
    refine ⟨by omega, by omega, by omega, (hrow _ hcur).symm, ?_⟩
    intro c hc
    have := hrange _ hLmem c hc
    exact ⟨this.1, by omega, by omega⟩

/-- C30 on the example optimizer: at node 0 with only node 0 visited the weights are
positive and the chosen node 3 is a candidate of node 0. -/
theorem C30_choose_next_unvisited_witness :
    (AcoOptimizer.chooseNext pwExample acoExample crossingInstance.m_points 0
      [true, false, false, false, false] []).1 = 3 ∧
    (3 : Int) ∈ acoExample.m_candidates.getD 0 [] := by
  have h := (C30_choose_next_unvisited pwExample acoExample crossingInstance.m_points 0
    [true, false, false, false, false] []
    ⟨by decide!, by decide!, by decide!, by decide!⟩ (by decide) (by decide!) (by decide!)
    (by decide!) ⟨1, by decide!, by decide⟩).2.1 (by decide!)
  have e : (AcoOptimizer.chooseNext pwExample acoExample crossingInstance.m_points 0
      [true, false, false, false, false] []).1 = 3 := by decide!
  rw [e] at h
  exact ⟨e, h⟩

/-- C29: the constructor of an `AcoOptimizer` over an instance of `n ≥ 2` nodes builds the
candidate lists (one list and one pheromone row per node, every candidate a node id), and
every step keeps them built. In an optimizer whose candidate lists are built over `n ≥ 2`
nodes, `constructTour` returns, for every pheromone state and every draw, an order of
length `n` that is a permutation of `[0, n)` and starts with node `0`. -/
theorem C29_construct_tour_permutation (pw : ℚ → ℚ → ℚ) (s : AcoOptimizer)
    (pts : List TspPoint) (hb : AcoOptimizer.CandidatesBuilt s) (hn : 2 ≤ s.m_n) :
    (∀ (initial : Tour) (ants k samples : Int) (alpha beta rho q : ℚ) (seed : Rng)
        (fuel : Nat) (s0 : AcoOptimizer),
      AcoOptimizer.create initial ants k samples alpha beta rho q seed fuel = some s0 →
      initial.m_instance.isSome → 2 ≤ initial.size →
      AcoOptimizer.CandidatesBuilt s0 ∧ s0.m_n = initial.size) ∧
    (∀ (s1 : AcoOptimizer) (b : Bool), AcoOptimizer.iterate pw s = .ok (s1, b) →
      AcoOptimizer.CandidatesBuilt s1 ∧ s1.m_n = s.m_n) ∧
    IsPermutation (AcoOptimizer.constructTour pw s pts).1 s.m_n ∧
    (AcoOptimizer.constructTour pw s pts).1.length = s.m_n ∧
    (AcoOptimizer.constructTour pw s pts).1[0]? = some 0 := by
  have hP0 : AcoOptimizer.Partial s.m_n ((List.replicate s.m_n false).set 0 true) [0] := by
    refine ⟨by simp, List.nodup_singleton _, ?_, ?_⟩
    · intro x hx
      rw [List.mem_singleton] at hx
      subst hx
      exact ⟨le_refl _, by omega⟩
    · intro j hj
      rw [List.getD_eq_getElem?_getD, List.getElem?_set]
      by_cases h0 : 0 = j
      · subst h0
        rw [if_pos rfl, if_pos (by simp; omega)]
        simp
      · rw [if_neg h0, List.getElem?_replicate, if_pos hj]
        simp
        omega
  obtain ⟨hnd, hr, tail, ht⟩ := constructLoop_partial pw s pts hb (s.m_n - 1) 0 _ [0] s.m_rng
    (le_refl _) (by omega) hP0 (by simp; omega)
  have hlen : (AcoOptimizer.constructTour pw s pts).1.length = s.m_n := by
    unfold AcoOptimizer.constructTour
    rw [aco_constructLoop_length]
    simp
    omega
  refine ⟨fun initial ants k samples alpha beta rho q seed fuel s0 h hi hsz =>
      aco_create_built initial ants k samples alpha beta rho q seed fuel s0 h hi hsz,
    fun s1 b h => ⟨candidatesBuilt_of_sameLists _ _ (aco_iterate_lists pw s s1 b h) hb,
      (aco_iterate_lists pw s s1 b h).1⟩, ?_, hlen, ?_⟩
  · unfold IsPermutation
    have hnd2 : ((List.range s.m_n).map Int.ofNat).Nodup :=
      (List.nodup_range s.m_n).map (fun _ _ h => Int.ofNat.inj h)
    have hsub : (AcoOptimizer.constructTour pw s pts).1 ⊆ (List.range s.m_n).map Int.ofNat := by
      intro x hx
      obtain ⟨x0, x1⟩ := hr x hx
      exact List.mem_map.mpr ⟨x.toNat, List.mem_range.mpr (by omega), Int.toNat_of_nonneg x0⟩
    have hnd' : (AcoOptimizer.constructTour pw s pts).1.Nodup := hnd
    refine (List.subperm_of_subset hnd' hsub).perm_of_length_le ?_
    rw [hlen]
    simp
  · unfold AcoOptimizer.constructTour
    rw [ht]
    simp

/-- C29 on the example optimizer over five nodes: the constructed order is 0, 3, 2, 1, 4. -/
theorem C29_construct_tour_permutation_witness :
    (AcoOptimizer.constructTour pwExample acoExample crossingInstance.m_points).1 =
      [0, 3, 2, 1, 4] ∧
    IsPermutation (AcoOptimizer.constructTour pwExample acoExample crossingInstance.m_points).1
      5 :=
  ⟨by decide!, (C29_construct_tour_permutation pwExample acoExample crossingInstance.m_points
    ⟨by decide!, by decide!, by decide!, by decide!⟩ (by decide!)).2.2.1⟩

/-! ## The insertion heuristics -/

theorem swapAt_adjacent (A : List Int) (y x : Int) (B : List Int) :
    swapAt (A ++ y :: x :: B) (A.length + 1) A.length = A ++ x :: y :: B ∧
    swapAt (A ++ y :: x :: B) A.length (A.length + 1) = A ++ x :: y :: B := by
  induction A with
  | nil => simp [swapAt]
  | cons a A ih =>
    obtain ⟨h1, h2⟩ := ih
    unfold swapAt at h1 h2 ⊢
    simp only [List.cons_append, List.length_cons, List.set_cons_succ, List.getD_cons_succ]
    exact ⟨by rw [h1], by rw [h2]⟩

theorem bubblePass_perm (k j : Nat) (v : List ℚ × List Int) (h : j + k < v.2.length) :
    (Tour.bubblePass k j v).2.Perm v.2 := by
  induction k generalizing j v with
  | zero => exact List.Perm.refl _
  | succ k ih =>
    unfold Tour.bubblePass
    split
    · refine (ih (j + 1) _ ?_).trans (swapAt_perm _ _ _ (by omega) (by omega))
      dsimp only
      rw [swapAt_length]
      omega
    · exact ih (j + 1) v (by omega)

theorem bubbleSort_perm (n k i : Nat) (v : List ℚ × List Int) (hn : v.2.length = n)
    (h1 : 1 ≤ n) : (Tour.bubbleSort n k i v).2.Perm v.2 := by
  induction k generalizing i v with
  | zero => exact List.Perm.refl _
  | succ k ih =>
    unfold Tour.bubbleSort
    have hp := bubblePass_perm (n - 1 - i) 0 v (by omega)
    exact (ih (i + 1) _ (by rw [hp.length_eq]; exact hn)).trans hp

theorem thoroughIds_perm (sqrtD : ℚ → ℚ) (pts : List TspPoint) (order : List Int)
    (h : 1 ≤ order.length) : (Tour.thoroughIds sqrtD pts order).Perm order := by
  unfold Tour.thoroughIds
  exact bubbleSort_perm order.length _ 0 _ rfl h

theorem swapAtQ_adjacent (A : List ℚ) (y x : ℚ) (B : List ℚ) :
    swapAtQ (A ++ y :: x :: B) A.length (A.length + 1) = A ++ x :: y :: B := by
  induction A with
  | nil => simp [swapAtQ]
  | cons a A ih =>
    unfold swapAtQ at ih ⊢
    simp only [List.cons_append, List.length_cons, List.set_cons_succ, List.getD_cons_succ]
    rw [ih]

theorem getD_middle (A : List ℚ) (y x : ℚ) (B : List ℚ) :
    (A ++ y :: x :: B).getD A.length 0 = y ∧ (A ++ y :: x :: B).getD (A.length + 1) 0 = x := by
  induction A with
  | nil => simp
  | cons a A ih => simpa using ih

theorem bubblePass_min (key : Int → ℚ) (k : Nat) (A : List Int) (c : Int) (rest : List Int)
    (hk : k ≤ rest.length) (hA : ∀ a ∈ A, key c ≤ key a) :
    ∃ A' c', Tour.bubblePass k A.length ((A ++ c :: rest).map key, A ++ c :: rest) =
        ((A' ++ c' :: rest.drop k).map key, A' ++ c' :: rest.drop k) ∧
      (∀ a ∈ A', key c' ≤ key a) ∧ (A' ++ [c']).Perm (A ++ c :: rest.take k) := by
  induction k generalizing A c rest with
  | zero => exact ⟨A, c, rfl, hA, by simp⟩
  | succ k ih =>
    cases rest with
    | nil => simp at hk
    | cons d rest1 =>
      have hk' : k ≤ rest1.length := by simpa using hk
      have hg := getD_middle (A.map key) (key c) (key d) (rest1.map key)
      have hmap : (A ++ c :: d :: rest1).map key =
          A.map key ++ key c :: key d :: rest1.map key := by simp
      rw [List.length_map] at hg
      unfold Tour.bubblePass
      dsimp only
      rw [hmap, hg.1, hg.2]
      have hl : (A ++ [c]).length = A.length + 1 := by simp
      have hl2 : (A ++ [d]).length = A.length + 1 := by simp
      by_cases hgt : key d > key c
      · rw [if_pos hgt]
        have e1 := swapAtQ_adjacent (A.map key) (key c) (key d) (rest1.map key)
        rw [List.length_map] at e1
        rw [e1, (swapAt_adjacent A c d rest1).2]
        obtain ⟨A', c', h1, h2, h3⟩ := ih (A ++ [d]) c rest1 hk' (by
          intro a ha
          rcases List.mem_append.mp ha with ha | ha
          · exact hA a ha
          · rw [List.mem_singleton] at ha
            subst ha
            exact le_of_lt hgt)
        refine ⟨A', c', ?_, h2, ?_⟩
        · rw [hl2] at h1
          have e2 : A.map key ++ key d :: key c :: rest1.map key =
              ((A ++ [d]) ++ c :: rest1).map key := by simp
          have e3 : A ++ d :: c :: rest1 = (A ++ [d]) ++ c :: rest1 := by simp
          rw [e2, e3, h1]
          rfl
        · refine h3.trans ?_
          simp only [List.take_succ_cons, List.append_assoc, List.singleton_append]
          exact List.Perm.append_left A (List.Perm.swap c d _)
      · rw [if_neg hgt]
        obtain ⟨A', c', h1, h2, h3⟩ := ih (A ++ [c]) d rest1 hk' (by
          intro a ha
          rcases List.mem_append.mp ha with ha | ha
          · exact le_trans (not_lt.mp hgt) (hA a ha)
          · rw [List.mem_singleton] at ha
            subst ha
            exact not_lt.mp hgt)
        refine ⟨A', c', ?_, h2, ?_⟩
        · rw [hl] at h1
          have e2 : A.map key ++ key c :: key d :: rest1.map key =
              ((A ++ [c]) ++ d :: rest1).map key := by simp
          have e3 : A ++ c :: d :: rest1 = (A ++ [c]) ++ d :: rest1 := by simp
          rw [e2, e3, h1]
          rfl
        · refine h3.trans ?_
          simp only [List.take_succ_cons, List.append_assoc, List.singleton_append]
          exact List.Perm.refl _

theorem bubbleSort_sorted (key : Int → ℚ) (n k i : Nat) (F S : List Int)
    (hF : F.length + i = n) (hS : S.length = i) (hk : i + k + 1 = n)
    (hsorted : S.Pairwise (fun a b => key a ≥ key b))
    (hFS : ∀ f ∈ F, ∀ s ∈ S, key f ≥ key s) :
    (Tour.bubbleSort n k i ((F ++ S).map key, F ++ S)).2.Pairwise
      (fun a b => key a ≥ key b) := by
  induction k generalizing i F S with
  | zero =>
    unfold Tour.bubbleSort
    dsimp only
    have hF1 : F.length = 1 := by omega
    match F, hF1 with
    | [f], _ =>
      rw [List.singleton_append, List.pairwise_cons]
      exact ⟨fun s hs => hFS f (List.mem_singleton_self f) s hs, hsorted⟩
  | succ k ih =>
    unfold Tour.bubbleSort
    cases F with
    | nil => simp at hF; omega
    | cons c0 rest0 =>
      have hr : rest0.length = n - 1 - i := by simp at hF; omega
      obtain ⟨A', c', h1, h2, h3⟩ := bubblePass_min key (n - 1 - i) [] c0 (rest0 ++ S)
        (by simp; omega) (by simp)
      have hdrop : (rest0 ++ S).drop (n - 1 - i) = S := by
        rw [← hr, List.drop_left]
      have htake : (rest0 ++ S).take (n - 1 - i) = rest0 := by
        rw [← hr, List.take_left]
      rw [hdrop] at h1
      rw [htake] at h3
      simp only [List.length_nil, List.nil_append] at h1 h3
      rw [List.cons_append, h1]
      have hmem : ∀ a, a ∈ A' ∨ a = c' → a ∈ c0 :: rest0 := by
        intro a ha
        apply h3.mem_iff.mp
        rcases ha with ha | ha
        · exact List.mem_append_left _ ha
        · subst ha
          simp
      have hlenA : A'.length + 1 = rest0.length + 1 := by
        have := h3.length_eq
        simpa using this
      have e : A' ++ c' :: S = A' ++ (c' :: S) := rfl
      rw [e]
      apply ih (i + 1) A' (c' :: S)
      · simp at hF; omega
      · simp [hS]
      · omega
      · rw [List.pairwise_cons]
        exact ⟨fun s hs => hFS c' (hmem c' (Or.inr rfl)) s hs, hsorted⟩
      · intro f hf s hs
        rcases List.mem_cons.mp hs with rfl | hs
        · exact h2 f hf
        · exact hFS f (hmem f (Or.inl hf)) s hs

theorem thoroughIds_sorted (sqrtD : ℚ → ℚ) (pts : List TspPoint) (order : List Int)
    (h : 1 ≤ order.length) :
    (Tour.thoroughIds sqrtD pts order).Pairwise
      (fun a b => Tour.thoroughDist sqrtD pts a ≥ Tour.thoroughDist sqrtD pts b) := by
  unfold Tour.thoroughIds
  have := bubbleSort_sorted (Tour.thoroughDist sqrtD pts) order.length (order.length - 1) 0
    order [] (by simp) rfl (by omega) List.Pairwise.nil (by simp)
  simpa using this

set_option maxRecDepth 100000 in
/-- C26 fails on the code: `thoroughHeuristic` measures the distances from the point
`((maxX - minX) / 2, (maxY - minY) / 2)`, half the extent of the bounding box, which is its
centre only when `minX = minY = 0`. Over the points (10, 0), (14, 0), (20, 0) the centre of
the box is (15, 0) and the code's point is (5, 0): the nodes are fed in the order 2, 1, 0,
whose squared distances from the centre are 25, 1, 25, so node 1 (the nearest to the
centre) comes before node 0. In general the nodes are fed as a rearrangement of the order
sorted by non-increasing distance from the code's point. -/
theorem C26_sort_uses_half_extent :
    (Tour.boundsOf offsetInstance.m_points = (20, 0, 10, 0) ∧
      Tour.thoroughCentre offsetInstance.m_points = (5, 0) ∧
      boxCentre offsetInstance.m_points = (15, 0) ∧
      [0, 1, 2].map (Tour.thoroughDist sqrtExample offsetInstance.m_points) = [5, 9, 15] ∧
      Tour.thoroughIds sqrtExample offsetInstance.m_points offsetTour.m_order = [2, 1, 0] ∧
      [2, 1, 0].map (boxCentreDistSq offsetInstance.m_points) = [25, 1, 25] ∧
      (Tour.thoroughHeuristic sqrtExample offsetTour).m_order = [2, 1, 0]) ∧
    (∀ (sqrtD : ℚ → ℚ) (inst : TspInstance) (t : Tour), t.m_instance = some inst →
      3 ≤ t.m_order.length →
      (Tour.thoroughHeuristic sqrtD t).m_order =
        Tour.thoroughLoop inst.m_points (Tour.thoroughIds sqrtD inst.m_points t.m_order)
          (t.m_order.length - 2) 2
          (Tour.thoroughInit (Tour.thoroughIds sqrtD inst.m_points t.m_order)) ∧
      (Tour.thoroughIds sqrtD inst.m_points t.m_order).Perm t.m_order ∧
      (Tour.thoroughIds sqrtD inst.m_points t.m_order).Pairwise
        (fun a b => Tour.thoroughDist sqrtD inst.m_points a ≥
          Tour.thoroughDist sqrtD inst.m_points b)) ∧
    (∀ pts : List TspPoint, (Tour.boundsOf pts).2.2.1 = 0 → (Tour.boundsOf pts).2.2.2 = 0 →
      Tour.thoroughCentre pts = boxCentre pts) := by
  refine ⟨⟨by decide!, by decide!, by decide!, by decide!, by decide!, by decide!, by decide!⟩,
    ?_, ?_⟩
  · intro sqrtD inst t hi hn
    refine ⟨?_, thoroughIds_perm sqrtD inst.m_points t.m_order (by omega),
      thoroughIds_sorted sqrtD inst.m_points t.m_order (by omega)⟩
    unfold Tour.thoroughHeuristic
    rw [hi]
    dsimp only
    rw [if_neg (by omega), evaluate_order]
  · intro pts hx hy
    unfold Tour.thoroughCentre boxCentre
    rw [hx, hy]
    simp

/-! ## Iterated local search: the stagnation counter -/

theorem ils_applyBest_fields (s : IlsOptimizer) :
    (IlsOptimizer.applyBest2OptMove s).1.m_noImprove = s.m_noImprove ∧
    (IlsOptimizer.applyBest2OptMove s).1.m_stagnationIters = s.m_stagnationIters ∧
    ((IlsOptimizer.applyBest2OptMove s).2 = false →
      (IlsOptimizer.applyBest2OptMove s).1.m_current = s.m_current) := by
  unfold IlsOptimizer.applyBest2OptMove
  split
  · exact ⟨rfl, rfl, fun _ => rfl⟩
  · split
    · exact ⟨rfl, rfl, fun _ => rfl⟩
    · dsimp only
      split
      · exact ⟨rfl, rfl, fun h => by cases h⟩
      · exact ⟨rfl, rfl, fun _ => rfl⟩

theorem ils_record_fields (t : IlsOptimizer) :
    (IlsOptimizer.recordIfBetter t).1.m_noImprove = t.m_noImprove ∧
    (IlsOptimizer.recordIfBetter t).1.m_stagnationIters = t.m_stagnationIters ∧
    (IlsOptimizer.recordIfBetter t).1.m_current = t.m_current ∧
    (IlsOptimizer.recordIfBetter t).1.m_rng = t.m_rng := by
  unfold IlsOptimizer.recordIfBetter
  split <;> exact ⟨rfl, rfl, rfl, rfl⟩

theorem ils_doubleBridge_fields (t : IlsOptimizer) (c : Int) :
    (IlsOptimizer.doubleBridgePerturbation { t with m_noImprove := c }).m_current =
      (IlsOptimizer.doubleBridgePerturbation t).m_current ∧
    (IlsOptimizer.doubleBridgePerturbation { t with m_noImprove := c }).m_rng =
      (IlsOptimizer.doubleBridgePerturbation t).m_rng ∧
    (IlsOptimizer.doubleBridgePerturbation { t with m_noImprove := c }).m_stagnationIters =
      t.m_stagnationIters := by
  unfold IlsOptimizer.doubleBridgePerturbation
  dsimp only
  split <;> exact ⟨rfl, rfl, rfl⟩

theorem ils_record_noImprove (t : IlsOptimizer) :
    (IlsOptimizer.recordIfBetter t).1.m_noImprove = t.m_noImprove := (ils_record_fields t).1

theorem ils_record_stagnationIters (t : IlsOptimizer) :
    (IlsOptimizer.recordIfBetter t).1.m_stagnationIters = t.m_stagnationIters :=
  (ils_record_fields t).2.1

theorem ils_record_current (t : IlsOptimizer) :
    (IlsOptimizer.recordIfBetter t).1.m_current = t.m_current := (ils_record_fields t).2.2.1

theorem ils_record_rng (t : IlsOptimizer) :
    (IlsOptimizer.recordIfBetter t).1.m_rng = t.m_rng := (ils_record_fields t).2.2.2

theorem ils_doubleBridge_current (t : IlsOptimizer) (c : Int) :
    (IlsOptimizer.doubleBridgePerturbation
      { m_checksPerIter := t.m_checksPerIter, m_stagnationIters := t.m_stagnationIters,
        m_noImprove := c, m_rng := t.m_rng, m_current := t.m_current, m_best := t.m_best,
        m_baseline := t.m_baseline }).m_current =
      (IlsOptimizer.doubleBridgePerturbation t).m_current := (ils_doubleBridge_fields t c).1

theorem ils_doubleBridge_rng (t : IlsOptimizer) (c : Int) :
    (IlsOptimizer.doubleBridgePerturbation
      { m_checksPerIter := t.m_checksPerIter, m_stagnationIters := t.m_stagnationIters,
        m_noImprove := c, m_rng := t.m_rng, m_current := t.m_current, m_best := t.m_best,
        m_baseline := t.m_baseline }).m_rng =
      (IlsOptimizer.doubleBridgePerturbation t).m_rng := (ils_doubleBridge_fields t c).2.1

theorem ils_doubleBridge_stagnationIters (t : IlsOptimizer) (c : Int) :
    (IlsOptimizer.doubleBridgePerturbation
      { m_checksPerIter := t.m_checksPerIter, m_stagnationIters := t.m_stagnationIters,
        m_noImprove := c, m_rng := t.m_rng, m_current := t.m_current, m_best := t.m_best,
        m_baseline := t.m_baseline }).m_stagnationIters =
      t.m_stagnationIters := (ils_doubleBridge_fields t c).2.2

theorem ils_counter_step (s : IlsOptimizer) :
    (IlsOptimizer.iterate s).1.m_stagnationIters = s.m_stagnationIters ∧
    (0 ≤ s.m_noImprove → s.m_noImprove < s.m_stagnationIters →
      0 ≤ (IlsOptimizer.iterate s).1.m_noImprove ∧
      (IlsOptimizer.iterate s).1.m_noImprove < s.m_stagnationIters) ∧
    (4 ≤ s.m_current.size → (IlsOptimizer.applyBest2OptMove s).2 = true →
      (IlsOptimizer.iterate s).1.m_noImprove = 0 ∧
      (IlsOptimizer.iterate s).1.m_current = (IlsOptimizer.applyBest2OptMove s).1.m_current ∧
      (IlsOptimizer.iterate s).1.m_rng = (IlsOptimizer.applyBest2OptMove s).1.m_rng) ∧
    (4 ≤ s.m_current.size → (IlsOptimizer.applyBest2OptMove s).2 = false →
      s.m_noImprove + 1 < s.m_stagnationIters →
      (IlsOptimizer.iterate s).1.m_noImprove = s.m_noImprove + 1 ∧
      (IlsOptimizer.iterate s).1.m_current = s.m_current ∧
      (IlsOptimizer.iterate s).1.m_rng = (IlsOptimizer.applyBest2OptMove s).1.m_rng) ∧
    (4 ≤ s.m_current.size → (IlsOptimizer.applyBest2OptMove s).2 = false →
      s.m_stagnationIters ≤ s.m_noImprove + 1 →
      (IlsOptimizer.iterate s).1.m_noImprove = 0 ∧
      (IlsOptimizer.iterate s).1.m_current =
        Tour.evaluate (IlsOptimizer.doubleBridgePerturbation
          (IlsOptimizer.applyBest2OptMove s).1).m_current ∧
      (IlsOptimizer.iterate s).1.m_rng =
        (IlsOptimizer.doubleBridgePerturbation (IlsOptimizer.applyBest2OptMove s).1).m_rng) := by
  obtain ⟨a1, a2, a3⟩ := ils_applyBest_fields s
  unfold IlsOptimizer.iterate
  by_cases hn : s.m_current.size < 4
  · rw [if_pos hn]
    exact ⟨rfl, fun h0 h1 => ⟨h0, h1⟩, fun h => by omega, fun h => by omega, fun h => by omega⟩
  · rw [if_neg hn]
    dsimp only
    by_cases hm : (IlsOptimizer.applyBest2OptMove s).2 = true
    · rw [if_pos hm]
      simp only [ils_record_noImprove, ils_record_stagnationIters, ils_record_current,
        ils_record_rng]
      refine ⟨a2, fun h0 h1 => ⟨le_refl _, by omega⟩, fun _ _ => by simp,
        fun _ h => ?_, fun _ h => ?_⟩
      · rw [hm] at h; cases h
      · rw [hm] at h; cases h
    · rw [if_neg hm, a1, a2]
      have hm' : (IlsOptimizer.applyBest2OptMove s).2 = false := by
        cases h : (IlsOptimizer.applyBest2OptMove s).2
        · rfl
        · exact absurd h hm
      by_cases hT : s.m_noImprove + 1 ≥ s.m_stagnationIters
      · rw [if_pos hT]
        simp only [ils_record_noImprove, ils_record_stagnationIters, ils_record_current,
          ils_record_rng]
        have d1 := ils_doubleBridge_current (IlsOptimizer.applyBest2OptMove s).1
          (s.m_noImprove + 1)
        have d2 := ils_doubleBridge_rng (IlsOptimizer.applyBest2OptMove s).1
          (s.m_noImprove + 1)
        have d3 := ils_doubleBridge_stagnationIters (IlsOptimizer.applyBest2OptMove s).1
          (s.m_noImprove + 1)
        rw [a2] at d1 d2 d3
        rw [d1, d2, d3]
        refine ⟨rfl, fun h0 h1 => ⟨le_refl _, by omega⟩, fun _ h => ?_,
          fun _ _ h => by omega, fun _ _ _ => by simp⟩
        rw [hm'] at h; cases h
      · rw [if_neg hT]
        refine ⟨rfl, fun h0 h1 => ⟨by dsimp only; omega, by dsimp only; omega⟩, fun _ h => ?_,
          fun _ _ _ => ⟨rfl, a3 hm', rfl⟩, fun _ _ h => by omega⟩
        rw [hm'] at h; cases h

theorem ils_run_counter (k : Nat) (s : IlsOptimizer) (h0 : 0 ≤ s.m_noImprove)
    (h1 : s.m_noImprove < s.m_stagnationIters) :
    (IlsOptimizer.run k s).m_stagnationIters = s.m_stagnationIters ∧
    0 ≤ (IlsOptimizer.run k s).m_noImprove ∧
    (IlsOptimizer.run k s).m_noImprove < s.m_stagnationIters := by
  induction k generalizing s with
  | zero => exact ⟨rfl, h0, h1⟩
  | succ k ih =>
    unfold IlsOptimizer.run
    obtain ⟨e1, e2, -⟩ := ils_counter_step s
    obtain ⟨b0, b1⟩ := e2 h0 h1
    obtain ⟨c1, c2, c3⟩ := ih (IlsOptimizer.iterate s).1 b0 (by rw [e1]; exact b1)
    rw [e1] at c1 c3
    exact ⟨c1, c2, c3⟩

theorem ils_run_succ (k : Nat) (s : IlsOptimizer) :
    IlsOptimizer.run (k + 1) s = (IlsOptimizer.iterate (IlsOptimizer.run k s)).1 := by
  induction k generalizing s with
  | zero => rfl
  | succ k ih =>
    rw [IlsOptimizer.run, ih]
    rfl

theorem ils_idle_run (s : IlsOptimizer) (hn : 4 ≤ s.m_current.size) (j : Nat)
    (hidle : ∀ i, i < j → (IlsOptimizer.applyBest2OptMove (IlsOptimizer.run i s)).2 = false)
    (hlt : s.m_noImprove + (j : Int) < s.m_stagnationIters) :
    (IlsOptimizer.run j s).m_noImprove = s.m_noImprove + (j : Int) ∧
    (IlsOptimizer.run j s).m_current = s.m_current ∧
    (IlsOptimizer.run j s).m_stagnationIters = s.m_stagnationIters := by
  induction j with
  | zero => exact ⟨by simp [IlsOptimizer.run], rfl, rfl⟩
  | succ j ih =>
    obtain ⟨i1, i2, i3⟩ := ih (fun i hi => hidle i (by omega)) (by push_cast at hlt; omega)
    rw [ils_run_succ]
    obtain ⟨e1, -, -, e4, -⟩ := ils_counter_step (IlsOptimizer.run j s)
    obtain ⟨f1, f2, -⟩ := e4 (by rw [i2]; exact hn) (hidle j (by omega))
      (by rw [i1, i3]; push_cast at hlt; omega)
    refine ⟨?_, f2.trans i2, e1.trans i3⟩
    rw [f1, i1]
    push_cast
    omega

/-- C40: the constructor sets the counter to `0` and the threshold to
`T = max(10, stagnationIters)`, and no step changes the threshold. From a state with the
counter in `[0, T)`, on a tour of at least four nodes: a step whose 2-opt sampling applied a
move leaves the counter at `0` and does not perturb; a step that applied none and finds the
counter below `T - 1` adds one to it and leaves the current tour as it was; a step that
applied none and finds the counter at `T - 1` calls the double bridge on the current tour,
re-evaluates it and leaves the counter at `0`. So `j` steps in a row without a move raise
the counter by `j` as long as it stays below `T`, the next such step perturbs, and after
every step (and any number of steps) the counter is in `[0, T)`. -/
theorem C40_stagnation_counter (s : IlsOptimizer) (hn : 4 ≤ s.m_current.size)
    (h0 : 0 ≤ s.m_noImprove) (h1 : s.m_noImprove < s.m_stagnationIters) :
    (∀ (initial : Tour) (checksPerIter stagnationIters : Int) (seed : Rng),
      (IlsOptimizer.create initial checksPerIter stagnationIters seed).m_noImprove = 0 ∧
      (IlsOptimizer.create initial checksPerIter stagnationIters seed).m_stagnationIters =
        max 10 stagnationIters ∧
      ∀ k, 0 ≤ (IlsOptimizer.run k
          (IlsOptimizer.create initial checksPerIter stagnationIters seed)).m_noImprove ∧
        (IlsOptimizer.run k
          (IlsOptimizer.create initial checksPerIter stagnationIters seed)).m_noImprove <
          max 10 stagnationIters) ∧
    (IlsOptimizer.iterate s).1.m_stagnationIters = s.m_stagnationIters ∧
    (0 ≤ (IlsOptimizer.iterate s).1.m_noImprove ∧
      (IlsOptimizer.iterate s).1.m_noImprove < s.m_stagnationIters) ∧
    ((IlsOptimizer.applyBest2OptMove s).2 = true →
      (IlsOptimizer.iterate s).1.m_noImprove = 0 ∧
      (IlsOptimizer.iterate s).1.m_current = (IlsOptimizer.applyBest2OptMove s).1.m_current ∧
      (IlsOptimizer.iterate s).1.m_rng = (IlsOptimizer.applyBest2OptMove s).1.m_rng) ∧
    ((IlsOptimizer.applyBest2OptMove s).2 = false →
      s.m_noImprove + 1 < s.m_stagnationIters →
      (IlsOptimizer.iterate s).1.m_noImprove = s.m_noImprove + 1 ∧
      (IlsOptimizer.iterate s).1.m_current = s.m_current ∧
      (IlsOptimizer.iterate s).1.m_rng = (IlsOptimizer.applyBest2OptMove s).1.m_rng) ∧
    ((IlsOptimizer.applyBest2OptMove s).2 = false →
      s.m_noImprove + 1 = s.m_stagnationIters →
      (IlsOptimizer.iterate s).1.m_noImprove = 0 ∧
      (IlsOptimizer.iterate s).1.m_current =
        Tour.evaluate (IlsOptimizer.doubleBridgePerturbation
          (IlsOptimizer.applyBest2OptMove s).1).m_current ∧
      (IlsOptimizer.iterate s).1.m_rng =
        (IlsOptimizer.doubleBridgePerturbation (IlsOptimizer.applyBest2OptMove s).1).m_rng) ∧
    (∀ j : Nat,
      (∀ i, i < j → (IlsOptimizer.applyBest2OptMove (IlsOptimizer.run i s)).2 = false) →
      s.m_noImprove + (j : Int) < s.m_stagnationIters →
      (IlsOptimizer.run j s).m_noImprove = s.m_noImprove + (j : Int) ∧
      (IlsOptimizer.run j s).m_current = s.m_current) := by
  obtain ⟨e1, e2, e3, e4, e5⟩ := ils_counter_step s
  refine ⟨fun initial c st seed => ⟨rfl, rfl, fun k => ?_⟩, e1, e2 h0 h1, e3 hn, e4 hn,
    fun h hT => e5 hn h (by omega), fun j hidle hlt => ?_⟩
  · have h := ils_run_counter k (IlsOptimizer.create initial c st seed) (le_refl _)
      (show (0 : Int) < max 10 st from lt_of_lt_of_le (by decide) (le_max_left _ _))
    exact ⟨h.2.1, h.2.2⟩
  · have h := ils_idle_run s hn j hidle hlt
    exact ⟨h.1, h.2.1⟩

set_option maxRecDepth 100000 in
/-- C40 on the example state (eight nodes, no instance, so no step applies a move;
`T = 10`): nine steps raise the counter to 9 and leave the order alone, the tenth applies
the double bridge and leaves the counter at 0. -/
theorem C40_stagnation_counter_witness :
    (IlsOptimizer.run 9 ilsExample).m_noImprove = 9 ∧
    (IlsOptimizer.run 9 ilsExample).m_current = ilsExample.m_current ∧
    (IlsOptimizer.run 10 ilsExample).m_noImprove = 0 ∧
    (IlsOptimizer.run 10 ilsExample).m_current.m_order = [0, 2, 1, 3, 4, 5, 6, 7] := by
  have h := (C40_stagnation_counter ilsExample (by decide) (by decide) (by decide)).2.2.2.2.2.2 9
    (by decide!) (by decide)
  exact ⟨h.1.trans (by decide), h.2, by decide!, by decide!⟩

/-! ## Adaptive rank-based search: the selection step -/

theorem arq_select_total (s : ArqOptimizer) (trial : List Int) (F CR : ℚ) (inst : TspInstance)
    (fp : Int) (parent : List Int)
    (hinst : s.m_instance = some inst) (hlen : trial.length = inst.size)
    (hc : getE s.m_cost s.m_target = .ok fp) (hp : getE s.m_pop s.m_target = .ok parent) :
    ∃ s' b, ArqOptimizer.select s trial F CR = .ok (s', b) ∧
      (costOf s.m_instance trial < fp →
        s'.m_pop = s.m_pop.set s.m_target.toNat trial ∧
        s'.m_cost = s.m_cost.set s.m_target.toNat (costOf s.m_instance trial) ∧
        s'.m_archive = s.m_archive ++ [parent] ∧
        s'.m_SF = s.m_SF ++ [F] ∧ s'.m_SCR = s.m_SCR ++ [CR] ∧
        s'.m_SG = s.m_SG ++ [((fp - costOf s.m_instance trial : Int) : ℚ)] ∧
        (0 : ℚ) < ((fp - costOf s.m_instance trial : Int) : ℚ)) ∧
      (¬ costOf s.m_instance trial < fp → s' = s ∧ b = false) := by
  unfold ArqOptimizer.select
  rw [hc, hp]
  dsimp only
  by_cases hlt : costOf s.m_instance trial < fp
  · rw [if_pos hlt]
    have hmk : Tour.mkWithOrder s.m_instance trial =
        .ok (Tour.evaluate { m_instance := some inst, m_order := trial, m_cost := 0 }) := by
      rw [hinst]
      unfold Tour.mkWithOrder
      dsimp only
      rw [if_neg (by simp [hlen])]
    have hgain : (0 : ℚ) < ((fp - costOf s.m_instance trial : Int) : ℚ) := by
      have : 0 < fp - costOf s.m_instance trial := by omega
      exact_mod_cast this
    by_cases hb : costOf s.m_instance trial < s.m_lastBest
    · rw [if_pos hb, hmk]
      exact ⟨_, _, rfl, fun _ => ⟨rfl, rfl, rfl, rfl, rfl, rfl, hgain⟩, fun h => absurd hlt h⟩
    · rw [if_neg hb]
      exact ⟨_, _, rfl, fun _ => ⟨rfl, rfl, rfl, rfl, rfl, rfl, hgain⟩, fun h => absurd hlt h⟩
  · rw [if_neg hlt]
    exact ⟨_, _, rfl, fun h => absurd h hlt, fun _ => ⟨rfl, rfl⟩⟩

/-- C35: the selection of the adaptive rank-based search, at a target slot inside the
population and with a trial of the instance's size, returns, and: when the trial's cost is
strictly below the stored cost of the target slot, the trial and its cost are written to
that slot, the parent is appended to the archive and `F`, `CR` and the gain (parent cost
minus trial cost, strictly positive) are appended to the three success lists; otherwise the
whole state, so the population, the costs, the archive and the success lists, is
unchanged. -/
theorem C35_selection (s : ArqOptimizer) (trial : List Int) (F CR : ℚ) (inst : TspInstance)
    (fp : Int) (parent : List Int)
    (hinst : s.m_instance = some inst) (hlen : trial.length = inst.size)
    (hc : getE s.m_cost s.m_target = .ok fp) (hp : getE s.m_pop s.m_target = .ok parent) :
    ∃ s' b, ArqOptimizer.select s trial F CR = .ok (s', b) ∧
      (costOf s.m_instance trial < fp →
        s'.m_pop = s.m_pop.set s.m_target.toNat trial ∧
        s'.m_cost = s.m_cost.set s.m_target.toNat (costOf s.m_instance trial) ∧
        s'.m_archive = s.m_archive ++ [parent] ∧
        s'.m_SF = s.m_SF ++ [F] ∧ s'.m_SCR = s.m_SCR ++ [CR] ∧
        s'.m_SG = s.m_SG ++ [((fp - costOf s.m_instance trial : Int) : ℚ)] ∧
        (0 : ℚ) < ((fp - costOf s.m_instance trial : Int) : ℚ)) ∧
      (¬ costOf s.m_instance trial < fp →
        s' = s ∧ b = false ∧ s'.m_pop = s.m_pop ∧ s'.m_cost = s.m_cost ∧
        s'.m_archive = s.m_archive ∧ s'.m_SF = s.m_SF ∧ s'.m_SCR = s.m_SCR ∧
        s'.m_SG = s.m_SG) := by
  obtain ⟨s', b, h, h1, h2⟩ := arq_select_total s trial F CR inst fp parent hinst hlen hc hp
  refine ⟨s', b, h, h1, fun hn => ?_⟩
  obtain ⟨e1, e2⟩ := h2 hn
  subst e1
  exact ⟨rfl, e2, rfl, rfl, rfl, rfl, rfl, rfl⟩

set_option maxRecDepth 100000 in
/-- C35 on the example state (three points on a line, target slot 3 with cost 19): the
trial `[0, 2, 1]` costs 10, so it replaces the parent, which goes to the archive, and
the gain 9 is recorded. -/
theorem C35_selection_witness :
    ∃ s' b, ArqOptimizer.select arqStagnant [0, 2, 1] (1 / 2) (9 / 10) = .ok (s', b) ∧
      s'.m_pop = [[0, 1, 2], [0, 1, 2], [0, 1, 2], [0, 2, 1]] ∧
      s'.m_cost = [19, 19, 19, 10] ∧ s'.m_archive = [[0, 1, 2]] ∧
      s'.m_SF = [1 / 2] ∧ s'.m_SCR = [9 / 10] ∧ s'.m_SG = [9] := by
  obtain ⟨s', b, h, h1, -⟩ := C35_selection arqStagnant [0, 2, 1] (1 / 2) (9 / 10)
    lineInstance 19 [0, 1, 2] rfl (by decide) (by decide) (by decide)
  obtain ⟨e1, e2, e3, e4, e5, e6, -⟩ := h1 (by decide!)
  refine ⟨s', b, h, ?_, ?_, ?_, ?_, ?_, ?_⟩
  · rw [e1]; decide
  · rw [e2]; decide!
  · rw [e3]; decide
  · rw [e4]; decide!
  · rw [e5]; decide!
  · rw [e6]; decide!

/-! ## Adaptive rank-based search: what stays fixed, and the archive -/

theorem arq_params_refl (s : ArqOptimizer) : ArqOptimizer.Params s s :=
  ⟨rfl, rfl, rfl, rfl, rfl, rfl, rfl, rfl, rfl, rfl, rfl⟩

theorem arq_params_trans (s s1 s2 : ArqOptimizer) (h1 : ArqOptimizer.Params s s1)
    (h2 : ArqOptimizer.Params s1 s2) : ArqOptimizer.Params s s2 := by
  obtain ⟨a1, a2, a3, a4, a5, a6, a7, a8, a9, a10, a11⟩ := h1
  obtain ⟨b1, b2, b3, b4, b5, b6, b7, b8, b9, b10, b11⟩ := h2
  exact ⟨b1.trans a1, b2.trans a2, b3.trans a3, b4.trans a4, b5.trans a5, b6.trans a6,
    b7.trans a7, b8.trans a8, b9.trans a9, b10.trans a10, b11.trans a11⟩

theorem arq_archiveCap_params (s s' : ArqOptimizer) (h : ArqOptimizer.Params s s') :
    ArqOptimizer.archiveCap s' = ArqOptimizer.archiveCap s := by
  unfold ArqOptimizer.archiveCap
  rw [h.2.2.1, h.2.2.2.2.2.2.2.2.2.2]

theorem arq_beginGeneration_params (s : ArqOptimizer) :
    ArqOptimizer.Params s (ArqOptimizer.beginGeneration s) := arq_params_refl s

theorem arq_updateMeans_params (s : ArqOptimizer) :
    ArqOptimizer.Params s (ArqOptimizer.updateMeans s) := by
  unfold ArqOptimizer.updateMeans
  split
  · exact arq_params_refl s
  · exact arq_params_refl s

theorem arq_updateMeans_fields (s : ArqOptimizer) :
    (ArqOptimizer.updateMeans s).m_archive = s.m_archive ∧
    (ArqOptimizer.updateMeans s).m_target = s.m_target ∧
    (ArqOptimizer.updateMeans s).m_pop = s.m_pop ∧
    (ArqOptimizer.updateMeans s).m_cost = s.m_cost ∧
    (ArqOptimizer.updateMeans s).m_rank = s.m_rank ∧
    (ArqOptimizer.updateMeans s).m_rng = s.m_rng ∧
    (ArqOptimizer.updateMeans s).m_noImproveGen = s.m_noImproveGen ∧
    (ArqOptimizer.updateMeans s).m_bestPrev = s.m_bestPrev ∧
    (ArqOptimizer.updateMeans s).m_lastBest = s.m_lastBest ∧
    (ArqOptimizer.updateMeans s).m_best = s.m_best := by
  unfold ArqOptimizer.updateMeans
  split <;> exact ⟨rfl, rfl, rfl, rfl, rfl, rfl, rfl, rfl, rfl, rfl⟩

theorem arq_archiveTrim_params (s : ArqOptimizer) :
    ArqOptimizer.Params s (ArqOptimizer.archiveTrim s) := by
  unfold ArqOptimizer.archiveTrim
  dsimp only
  split
  · exact arq_params_refl s
  · exact arq_params_refl s

theorem arq_archiveTrim_fields (s : ArqOptimizer) :
    (ArqOptimizer.archiveTrim s).m_target = s.m_target ∧
    (ArqOptimizer.archiveTrim s).m_pop = s.m_pop ∧
    (ArqOptimizer.archiveTrim s).m_cost = s.m_cost ∧
    (ArqOptimizer.archiveTrim s).m_rank = s.m_rank ∧
    (ArqOptimizer.archiveTrim s).m_rng = s.m_rng ∧
    (ArqOptimizer.archiveTrim s).m_noImproveGen = s.m_noImproveGen ∧
    (ArqOptimizer.archiveTrim s).m_bestPrev = s.m_bestPrev ∧
    (ArqOptimizer.archiveTrim s).m_muF = s.m_muF ∧
    (ArqOptimizer.archiveTrim s).m_muCR = s.m_muCR ∧
    (ArqOptimizer.archiveTrim s).m_lastBest = s.m_lastBest ∧
    (ArqOptimizer.archiveTrim s).m_best = s.m_best := by
  unfold ArqOptimizer.archiveTrim
  dsimp only
  split <;> exact ⟨rfl, rfl, rfl, rfl, rfl, rfl, rfl, rfl, rfl, rfl, rfl⟩

theorem arq_archiveTrim_archive (s : ArqOptimizer) :
    (ArqOptimizer.archiveTrim s).m_archive =
      s.m_archive.drop (s.m_archive.length -
        min s.m_archive.length (ArqOptimizer.archiveCap s).toNat) ∧
    (ArqOptimizer.archiveTrim s).m_archive.length =
      min s.m_archive.length (ArqOptimizer.archiveCap s).toNat ∧
    ((ArqOptimizer.archiveTrim s).m_archive.length : Int) ≤ ArqOptimizer.archiveCap s := by
  have hcap : 1 ≤ ArqOptimizer.archiveCap s := le_max_left _ _
  unfold ArqOptimizer.archiveTrim
  dsimp only
  rw [show max 1 (roundQ (s.m_archiveRate * (s.m_popSize : ℚ))) = ArqOptimizer.archiveCap s
    from rfl]
  by_cases h : (s.m_archive.length : Int) ≤ ArqOptimizer.archiveCap s
  · rw [if_pos h]
    have h1 : s.m_archive.length ≤ (ArqOptimizer.archiveCap s).toNat := by omega
    rw [Nat.min_eq_left h1]
    refine ⟨by simp, rfl, h⟩
  · rw [if_neg h]
    dsimp only
    have h1 : (ArqOptimizer.archiveCap s).toNat ≤ s.m_archive.length := by omega
    rw [Nat.min_eq_right h1]
    refine ⟨rfl, ?_, ?_⟩
    · rw [List.length_drop]; omega
    · rw [List.length_drop]; omega

theorem arq_restartLoop_fields (bestOrd : List Int) (w : Nat) (k : Int) (s s' : ArqOptimizer)
    (h : ArqOptimizer.restartLoop bestOrd w k s = .ok s') :
    ArqOptimizer.Params s s' ∧ s'.m_archive = s.m_archive ∧ s'.m_target = s.m_target ∧
    s'.m_rank = s.m_rank ∧ s'.m_noImproveGen = s.m_noImproveGen ∧
    s'.m_bestPrev = s.m_bestPrev ∧ s'.m_muF = s.m_muF ∧ s'.m_muCR = s.m_muCR ∧
    s'.m_pop.length = s.m_pop.length ∧ s'.m_cost.length = s.m_cost.length := by
  induction w generalizing k s with
  | zero =>
    unfold ArqOptimizer.restartLoop at h
    cases h
    exact ⟨arq_params_refl _, rfl, rfl, rfl, rfl, rfl, rfl, rfl, rfl, rfl⟩
  | succ w ih =>
    unfold ArqOptimizer.restartLoop at h
    split at h
    · cases h
    · next idx hidx =>
      dsimp only at h
      split at h
      · next pop1 cost1 hp hc =>
        have hpl : pop1.length = s.m_pop.length := by
          unfold setE at hp
          split at hp
          · cases hp; simp
          · cases hp
        have hcl : cost1.length = s.m_cost.length := by
          unfold setE at hc
          split at hc
          · cases hc; simp
          · cases hc
        split at h
        · split at h
          · cases h
          · obtain ⟨a, b1, b2, b3, b4, b5, b6, b7, b8, b9⟩ := ih _ _ h
            exact ⟨a, b1, b2, b3, b4, b5, b6, b7, b8.trans hpl, b9.trans hcl⟩
        · obtain ⟨a, b1, b2, b3, b4, b5, b6, b7, b8, b9⟩ := ih _ _ h
          exact ⟨a, b1, b2, b3, b4, b5, b6, b7, b8.trans hpl, b9.trans hcl⟩
      · cases h

theorem arq_restartWorst_fields (s s' : ArqOptimizer)
    (h : ArqOptimizer.restartWorst s = .ok s') :
    ArqOptimizer.Params s s' ∧ s'.m_archive = s.m_archive ∧ s'.m_target = s.m_target ∧
    s'.m_noImproveGen = s.m_noImproveGen ∧
    s'.m_bestPrev = s.m_bestPrev ∧ s'.m_muF = s.m_muF ∧ s'.m_muCR = s.m_muCR ∧
    s'.m_pop.length = s.m_pop.length ∧ s'.m_cost.length = s.m_cost.length := by
  unfold ArqOptimizer.restartWorst at h
  dsimp only at h
  split at h
  · cases h
  · split at h
    · cases h
    · obtain ⟨a, b1, b2, b3, b4, b5, b6, b7, b8, b9⟩ := arq_restartLoop_fields _ _ _ _ _ h
      by_cases he : s.m_rank.isEmpty = true
      · rw [if_pos he] at a b1 b2 b4 b5 b6 b7 b8 b9
        exact ⟨a, b1, b2, b4, b5, b6, b7, b8, b9⟩
      · rw [if_neg he] at a b1 b2 b4 b5 b6 b7 b8 b9
        exact ⟨a, b1, b2, b4, b5, b6, b7, b8, b9⟩

theorem arq_endGeneration_archive (s s' : ArqOptimizer)
    (h : ArqOptimizer.endGeneration s = .ok s') :
    ArqOptimizer.Params s s' ∧ s'.m_target = s.m_target ∧
    s'.m_archive = s.m_archive.drop (s.m_archive.length -
        min s.m_archive.length (ArqOptimizer.archiveCap s).toNat) ∧
    s'.m_archive.length = min s.m_archive.length (ArqOptimizer.archiveCap s).toNat ∧
    (s'.m_archive.length : Int) ≤ ArqOptimizer.archiveCap s := by
  have key : ∀ t : ArqOptimizer, ArqOptimizer.Params s t → t.m_target = s.m_target →
      t.m_archive = s.m_archive → s' = ArqOptimizer.archiveTrim t →
      ArqOptimizer.Params s s' ∧ s'.m_target = s.m_target ∧
      s'.m_archive = s.m_archive.drop (s.m_archive.length -
          min s.m_archive.length (ArqOptimizer.archiveCap s).toNat) ∧
      s'.m_archive.length = min s.m_archive.length (ArqOptimizer.archiveCap s).toNat ∧
      (s'.m_archive.length : Int) ≤ ArqOptimizer.archiveCap s := by
    intro t hp ht ha hs
    subst hs
    obtain ⟨e1, e2, e3⟩ := arq_archiveTrim_archive t
    rw [arq_archiveCap_params s t hp] at e1 e2 e3
    rw [ha] at e1 e2
    exact ⟨arq_params_trans _ _ _ hp (arq_archiveTrim_params t),
      (arq_archiveTrim_fields t).1.trans ht, e1, e2, e3⟩
  have hu := arq_updateMeans_params s
  obtain ⟨u1, u2, -⟩ := arq_updateMeans_fields s
  unfold ArqOptimizer.endGeneration at h
  dsimp only at h
  split at h
  · injection h with h
    refine key _ ?_ ?_ ?_ h.symm
    · exact hu
    · exact u2
    · exact u1
  · split at h
    · split at h
      · cases h
      · next s3 h3 =>
        injection h with h
        obtain ⟨a, b1, b2, -⟩ := arq_restartWorst_fields _ _ h3
        refine key _ ?_ ?_ ?_ h.symm
        · exact arq_params_trans _ _ _ hu a
        · exact b2.trans u2
        · exact b1.trans u1
    · injection h with h
      refine key _ ?_ ?_ ?_ h.symm
      · exact hu
      · exact u2
      · exact u1

theorem arq_select_fields (s s' : ArqOptimizer) (trial : List Int) (F CR : ℚ) (b : Bool)
    (h : ArqOptimizer.select s trial F CR = .ok (s', b)) :
    ArqOptimizer.Params s s' ∧ s'.m_target = s.m_target ∧ s'.m_rank = s.m_rank ∧
    s'.m_rng = s.m_rng ∧ s'.m_noImproveGen = s.m_noImproveGen ∧
    s'.m_bestPrev = s.m_bestPrev ∧ s'.m_muF = s.m_muF ∧ s'.m_muCR = s.m_muCR ∧
    s'.m_pop.length = s.m_pop.length ∧ s'.m_cost.length = s.m_cost.length ∧
    (s'.m_archive = s.m_archive ∨
      ∃ parent, getE s.m_pop s.m_target = .ok parent ∧ s'.m_archive = s.m_archive ++ [parent]) := by
  unfold ArqOptimizer.select at h
  split at h
  · next fp parent hc hp =>
    dsimp only at h
    split at h
    · split at h
      · split at h
        · cases h
        · injection h with h
          injection h with h1 h2
          subst h1
          exact ⟨arq_params_refl _, rfl, rfl, rfl, rfl, rfl, rfl, rfl, by simp, by simp,
            Or.inr ⟨parent, hp, rfl⟩⟩
      · injection h with h
        injection h with h1 h2
        subst h1
        exact ⟨arq_params_refl _, rfl, rfl, rfl, rfl, rfl, rfl, rfl, by simp, by simp,
          Or.inr ⟨parent, hp, rfl⟩⟩
    · injection h with h
      injection h with h1 h2
      subst h1
      exact ⟨arq_params_refl _, rfl, rfl, rfl, rfl, rfl, rfl, rfl, rfl, rfl, Or.inl rfl⟩
  · cases h

theorem arq_create_fields (initial : Tour) (populationSize : Int) (seed : Rng)
    (s : ArqOptimizer) (h : ArqOptimizer.create initial populationSize seed = .ok s) :
    s.m_target = 0 ∧ s.m_archive = [] ∧ s.m_popSize = max 4 populationSize ∧
    s.m_instance = initial.m_instance ∧ s.m_n = initial.size ∧
    s.m_archiveRate = 15 / 10 ∧ s.m_Flo = 5 / 100 ∧ s.m_Fhi = 140 / 100 ∧
    s.m_shc = 10 / 100 ∧ s.m_muF = 60 / 100 ∧ s.m_muCR = 85 / 100 ∧
    s.m_worstFrac = 8 / 100 ∧ s.m_rsigma = 18 / 100 ∧ s.m_stagTrigger = 24 ∧
    s.m_pbest = 12 / 100 ∧ s.m_noImproveGen = 0 := by
  have hseed : ∀ (base : List Int) (k : Nat) (i : Int) (t t' : ArqOptimizer),
      ArqOptimizer.seedLoop base k i t = .ok t' →
      ArqOptimizer.Params t t' ∧ t'.m_target = t.m_target ∧ t'.m_archive = t.m_archive ∧
      t'.m_muF = t.m_muF ∧ t'.m_muCR = t.m_muCR ∧ t'.m_noImproveGen = t.m_noImproveGen := by
    intro base k
    induction k with
    | zero =>
      intro i t t' ht
      unfold ArqOptimizer.seedLoop at ht
      cases ht
      exact ⟨arq_params_refl _, rfl, rfl, rfl, rfl, rfl⟩
    | succ k ih =>
      intro i t t' ht
      unfold ArqOptimizer.seedLoop at ht
      dsimp only at ht
      split at ht
      · split at ht
        · cases ht
        · obtain ⟨a, b⟩ := ih _ _ _ ht
          exact ⟨a, b⟩
      · obtain ⟨a, b⟩ := ih _ _ _ ht
        exact ⟨a, b⟩
  unfold ArqOptimizer.create at h
  dsimp only at h
  split at h
  · cases h
    exact ⟨rfl, rfl, rfl, rfl, rfl, rfl, rfl, rfl, rfl, rfl, rfl, rfl, rfl, rfl, rfl, rfl⟩
  · split at h
    · cases h
    · next s1 hs1 =>
      cases h
      obtain ⟨⟨a1, a2, a3, a4, a5, a6, a7, a8, a9, a10, a11⟩, b1, b2, b3, b4, b5⟩ :=
        hseed _ _ _ _ _ hs1
      exact ⟨b1, b2, a3, a1, a2, a11, a5, a6, a10, b3, b4, a7, a8, a9, a4, b5⟩

theorem arq_iterate_archiveBounded (cauchy normal : ℚ → Nat → Option ℚ) (fuel : Nat)
    (s s' : ArqOptimizer) (b : Bool) (hinv : ArqOptimizer.ArchiveBounded s)
    (h : ArqOptimizer.iterate cauchy normal fuel s = .ok (s', b)) :
    ArqOptimizer.ArchiveBounded s' ∧ ArqOptimizer.Params s s' := by
  obtain ⟨i1, i2, i3⟩ := hinv
  unfold ArqOptimizer.iterate at h
  split at h
  · cases h
    exact ⟨⟨i1, i2, i3⟩, arq_params_refl _⟩
  · split at h
    · cases h
    · next trial F CR g hmk =>
      split at h
      · cases h
      · next s1 improved hsel =>
        split at h
        · cases h
        · next s3 hadv =>
          cases h
          obtain ⟨p1, t1, -, -, -, -, -, -, -, -, ar1⟩ := arq_select_fields _ _ _ _ _ _ hsel
          have hp0 : ArqOptimizer.Params s s1 := by
            by_cases h0 : s.m_target = 0
            · rw [if_pos h0] at p1
              exact p1
            · rw [if_neg h0] at p1
              exact p1
          have ht0 : s1.m_target = s.m_target := by
            by_cases h0 : s.m_target = 0
            · rw [if_pos h0] at t1
              exact t1
            · rw [if_neg h0] at t1
              exact t1
          have ha0 : (s1.m_archive.length : Int) ≤ s.m_archive.length + 1 := by
            by_cases h0 : s.m_target = 0
            · rw [if_pos h0] at ar1
              rcases ar1 with e | ⟨_, -, e⟩
              · rw [e]; exact (by simp [ArqOptimizer.beginGeneration])
              · rw [e]; simp [ArqOptimizer.beginGeneration]
            · rw [if_neg h0] at ar1
              rcases ar1 with e | ⟨_, -, e⟩
              · rw [e]; simp
              · rw [e]; simp
          have hcap := arq_archiveCap_params s s1 hp0
          unfold ArqOptimizer.advanceTarget at hadv
          split at hadv
          · obtain ⟨q1, q2, -, -, q5⟩ := arq_endGeneration_archive _ _ hadv
            have hq : ArqOptimizer.Params s1 s' := q1
            have hps := arq_params_trans _ _ _ hp0 hq
            have hc3 := arq_archiveCap_params s s' hps
            have hcq : ArqOptimizer.archiveCap
                { s1 with m_target := 0 } = ArqOptimizer.archiveCap s1 := rfl
            rw [hcq, hcap] at q5
            have ht3 : s'.m_target = 0 := q2
            refine ⟨⟨by omega, ?_, ?_⟩, hps⟩
            · rw [ht3, hps.2.2.1]; omega
            · rw [hc3, ht3]; omega
          · next hlt =>
            cases hadv
            refine ⟨⟨?_, ?_, ?_⟩, hp0⟩
            · show 0 ≤ s1.m_target + 1
              omega
            · show s1.m_target + 1 < s1.m_popSize
              omega
            · show (s1.m_archive.length : Int) ≤ ArqOptimizer.archiveCap s1 + (s1.m_target + 1)
              rw [hcap, ht0]
              omega

theorem arq_updateMeans_success (s : ArqOptimizer) :
    (ArqOptimizer.updateMeans s).m_SF = s.m_SF ∧ (ArqOptimizer.updateMeans s).m_SCR = s.m_SCR ∧
    (ArqOptimizer.updateMeans s).m_SG = s.m_SG := by
  unfold ArqOptimizer.updateMeans
  split <;> exact ⟨rfl, rfl, rfl⟩

theorem arq_archiveTrim_success (s : ArqOptimizer) :
    (ArqOptimizer.archiveTrim s).m_SF = s.m_SF ∧ (ArqOptimizer.archiveTrim s).m_SCR = s.m_SCR ∧
    (ArqOptimizer.archiveTrim s).m_SG = s.m_SG := by
  unfold ArqOptimizer.archiveTrim
  dsimp only
  split <;> exact ⟨rfl, rfl, rfl⟩

theorem arq_restartLoop_success (bestOrd : List Int) (w : Nat) (k : Int) (s s' : ArqOptimizer)
    (h : ArqOptimizer.restartLoop bestOrd w k s = .ok s') :
    s'.m_SF = s.m_SF ∧ s'.m_SCR = s.m_SCR ∧ s'.m_SG = s.m_SG := by
  induction w generalizing k s with
  | zero =>
    unfold ArqOptimizer.restartLoop at h
    cases h
    exact ⟨rfl, rfl, rfl⟩
  | succ w ih =>
    unfold ArqOptimizer.restartLoop at h
    split at h
    · cases h
    · dsimp only at h
      split at h
      · split at h
        · split at h
          · cases h
          · obtain ⟨a, b, c⟩ := ih _ _ h
            exact ⟨a, b, c⟩
        · obtain ⟨a, b, c⟩ := ih _ _ h
          exact ⟨a, b, c⟩
      · cases h

theorem arq_restartWorst_success (s s' : ArqOptimizer)
    (h : ArqOptimizer.restartWorst s = .ok s') :
    (s'.m_SF = s.m_SF ∧ s'.m_SCR = s.m_SCR ∧ s'.m_SG = s.m_SG) ∨
    (s'.m_SF = [] ∧ s'.m_SCR = [] ∧ s'.m_SG = []) := by
  unfold ArqOptimizer.restartWorst at h
  dsimp only at h
  split at h
  · cases h
  · split at h
    · cases h
    · have h1 := arq_restartLoop_success _ _ _ _ _ h
      by_cases he : s.m_rank.isEmpty = true
      · rw [if_pos he] at h1
        exact Or.inr h1
      · rw [if_neg he] at h1
        exact Or.inl h1

/-- C37: `archiveTrim`, and with it every generation end that returns, leaves the last
`min(len, cap)` entries of the archive as it stood before the trim, in their order, so at
most `cap = max(1, round(archiveRate * popSize))` entries; `archiveRate` is 1.5 from the
constructor on. The bound "at most `cap` plus the number of slots visited in the running
generation" holds after construction and is kept by every step that returns, and it gives
at most `cap + popSize` entries between steps. -/
theorem C37_archive_bound :
    (∀ s : ArqOptimizer,
      (ArqOptimizer.archiveTrim s).m_archive =
        s.m_archive.drop (s.m_archive.length -
          min s.m_archive.length (ArqOptimizer.archiveCap s).toNat) ∧
      (ArqOptimizer.archiveTrim s).m_archive.length =
        min s.m_archive.length (ArqOptimizer.archiveCap s).toNat ∧
      ((ArqOptimizer.archiveTrim s).m_archive.length : Int) ≤ ArqOptimizer.archiveCap s) ∧
    (∀ s s' : ArqOptimizer, ArqOptimizer.endGeneration s = .ok s' →
      s'.m_archive = s.m_archive.drop (s.m_archive.length -
          min s.m_archive.length (ArqOptimizer.archiveCap s).toNat) ∧
      s'.m_archive.length = min s.m_archive.length (ArqOptimizer.archiveCap s).toNat ∧
      (s'.m_archive.length : Int) ≤ ArqOptimizer.archiveCap s ∧
      ArqOptimizer.archiveCap s' = ArqOptimizer.archiveCap s) ∧
    (∀ (initial : Tour) (populationSize : Int) (seed : Rng) (s : ArqOptimizer),
      ArqOptimizer.create initial populationSize seed = .ok s →
      ArqOptimizer.ArchiveBounded s ∧ s.m_popSize = max 4 populationSize ∧
      ArqOptimizer.archiveCap s = max 1 (roundQ (15 / 10 * ((max 4 populationSize : Int) : ℚ)))) ∧
    (∀ (cauchy normal : ℚ → Nat → Option ℚ) (fuel : Nat) (s s' : ArqOptimizer) (b : Bool),
      ArqOptimizer.ArchiveBounded s →
      ArqOptimizer.iterate cauchy normal fuel s = .ok (s', b) →
      ArqOptimizer.ArchiveBounded s' ∧ s'.m_popSize = s.m_popSize ∧
      ArqOptimizer.archiveCap s' = ArqOptimizer.archiveCap s) ∧
    (∀ s : ArqOptimizer, ArqOptimizer.ArchiveBounded s →
      (s.m_archive.length : Int) ≤ ArqOptimizer.archiveCap s + s.m_popSize) := by
  refine ⟨arq_archiveTrim_archive, fun s s' h => ?_, fun initial p seed s h => ?_,
    fun cauchy normal fuel s s' b hinv h => ?_, fun s h => ?_⟩
  · obtain ⟨q1, -, q3, q4, q5⟩ := arq_endGeneration_archive s s' h
    exact ⟨q3, q4, q5, arq_archiveCap_params s s' q1⟩
  · obtain ⟨c1, c2, c3, -, -, c6, -⟩ := arq_create_fields initial p seed s h
    have h4 : (4 : Int) ≤ max 4 p := le_max_left _ _
    have hcap : (1 : Int) ≤ ArqOptimizer.archiveCap s := le_max_left _ _
    refine ⟨⟨by omega, by omega, ?_⟩, c3, ?_⟩
    · rw [c2, c1]
      simp only [List.length_nil, Nat.cast_zero]
      omega
    · unfold ArqOptimizer.archiveCap
      rw [c6, c3]
  · obtain ⟨a, p⟩ := arq_iterate_archiveBounded cauchy normal fuel s s' b hinv h
    exact ⟨a, p.2.2.1, arq_archiveCap_params s s' p⟩
  · obtain ⟨h1, h2, h3⟩ := h
    omega

/-! ## Adaptive rank-based search: the pieces of a trial -/

theorem getE_mem {α : Type} (v : List α) (i : Int) (x : α) (h : getE v i = .ok x) : x ∈ v := by
  unfold getE at h
  split at h
  · split at h
    · next hx =>
      cases h
      exact List.get?_mem hx
    · cases h
  · cases h

theorem getE_inv {α : Type} (v : List α) (i : Int) (x : α) (h : getE v i = .ok x) :
    0 ≤ i ∧ i.toNat < v.length ∧ v[i.toNat]? = some x := by
  unfold getE at h
  split at h
  · next h0 =>
    split at h
    · next hx =>
      cases h
      rw [List.get?_eq_getElem?] at hx
      refine ⟨h0, ?_, hx⟩
      by_contra hc
      rw [List.getElem?_eq_none (by omega)] at hx
      cases hx
    · cases h
  · cases h

theorem arq_makeTrial_inv (cauchy normal : ℚ → Nat → Option ℚ) (fuel : Nat) (s : ArqOptimizer)
    (trial : List Int) (F CR : ℚ) (g : Rng)
    (h : ArqOptimizer.makeTrial cauchy normal fuel s = .ok (trial, F, CR, g)) :
    ∃ (pbestIdx : Int) (parent pbest donor2 trial0 trial1 : List Int) (g5 g6 g7 : Rng),
      getE s.m_pop s.m_target = .ok parent ∧ getE s.m_pop pbestIdx = .ok pbest ∧
      (donor2 ∈ s.m_pop ∨ donor2 ∈ s.m_archive) ∧
      F = (ArqOptimizer.sampleF cauchy s g5).1 ∧
      CR = (ArqOptimizer.sampleCR normal s (ArqOptimizer.sampleF cauchy s g5).2).1 ∧
      ArqOptimizer.orderCrossover s.m_n parent pbest CR
        (ArqOptimizer.sampleCR normal s (ArqOptimizer.sampleF cauchy s g5).2).2 =
          .ok (trial0, g6) ∧
      ArqOptimizer.applyDifferenceToward s trial0 donor2 F g6 = .ok (trial1, g7) ∧
      (trial = trial1 ∨
        trial = (ArqOptimizer.smallPerturbation s.m_n trial1 (Rng.next g7).2).1) := by
  unfold ArqOptimizer.makeTrial at h
  split at h
  · cases h
  · next pbestIdx g1 hpb =>
    split at h
    · cases h
    · next r1 g2 hr1 =>
      dsimp only at h
      split at h
      · next parent pbest d1 hparent hpbest hd1 =>
        split at h
        · cases h
        · next donor2 g5 hdon =>
          have hmem : donor2 ∈ s.m_pop ∨ donor2 ∈ s.m_archive := by
            split at hdon
            · split at hdon
              · cases hdon
              · next x hx =>
                cases hdon
                exact Or.inr (getE_mem _ _ _ hx)
            · split at hdon
              · cases hdon
              · next r2 g4 hr2 =>
                split at hdon
                · cases hdon
                · next x hx =>
                  cases hdon
                  exact Or.inl (getE_mem _ _ _ hx)
          split at h
          · cases h
          · next trial0 g6 hox =>
            split at h
            · cases h
            · next trial1 g7 hap =>
              split at h
              · cases h
                exact ⟨pbestIdx, parent, pbest, donor2, trial0, trial1, g5, g6, g7, hparent,
                  hpbest, hmem, rfl, rfl, hox, hap, Or.inr rfl⟩
              · cases h
                exact ⟨pbestIdx, parent, pbest, donor2, trial0, _, g5, g6, _, hparent,
                  hpbest, hmem, rfl, rfl, hox, hap, Or.inl rfl⟩
      · cases h

theorem clamp01_range (x : ℚ) : 0 ≤ clamp01 x ∧ clamp01 x ≤ 1 := by
  unfold clamp01
  split
  · exact ⟨le_refl _, by norm_num⟩
  · split
    · exact ⟨by norm_num, le_refl _⟩
    · constructor <;> linarith

theorem arq_sampleF_range (cauchy : ℚ → Nat → Option ℚ) (s : ArqOptimizer) (g : Rng)
    (h : s.m_Flo ≤ s.m_Fhi) :
    s.m_Flo ≤ (ArqOptimizer.sampleF cauchy s g).1 ∧
    (ArqOptimizer.sampleF cauchy s g).1 ≤ s.m_Fhi := by
  unfold ArqOptimizer.sampleF
  dsimp only
  split_ifs <;> constructor <;> linarith

theorem arq_sampleCR_range (normal : ℚ → Nat → Option ℚ) (s : ArqOptimizer) (g : Rng) :
    0 ≤ (ArqOptimizer.sampleCR normal s g).1 ∧ (ArqOptimizer.sampleCR normal s g).1 ≤ 1 := by
  unfold ArqOptimizer.sampleCR
  split <;> exact clamp01_range _

/-! ## Adaptive rank-based search: the update of the means -/

theorem range_map_getD_zipWith (A X : List ℚ) (a x : ℚ → ℚ) (h : X.length = A.length) :
    (List.range A.length).map (fun i => a (A.getD i 0) * x (X.getD i 0)) =
      List.zipWith (fun p q => p * q) (A.map a) (X.map x) := by
  apply List.ext_getElem
  · simp [h]
  · intro i h1 h2
    simp only [List.length_map, List.length_range] at h1
    have h3 : i < X.length := by omega
    simp [List.getD_eq_getElem?_getD, List.getElem?_eq_getElem h1, List.getElem?_eq_getElem h3]

theorem arq_weights_eq (SG : List ℚ) (len : ℚ) (hg : ∀ g ∈ SG, 0 < g) (hne : SG ≠ []) :
    SG.map (fun g => if g > 0 then g / (if SG.sum ≤ 0 then len else SG.sum) else 1 / len) =
      specWeights SG := by
  have hsum : 0 < SG.sum := by
    cases SG with
    | nil => exact absurd rfl hne
    | cons a rest =>
      exact sum_pos_of_mem_pos _ (fun x hx => le_of_lt (hg x hx)) a (List.mem_cons_self _ _)
        (hg a (List.mem_cons_self _ _))
  unfold specWeights
  apply List.map_congr_left
  intro g hgm
  rw [if_pos (hg g hgm), if_neg (not_le.mpr hsum)]

theorem weightedSum_pos (w xs : List ℚ) (hl : xs.length = w.length) (hne : w ≠ [])
    (hw : ∀ a ∈ w, 0 < a) (hx : ∀ b ∈ xs, 0 < b) : 0 < weightedSum w xs := by
  unfold weightedSum
  cases w with
  | nil => exact absurd rfl hne
  | cons a w1 =>
    cases xs with
    | nil => simp at hl
    | cons b x1 =>
      rw [List.zipWith_cons_cons]
      have hpos : ∀ y ∈ List.zipWith (fun a b => a * b) w1 x1, 0 ≤ y := by
        intro y hy
        rw [List.mem_iff_getElem] at hy
        obtain ⟨i, hi, rfl⟩ := hy
        rw [List.getElem_zipWith]
        simp only [List.length_zipWith] at hi
        exact le_of_lt (mul_pos
          (hw _ (List.mem_cons_of_mem _ (List.getElem_mem _)))
          (hx _ (List.mem_cons_of_mem _ (List.getElem_mem _))))
      rw [List.sum_cons]
      have h1 : 0 < a * b := mul_pos (hw a (List.mem_cons_self _ _)) (hx b (List.mem_cons_self _ _))
      have h2 := List.sum_nonneg hpos
      linarith

theorem specWeights_pos (SG : List ℚ) (hg : ∀ g ∈ SG, 0 < g) : ∀ a ∈ specWeights SG, 0 < a := by
  intro a ha
  unfold specWeights at ha
  rw [List.mem_map] at ha
  obtain ⟨g, hgm, rfl⟩ := ha
  have hsum : 0 < SG.sum :=
    sum_pos_of_mem_pos _ (fun x hx => le_of_lt (hg x hx)) g hgm (hg g hgm)
  exact div_pos (hg g hgm) hsum

theorem arq_updateMeans_spec (s : ArqOptimizer) (hne : s.m_SF ≠ [])
    (hl1 : s.m_SCR.length = s.m_SF.length) (hl2 : s.m_SG.length = s.m_SF.length)
    (hg : ∀ g ∈ s.m_SG, 0 < g) (hF : ∀ f ∈ s.m_SF, 0 < f) (hlo : s.m_Flo ≤ s.m_Fhi) :
    (ArqOptimizer.updateMeans s).m_muCR =
      (1 - s.m_shc) * s.m_muCR +
        s.m_shc * clamp01 (weightedSum (specWeights s.m_SG) s.m_SCR) ∧
    (ArqOptimizer.updateMeans s).m_muF =
      max s.m_Flo (min s.m_Fhi ((1 - s.m_shc) * s.m_muF + s.m_shc *
        (weightedSum (specWeights s.m_SG) (s.m_SF.map fun f => f * f) /
          weightedSum (specWeights s.m_SG) s.m_SF))) := by
  have hgne : s.m_SG ≠ [] := by
    intro h
    rw [h] at hl2
    exact hne (List.length_eq_zero.mp hl2.symm)
  have key : ∀ (X : List ℚ) (x : ℚ → ℚ), X.length = s.m_SG.length →
      ((List.range s.m_SF.length).map (fun i =>
        (if s.m_SG.getD i 0 > 0 then
          s.m_SG.getD i 0 / (if s.m_SG.sum ≤ 0 then (s.m_SG.length : ℚ) else s.m_SG.sum)
          else 1 / (s.m_SF.length : ℚ)) * x (X.getD i 0))).sum =
        weightedSum (specWeights s.m_SG) (X.map x) := by
    intro X x hX
    rw [← hl2]
    have := range_map_getD_zipWith s.m_SG X (fun g => if g > 0 then
      g / (if s.m_SG.sum ≤ 0 then (s.m_SG.length : ℚ) else s.m_SG.sum)
      else 1 / (s.m_SG.length : ℚ)) x hX
    dsimp only at this
    rw [this, arq_weights_eq s.m_SG (s.m_SG.length : ℚ) hg hgne]
    rfl
  have kCR := key s.m_SCR (fun c => c) (hl1.trans hl2.symm)
  have kN := key s.m_SF (fun f => f * f) hl2.symm
  have kD := key s.m_SF (fun f => f) hl2.symm
  rw [List.map_id'] at kCR kD
  dsimp only at kCR kN kD
  have hden : 0 < weightedSum (specWeights s.m_SG) s.m_SF :=
    weightedSum_pos _ _ (by unfold specWeights; rw [List.length_map]; exact hl2.symm)
      (by unfold specWeights; simpa using hgne) (specWeights_pos _ hg) hF
  have hemp : ¬ s.m_SF.isEmpty = true := by
    cases hs : s.m_SF with
    | nil => exact absurd hs hne
    | cons a l => simp
  unfold ArqOptimizer.updateMeans
  rw [if_neg hemp]
  dsimp only
  rw [kCR, kN, kD, if_pos hden]
  refine ⟨rfl, ?_⟩
  generalize (1 - s.m_shc) * s.m_muF + s.m_shc *
    (weightedSum (specWeights s.m_SG) (s.m_SF.map fun f => f * f) /
      weightedSum (specWeights s.m_SG) s.m_SF) = x
  by_cases h1 : x < s.m_Flo
  · rw [if_pos h1, if_neg (not_lt.mpr hlo)]
    rw [min_eq_right (by linarith), max_eq_left (le_of_lt h1)]
  · rw [if_neg h1]
    by_cases h2 : x > s.m_Fhi
    · rw [if_pos h2, min_eq_left (le_of_lt h2), max_eq_right hlo]
    · rw [if_neg h2, min_eq_right (not_lt.mp h2), max_eq_right (not_lt.mp h1)]

theorem arq_updateMeans_means (s : ArqOptimizer) (h : ArqOptimizer.Means s) :
    ArqOptimizer.Means (ArqOptimizer.updateMeans s) := by
  obtain ⟨c1, c2, c3, m1, m2, m3, m4, l1, l2, hg, hf⟩ := h
  unfold ArqOptimizer.updateMeans
  split
  · exact ⟨c1, c2, c3, m1, m2, m3, m4, l1, l2, hg, hf⟩
  · refine ⟨c1, c2, c3, ?_, ?_, ?_, ?_, l1, l2, hg, hf⟩
    · dsimp only
      rw [c1, c2]
      split_ifs <;> linarith
    · dsimp only
      rw [c1, c2]
      split_ifs <;> linarith
    · dsimp only
      rw [c3]
      have := (clamp01_range
        ((List.range s.m_SF.length).map fun i =>
          (if s.m_SG.getD i 0 > 0 then
            s.m_SG.getD i 0 / (if s.m_SG.sum ≤ 0 then (s.m_SG.length : ℚ) else s.m_SG.sum)
            else 1 / (s.m_SF.length : ℚ)) * s.m_SCR.getD i 0).sum).1
      linarith
    · dsimp only
      rw [c3]
      have := (clamp01_range
        ((List.range s.m_SF.length).map fun i =>
          (if s.m_SG.getD i 0 > 0 then
            s.m_SG.getD i 0 / (if s.m_SG.sum ≤ 0 then (s.m_SG.length : ℚ) else s.m_SG.sum)
            else 1 / (s.m_SF.length : ℚ)) * s.m_SCR.getD i 0).sum).2
      linarith

theorem arq_means_transfer (s t : ArqOptimizer) (hp : ArqOptimizer.Params s t)
    (hF : t.m_muF = s.m_muF) (hCR : t.m_muCR = s.m_muCR)
    (hl : (t.m_SF = s.m_SF ∧ t.m_SCR = s.m_SCR ∧ t.m_SG = s.m_SG) ∨
      (t.m_SF = [] ∧ t.m_SCR = [] ∧ t.m_SG = []))
    (h : ArqOptimizer.Means s) : ArqOptimizer.Means t := by
  obtain ⟨c1, c2, c3, m1, m2, m3, m4, l1, l2, hg, hf⟩ := h
  obtain ⟨-, -, -, -, p5, p6, -, -, -, p10, -⟩ := hp
  rcases hl with ⟨e1, e2, e3⟩ | ⟨e1, e2, e3⟩
  · refine ⟨p5.trans c1, p6.trans c2, p10.trans c3, ?_, ?_, ?_, ?_, ?_, ?_, ?_, ?_⟩
    · rw [hF]; exact m1
    · rw [hF]; exact m2
    · rw [hCR]; exact m3
    · rw [hCR]; exact m4
    · rw [e1, e2]; exact l1
    · rw [e1, e3]; exact l2
    · rw [e3]; exact hg
    · rw [e1]; exact hf
  · refine ⟨p5.trans c1, p6.trans c2, p10.trans c3, ?_, ?_, ?_, ?_, ?_, ?_, ?_, ?_⟩
    · rw [hF]; exact m1
    · rw [hF]; exact m2
    · rw [hCR]; exact m3
    · rw [hCR]; exact m4
    · rw [e1, e2]
    · rw [e1, e3]
    · rw [e3]; intro g hg; cases hg
    · rw [e1]; intro g hg; cases hg

theorem arq_select_success (s s' : ArqOptimizer) (trial : List Int) (F CR : ℚ) (b : Bool)
    (h : ArqOptimizer.select s trial F CR = .ok (s', b)) :
    (s'.m_SF = s.m_SF ∧ s'.m_SCR = s.m_SCR ∧ s'.m_SG = s.m_SG) ∨
    ∃ gain : ℚ, 0 < gain ∧ s'.m_SF = s.m_SF ++ [F] ∧ s'.m_SCR = s.m_SCR ++ [CR] ∧
      s'.m_SG = s.m_SG ++ [gain] := by
  unfold ArqOptimizer.select at h
  split at h
  · next fp parent hc hp =>
    dsimp only at h
    split at h
    · next hlt =>
      have hgain : (0 : ℚ) < ((fp - costOf s.m_instance trial : Int) : ℚ) := by
        have : 0 < fp - costOf s.m_instance trial := by omega
        exact_mod_cast this
      split at h
      · split at h
        · cases h
        · injection h with h
          injection h with h1 h2
          subst h1
          exact Or.inr ⟨_, hgain, rfl, rfl, rfl⟩
      · injection h with h
        injection h with h1 h2
        subst h1
        exact Or.inr ⟨_, hgain, rfl, rfl, rfl⟩
    · injection h with h
      injection h with h1 h2
      subst h1
      exact Or.inl ⟨rfl, rfl, rfl⟩
  · cases h

theorem arq_endGeneration_means (s s' : ArqOptimizer) (hinv : ArqOptimizer.Means s)
    (h : ArqOptimizer.endGeneration s = .ok s') :
    ArqOptimizer.Means s' ∧ s'.m_muF = (ArqOptimizer.updateMeans s).m_muF ∧
    s'.m_muCR = (ArqOptimizer.updateMeans s).m_muCR := by
  have hu := arq_updateMeans_means s hinv
  have key : ∀ t : ArqOptimizer, ArqOptimizer.Means t →
      t.m_muF = (ArqOptimizer.updateMeans s).m_muF →
      t.m_muCR = (ArqOptimizer.updateMeans s).m_muCR → s' = ArqOptimizer.archiveTrim t →
      ArqOptimizer.Means s' ∧ s'.m_muF = (ArqOptimizer.updateMeans s).m_muF ∧
        s'.m_muCR = (ArqOptimizer.updateMeans s).m_muCR := by
    intro t ht hF hCR hs
    subst hs
    obtain ⟨-, -, -, -, -, -, -, f1, f2, -⟩ := arq_archiveTrim_fields t
    exact ⟨arq_means_transfer t _ (arq_archiveTrim_params t) f1 f2
      (Or.inl (arq_archiveTrim_success t)) ht, f1.trans hF, f2.trans hCR⟩
  unfold ArqOptimizer.endGeneration at h
  dsimp only at h
  split at h
  · injection h with h
    refine key _ ?_ ?_ ?_ h.symm
    · exact hu
    · rfl
    · rfl
  · split at h
    · split at h
      · cases h
      · next s3 h3 =>
        injection h with h
        obtain ⟨a, -, -, -, -, b6, b7, -⟩ := arq_restartWorst_fields _ _ h3
        have hs := arq_restartWorst_success _ _ h3
        have hm3 : ArqOptimizer.Means s3 := arq_means_transfer _ s3 a b6 b7 hs hu
        refine key _ ?_ ?_ ?_ h.symm
        · exact hm3
        · exact b6
        · exact b7
    · injection h with h
      refine key _ ?_ ?_ ?_ h.symm
      · exact hu
      · rfl
      · rfl

theorem arq_iterate_means (cauchy normal : ℚ → Nat → Option ℚ) (fuel : Nat)
    (s s' : ArqOptimizer) (b : Bool) (hinv : ArqOptimizer.Means s)
    (h : ArqOptimizer.iterate cauchy normal fuel s = .ok (s', b)) :
    ArqOptimizer.Means s' := by
  unfold ArqOptimizer.iterate at h
  split at h
  · cases h
    exact hinv
  · have h0 : ArqOptimizer.Means (if s.m_target = 0 then ArqOptimizer.beginGeneration s else s) := by
      split
      · exact arq_means_transfer s _ (arq_beginGeneration_params s) rfl rfl
          (Or.inr ⟨rfl, rfl, rfl⟩) hinv
      · exact hinv
    generalize (if s.m_target = 0 then ArqOptimizer.beginGeneration s else s) = s0 at h h0
    split at h
    · cases h
    · next trial F CR g hmk =>
      split at h
      · cases h
      · next s1 improved hsel =>
        split at h
        · cases h
        · next s3 hadv =>
          cases h
          obtain ⟨_, _, _, _, _, _, g5, _, _, -, -, -, hF, hCR, -⟩ :=
            arq_makeTrial_inv _ _ _ _ _ _ _ _ hmk
          obtain ⟨c1, c2, c3, m1, m2, m3, m4, l1, l2, hg, hf⟩ := h0
          have hFr := arq_sampleF_range cauchy s0 g5 (by rw [c1, c2]; norm_num)
          rw [← hF, c1, c2] at hFr
          obtain ⟨p1, -, -, -, -, -, f7, f8, -⟩ := arq_select_fields _ _ _ _ _ _ hsel
          have hm1 : ArqOptimizer.Means s1 := by
            obtain ⟨-, -, -, -, p5, p6, -, -, -, p10, -⟩ := p1
            rcases arq_select_success _ _ _ _ _ _ hsel with ⟨e1, e2, e3⟩ | ⟨gain, hgp, e1, e2, e3⟩
            · refine ⟨p5.trans c1, p6.trans c2, p10.trans c3, ?_, ?_, ?_, ?_, ?_, ?_, ?_, ?_⟩
              · rw [f7]; exact m1
              · rw [f7]; exact m2
              · rw [f8]; exact m3
              · rw [f8]; exact m4
              · rw [e1, e2]; exact l1
              · rw [e1, e3]; exact l2
              · rw [e3]; exact hg
              · rw [e1]; exact hf
            · refine ⟨p5.trans c1, p6.trans c2, p10.trans c3, ?_, ?_, ?_, ?_, ?_, ?_, ?_, ?_⟩
              · rw [f7]; exact m1
              · rw [f7]; exact m2
              · rw [f8]; exact m3
              · rw [f8]; exact m4
              · rw [e1, e2]
                simp only [List.length_append, List.length_singleton]
                exact congrArg (· + 1) l1
              · rw [e1, e3]
                simp only [List.length_append, List.length_singleton]
                exact congrArg (· + 1) l2
              · rw [e3]
                intro x hx
                rcases List.mem_append.mp hx with hx | hx
                · exact hg x hx
                · rw [List.mem_singleton] at hx
                  rw [hx]; exact hgp
              · rw [e1]
                intro x hx
                rcases List.mem_append.mp hx with hx | hx
                · exact hf x hx
                · rw [List.mem_singleton] at hx
                  rw [hx]; exact hFr
          unfold ArqOptimizer.advanceTarget at hadv
          split at hadv
          · have hm0 : ArqOptimizer.Means { s1 with m_target := 0 } := hm1
            exact (arq_endGeneration_means _ _ hm0 hadv).1
          · cases hadv
            exact hm1

theorem arq_create_means (initial : Tour) (populationSize : Int) (seed : Rng)
    (s : ArqOptimizer) (h : ArqOptimizer.create initial populationSize seed = .ok s) :
    ArqOptimizer.Means s ∧ s.m_muF = 60 / 100 ∧ s.m_muCR = 85 / 100 := by
  obtain ⟨-, -, -, -, -, -, c7, c8, c9, c10, c11, -⟩ := arq_create_fields _ _ _ _ h
  have hl : s.m_SF = [] ∧ s.m_SCR = [] ∧ s.m_SG = [] := by
    have hseed : ∀ (base : List Int) (k : Nat) (i : Int) (t t' : ArqOptimizer),
        ArqOptimizer.seedLoop base k i t = .ok t' →
        t'.m_SF = t.m_SF ∧ t'.m_SCR = t.m_SCR ∧ t'.m_SG = t.m_SG := by
      intro base k
      induction k with
      | zero =>
        intro i t t' ht
        unfold ArqOptimizer.seedLoop at ht
        cases ht
        exact ⟨rfl, rfl, rfl⟩
      | succ k ih =>
        intro i t t' ht
        unfold ArqOptimizer.seedLoop at ht
        dsimp only at ht
        split at ht
        · split at ht
          · cases ht
          · obtain ⟨a, b⟩ := ih _ _ _ ht
            exact ⟨a, b⟩
        · obtain ⟨a, b⟩ := ih _ _ _ ht
          exact ⟨a, b⟩
    unfold ArqOptimizer.create at h
    dsimp only at h
    split at h
    · cases h
      exact ⟨rfl, rfl, rfl⟩
    · split at h
      · cases h
      · cases h
        exact ⟨rfl, rfl, rfl⟩
  refine ⟨⟨c7, c8, c9, ?_, ?_, ?_, ?_, ?_, ?_, ?_, ?_⟩, c10, c11⟩
  · rw [c10]; norm_num
  · rw [c10]; norm_num
  · rw [c11]; norm_num
  · rw [c11]; norm_num
  · rw [hl.1, hl.2.1]
  · rw [hl.1, hl.2.2]
  · rw [hl.2.2]; intro g hg; cases hg
  · rw [hl.1]; intro g hg; cases hg

/-- C38: on a state with the header's constants and positive recorded gains (the invariant
`Means`, which the constructor establishes and every returning step keeps), the update of
the means at a generation end gives, with at least one success and `w_i = gain_i / Σ gains`,
`muCR' = 0.9 * muCR + 0.1 * clamp01(Σ w_i CR_i)` and
`muF' = 0.9 * muF + 0.1 * (Σ w_i F_i² / Σ w_i F_i)` clamped to `[Flo, Fhi]`; with no success
the state is unchanged; a returning `endGeneration` leaves exactly these two means; and both
means stay in range: `muF` in `[0.05, 1.40]` and `muCR` in `[0, 1]`. Real numbers are exact
rationals here. -/
theorem C38_means_update (s : ArqOptimizer) (hinv : ArqOptimizer.Means s) :
    (s.m_SF ≠ [] →
      (ArqOptimizer.updateMeans s).m_muCR = ArqOptimizer.specMuCR s ∧
      (ArqOptimizer.updateMeans s).m_muF = ArqOptimizer.specMuF s) ∧
    (s.m_SF = [] → ArqOptimizer.updateMeans s = s) ∧
    (∀ s', ArqOptimizer.endGeneration s = .ok s' →
      s'.m_muF = (ArqOptimizer.updateMeans s).m_muF ∧
      s'.m_muCR = (ArqOptimizer.updateMeans s).m_muCR ∧ ArqOptimizer.Means s') ∧
    (5 / 100 ≤ s.m_muF ∧ s.m_muF ≤ 140 / 100 ∧ 0 ≤ s.m_muCR ∧ s.m_muCR ≤ 1) ∧
    (5 / 100 ≤ (ArqOptimizer.updateMeans s).m_muF ∧
      (ArqOptimizer.updateMeans s).m_muF ≤ 140 / 100 ∧
      0 ≤ (ArqOptimizer.updateMeans s).m_muCR ∧ (ArqOptimizer.updateMeans s).m_muCR ≤ 1) ∧
    (∀ (initial : Tour) (populationSize : Int) (seed : Rng) (t : ArqOptimizer),
      ArqOptimizer.create initial populationSize seed = .ok t → ArqOptimizer.Means t) ∧
    (∀ (cauchy normal : ℚ → Nat → Option ℚ) (fuel : Nat) (t t' : ArqOptimizer) (b : Bool),
      ArqOptimizer.Means t → ArqOptimizer.iterate cauchy normal fuel t = .ok (t', b) →
      ArqOptimizer.Means t') := by
  have hu := arq_updateMeans_means s hinv
  obtain ⟨c1, c2, c3, m1, m2, m3, m4, l1, l2, hg, hf⟩ := hinv
  refine ⟨fun hne => ?_, fun he => ?_, fun s' h => ?_, ⟨m1, m2, m3, m4⟩,
    ⟨hu.2.2.2.1, hu.2.2.2.2.1, hu.2.2.2.2.2.1, hu.2.2.2.2.2.2.1⟩,
    fun initial p seed t h => (arq_create_means initial p seed t h).1,
    fun cauchy normal fuel t t' b ht h => arq_iterate_means cauchy normal fuel t t' b ht h⟩
  · obtain ⟨e1, e2⟩ := arq_updateMeans_spec s hne l1 l2 hg
      (fun f hfm => lt_of_lt_of_le (by norm_num) (hf f hfm).1) (by rw [c1, c2]; norm_num)
    unfold ArqOptimizer.specMuCR ArqOptimizer.specMuF
    rw [e1, e2, c3]
    norm_num
  · unfold ArqOptimizer.updateMeans
    rw [he]
    rfl
  · obtain ⟨a, b, c⟩ := arq_endGeneration_means s s' ⟨c1, c2, c3, m1, m2, m3, m4, l1, l2, hg, hf⟩ h
    exact ⟨b, c, a⟩

set_option maxRecDepth 100000 in
/-- C38 on a state with two successes (gains 9 and 3, so weights 3/4 and 1/4; `F` 1/2 and 1;
`CR` 9/10 and 1/2; means 0.6 and 0.85 before): the weighted `CR` mean is 4/5 and the Lehmer
mean of `F` is 7/10, so the new means are 0.845 and 0.61. -/
theorem C38_means_update_witness :
    ArqOptimizer.Means arqTwoSuccesses ∧
    (ArqOptimizer.updateMeans arqTwoSuccesses).m_muCR = 169 / 200 ∧
    (ArqOptimizer.updateMeans arqTwoSuccesses).m_muF = 61 / 100 := by
  have hm : ArqOptimizer.Means arqTwoSuccesses := by
    unfold ArqOptimizer.Means
    decide!
  have h := (C38_means_update arqTwoSuccesses hm).1 (by decide)
  exact ⟨hm, h.1.trans (by decide!), h.2.trans (by decide!)⟩

/-! ## Ant colony: the candidate lists -/

theorem uniqueIds_distinct (i K : Nat) (l : List (Int × Int)) (cand : List Int) (n : Nat)
    (hl : ∀ p ∈ l, 0 ≤ p.2 ∧ p.2 < (n : Int)) (hc : AcoOptimizer.DistinctOthers n i cand) :
    AcoOptimizer.DistinctOthers n i (AcoOptimizer.uniqueIds i K l cand) := by
  induction l generalizing cand with
  | nil => exact hc
  | cons p rest ih =>
    have hrest : ∀ q ∈ rest, 0 ≤ q.2 ∧ q.2 < (n : Int) :=
      fun q hq => hl q (List.mem_cons_of_mem _ hq)
    unfold AcoOptimizer.uniqueIds
    split
    · exact hc
    · split
      · exact ih cand hrest hc
      · next hne =>
        split
        · exact ih cand hrest hc
        · next hnm =>
          apply ih _ hrest
          refine ⟨?_, ?_⟩
          · rw [List.nodup_append]
            refine ⟨hc.1, List.nodup_singleton _, ?_⟩
            intro a ha hb
            rw [List.mem_singleton] at hb
            subst hb
            exact hnm ha
          · intro c hcm
            rcases List.mem_append.mp hcm with h | h
            · exact hc.2 c h
            · rw [List.mem_singleton] at h
              subst h
              have := hl p (List.mem_cons_self _ _)
              exact ⟨this.1, this.2, hne⟩

theorem fillCandidates_distinct (n i K : Nat) (hn : 1 ≤ n) (fuel : Nat) (cand : List Int)
    (g : Rng) (hc : AcoOptimizer.DistinctOthers n i cand)
    (r : List Int) (g1 : Rng) (h : AcoOptimizer.fillCandidates n i K fuel cand g = some (r, g1)) :
    AcoOptimizer.DistinctOthers n i r := by
  induction fuel generalizing cand g with
  | zero =>
    unfold AcoOptimizer.fillCandidates at h
    split at h
    · cases h
    · simp only [Option.some.injEq, Prod.mk.injEq] at h
      rw [← h.1]
      exact hc
  | succ fuel ih =>
    unfold AcoOptimizer.fillCandidates at h
    split at h
    · dsimp only at h
      have hj := uniformInt_le 0 (n - 1) g (by omega)
      split at h
      · exact ih _ _ hc h
      · next hne =>
        split at h
        · exact ih _ _ hc h
        · next hnm =>
          refine ih _ _ ⟨?_, ?_⟩ h
          · rw [List.nodup_append]
            refine ⟨hc.1, List.nodup_singleton _, ?_⟩
            intro a ha hb
            rw [List.mem_singleton] at hb
            subst hb
            exact hnm ha
          · intro c hcm
            rcases List.mem_append.mp hcm with h' | h'
            · exact hc.2 c h'
            · rw [List.mem_singleton] at h'
              subst h'
              refine ⟨by omega, by omega, ?_⟩
              intro he
              exact hne (by exact_mod_cast he)
    · simp only [Option.some.injEq, Prod.mk.injEq] at h
      rw [← h.1]
      exact hc

theorem candidatesOf_list (pts : List TspPoint) (n K S fuel i : Nat) (hn : 1 ≤ n) (g : Rng)
    (r : List Int) (g1 : Rng) (h : AcoOptimizer.candidatesOf pts n K S fuel i g = some (r, g1)) :
    AcoOptimizer.CandidateList n K i r := by
  have hlen := (candidatesOf_spec pts n K S fuel i hn g r g1 h).2
  unfold AcoOptimizer.candidatesOf at h
  dsimp only at h
  have h1 := sampleCandidates_range pts n i K hn S g [] (by simp)
  have h2 : ∀ p ∈ (AcoOptimizer.sampleCandidates pts n i K S g []).1.insertionSort
      (fun a b => a.1 ≤ b.1), 0 ≤ p.2 ∧ p.2 < (n : Int) :=
    fun p hp => h1 p ((List.perm_insertionSort _ _).mem_iff.mp hp)
  have h3 := uniqueIds_distinct i K _ [] n h2 ⟨List.nodup_nil, by simp⟩
  have h4 := fillCandidates_distinct n i K hn fuel _ _ h3 r g1 h
  exact ⟨hlen, h4.1, h4.2⟩

theorem buildLoop_lists (pts : List TspPoint) (n K S fuel : Nat) (hn : 1 ≤ n) (k i : Nat)
    (g : Rng) (cands : List (List Int)) (tau : List (List ℚ))
    (hlen : cands.length = i)
    (hc : ∀ t, t < i → AcoOptimizer.CandidateList n K t (cands.getD t []))
    (htau : tau = List.replicate i (List.replicate K 1))
    (cands1 : List (List Int)) (tau1 : List (List ℚ)) (g1 : Rng)
    (h : AcoOptimizer.buildLoop pts n K S fuel k i g cands tau = some (cands1, tau1, g1)) :
    cands1.length = i + k ∧
    (∀ t, t < i + k → AcoOptimizer.CandidateList n K t (cands1.getD t [])) ∧
    tau1 = List.replicate (i + k) (List.replicate K 1) := by
  induction k generalizing i g cands tau with
  | zero =>
    unfold AcoOptimizer.buildLoop at h
    simp only [Option.some.injEq, Prod.mk.injEq] at h
    obtain ⟨rfl, rfl, -⟩ := h
    exact ⟨hlen, hc, htau⟩
  | succ k ih =>
    unfold AcoOptimizer.buildLoop at h
    split at h
    · cases h
    · next cand g2 hco =>
      have hcl := candidatesOf_list pts n K S fuel i hn g cand g2 hco
      obtain ⟨a, b, c⟩ := ih (i + 1) g2 (cands ++ [cand]) (tau ++ [List.replicate K 1])
        (by simp [hlen])
        (by
          intro t ht
          by_cases hti : t < i
          · rw [List.getD_eq_getElem?_getD, List.getElem?_append_left (by omega),
              ← List.getD_eq_getElem?_getD]
            exact hc t hti
          · have : t = i := by omega
            subst this
            rw [List.getD_eq_getElem?_getD, List.getElem?_append_right (by omega), hlen]
            simpa using hcl)
        (by
          rw [htau, List.replicate_succ' ])
        h
      refine ⟨by omega, ?_, ?_⟩
      · intro t ht
        exact b t (by omega)
      · rw [c]
        congr 1
        omega

theorem clampInt_max (v lo hi : Int) (h : lo ≤ hi) :
    clampInt (max lo v) lo hi = clampInt v lo hi := by
  unfold clampInt
  by_cases h1 : v < lo
  · rw [max_eq_left (le_of_lt h1), if_neg (lt_irrefl _), if_neg (not_lt.mpr h), if_pos h1]
  · rw [max_eq_right (not_lt.mp h1)]

theorem aco_buildCandidateLists_lists (s s' : AcoOptimizer) (fuel : Nat) (inst : TspInstance)
    (hinst : s.m_instance = some inst) (hn : 2 ≤ s.m_n)
    (h : AcoOptimizer.buildCandidateLists s fuel = some s') :
    s'.m_n = s.m_n ∧ s'.m_candidates.length = s.m_n ∧ s'.m_tau.length = s.m_n ∧
    ∀ i, i < s.m_n →
      AcoOptimizer.CandidateList s.m_n
        (clampInt s.m_candidateK 4 (max 4 ((s.m_n : Int) - 1))).toNat i
        (s'.m_candidates.getD i []) ∧
      s'.m_tau.getD i [] =
        List.replicate (clampInt s.m_candidateK 4 (max 4 ((s.m_n : Int) - 1))).toNat 1 := by
  unfold AcoOptimizer.buildCandidateLists at h
  rw [hinst] at h
  dsimp only at h
  rw [if_neg (by omega)] at h
  split at h
  · cases h
  · next cands tau g hbl =>
    simp only [Option.some.injEq] at h
    subst h
    obtain ⟨a, b, c⟩ := buildLoop_lists _ _ _ _ _ (show 1 ≤ s.m_n by omega) _ 0 _ [] []
      rfl (fun t ht => absurd ht (Nat.not_lt_zero _)) rfl _ _ _ hbl
    simp only [Nat.zero_add] at a b c
    refine ⟨rfl, a, by rw [c]; simp, fun i hi => ⟨b i hi, ?_⟩⟩
    show tau.getD i [] = _
    rw [c, List.getD_eq_getElem?_getD, List.getElem?_replicate, if_pos hi]
    rfl

/-- C32: when the constructor of the ant colony calls `buildCandidateLists` (an instance
is present and `n ≥ 2`, the only call) and the call completes, there is one candidate list
and one pheromone row per node, and for every node `i` the candidate list has exactly
`K = clamp(candidateK, 4, max(4, n - 1))` entries, all node ids of `[0, n)`, pairwise
distinct and none equal to `i`, and the pheromone row is `K` values all equal to 1. The
same holds for every completing call of `buildCandidateLists` on a state with an instance
and `n ≥ 2`, with the stored `m_candidateK`. -/
theorem C32_candidate_lists (initial : Tour) (ants k samples : Int) (alpha beta rho q : ℚ)
    (seed : Rng) (fuel : Nat) (s : AcoOptimizer)
    (hi : initial.m_instance.isSome) (hn : 2 ≤ initial.size)
    (h : AcoOptimizer.create initial ants k samples alpha beta rho q seed fuel = some s) :
    (s.m_n = initial.size ∧ s.m_candidates.length = initial.size ∧
      s.m_tau.length = initial.size ∧
      ∀ i, i < initial.size →
        (s.m_candidates.getD i []).length =
          (clampInt k 4 (max 4 ((initial.size : Int) - 1))).toNat ∧
        (s.m_candidates.getD i []).Nodup ∧
        (∀ c ∈ s.m_candidates.getD i [], 0 ≤ c ∧ c < (initial.size : Int) ∧ c ≠ (i : Int)) ∧
        s.m_tau.getD i [] =
          List.replicate (clampInt k 4 (max 4 ((initial.size : Int) - 1))).toNat 1) ∧
    (∀ (t t' : AcoOptimizer) (f : Nat) (inst : TspInstance),
      t.m_instance = some inst → 2 ≤ t.m_n →
      AcoOptimizer.buildCandidateLists t f = some t' →
      t'.m_candidates.length = t.m_n ∧ t'.m_tau.length = t.m_n ∧
      ∀ i, i < t.m_n →
        AcoOptimizer.CandidateList t.m_n
          (clampInt t.m_candidateK 4 (max 4 ((t.m_n : Int) - 1))).toNat i
          (t'.m_candidates.getD i []) ∧
        t'.m_tau.getD i [] =
          List.replicate (clampInt t.m_candidateK 4 (max 4 ((t.m_n : Int) - 1))).toNat 1) := by
  refine ⟨?_, fun t t' f inst hinst htn hb =>
    (aco_buildCandidateLists_lists t t' f inst hinst htn hb).2⟩
  unfold AcoOptimizer.create at h
  dsimp only at h
  rw [if_pos ⟨hi, by omega⟩] at h
  cases hinst : initial.m_instance with
  | none => rw [hinst] at hi; cases hi
  | some inst =>
    obtain ⟨a, b, c, d⟩ := aco_buildCandidateLists_lists _ s fuel inst hinst hn h
    dsimp only at a b c d
    rw [clampInt_max _ _ _ (le_max_left _ _)] at d
    exact ⟨a, b, c, fun i hi => ⟨(d i hi).1.1, (d i hi).1.2.1, (d i hi).1.2.2, (d i hi).2⟩⟩

set_option maxRecDepth 100000 in
/-- C32 on the example colony (five nodes, `candidateK = 20`, so `K = 4`): every node has
the four other nodes as candidates and four pheromone values 1. -/
theorem C32_candidate_lists_witness :
    acoExample.m_candidates.length = 5 ∧
    ∀ i, i < 5 →
      (acoExample.m_candidates.getD i []).length = 4 ∧
      (acoExample.m_candidates.getD i []).Nodup ∧
      (∀ c ∈ acoExample.m_candidates.getD i [], 0 ≤ c ∧ c < (5 : Int) ∧ c ≠ (i : Int)) ∧
      acoExample.m_tau.getD i [] = [1, 1, 1, 1] := by
  have h := (C32_candidate_lists crossingTour 20 20 200 1 3 (1 / 10) 1 (List.range 400) 100
    acoExample (by decide) (by decide) (by decide!)).1
  exact ⟨h.2.1, h.2.2.2⟩

/-! ## Ant colony: small instances -/

theorem distinctOthers_length (n i : Nat) (L : List Int) (hi : i < n)
    (h : AcoOptimizer.DistinctOthers n i L) : L.length ≤ n - 1 := by
  have hsub : L ⊆ ((List.range n).erase i).map Int.ofNat := by
    intro c hc
    obtain ⟨h0, h1, h2⟩ := h.2 c hc
    rw [List.mem_map]
    refine ⟨c.toNat, ?_, ?_⟩
    · rw [List.mem_erase_of_ne]
      · rw [List.mem_range]; omega
      · intro he
        apply h2
        rw [← he]
        omega
    · show ((c.toNat : Nat) : Int) = c
      omega
  have hle := (List.subperm_of_subset h.1 hsub).length_le
  rw [List.length_map, List.length_erase_of_mem (List.mem_range.mpr hi), List.length_range] at hle
  exact hle

theorem fillCandidates_none (n i K : Nat) (hi : i < n) (hK : n - 1 < K) (fuel : Nat)
    (cand : List Int) (g : Rng) (hc : AcoOptimizer.DistinctOthers n i cand) :
    AcoOptimizer.fillCandidates n i K fuel cand g = none := by
  induction fuel generalizing cand g with
  | zero =>
    have hl := distinctOthers_length n i cand hi hc
    unfold AcoOptimizer.fillCandidates
    rw [if_pos (by omega)]
  | succ fuel ih =>
    have hl := distinctOthers_length n i cand hi hc
    unfold AcoOptimizer.fillCandidates
    rw [if_pos (by omega)]
    dsimp only
    have hj := uniformInt_le 0 (n - 1) g (by omega)
    split
    · exact ih _ _ hc
    · next hne =>
      split
      · exact ih _ _ hc
      · next hnm =>
        refine ih _ _ ⟨?_, ?_⟩
        · rw [List.nodup_append]
          refine ⟨hc.1, List.nodup_singleton _, ?_⟩
          intro a ha hb
          rw [List.mem_singleton] at hb
          subst hb
          exact hnm ha
        · intro c hcm
          rcases List.mem_append.mp hcm with h' | h'
          · exact hc.2 c h'
          · rw [List.mem_singleton] at h'
            subst h'
            refine ⟨by omega, by omega, ?_⟩
            intro he
            exact hne (by exact_mod_cast he)

theorem candidatesOf_none (pts : List TspPoint) (n K S fuel i : Nat) (hi : i < n)
    (hK : n - 1 < K) (g : Rng) : AcoOptimizer.candidatesOf pts n K S fuel i g = none := by
  unfold AcoOptimizer.candidatesOf
  dsimp only
  have h1 := sampleCandidates_range pts n i K (by omega) S g [] (by simp)
  have h2 : ∀ p ∈ (AcoOptimizer.sampleCandidates pts n i K S g []).1.insertionSort
      (fun a b => a.1 ≤ b.1), 0 ≤ p.2 ∧ p.2 < (n : Int) :=
    fun p hp => h1 p ((List.perm_insertionSort _ _).mem_iff.mp hp)
  exact fillCandidates_none n i K hi hK fuel _ _
    (uniqueIds_distinct i K _ [] n h2 ⟨List.nodup_nil, by simp⟩)

theorem aco_buildCandidateLists_none (s : AcoOptimizer) (fuel : Nat) (inst : TspInstance)
    (hinst : s.m_instance = some inst) (hn : 2 ≤ s.m_n) (hn4 : s.m_n ≤ 4) :
    AcoOptimizer.buildCandidateLists s fuel = none := by
  have hK : (clampInt s.m_candidateK 4 (max 4 ((s.m_n : Int) - 1))).toNat = 4 := by
    rw [max_eq_left (by omega)]
    unfold clampInt
    split_ifs <;> omega
  unfold AcoOptimizer.buildCandidateLists
  rw [hinst]
  dsimp only
  rw [if_neg (by omega), hK]
  obtain ⟨m, hm⟩ : ∃ m, s.m_n = m + 1 := ⟨s.m_n - 1, by omega⟩
  rw [hm]
  unfold AcoOptimizer.buildLoop
  rw [candidatesOf_none _ _ _ _ _ _ (by omega) (by omega)]

/-- C33, the code at the claim's small instances: for every tour over an instance with
two, three or four nodes, whatever the parameters, the random stream and the bound on the
number of rounds of the filling loop, the construction of the ant colony does not end
within the bound. `K` is at least 4 there while a node has at most three other nodes, so
the loop `while (cand.size() < K)` never finds its `K` distinct ids. -/
theorem C33_small_instance_never_ends (initial : Tour) (inst : TspInstance)
    (hinst : initial.m_instance = some inst) (hn : 2 ≤ initial.size) (hn4 : initial.size ≤ 4)
    (ants k samples : Int) (alpha beta rho q : ℚ) (seed : Rng) (fuel : Nat) :
    AcoOptimizer.create initial ants k samples alpha beta rho q seed fuel = none := by
  unfold AcoOptimizer.create
  dsimp only
  rw [if_pos ⟨by rw [hinst]; rfl, by omega⟩]
  exact aco_buildCandidateLists_none _ fuel inst hinst hn hn4

/-- C33 on the three points of `lineInstance`: the construction does not end within 100000
rounds of the filling loop. -/
theorem C33_small_instance_never_ends_witness :
    AcoOptimizer.create ⟨some lineInstance, [0, 1, 2], 19⟩ 20 20 200 1 3 (1 / 10) 1
      (List.range 400) 100000 = none :=
  C33_small_instance_never_ends ⟨some lineInstance, [0, 1, 2], 19⟩ lineInstance rfl
    (by decide) (by decide) 20 20 200 1 3 (1 / 10) 1 (List.range 400) 100000

/-! ## Ant colony: the pheromone update, entry by entry -/

theorem getD_length_of_shape (cands : List (List Int)) (tau : List (List ℚ))
    (h : tau.map List.length = cands.map List.length) (a : Nat) :
    (tau.getD a []).length = (cands.getD a []).length := by
  have := congrArg (fun l => l.getD a 0) h
  simp only [List.getD_eq_getElem?_getD, List.getElem?_map] at this ⊢
  cases h1 : tau[a]? <;> cases h2 : cands[a]? <;> simp_all

theorem tauAt_depositEdge (cands : List (List Int)) (tau : List (List ℚ)) (x y : Int)
    (delta : ℚ) (a k : Nat) (hx : 0 ≤ x)
    (hshape : tau.map List.length = cands.map List.length)
    (ha : a < tau.length) (hk : k < (cands.getD a []).length) :
    AcoOptimizer.tauAt (AcoOptimizer.depositEdge cands tau x y delta) a k =
      AcoOptimizer.tauAt tau a k +
        (if (a : Int) = x ∧ (cands.getD a []).indexOf y = k then delta else 0) := by
  have hrow := getD_length_of_shape cands tau hshape
  unfold AcoOptimizer.depositEdge AcoOptimizer.tauAt
  dsimp only
  by_cases hax : (a : Int) = x
  · have hxa : x.toNat = a := by omega
    rw [hxa]
    by_cases hidx : (cands.getD a []).indexOf y = k
    · have hr : (if (a : Int) = x ∧ (cands.getD a []).indexOf y = k then delta else 0) = delta :=
        if_pos ⟨hax, hidx⟩
      rw [hr, hidx]
      have hl : (if k < (cands.getD a []).length then
          tau.set a ((tau.getD a []).set k ((tau.getD a []).getD k 0 + delta)) else tau) =
          tau.set a ((tau.getD a []).set k ((tau.getD a []).getD k 0 + delta)) := if_pos hk
      rw [hl, List.getD_eq_getElem?_getD (tau.set a _), List.getElem?_set, if_pos rfl, if_pos ha]
      simp only [Option.getD_some]
      rw [List.getD_eq_getElem?_getD ((tau.getD a []).set k _), List.getElem?_set, if_pos rfl,
        if_pos (by rw [hrow]; exact hk)]
      rfl
    · have hr : (if (a : Int) = x ∧ (cands.getD a []).indexOf y = k then delta else 0) = 0 :=
        if_neg (fun h => hidx h.2)
      rw [hr, add_zero]
      split
      · rw [List.getD_eq_getElem?_getD (tau.set a _), List.getElem?_set, if_pos rfl, if_pos ha]
        simp only [Option.getD_some]
        rw [List.getD_eq_getElem?_getD ((tau.getD a []).set _ _), List.getElem?_set,
          if_neg hidx, ← List.getD_eq_getElem?_getD]
      · rfl
  · have hr : (if (a : Int) = x ∧ (cands.getD a []).indexOf y = k then delta else 0) = 0 :=
      if_neg (fun h => hax h.1)
    rw [hr, add_zero]
    have hne : ¬ x.toNat = a := by omega
    split
    · rw [List.getD_eq_getElem?_getD (tau.set _ _), List.getElem?_set, if_neg hne,
        ← List.getD_eq_getElem?_getD]
    · rfl

theorem indexOf_eq_iff_nodup (L : List Int) (y : Int) (k : Nat) (hnd : L.Nodup)
    (hk : k < L.length) : L.indexOf y = k ↔ y = L.getD k 0 := by
  rw [List.getD_eq_getElem _ _ hk]
  constructor
  · intro h
    subst h
    exact (List.getElem_indexOf hk).symm
  · intro h
    rw [h]
    exact List.indexOf_getElem hnd k hk

theorem deposit_fold_entry (cands : List (List Int)) (ord : List Int) (delta : ℚ)
    (a k : Nat) (hnd : ord.Nodup) (hpos : ∀ x ∈ ord, 0 ≤ x)
    (hcn : (cands.getD a []).Nodup) (hk : k < (cands.getD a []).length)
    (m : Nat) (hm : m + 1 ≤ ord.length) (tau : List (List ℚ))
    (hshape : tau.map List.length = cands.map List.length) (ha : a < tau.length) :
    AcoOptimizer.tauAt ((List.range m).foldl (fun tau i =>
        AcoOptimizer.depositEdge cands
          (AcoOptimizer.depositEdge cands tau (ord.getD i 0) (ord.getD (i + 1) 0) delta)
          (ord.getD (i + 1) 0) (ord.getD i 0) delta) tau) a k =
      AcoOptimizer.tauAt tau a k +
        (if ∃ i, i < m ∧ ((ord.getD i 0 = (a : Int) ∧
              ord.getD (i + 1) 0 = (cands.getD a []).getD k 0) ∨
            (ord.getD i 0 = (cands.getD a []).getD k 0 ∧ ord.getD (i + 1) 0 = (a : Int)))
          then delta else 0) := by
  induction m with
  | zero =>
    rw [if_neg (by rintro ⟨i, hi, -⟩; omega)]
    simp
  | succ m ih =>
    have ihm := ih (by omega)
    rw [List.range_succ, List.foldl_append, List.foldl_cons, List.foldl_nil]
    have hsh1 := deposit_fold_shape cands ord delta (List.range m) tau
    rw [hshape] at hsh1
    have hlen1 : a < ((List.range m).foldl (fun tau i =>
        AcoOptimizer.depositEdge cands
          (AcoOptimizer.depositEdge cands tau (ord.getD i 0) (ord.getD (i + 1) 0) delta)
          (ord.getD (i + 1) 0) (ord.getD i 0) delta) tau).length := by
      have := congrArg List.length hsh1
      have h2 := congrArg List.length hshape
      simp only [List.length_map] at this h2
      omega
    generalize (List.range m).foldl (fun tau i =>
        AcoOptimizer.depositEdge cands
          (AcoOptimizer.depositEdge cands tau (ord.getD i 0) (ord.getD (i + 1) 0) delta)
          (ord.getD (i + 1) 0) (ord.getD i 0) delta) tau = tauM at ihm hsh1 hlen1
    have hm0 : m < ord.length := by omega
    have hm1 : m + 1 < ord.length := by omega
    have hx0 : 0 ≤ ord.getD m 0 := by
      rw [List.getD_eq_getElem _ _ hm0]; exact hpos _ (List.getElem_mem _)
    have hx1 : 0 ≤ ord.getD (m + 1) 0 := by
      rw [List.getD_eq_getElem _ _ hm1]; exact hpos _ (List.getElem_mem _)
    have hsh2 := (depositEdge_shape cands tauM (ord.getD m 0) (ord.getD (m + 1) 0) delta).trans hsh1
    have hlen2 : a < (AcoOptimizer.depositEdge cands tauM (ord.getD m 0)
        (ord.getD (m + 1) 0) delta).length := by
      have := congrArg List.length hsh2
      have h2 := congrArg List.length hsh1
      simp only [List.length_map] at this h2
      omega
    rw [tauAt_depositEdge cands _ _ _ delta a k hx1 hsh2 hlen2 hk,
      tauAt_depositEdge cands _ _ _ delta a k hx0 hsh1 hlen1 hk, ihm]
    simp only [indexOf_eq_iff_nodup _ _ k hcn hk]
    have hinj : ∀ i j, i < ord.length → j < ord.length → ord.getD i 0 = ord.getD j 0 → i = j := by
      intro i j hi hj he
      rw [List.getD_eq_getElem _ _ hi, List.getD_eq_getElem _ _ hj] at he
      exact (List.Nodup.getElem_inj_iff hnd).mp he
    by_cases hP : (ord.getD m 0 = (a : Int) ∧ ord.getD (m + 1) 0 = (cands.getD a []).getD k 0) ∨
        (ord.getD m 0 = (cands.getD a []).getD k 0 ∧ ord.getD (m + 1) 0 = (a : Int))
    · have hnone : ¬ ∃ i, i < m ∧ ((ord.getD i 0 = (a : Int) ∧
              ord.getD (i + 1) 0 = (cands.getD a []).getD k 0) ∨
            (ord.getD i 0 = (cands.getD a []).getD k 0 ∧ ord.getD (i + 1) 0 = (a : Int))) := by
        rintro ⟨i, hi, hPi⟩
        rcases hP with ⟨p1, p2⟩ | ⟨p1, p2⟩
        · rcases hPi with ⟨q1, q2⟩ | ⟨q1, q2⟩
          · have := hinj i m (by omega) hm0 (q1.trans p1.symm)
            omega
          · have := hinj (i + 1) m (by omega) hm0 (q2.trans p1.symm)
            have := hinj i (m + 1) (by omega) hm1 (q1.trans p2.symm)
            omega
        · rcases hPi with ⟨q1, q2⟩ | ⟨q1, q2⟩
          · have := hinj i (m + 1) (by omega) hm1 (q1.trans p2.symm)
            omega
          · have := hinj i m (by omega) hm0 (q1.trans p1.symm)
            omega
      have hsome : ∃ i, i < m + 1 ∧ ((ord.getD i 0 = (a : Int) ∧
              ord.getD (i + 1) 0 = (cands.getD a []).getD k 0) ∨
            (ord.getD i 0 = (cands.getD a []).getD k 0 ∧ ord.getD (i + 1) 0 = (a : Int))) :=
        ⟨m, by omega, hP⟩
      rw [if_neg hnone, if_pos hsome]
      rcases hP with ⟨p1, p2⟩ | ⟨p1, p2⟩
      · have hne : ¬ ((a : Int) = ord.getD (m + 1) 0 ∧
            ord.getD m 0 = (cands.getD a []).getD k 0) := by
          rintro ⟨r1, -⟩
          have := hinj m (m + 1) hm0 hm1 (p1.trans r1)
          omega
        rw [if_pos ⟨p1.symm, p2⟩, if_neg hne]
        ring
      · have hne : ¬ ((a : Int) = ord.getD m 0 ∧
            ord.getD (m + 1) 0 = (cands.getD a []).getD k 0) := by
          rintro ⟨r1, -⟩
          have := hinj m (m + 1) hm0 hm1 (r1.symm.trans p2.symm)
          omega
        rw [if_neg hne, if_pos ⟨p2.symm, p1⟩]
        ring
    · have h1 : ¬ ((a : Int) = ord.getD m 0 ∧
          ord.getD (m + 1) 0 = (cands.getD a []).getD k 0) :=
        fun h => hP (Or.inl ⟨h.1.symm, h.2⟩)
      have h2 : ¬ ((a : Int) = ord.getD (m + 1) 0 ∧
          ord.getD m 0 = (cands.getD a []).getD k 0) :=
        fun h => hP (Or.inr ⟨h.2, h.1.symm⟩)
      rw [if_neg h1, if_neg h2]
      have hiff : (∃ i, i < m + 1 ∧ ((ord.getD i 0 = (a : Int) ∧
              ord.getD (i + 1) 0 = (cands.getD a []).getD k 0) ∨
            (ord.getD i 0 = (cands.getD a []).getD k 0 ∧ ord.getD (i + 1) 0 = (a : Int)))) ↔
          ∃ i, i < m ∧ ((ord.getD i 0 = (a : Int) ∧
              ord.getD (i + 1) 0 = (cands.getD a []).getD k 0) ∨
            (ord.getD i 0 = (cands.getD a []).getD k 0 ∧ ord.getD (i + 1) 0 = (a : Int))) := by
        constructor
        · rintro ⟨i, hi, hPi⟩
          by_cases him : i = m
          · subst him
            exact absurd hPi hP
          · exact ⟨i, by omega, hPi⟩
        · rintro ⟨i, hi, hPi⟩
          exact ⟨i, by omega, hPi⟩
      simp only [hiff, add_zero]

theorem tauAt_evaporate (n : Nat) (keep : ℚ) (tau : List (List ℚ)) (a k : Nat) (ha : a < n) :
    AcoOptimizer.tauAt
      (tau.enum.map fun p => if p.1 < n then p.2.map (· * keep) else p.2) a k =
      keep * AcoOptimizer.tauAt tau a k := by
  unfold AcoOptimizer.tauAt
  simp only [List.getD_eq_getElem?_getD, List.getElem?_map, List.getElem?_enum]
  cases h1 : tau[a]? with
  | none => simp
  | some row =>
    simp only [Option.map_some', if_pos ha, Option.getD_some, List.getElem?_map]
    cases h2 : row[k]? with
    | none => simp
    | some v => simp [mul_comm]

/-! ## Ant colony: the pheromone update of a step -/

theorem aco_constructTour_perm (pw : ℚ → ℚ → ℚ) (s : AcoOptimizer) (pts : List TspPoint)
    (hb : AcoOptimizer.CandidatesBuilt s) (hn : 2 ≤ s.m_n) :
    IsPermutation (AcoOptimizer.constructTour pw s pts).1 s.m_n := by
  have hP0 : AcoOptimizer.Partial s.m_n ((List.replicate s.m_n false).set 0 true) [0] := by
    refine ⟨by simp, List.nodup_singleton _, ?_, ?_⟩
    · intro x hx
      rw [List.mem_singleton] at hx
      subst hx
      exact ⟨le_refl _, by omega⟩
    · intro j hj
      rw [List.getD_eq_getElem?_getD, List.getElem?_set]
      by_cases h0 : 0 = j
      · subst h0
        rw [if_pos rfl, if_pos (by simp; omega)]
        simp
      · rw [if_neg h0, List.getElem?_replicate, if_pos hj]
        simp
        omega
  obtain ⟨hnd, hr, tail, ht⟩ := constructLoop_partial pw s pts hb (s.m_n - 1) 0 _ [0] s.m_rng
    (le_refl _) (by omega) hP0 (by simp; omega)
  have hlen : (AcoOptimizer.constructTour pw s pts).1.length = s.m_n := by
    unfold AcoOptimizer.constructTour
    rw [aco_constructLoop_length]
    simp
    omega
  unfold IsPermutation
  have hsub : (AcoOptimizer.constructTour pw s pts).1 ⊆ (List.range s.m_n).map Int.ofNat := by
    intro x hx
    obtain ⟨x0, x1⟩ := hr x hx
    exact List.mem_map.mpr ⟨x.toNat, List.mem_range.mpr (by omega), Int.toNat_of_nonneg x0⟩
  have hnd' : (AcoOptimizer.constructTour pw s pts).1.Nodup := hnd
  refine (List.subperm_of_subset hnd' hsub).perm_of_length_le ?_
  rw [hlen]
  simp

theorem shape_of_built (s : AcoOptimizer) (hb : AcoOptimizer.CandidatesBuilt s) :
    s.m_tau.map List.length = s.m_candidates.map List.length := by
  obtain ⟨b1, b2, b3, -⟩ := hb
  apply List.ext_getElem
  · simp [b1, b2]
  · intro i h1 h2
    simp only [List.length_map] at h1 h2
    have := b3 i (by omega)
    rw [List.getD_eq_getElem _ _ h2, List.getD_eq_getElem _ _ h1] at this
    simp only [List.getElem_map]
    exact this.symm

theorem clamp_rho (rho : ℚ) :
    (if rho < 0 then (0 : ℚ) else if rho > 1 then 1 else rho) = max 0 (min 1 rho) := by
  by_cases h1 : rho < 0
  · rw [if_pos h1, min_eq_right (by linarith), max_eq_left (le_of_lt h1)]
  · rw [if_neg h1]
    by_cases h2 : rho > 1
    · rw [if_pos h2, min_eq_left (le_of_lt h2), max_eq_right (by norm_num)]
    · rw [if_neg h2, min_eq_right (not_lt.mp h2), max_eq_right (not_lt.mp h1)]

theorem isPathEdge_iff (ord : List Int) (a b : Int) :
    isPathEdge ord a b = true ↔
      ∃ i, i < ord.length - 1 ∧ ((ord.getD i 0 = a ∧ ord.getD (i + 1) 0 = b) ∨
        (ord.getD i 0 = b ∧ ord.getD (i + 1) 0 = a)) := by
  unfold isPathEdge
  rw [List.any_eq_true]
  constructor
  · rintro ⟨i, hi, hp⟩
    exact ⟨i, List.mem_range.mp hi, of_decide_eq_true hp⟩
  · rintro ⟨i, hi, hp⟩
    exact ⟨i, List.mem_range.mpr hi, decide_eq_true hp⟩

theorem aco_pheromoneUpdate_entry (s : AcoOptimizer) (hb : AcoOptimizer.CandidatesBuilt s)
    (hnd : ∀ L ∈ s.m_candidates, L.Nodup) (cb : Int) (hc : s.m_iterBestCost = some cb)
    (hperm : IsPermutation s.m_iterBestOrder s.m_n) (hn : 2 ≤ s.m_n)
    (a k : Nat) (ha : a < s.m_n) (hk : k < (s.m_candidates.getD a []).length) :
    AcoOptimizer.tauAt (AcoOptimizer.pheromoneUpdate s).m_tau a k =
      (1 - max 0 (min 1 s.m_rho)) * AcoOptimizer.tauAt s.m_tau a k +
        (if 0 < cb ∧
            isPathEdge s.m_iterBestOrder (a : Int) ((s.m_candidates.getD a []).getD k 0) = true
          then s.m_Q / (cb : ℚ) else 0) := by
  have hlen := isPermutation_length _ _ hperm
  have hne : ¬ s.m_iterBestOrder.isEmpty = true := by
    cases ho : s.m_iterBestOrder with
    | nil => rw [ho] at hlen; simp at hlen; omega
    | cons x l => simp
  have hshape := shape_of_built s hb
  have hsh1 := (evaporate_shape s.m_n (1 - max 0 (min 1 s.m_rho)) s.m_tau).trans hshape
  have hev := tauAt_evaporate s.m_n (1 - max 0 (min 1 s.m_rho)) s.m_tau a k ha
  unfold AcoOptimizer.pheromoneUpdate
  rw [hc, clamp_rho]
  dsimp only
  by_cases hpos : cb > 0
  · rw [if_pos ⟨hne, hpos⟩]
    have hcn : (s.m_candidates.getD a []).Nodup := by
      rw [List.getD_eq_getElem _ _ (by rw [hb.1]; exact ha)]
      exact hnd _ (List.getElem_mem _)
    have hal : a < (s.m_tau.enum.map fun p =>
        if p.1 < s.m_n then p.2.map (· * (1 - max 0 (min 1 s.m_rho))) else p.2).length := by
      simp [hb.2.1, ha]
    rw [deposit_fold_entry s.m_candidates s.m_iterBestOrder (s.m_Q / (cb : ℚ)) a k
      (isPermutation_nodup _ _ hperm) (fun x hx => ((isPermutation_mem _ _ hperm x).mp hx).1)
      hcn hk (s.m_n - 1) (by omega) _ hsh1 hal, hev]
    congr 1
    have hiff : (∃ i, i < s.m_n - 1 ∧ ((s.m_iterBestOrder.getD i 0 = (a : Int) ∧
          s.m_iterBestOrder.getD (i + 1) 0 = (s.m_candidates.getD a []).getD k 0) ∨
        (s.m_iterBestOrder.getD i 0 = (s.m_candidates.getD a []).getD k 0 ∧
          s.m_iterBestOrder.getD (i + 1) 0 = (a : Int)))) ↔
        (0 < cb ∧ isPathEdge s.m_iterBestOrder (a : Int)
          ((s.m_candidates.getD a []).getD k 0) = true) := by
      rw [isPathEdge_iff, hlen]
      exact ⟨fun h => ⟨hpos, h⟩, fun h => h.2⟩
    simp only [hiff]
  · have hr : (if 0 < cb ∧ isPathEdge s.m_iterBestOrder (a : Int)
        ((s.m_candidates.getD a []).getD k 0) = true then s.m_Q / (cb : ℚ) else 0) = 0 :=
      if_neg (fun h => hpos h.1)
    rw [hr, add_zero, if_neg (fun h => hpos h.2)]
    exact hev

theorem aco_updateBest_fields (t t' : AcoOptimizer) (ord : List Int) (c : Int) (b : Bool)
    (h : AcoOptimizer.updateBest t ord c = .ok (t', b)) :
    t'.m_tau = t.m_tau ∧ t'.m_candidates = t.m_candidates ∧ t'.m_n = t.m_n ∧
    t'.m_antIndex = t.m_antIndex ∧ t'.m_antsPerIter = t.m_antsPerIter ∧ t'.m_rho = t.m_rho ∧
    t'.m_Q = t.m_Q ∧ t'.m_iterBestCost = t.m_iterBestCost ∧
    t'.m_iterBestOrder = t.m_iterBestOrder := by
  unfold AcoOptimizer.updateBest at h
  split at h
  · split at h
    · cases h
    · injection h with h
      injection h with h1 h2
      subst h1
      exact ⟨rfl, rfl, rfl, rfl, rfl, rfl, rfl, rfl, rfl⟩
  · injection h with h
    injection h with h1 h2
    subst h1
    exact ⟨rfl, rfl, rfl, rfl, rfl, rfl, rfl, rfl, rfl⟩

theorem aco_recordBatchBest_fields (t : AcoOptimizer) (ord : List Int) (c : Int) :
    (AcoOptimizer.recordBatchBest t ord c).m_tau = t.m_tau ∧
    (AcoOptimizer.recordBatchBest t ord c).m_candidates = t.m_candidates ∧
    (AcoOptimizer.recordBatchBest t ord c).m_n = t.m_n ∧
    (AcoOptimizer.recordBatchBest t ord c).m_antIndex = t.m_antIndex ∧
    (AcoOptimizer.recordBatchBest t ord c).m_antsPerIter = t.m_antsPerIter ∧
    (AcoOptimizer.recordBatchBest t ord c).m_rho = t.m_rho ∧
    (AcoOptimizer.recordBatchBest t ord c).m_Q = t.m_Q := by
  unfold AcoOptimizer.recordBatchBest
  split
  · exact ⟨rfl, rfl, rfl, rfl, rfl, rfl, rfl⟩
  · split <;> exact ⟨rfl, rfl, rfl, rfl, rfl, rfl, rfl⟩

theorem aco_recordBatchBest_record (t : AcoOptimizer) (ord : List Int) (c : Int) :
    (t.m_iterBestCost = none →
      (AcoOptimizer.recordBatchBest t ord c).m_iterBestCost = some c ∧
      (AcoOptimizer.recordBatchBest t ord c).m_iterBestOrder = ord) ∧
    (∀ b0, t.m_iterBestCost = some b0 →
      (AcoOptimizer.recordBatchBest t ord c).m_iterBestCost = some (min b0 c) ∧
      (AcoOptimizer.recordBatchBest t ord c).m_iterBestOrder =
        if c < b0 then ord else t.m_iterBestOrder) := by
  unfold AcoOptimizer.recordBatchBest
  constructor
  · intro h
    rw [h]
    exact ⟨rfl, rfl⟩
  · intro b0 h
    rw [h]
    dsimp only
    by_cases hlt : c < b0
    · rw [if_pos hlt, if_pos hlt, min_eq_right (le_of_lt hlt)]
      exact ⟨rfl, rfl⟩
    · rw [if_neg hlt, if_neg hlt, min_eq_left (not_lt.mp hlt)]
      exact ⟨h, rfl⟩

theorem aco_recordBatchBest_rng (t : AcoOptimizer) (g : Rng) (ord : List Int) (c : Int) :
    (AcoOptimizer.recordBatchBest { t with m_rng := g } ord c).m_iterBestCost =
      (AcoOptimizer.recordBatchBest t ord c).m_iterBestCost ∧
    (AcoOptimizer.recordBatchBest { t with m_rng := g } ord c).m_iterBestOrder =
      (AcoOptimizer.recordBatchBest t ord c).m_iterBestOrder := by
  unfold AcoOptimizer.recordBatchBest
  dsimp only
  cases hbc : t.m_iterBestCost with
  | none => exact ⟨rfl, rfl⟩
  | some b0 =>
    dsimp only
    by_cases hlt : c < b0
    · rw [if_pos hlt, if_pos hlt]
      exact ⟨rfl, rfl⟩
    · rw [if_neg hlt, if_neg hlt]
      exact ⟨hbc.symm, rfl⟩

theorem aco_iterate_struct (pw : ℚ → ℚ → ℚ) (s s' : AcoOptimizer) (b : Bool)
    (inst : TspInstance) (hinst : s.m_instance = some inst) (hn : 2 ≤ s.m_n)
    (hb : AcoOptimizer.CandidatesBuilt s)
    (h : AcoOptimizer.iterate pw s = .ok (s', b)) :
    ∃ s2, s' = AcoOptimizer.endOfAnt s2 ∧
      s2.m_tau = s.m_tau ∧ s2.m_candidates = s.m_candidates ∧ s2.m_n = s.m_n ∧
      s2.m_antIndex = s.m_antIndex ∧ s2.m_antsPerIter = s.m_antsPerIter ∧
      s2.m_rho = s.m_rho ∧ s2.m_Q = s.m_Q ∧
      s2.m_iterBestCost = (AcoOptimizer.recordBatchBest s
        (AcoOptimizer.constructTour pw s inst.m_points).1
        (costOf s.m_instance (AcoOptimizer.constructTour pw s inst.m_points).1)).m_iterBestCost ∧
      s2.m_iterBestOrder = (AcoOptimizer.recordBatchBest s
        (AcoOptimizer.constructTour pw s inst.m_points).1
        (costOf s.m_instance
          (AcoOptimizer.constructTour pw s inst.m_points).1)).m_iterBestOrder := by
  have hce : ¬ s.m_candidates.isEmpty = true := by
    cases hcs : s.m_candidates with
    | nil => have := hb.1; rw [hcs] at this; simp at this; omega
    | cons x l => simp
  have hte : ¬ s.m_tau.isEmpty = true := by
    cases hcs : s.m_tau with
    | nil => have := hb.2.1; rw [hcs] at this; simp at this; omega
    | cons x l => simp
  unfold AcoOptimizer.iterate at h
  split at h
  · next hnone => rw [hinst] at hnone; cases hnone
  · next inst' hinst' =>
    have hii : inst' = inst := by
      rw [hinst] at hinst'
      injection hinst' with e
      exact e.symm
    subst hii
    rw [if_neg (by
      rintro (h1 | h1 | h1)
      · omega
      · exact hce h1
      · exact hte h1)] at h
    dsimp only at h
    split at h
    · cases h
    · next s2 improved hu =>
      injection h with h
      injection h with h1 h2
      obtain ⟨u1, u2, u3, u4, u5, u6, u7, u8, u9⟩ := aco_updateBest_fields _ _ _ _ _ hu
      obtain ⟨r1, r2, r3, r4, r5, r6, r7⟩ := aco_recordBatchBest_fields
        { s with m_rng := (AcoOptimizer.constructTour pw s inst'.m_points).2 }
        (AcoOptimizer.constructTour pw s inst'.m_points).1
        (costOf s.m_instance (AcoOptimizer.constructTour pw s inst'.m_points).1)
      refine ⟨s2, h1.symm, u1.trans r1, u2.trans r2, u3.trans r3, u4.trans r4, u5.trans r5,
        u6.trans r6, u7.trans r7, ?_, ?_⟩
      · rw [u8]
        exact (aco_recordBatchBest_rng s _ _ _).1
      · rw [u9]
        exact (aco_recordBatchBest_rng s _ _ _).2

theorem aco_create_batchInv (initial : Tour) (ants k samples : Int) (alpha beta rho q : ℚ)
    (seed : Rng) (fuel : Nat) (s : AcoOptimizer)
    (hi : initial.m_instance.isSome) (hn : 2 ≤ initial.size)
    (h : AcoOptimizer.create initial ants k samples alpha beta rho q seed fuel = some s) :
    AcoOptimizer.BatchInv s := by
  have hb := (aco_create_built initial ants k samples alpha beta rho q seed fuel s h hi hn).1
  unfold AcoOptimizer.create at h
  dsimp only at h
  rw [if_pos ⟨hi, by omega⟩] at h
  cases hinst : initial.m_instance with
  | none => rw [hinst] at hi; cases hi
  | some inst =>
    obtain ⟨a, b, c, d⟩ := aco_buildCandidateLists_lists _ s fuel inst hinst hn h
    dsimp only at a b c d
    refine ⟨hb, ?_, ?_⟩
    · intro L hL
      rw [List.mem_iff_getElem] at hL
      obtain ⟨i, hi2, rfl⟩ := hL
      have := (d i (by rw [b] at hi2; exact hi2)).1.2.1
      rw [List.getD_eq_getElem _ _ hi2] at this
      exact this
    · intro b0 hb0
      unfold AcoOptimizer.buildCandidateLists at h
      rw [hinst] at h
      dsimp only at h
      rw [if_neg (by omega)] at h
      split at h
      · cases h
      · simp only [Option.some.injEq] at h
        subst h
        cases hb0

theorem aco_iterate_batchInv (pw : ℚ → ℚ → ℚ) (s s' : AcoOptimizer) (b : Bool)
    (inst : TspInstance) (hinst : s.m_instance = some inst) (hn : 2 ≤ s.m_n)
    (hinv : AcoOptimizer.BatchInv s) (h : AcoOptimizer.iterate pw s = .ok (s', b)) :
    AcoOptimizer.BatchInv s' := by
  obtain ⟨hb, hnd, hrec⟩ := hinv
  have hl := aco_iterate_lists pw s s' b h
  have hb' := candidatesBuilt_of_sameLists _ _ hl hb
  refine ⟨hb', by rw [hl.2.1]; exact hnd, ?_⟩
  obtain ⟨s2, e, -, -, e3, -, -, -, -, e8, e9⟩ := aco_iterate_struct pw s s' b inst hinst hn hb h
  have hperm := aco_constructTour_perm pw s inst.m_points hb hn
  obtain ⟨r1, r2⟩ := aco_recordBatchBest_record s (AcoOptimizer.constructTour pw s inst.m_points).1
    (costOf s.m_instance (AcoOptimizer.constructTour pw s inst.m_points).1)
  have hrecp : IsPermutation s2.m_iterBestOrder s.m_n := by
    rw [e9]
    cases hc : s.m_iterBestCost with
    | none => rw [(r1 hc).2]; exact hperm
    | some b0 =>
      rw [(r2 b0 hc).2]
      split
      · exact hperm
      · exact hrec b0 hc
  intro b0 hb0
  rw [hl.1]
  subst e
  unfold AcoOptimizer.endOfAnt at hb0 ⊢
  split at hb0
  · unfold AcoOptimizer.pheromoneUpdate at hb0
    cases hb0
  · next hlt =>
    rw [if_neg hlt]
    exact hrecp

/-- C31: in a colony over an instance of `n ≥ 2` nodes with built candidate lists (the
invariant `BatchInv`, which the constructor establishes and every returning step keeps),
a returning `iterate` that does not complete the batch leaves every pheromone value as it
was and adds one to the batch counter; a returning `iterate` that completes the batch
(`m_antIndex + 1 ≥ m_antsPerIter`) leaves in every `tau[a][k]` the value
`(1 - clamp(rho, 0, 1)) * tau[a][k]`, plus `Q / c` once if `c > 0` and `a` and
`candidates[a][k]` are consecutive in the recorded batch-best order, plus nothing otherwise,
where `c` is the recorded batch-best cost, and leaves the batch counter at 0 and the batch
record cleared. The record of the batch is the first cheapest order so far: the new order
when there was no record or the new cost is strictly lower, the old record otherwise. -/
theorem C31_pheromone_update (pw : ℚ → ℚ → ℚ) (s s' : AcoOptimizer) (b : Bool)
    (inst : TspInstance) (hinst : s.m_instance = some inst) (hn : 2 ≤ s.m_n)
    (hinv : AcoOptimizer.BatchInv s) (h : AcoOptimizer.iterate pw s = .ok (s', b)) :
    (s.m_antIndex + 1 < s.m_antsPerIter →
      s'.m_tau = s.m_tau ∧ s'.m_antIndex = s.m_antIndex + 1 ∧
      s'.m_iterBestCost = (AcoOptimizer.recordBatchBest s
        (AcoOptimizer.constructTour pw s inst.m_points).1
        (costOf s.m_instance (AcoOptimizer.constructTour pw s inst.m_points).1)).m_iterBestCost ∧
      s'.m_iterBestOrder = (AcoOptimizer.recordBatchBest s
        (AcoOptimizer.constructTour pw s inst.m_points).1
        (costOf s.m_instance
          (AcoOptimizer.constructTour pw s inst.m_points).1)).m_iterBestOrder) ∧
    (s.m_antsPerIter ≤ s.m_antIndex + 1 →
      s'.m_antIndex = 0 ∧ s'.m_iterBestCost = none ∧ s'.m_iterBestOrder = [] ∧
      ∃ cb : Int, (AcoOptimizer.recordBatchBest s
          (AcoOptimizer.constructTour pw s inst.m_points).1
          (costOf s.m_instance
            (AcoOptimizer.constructTour pw s inst.m_points).1)).m_iterBestCost = some cb ∧
        ∀ a k, a < s.m_n → k < (s.m_candidates.getD a []).length →
          AcoOptimizer.tauAt s'.m_tau a k =
            (1 - max 0 (min 1 s.m_rho)) * AcoOptimizer.tauAt s.m_tau a k +
              (if 0 < cb ∧ isPathEdge (AcoOptimizer.recordBatchBest s
                    (AcoOptimizer.constructTour pw s inst.m_points).1
                    (costOf s.m_instance
                      (AcoOptimizer.constructTour pw s inst.m_points).1)).m_iterBestOrder
                  (a : Int) ((s.m_candidates.getD a []).getD k 0) = true
                then s.m_Q / (cb : ℚ) else 0)) ∧
    ((s.m_iterBestCost = none →
        (AcoOptimizer.recordBatchBest s (AcoOptimizer.constructTour pw s inst.m_points).1
          (costOf s.m_instance
            (AcoOptimizer.constructTour pw s inst.m_points).1)).m_iterBestCost =
          some (costOf s.m_instance (AcoOptimizer.constructTour pw s inst.m_points).1) ∧
        (AcoOptimizer.recordBatchBest s (AcoOptimizer.constructTour pw s inst.m_points).1
          (costOf s.m_instance
            (AcoOptimizer.constructTour pw s inst.m_points).1)).m_iterBestOrder =
          (AcoOptimizer.constructTour pw s inst.m_points).1) ∧
      (∀ b0, s.m_iterBestCost = some b0 →
        (AcoOptimizer.recordBatchBest s (AcoOptimizer.constructTour pw s inst.m_points).1
          (costOf s.m_instance
            (AcoOptimizer.constructTour pw s inst.m_points).1)).m_iterBestCost =
          some (min b0 (costOf s.m_instance (AcoOptimizer.constructTour pw s inst.m_points).1)) ∧
        (AcoOptimizer.recordBatchBest s (AcoOptimizer.constructTour pw s inst.m_points).1
          (costOf s.m_instance
            (AcoOptimizer.constructTour pw s inst.m_points).1)).m_iterBestOrder =
          if costOf s.m_instance (AcoOptimizer.constructTour pw s inst.m_points).1 < b0
          then (AcoOptimizer.constructTour pw s inst.m_points).1 else s.m_iterBestOrder)) ∧
    (AcoOptimizer.BatchInv s' ∧ s'.m_candidates = s.m_candidates ∧ s'.m_n = s.m_n ∧
      s'.m_instance = s.m_instance) ∧
    (∀ (initial : Tour) (ants k samples : Int) (alpha beta rho q : ℚ) (seed : Rng)
        (fuel : Nat) (s0 : AcoOptimizer),
      initial.m_instance.isSome → 2 ≤ initial.size →
      AcoOptimizer.create initial ants k samples alpha beta rho q seed fuel = some s0 →
      AcoOptimizer.BatchInv s0) := by
  have hinv' := aco_iterate_batchInv pw s s' b inst hinst hn hinv h
  obtain ⟨hb, hnd, hrec⟩ := hinv
  have hl := aco_iterate_lists pw s s' b h
  have hfr := (aco_frame pw s s' b h)
  obtain ⟨s2, e, e1, e2, e3, e4, e5, e6, e7, e8, e9⟩ :=
    aco_iterate_struct pw s s' b inst hinst hn hb h
  have hperm := aco_constructTour_perm pw s inst.m_points hb hn
  obtain ⟨r1, r2⟩ := aco_recordBatchBest_record s (AcoOptimizer.constructTour pw s inst.m_points).1
    (costOf s.m_instance (AcoOptimizer.constructTour pw s inst.m_points).1)
  refine ⟨fun hlt => ?_, fun hge => ?_, ⟨r1, r2⟩, ⟨hinv', hl.2.1, hl.1, hfr.2.1⟩,
    fun initial ants k samples alpha beta rho q seed fuel s0 hi hsz hc =>
      aco_create_batchInv initial ants k samples alpha beta rho q seed fuel s0 hi hsz hc⟩
  · subst e
    unfold AcoOptimizer.endOfAnt
    rw [if_neg (by rw [e4, e5]; omega)]
    exact ⟨e1, by show s2.m_antIndex + 1 = _; rw [e4], e8, e9⟩
  · subst e
    unfold AcoOptimizer.endOfAnt
    rw [if_pos (by rw [e4, e5]; omega)]
    refine ⟨rfl, rfl, rfl, ?_⟩
    have hcost : ∃ cb, s2.m_iterBestCost = some cb := by
      rw [e8]
      cases hc : s.m_iterBestCost with
      | none => exact ⟨_, (r1 hc).1⟩
      | some b0 => exact ⟨_, (r2 b0 hc).1⟩
    obtain ⟨cb, hcb⟩ := hcost
    have hrecp : IsPermutation s2.m_iterBestOrder s.m_n := by
      rw [e9]
      cases hc : s.m_iterBestCost with
      | none => rw [(r1 hc).2]; exact hperm
      | some b0 =>
        rw [(r2 b0 hc).2]
        split
        · exact hperm
        · exact hrec b0 hc
    refine ⟨cb, by rw [← e8]; exact hcb, fun a k ha hk => ?_⟩
    have hb2 : AcoOptimizer.CandidatesBuilt { s2 with m_antIndex := s2.m_antIndex + 1 } := by
      obtain ⟨b1, b2, b3, b4⟩ := hb
      refine ⟨?_, ?_, ?_, ?_⟩
      · show s2.m_candidates.length = s2.m_n
        rw [e2, e3]; exact b1
      · show s2.m_tau.length = s2.m_n
        rw [e1, e3]; exact b2
      · show ∀ i, i < s2.m_n → (s2.m_candidates.getD i []).length = (s2.m_tau.getD i []).length
        rw [e1, e2, e3]; exact b3
      · show ∀ L ∈ s2.m_candidates, ∀ c ∈ L, 0 ≤ c ∧ c < (s2.m_n : Int)
        rw [e2, e3]; exact b4
    have := aco_pheromoneUpdate_entry { s2 with m_antIndex := s2.m_antIndex + 1 } hb2
      (by show ∀ L ∈ s2.m_candidates, L.Nodup; rw [e2]; exact hnd) cb hcb
      (by show IsPermutation s2.m_iterBestOrder s2.m_n; rw [e3]; exact hrecp)
      (by show 2 ≤ s2.m_n; rw [e3]; exact hn) a k
      (by show a < s2.m_n; rw [e3]; exact ha)
      (by show k < (s2.m_candidates.getD a []).length; rw [e2]; exact hk)
    rw [this]
    show (1 - max 0 (min 1 s2.m_rho)) * AcoOptimizer.tauAt s2.m_tau a k +
      (if 0 < cb ∧ isPathEdge s2.m_iterBestOrder (a : Int)
        ((s2.m_candidates.getD a []).getD k 0) = true then s2.m_Q / (cb : ℚ) else 0) = _
    rw [e1, e2, e6, e7, e9]

set_option maxRecDepth 100000 in
/-- C31 on the single-ant example (five nodes, `rho = 1/10`, `Q = 1`, all pheromone 1):
the ant walks 0, 3, 2, 1, 4 at cost 40000, so the slot of node 0 for candidate 3 becomes
`9/10 + 1/40000` and its slot for candidate 2, not an edge of the walk, becomes `9/10`;
the batch counter is 0 afterwards and the batch record is cleared. -/
theorem C31_pheromone_update_witness :
    AcoOptimizer.iterate pwExample acoSingleAnt = .ok (acoSingleNext.1, acoSingleNext.2) ∧
    acoSingleNext.1.m_antIndex = 0 ∧ acoSingleNext.1.m_iterBestCost = none ∧
    acoSingleNext.1.m_iterBestOrder = [] ∧
    AcoOptimizer.tauAt acoSingleNext.1.m_tau 0 0 = 9 / 10 + 1 / 40000 ∧
    AcoOptimizer.tauAt acoSingleNext.1.m_tau 0 1 = 9 / 10 := by
  have hrun : AcoOptimizer.iterate pwExample acoSingleAnt =
      .ok (acoSingleNext.1, acoSingleNext.2) := by decide!
  have hinv : AcoOptimizer.BatchInv acoSingleAnt := by
    refine ⟨⟨by decide!, by decide!, by decide!, by decide!⟩, by decide!, ?_⟩
    intro b hb
    have hnone : acoSingleAnt.m_iterBestCost = none := by decide!
    rw [hnone] at hb
    cases hb
  obtain ⟨h1, h2, h3, cb, hcb, hent⟩ := (C31_pheromone_update pwExample acoSingleAnt
    acoSingleNext.1 acoSingleNext.2 crossingInstance (by decide!) (by decide!) hinv hrun).2.1
    (by decide!)
  have hcb' : (AcoOptimizer.recordBatchBest acoSingleAnt
      (AcoOptimizer.constructTour pwExample acoSingleAnt crossingInstance.m_points).1
      (costOf acoSingleAnt.m_instance
        (AcoOptimizer.constructTour pwExample acoSingleAnt
          crossingInstance.m_points).1)).m_iterBestCost = some 40000 := by decide!
  rw [hcb'] at hcb
  injection hcb with hcb
  subst hcb
  refine ⟨hrun, h1, h2, h3, ?_, ?_⟩
  · rw [hent 0 0 (by decide!) (by decide!)]
    decide!
  · rw [hent 0 1 (by decide!) (by decide!)]
    decide!

/-! ## Adaptive rank-based search: the move toward a donor -/

theorem getE_int {α : Type} (v : List α) (p : Int) (d : α) (h0 : 0 ≤ p)
    (h1 : p.toNat < v.length) : getE v p = .ok (v.getD p.toNat d) := by
  unfold getE
  rw [if_pos h0, List.get?_eq_get h1, List.getD_eq_getElem _ _ h1]
  rfl

theorem setE_int {α : Type} (v : List α) (p : Int) (x : α) (h0 : 0 ≤ p)
    (h1 : p.toNat < v.length) : setE v p x = .ok (v.set p.toNat x) := by
  unfold setE
  rw [if_pos ⟨h0, h1⟩]

theorem perm_getD_range (a : List Int) (n : Nat) (h : IsPermutation a n) (i : Nat) (hi : i < n) :
    0 ≤ a.getD i 0 ∧ a.getD i 0 < (n : Int) ∧ (a.getD i 0).toNat < n := by
  have hl := isPermutation_length a n h
  rw [List.getD_eq_getElem _ _ (by omega)]
  have := (isPermutation_mem a n h _).mp (List.getElem_mem (by omega : i < a.length))
  exact ⟨this.1, this.2, by omega⟩

theorem perm_getD_inj (a : List Int) (n : Nat) (h : IsPermutation a n) (i j : Nat) (hi : i < n)
    (hj : j < n) (he : a.getD i 0 = a.getD j 0) : i = j := by
  have hl := isPermutation_length a n h
  have hi' : i < a.length := by omega
  have hj' : j < a.length := by omega
  rw [List.getD_eq_getElem a 0 hi', List.getD_eq_getElem a 0 hj'] at he
  exact (List.Nodup.getElem_inj_iff (isPermutation_nodup a n h)).mp he

theorem perm_getD_surj (a : List Int) (n : Nat) (h : IsPermutation a n) (v : Int) (h0 : 0 ≤ v)
    (h1 : v < (n : Int)) : ∃ j, j < n ∧ a.getD j 0 = v := by
  have hl := isPermutation_length a n h
  have hm := (isPermutation_mem a n h v).mpr ⟨h0, h1⟩
  rw [List.mem_iff_getElem] at hm
  obtain ⟨j, hj, e⟩ := hm
  exact ⟨j, by omega, by rw [List.getD_eq_getElem _ _ hj]; exact e⟩

theorem buildPos_spec (trial : List Int) (n : Nat) (ht : IsPermutation trial n) (k i : Nat)
    (pos : List Int) (hlen : pos.length = n) (hik : i + k = n)
    (hinv : ∀ j, j < i → pos.getD (trial.getD j 0).toNat 0 = (j : Int)) :
    ∃ pos', ArqOptimizer.buildPos trial k i pos = .ok pos' ∧ PosOf trial pos' n := by
  have hl := isPermutation_length trial n ht
  induction k generalizing i pos with
  | zero =>
    unfold ArqOptimizer.buildPos
    exact ⟨pos, rfl, hlen, fun j hj => hinv j (by omega)⟩
  | succ k ih =>
    unfold ArqOptimizer.buildPos
    obtain ⟨v0, v1, v2⟩ := perm_getD_range trial n ht i (by omega)
    rw [getE_int trial (i : Int) 0 (by omega) (by simp; omega)]
    simp only [Int.toNat_ofNat]
    rw [setE_int pos _ _ v0 (by omega)]
    dsimp only
    apply ih (i + 1) _ (by simp [hlen]) (by omega)
    intro j hj
    by_cases hji : j = i
    · subst hji
      rw [List.getD_eq_getElem?_getD, List.getElem?_set, if_pos rfl, if_pos (by omega)]
      rfl
    · have hne : (trial.getD i 0).toNat ≠ (trial.getD j 0).toNat := by
        intro he
        obtain ⟨w0, w1, w2⟩ := perm_getD_range trial n ht j (by omega)
        have : trial.getD i 0 = trial.getD j 0 := by omega
        exact hji (perm_getD_inj trial n ht i j (by omega) (by omega) this).symm
      rw [List.getD_eq_getElem?_getD, List.getElem?_set, if_neg hne,
        ← List.getD_eq_getElem?_getD]
      exact hinv j (by omega)

theorem diffPositions_spec (trial donor : List Int) (n : Nat) (hlt : trial.length = n)
    (hld : donor.length = n) (k i : Nat) (diff : List Int) (hik : i + k = n) :
    ArqOptimizer.diffPositions trial donor k i diff =
      .ok (diff ++ ((List.range' i k).filter
        (fun j => decide (trial.getD j 0 ≠ donor.getD j 0))).map Int.ofNat) := by
  induction k generalizing i diff with
  | zero =>
    unfold ArqOptimizer.diffPositions
    simp
  | succ k ih =>
    unfold ArqOptimizer.diffPositions
    rw [getE_int trial (i : Int) 0 (by omega) (by simp; omega),
      getE_int donor (i : Int) 0 (by omega) (by simp; omega)]
    simp only [Int.toNat_ofNat]
    rw [List.range'_succ, List.filter_cons]
    by_cases hne : trial.getD i 0 ≠ donor.getD i 0
    · rw [if_pos hne, ih (i + 1) _ (by omega), if_pos (decide_eq_true hne)]
      simp
    · rw [if_neg hne, ih (i + 1) _ (by omega), if_neg (by simpa using hne)]

theorem shuffleLoop_perm (k i : Nat) (v : List Int) (g : Rng) (h : i + k ≤ v.length) :
    (shuffleLoop k i v g).1.Perm v := by
  induction k generalizing i v g with
  | zero => exact List.Perm.refl _
  | succ k ih =>
    unfold shuffleLoop
    dsimp only
    have hj := uniformInt_le 0 i g (by omega)
    have hp := swapAt_perm v i (uniformInt 0 i g).1 (by omega) (by omega)
    exact (ih (i + 1) _ _ (by rw [swapAt_length]; omega)).trans hp

theorem shuffle_perm (v : List Int) (g : Rng) : (shuffle v g).1.Perm v := by
  unfold shuffle
  cases v with
  | nil => exact List.Perm.refl _
  | cons a l => exact shuffleLoop_perm _ 1 _ g (by simp; omega)

theorem swapAt_getD (v : List Int) (a b t : Nat) (ha : a < v.length) (hb : b < v.length) :
    (swapAt v a b).getD t 0 =
      if t = b then v.getD a 0 else if t = a then v.getD b 0 else v.getD t 0 := by
  rw [List.getD_eq_getElem?_getD, swapAt_getElem? v a b t ha hb]
  split
  · rw [List.getD_eq_getElem?_getD]
  · split
    · rw [List.getD_eq_getElem?_getD]
    · rw [List.getD_eq_getElem?_getD]

theorem posOf_swap (trial pos : List Int) (n : Nat) (ht : IsPermutation trial n)
    (hpos : PosOf trial pos n) (a b : Nat) (ha : a < n) (hb : b < n) (hab : a ≠ b) :
    PosOf (swapAt trial a b)
      ((pos.set (trial.getD a 0).toNat (b : Int)).set (trial.getD b 0).toNat (a : Int)) n := by
  have hl := isPermutation_length trial n ht
  obtain ⟨hpl, hp⟩ := hpos
  obtain ⟨a0, a1, a2⟩ := perm_getD_range trial n ht a ha
  obtain ⟨b0, b1, b2⟩ := perm_getD_range trial n ht b hb
  have hne : (trial.getD a 0).toNat ≠ (trial.getD b 0).toNat := by
    intro he
    have : trial.getD a 0 = trial.getD b 0 := by omega
    exact hab (perm_getD_inj trial n ht a b ha hb this)
  refine ⟨by simp [hpl], fun j hj => ?_⟩
  rw [swapAt_getD trial a b j (by omega) (by omega)]
  by_cases hjb : j = b
  · subst hjb
    rw [if_pos rfl, List.getD_eq_getElem?_getD, List.getElem?_set, if_neg (Ne.symm hne),
      List.getElem?_set, if_pos rfl, if_pos (by omega)]
    rfl
  · rw [if_neg hjb]
    by_cases hja : j = a
    · subst hja
      rw [if_pos rfl, List.getD_eq_getElem?_getD, List.getElem?_set, if_pos rfl,
        if_pos (by rw [List.length_set]; omega)]
      rfl
    · rw [if_neg hja]
      obtain ⟨j0, j1, j2⟩ := perm_getD_range trial n ht j hj
      have hn1 : (trial.getD b 0).toNat ≠ (trial.getD j 0).toNat := by
        intro he
        have : trial.getD b 0 = trial.getD j 0 := by omega
        exact hjb (perm_getD_inj trial n ht b j hb hj this).symm
      have hn2 : (trial.getD a 0).toNat ≠ (trial.getD j 0).toNat := by
        intro he
        have : trial.getD a 0 = trial.getD j 0 := by omega
        exact hja (perm_getD_inj trial n ht a j ha hj this).symm
      rw [List.getD_eq_getElem?_getD, List.getElem?_set, if_neg hn1, List.getElem?_set,
        if_neg hn2, ← List.getD_eq_getElem?_getD]
      exact hp j hj

theorem enforceLoop_spec (n : Nat) (donor sh : List Int) (hd : IsPermutation donor n)
    (hsh : ∀ p ∈ sh, 0 ≤ p ∧ p < (n : Int)) (k t : Nat) (htk : t + k ≤ sh.length)
    (trial pos : List Int) (ht : IsPermutation trial n) (hpos : PosOf trial pos n) :
    ∃ trial1, ArqOptimizer.enforceLoop donor sh k t trial pos = .ok trial1 ∧
      IsPermutation trial1 n ∧
      (∀ q, q < n → trial.getD q 0 = donor.getD q 0 → trial1.getD q 0 = donor.getD q 0) ∧
      (∀ j, t ≤ j → j < t + k →
        trial1.getD (sh.getD j 0).toNat 0 = donor.getD (sh.getD j 0).toNat 0) := by
  have hld := isPermutation_length donor n hd
  induction k generalizing t trial pos with
  | zero =>
    unfold ArqOptimizer.enforceLoop
    exact ⟨trial, rfl, ht, fun _ _ h => h, fun j h1 h2 => by omega⟩
  | succ k ih =>
    have hl := isPermutation_length trial n ht
    have htl : t < sh.length := by omega
    obtain ⟨p0, p1⟩ := hsh (sh.getD t 0) (by
      rw [List.getD_eq_getElem _ _ htl]; exact List.getElem_mem _)
    have hpn : (sh.getD t 0).toNat < n := by omega
    obtain ⟨v0, v1, v2⟩ := perm_getD_range donor n hd (sh.getD t 0).toNat hpn
    obtain ⟨j, hj, hjv⟩ := perm_getD_surj trial n ht _ v0 v1
    have hcur : pos.getD (donor.getD (sh.getD t 0).toNat 0).toNat 0 = (j : Int) := by
      rw [← hjv]; exact hpos.2 j hj
    obtain ⟨x0, x1, x2⟩ := perm_getD_range trial n ht (sh.getD t 0).toNat hpn
    unfold ArqOptimizer.enforceLoop
    rw [getE_int sh (t : Int) 0 (by omega) (by simp; omega)]
    simp only [Int.toNat_ofNat]
    rw [getE_int donor _ 0 p0 (by omega)]
    dsimp only
    rw [getE_int pos _ 0 v0 (by rw [hpos.1]; exact v2)]
    dsimp only
    rw [hcur]
    by_cases hjp : (j : Int) = sh.getD t 0
    · rw [if_pos hjp]
      obtain ⟨trial1, e, q1, q2, q3⟩ := ih (t + 1) (by omega) trial pos ht hpos
      refine ⟨trial1, e, q1, q2, fun i hi1 hi2 => ?_⟩
      by_cases hit : i = t
      · subst hit
        apply q2 _ hpn
        have hij : (sh.getD i 0).toNat = j := by omega
        have : trial.getD (sh.getD i 0).toNat 0 = trial.getD j 0 := by rw [hij]
        exact this.trans hjv
      · exact q3 i (by omega) (by omega)
    · rw [if_neg hjp]
      have hjp' : (sh.getD t 0).toNat ≠ j := by omega
      rw [getE_int trial _ 0 p0 (by omega), getE_int trial (j : Int) 0 (by omega) (by simp; omega)]
      simp only [Int.toNat_ofNat]
      rw [setE_int _ (j : Int) _ (by omega) (by simp; omega)]
      simp only [Int.toNat_ofNat]
      rw [setE_int pos _ _ x0 (by rw [hpos.1]; exact x2)]
      dsimp only
      obtain ⟨y0, y1, y2⟩ := perm_getD_range trial n ht j hj
      rw [setE_int _ _ _ y0 (by rw [List.length_set, hpos.1]; exact y2)]
      dsimp only
      have hsw : (trial.set (sh.getD t 0).toNat (trial.getD j 0)).set j
          (trial.getD (sh.getD t 0).toNat 0) = swapAt trial (sh.getD t 0).toNat j := rfl
      rw [hsw]
      have ht' : IsPermutation (swapAt trial (sh.getD t 0).toNat j) n :=
        (swapAt_perm trial _ _ (by omega) (by omega)).trans ht
      have hpos' := posOf_swap trial pos n ht hpos (sh.getD t 0).toNat j hpn hj hjp'
      rw [Int.toNat_of_nonneg p0] at hpos'
      obtain ⟨trial1, e, q1, q2, q3⟩ := ih (t + 1) (by omega) _ _ ht' hpos'
      have hnew : ∀ q, q < n → trial.getD q 0 = donor.getD q 0 →
          (swapAt trial (sh.getD t 0).toNat j).getD q 0 = donor.getD q 0 := by
        intro q hq hag
        rw [swapAt_getD trial _ _ q (by omega) (by omega)]
        have hq1 : q ≠ j := by
          intro he
          subst he
          have : donor.getD q 0 = donor.getD (sh.getD t 0).toNat 0 := by rw [← hag, hjv]
          exact hjp' (perm_getD_inj donor n hd _ _ hq hpn this).symm
        have hq2 : q ≠ (sh.getD t 0).toNat := by
          intro he
          subst he
          have : trial.getD (sh.getD t 0).toNat 0 = trial.getD j 0 := by rw [hag, hjv]
          exact hjp' (perm_getD_inj trial n ht _ _ hpn hj this)
        rw [if_neg hq1, if_neg hq2]
        exact hag
      have hfix : (swapAt trial (sh.getD t 0).toNat j).getD (sh.getD t 0).toNat 0 =
          donor.getD (sh.getD t 0).toNat 0 := by
        rw [swapAt_getD trial _ _ _ (by omega) (by omega), if_neg hjp', if_pos rfl]
        exact hjv
      refine ⟨trial1, e, q1, fun q hq hag => q2 q hq (hnew q hq hag), fun i hi1 hi2 => ?_⟩
      by_cases hit : i = t
      · subst hit
        exact q2 _ hpn hfix
      · exact q3 i (by omega) (by omega)

theorem differing_eq (trial donor : List Int) (n : Nat) (hn : 1 ≤ n)
    (h0 : trial.getD 0 0 = donor.getD 0 0) :
    differing trial donor n =
      (List.range' 1 (n - 1)).filter fun j => decide (trial.getD j 0 ≠ donor.getD j 0) := by
  unfold differing
  obtain ⟨m, rfl⟩ : ∃ m, n = m + 1 := ⟨n - 1, by omega⟩
  rw [List.range_eq_range', List.range'_succ, List.filter_cons, if_neg (by simpa using h0)]
  simp

theorem differing_mem (trial donor : List Int) (n p : Nat) :
    p ∈ differing trial donor n ↔ p < n ∧ trial.getD p 0 ≠ donor.getD p 0 := by
  unfold differing
  rw [List.mem_filter, List.mem_range]
  simp

theorem differing_nodup (trial donor : List Int) (n : Nat) : (differing trial donor n).Nodup :=
  (List.nodup_range n).filter _

theorem applyDifferenceToward_spec (s : ArqOptimizer) (trial donor : List Int) (F : ℚ)
    (g : Rng) (hn : 4 ≤ s.m_n) (ht : IsPermutation trial s.m_n)
    (hd : IsPermutation donor s.m_n) (h0 : trial.getD 0 0 = donor.getD 0 0) :
    ∃ trial1 g1, ArqOptimizer.applyDifferenceToward s trial donor F g = .ok (trial1, g1) ∧
      IsPermutation trial1 s.m_n ∧
      (∀ q, q < s.m_n → trial.getD q 0 = donor.getD q 0 → trial1.getD q 0 = donor.getD q 0) ∧
      (differing trial donor s.m_n = [] → trial1 = trial ∧ g1 = g) ∧
      (differing trial donor s.m_n ≠ [] →
        ∃ sel : List Nat,
          (sel.length : Int) = max 1 (min ((differing trial donor s.m_n).length : Int)
            (min 600 (roundQ (clamp01 (F / s.m_Fhi) *
              ((differing trial donor s.m_n).length : ℚ))))) ∧
          sel.Nodup ∧
          (∀ p ∈ sel, p ∈ differing trial donor s.m_n ∧ trial1.getD p 0 = donor.getD p 0) ∧
          (differing trial1 donor s.m_n).length + sel.length ≤
            (differing trial donor s.m_n).length) := by
  have hlt := isPermutation_length trial _ ht
  have hld := isPermutation_length donor _ hd
  obtain ⟨pos, hbp, hpos⟩ := buildPos_spec trial s.m_n ht s.m_n 0
    (List.replicate s.m_n (-1)) (by simp) (by omega) (fun j hj => by omega)
  have hdp := diffPositions_spec trial donor s.m_n hlt hld (s.m_n - 1) 1 [] (by omega)
  rw [← differing_eq trial donor s.m_n (by omega) h0, List.nil_append] at hdp
  unfold ArqOptimizer.applyDifferenceToward
  rw [if_neg (by omega), hbp]
  dsimp only
  rw [hdp]
  dsimp only
  by_cases hemp : differing trial donor s.m_n = []
  · rw [hemp]
    simp only [List.map_nil, List.isEmpty_nil, if_true]
    exact ⟨trial, g, rfl, ht, fun _ _ h => h, fun _ => ⟨rfl, rfl⟩, fun h => absurd rfl h⟩
  · have hne : ¬ ((differing trial donor s.m_n).map Int.ofNat).isEmpty = true := by
      cases hdf : differing trial donor s.m_n with
      | nil => exact absurd hdf hemp
      | cons a l => simp
    rw [if_neg hne]
    have hdpos : 1 ≤ (differing trial donor s.m_n).length := by
      cases hdf : differing trial donor s.m_n with
      | nil => exact absurd hdf hemp
      | cons a l => simp
    simp only [List.length_map]
    generalize hm : max (1 : Int) (min ((differing trial donor s.m_n).length : Int)
      (min 600 (roundQ (clamp01 (F / s.m_Fhi) *
        ((differing trial donor s.m_n).length : ℚ))))) = m
    have hm1 : 1 ≤ m := by rw [← hm]; exact le_max_left _ _
    have hm2 : m ≤ ((differing trial donor s.m_n).length : Int) := by
      rw [← hm]
      exact max_le (by omega) (min_le_left _ _)
    have hperm := shuffle_perm ((differing trial donor s.m_n).map Int.ofNat) g
    have hshl : (shuffle ((differing trial donor s.m_n).map Int.ofNat) g).1.length =
        (differing trial donor s.m_n).length := by
      rw [hperm.length_eq, List.length_map]
    have hshmem : ∀ p ∈ (shuffle ((differing trial donor s.m_n).map Int.ofNat) g).1,
        0 ≤ p ∧ p.toNat ∈ differing trial donor s.m_n := by
      intro p hp
      rw [hperm.mem_iff, List.mem_map] at hp
      obtain ⟨r, hr, rfl⟩ := hp
      exact ⟨Int.ofNat_nonneg r, hr⟩
    have hsh : ∀ p ∈ (shuffle ((differing trial donor s.m_n).map Int.ofNat) g).1,
        0 ≤ p ∧ p < (s.m_n : Int) := by
      intro p hp
      obtain ⟨a, b⟩ := hshmem p hp
      have := ((differing_mem trial donor s.m_n p.toNat).mp b).1
      exact ⟨a, by omega⟩
    have hshnd : (shuffle ((differing trial donor s.m_n).map Int.ofNat) g).1.Nodup := by
      rw [hperm.nodup_iff]
      exact (differing_nodup trial donor s.m_n).map (fun _ _ h => Int.ofNat.inj h)
    obtain ⟨trial1, e, q1, q2, q3⟩ := enforceLoop_spec s.m_n donor
      (shuffle ((differing trial donor s.m_n).map Int.ofNat) g).1 hd hsh m.toNat 0
      (by rw [hshl]; omega) trial pos ht hpos
    rw [e]
    refine ⟨trial1, _, rfl, q1, q2, fun h => absurd h hemp, fun _ => ?_⟩
    generalize (shuffle ((differing trial donor s.m_n).map Int.ofNat) g).1 = sh at *
    have hsel : ∀ p ∈ (sh.take m.toNat).map Int.toNat,
        p ∈ differing trial donor s.m_n ∧ trial1.getD p 0 = donor.getD p 0 := by
      intro p hp
      rw [List.mem_map] at hp
      obtain ⟨q, hq, rfl⟩ := hp
      refine ⟨(hshmem q (List.mem_of_mem_take hq)).2, ?_⟩
      rw [List.mem_iff_getElem] at hq
      obtain ⟨i, hi, rfl⟩ := hq
      rw [List.length_take] at hi
      have := q3 i (by omega) (by omega)
      have hil : i < sh.length := by omega
      rw [List.getD_eq_getElem sh 0 hil] at this
      rw [List.getElem_take]
      exact this
    have hselnd : ((sh.take m.toNat).map Int.toNat).Nodup := by
      apply List.Nodup.map_on
      · intro x hx y hy hxy
        have hx0 := (hsh x (List.mem_of_mem_take hx)).1
        have hy0 := (hsh y (List.mem_of_mem_take hy)).1
        omega
      · exact (List.take_sublist _ _).nodup hshnd
    refine ⟨(sh.take m.toNat).map Int.toNat, ?_, hselnd, hsel, ?_⟩
    · rw [List.length_map, List.length_take, hshl]
      omega
    · have hsub : differing trial1 donor s.m_n ++ (sh.take m.toNat).map Int.toNat ⊆
          differing trial donor s.m_n := by
        intro p hp
        rcases List.mem_append.mp hp with h | h
        · rw [differing_mem] at h ⊢
          exact ⟨h.1, fun hag => h.2 (q2 p h.1 hag)⟩
        · exact (hsel p h).1
      have hnd : (differing trial1 donor s.m_n ++ (sh.take m.toNat).map Int.toNat).Nodup := by
        rw [List.nodup_append]
        refine ⟨differing_nodup _ _ _, hselnd, ?_⟩
        intro p hp1 hp2
        exact ((differing_mem _ _ _ _).mp hp1).2 (hsel p hp2).2
      have := (List.subperm_of_subset hnd hsub).length_le
      rw [List.length_append] at this
      exact this

theorem getD_zero_of_head (l : List Int) (x : Int) (h : l.head? = some x) : l.getD 0 0 = x := by
  cases l with
  | nil => cases h
  | cons a r =>
    simp only [List.head?_cons, Option.some.injEq] at h
    simp [h]

theorem head_of_getD_zero (l : List Int) (x : Int) (hl : 0 < l.length) (h : l.getD 0 0 = x) :
    l.head? = some x := by
  cases l with
  | nil => simp at hl
  | cons a r =>
    simp only [List.getD_cons_zero] at h
    simp [h]

/-- C34: for `n ≥ 4` and a trial and a donor that are permutations of `[0, n)` with the
same node at position 0, `applyDifferenceToward` returns and leaves the trial a permutation
of `[0, n)` with position 0 unchanged; no position where trial and donor agreed is changed.
When they differ in no position the trial is returned as it is. When they differ in
`d ≥ 1` positions, there are `m = max(1, min(d, 600, round(clamp01(F / Fhi) * d)))`
distinct positions (the selected ones), all of them among the differing positions, that
hold the donor's value after the call, and the number of differing positions after the
call is at most `d - m`. -/
theorem C34_apply_difference (s : ArqOptimizer) (trial donor : List Int) (F : ℚ) (g : Rng)
    (hn : 4 ≤ s.m_n) (ht : IsPermutation trial s.m_n) (hd : IsPermutation donor s.m_n)
    (h0 : trial.head? = donor.head?) :
    ∃ trial1 g1, ArqOptimizer.applyDifferenceToward s trial donor F g = .ok (trial1, g1) ∧
      IsPermutation trial1 s.m_n ∧ trial1.head? = trial.head? ∧
      (∀ q, q < s.m_n → trial.getD q 0 = donor.getD q 0 → trial1.getD q 0 = donor.getD q 0) ∧
      ((differing trial donor s.m_n).length = 0 → trial1 = trial) ∧
      (1 ≤ (differing trial donor s.m_n).length →
        ∃ sel : List Nat,
          (sel.length : Int) = max 1 (min ((differing trial donor s.m_n).length : Int)
            (min 600 (roundQ (clamp01 (F / s.m_Fhi) *
              ((differing trial donor s.m_n).length : ℚ))))) ∧
          sel.Nodup ∧
          (∀ p ∈ sel, p ∈ differing trial donor s.m_n ∧ trial1.getD p 0 = donor.getD p 0) ∧
          (differing trial1 donor s.m_n).length + sel.length ≤
            (differing trial donor s.m_n).length) := by
  have hlt := isPermutation_length trial _ ht
  have hld := isPermutation_length donor _ hd
  have hg0 : trial.getD 0 0 = donor.getD 0 0 := by
    cases trial with
    | nil => simp at hlt; omega
    | cons a r =>
      cases donor with
      | nil => simp at hld; omega
      | cons b r2 =>
        simp only [List.head?_cons, Option.some.injEq] at h0
        simp [h0]
  obtain ⟨trial1, g1, e, q1, q2, q3, q4⟩ :=
    applyDifferenceToward_spec s trial donor F g hn ht hd hg0
  have hl1 := isPermutation_length trial1 _ q1
  refine ⟨trial1, g1, e, q1, ?_, q2, fun hz => (q3 (List.length_eq_zero.mp hz)).1,
    fun hpos => q4 (by intro h; rw [h] at hpos; simp at hpos)⟩
  have h1 := q2 0 (by omega) hg0
  rw [← hg0] at h1
  cases hh : trial.head? with
  | none =>
    cases trial with
    | nil => simp at hlt; omega
    | cons a r => simp at hh
  | some x =>
    exact head_of_getD_zero trial1 x (by omega) (h1.trans (getD_zero_of_head trial x hh))

set_option maxRecDepth 100000 in
/-- C34 on eleven nodes: the identity trial and a donor with the pairs (1, 2) and (3, 4)
exchanged differ in `d = 4` positions; with `F = 0.6` and `Fhi = 1.4`, `m = 2`. After the
call the trial is a permutation with node 0 first and at most two differing positions. -/
theorem C34_apply_difference_witness :
    ∃ trial1 g1,
      ArqOptimizer.applyDifferenceToward arqEleven [0, 1, 2, 3, 4, 5, 6, 7, 8, 9, 10]
        [0, 2, 1, 4, 3, 5, 6, 7, 8, 9, 10] (6 / 10) [0, 0, 0] = .ok (trial1, g1) ∧
      IsPermutation trial1 11 ∧ trial1.head? = some 0 ∧
      (differing trial1 [0, 2, 1, 4, 3, 5, 6, 7, 8, 9, 10] 11).length + 2 ≤ 4 := by
  have hn : arqEleven.m_n = 11 := by decide!
  have hF : arqEleven.m_Fhi = 140 / 100 := by decide!
  obtain ⟨trial1, g1, e, q1, q2, -, -, q5⟩ := C34_apply_difference arqEleven
    [0, 1, 2, 3, 4, 5, 6, 7, 8, 9, 10] [0, 2, 1, 4, 3, 5, 6, 7, 8, 9, 10] (6 / 10) [0, 0, 0]
    (by rw [hn]; decide) (by rw [hn]; unfold IsPermutation; decide!)
    (by rw [hn]; unfold IsPermutation; decide!) rfl
  rw [hn] at q1 q5
  rw [hF] at q5
  have hd : (differing [0, 1, 2, 3, 4, 5, 6, 7, 8, 9, 10]
      [0, 2, 1, 4, 3, 5, 6, 7, 8, 9, 10] 11).length = 4 := by decide!
  rw [hd] at q5
  obtain ⟨sel, s1, -, -, s4⟩ := q5 (by decide)
  have hm : max (1 : Int) (min ((4 : Nat) : Int)
      (min 600 (roundQ (clamp01 (6 / 10 / (140 / 100)) * ((4 : Nat) : ℚ))))) = 2 := by decide!
  rw [hm] at s1
  have hs : sel.length = 2 := by exact_mod_cast s1
  rw [hs] at s4
  exact ⟨trial1, g1, e, q1, q2, s4⟩

/-! ## Adaptive rank-based search: the population invariant -/

theorem arq_randomizeLoop_keep (n k : Nat) (ord : List Int) (g : Rng) (hn : 2 ≤ n)
    (hl : ord.length = n) :
    (ArqOptimizer.randomizeLoop n k ord g).1.Perm ord ∧
    (ArqOptimizer.randomizeLoop n k ord g).1.getD 0 0 = ord.getD 0 0 := by
  induction k generalizing ord g with
  | zero => exact ⟨List.Perm.refl _, rfl⟩
  | succ k ih =>
    unfold ArqOptimizer.randomizeLoop
    dsimp only
    have ha := uniformInt_le 1 (n - 1) g (by omega)
    have ha1 := uniformInt_ge 1 (n - 1) g
    have hb := uniformInt_le 1 (n - 1) (uniformInt 1 (n - 1) g).2 (by omega)
    have hb1 := uniformInt_ge 1 (n - 1) (uniformInt 1 (n - 1) g).2
    obtain ⟨p1, p2⟩ := ih (swapAt ord (uniformInt 1 (n - 1) g).1
      (uniformInt 1 (n - 1) (uniformInt 1 (n - 1) g).2).1)
      (uniformInt 1 (n - 1) (uniformInt 1 (n - 1) g).2).2 (by rw [swapAt_length, hl])
    refine ⟨p1.trans (swapAt_perm ord _ _ (by omega) (by omega)), p2.trans ?_⟩
    rw [swapAt_getD ord _ _ 0 (by omega) (by omega), if_neg (by omega), if_neg (by omega)]

theorem setE_inv {α : Type} (v : List α) (i : Int) (x : α) (r : List α)
    (h : setE v i x = .ok r) : 0 ≤ i ∧ i.toNat < v.length ∧ r = v.set i.toNat x := by
  unfold setE at h
  split at h
  · next hc =>
    cases h
    exact ⟨hc.1, hc.2, rfl⟩
  · cases h

theorem arq_beginGeneration_rankFresh (s : ArqOptimizer) :
    ArqOptimizer.RankFresh (ArqOptimizer.beginGeneration s) := by
  haveI : IsTotal Int (fun a b => s.m_cost.getD a.toNat 0 ≤ s.m_cost.getD b.toNat 0) :=
    ⟨fun a b => le_total _ _⟩
  haveI : IsTrans Int (fun a b => s.m_cost.getD a.toNat 0 ≤ s.m_cost.getD b.toNat 0) :=
    ⟨fun a b c h1 h2 => le_trans h1 h2⟩
  refine ⟨List.perm_insertionSort _ _, ?_⟩
  show List.Sorted (fun (a b : Int) => s.m_cost.getD a.toNat 0 ≤ s.m_cost.getD b.toNat 0)
    (List.insertionSort (fun (a b : Int) => s.m_cost.getD a.toNat 0 ≤ s.m_cost.getD b.toNat 0) _)
  exact List.sorted_insertionSort _ _

theorem getE_rank_shift (rank : List Int) (P k : Int) (t : Nat) :
    getE rank (P - 1 - (k + ((t + 1 : Nat) : Int))) = getE rank (P - 1 - (k + 1 + (t : Int))) := by
  congr 1
  push_cast
  ring

theorem arq_restartLoop_slots (bestOrd : List Int) (w : Nat) (k : Int) (s s' : ArqOptimizer)
    (h : ArqOptimizer.restartLoop bestOrd w k s = .ok s') :
    (∀ j : Nat,
      (∀ t : Nat, t < w → ∀ idx, getE s.m_rank (s.m_popSize - 1 - (k + (t : Int))) = .ok idx →
        idx.toNat ≠ j) →
      s'.m_pop.getD j [] = s.m_pop.getD j [] ∧ s'.m_cost.getD j 0 = s.m_cost.getD j 0) ∧
    (∀ t : Nat, t < w →
      ∃ idx g, getE s.m_rank (s.m_popSize - 1 - (k + (t : Int))) = .ok idx ∧
        s'.m_pop.getD idx.toNat [] = (ArqOptimizer.randomizeOrder s.m_n bestOrd
          (max 50 (min 1200 (roundQ (s.m_rsigma * (s.m_n : ℚ))))) g).1 ∧
        s'.m_cost.getD idx.toNat 0 = costOf s.m_instance (s'.m_pop.getD idx.toNat [])) := by
  induction w generalizing k s with
  | zero =>
    unfold ArqOptimizer.restartLoop at h
    cases h
    exact ⟨fun _ _ => ⟨rfl, rfl⟩, fun t ht => absurd ht (Nat.not_lt_zero _)⟩
  | succ w ih =>
    unfold ArqOptimizer.restartLoop at h
    split at h
    · cases h
    · next idx0 hidx =>
      dsimp only at h
      split at h
      · next pop1 cost1 hp hc =>
        obtain ⟨a0, a1, a2⟩ := setE_inv _ _ _ _ hp
        obtain ⟨b0, b1, b2⟩ := setE_inv _ _ _ _ hc
        have key : ∀ s1 : ArqOptimizer, s1.m_rank = s.m_rank → s1.m_popSize = s.m_popSize →
            s1.m_n = s.m_n → s1.m_rsigma = s.m_rsigma → s1.m_instance = s.m_instance →
            s1.m_pop = pop1 → s1.m_cost = cost1 →
            ArqOptimizer.restartLoop bestOrd w (k + 1) s1 = .ok s' →
            (∀ j : Nat,
              (∀ t : Nat, t < w + 1 →
                ∀ idx, getE s.m_rank (s.m_popSize - 1 - (k + (t : Int))) = .ok idx →
                idx.toNat ≠ j) →
              s'.m_pop.getD j [] = s.m_pop.getD j [] ∧
                s'.m_cost.getD j 0 = s.m_cost.getD j 0) ∧
            (∀ t : Nat, t < w + 1 →
              ∃ idx g, getE s.m_rank (s.m_popSize - 1 - (k + (t : Int))) = .ok idx ∧
                s'.m_pop.getD idx.toNat [] = (ArqOptimizer.randomizeOrder s.m_n bestOrd
                  (max 50 (min 1200 (roundQ (s.m_rsigma * (s.m_n : ℚ))))) g).1 ∧
                s'.m_cost.getD idx.toNat 0 =
                  costOf s.m_instance (s'.m_pop.getD idx.toNat [])) := by
          intro s1 e1 e2 e3 e4 e5 e6 e7 hrl
          obtain ⟨A, B⟩ := ih (k + 1) s1 hrl
          rw [e1, e2, e3, e4, e5] at B
          rw [e1, e2, e6, e7] at A
          have hk0 : s.m_popSize - 1 - (k + ((0 : Nat) : Int)) = s.m_popSize - 1 - k := by simp
          constructor
          · intro j hj
            have hj0 : idx0.toNat ≠ j := hj 0 (by omega) idx0 (by rw [hk0]; exact hidx)
            obtain ⟨q1, q2⟩ := A j (fun t ht idx hi =>
              hj (t + 1) (by omega) idx (by rw [getE_rank_shift]; exact hi))
            rw [q1, q2, a2, b2]
            constructor
            · rw [List.getD_eq_getElem?_getD, List.getElem?_set, if_neg hj0,
                ← List.getD_eq_getElem?_getD]
            · rw [List.getD_eq_getElem?_getD, List.getElem?_set, if_neg hj0,
                ← List.getD_eq_getElem?_getD]
          · intro t ht
            cases t with
            | zero =>
              rw [hk0]
              by_cases hex : ∃ t' : Nat, t' < w ∧ ∃ idx,
                  getE s.m_rank (s.m_popSize - 1 - (k + 1 + (t' : Int))) = .ok idx ∧
                  idx.toNat = idx0.toNat
              · obtain ⟨t', ht', idx, hg, he⟩ := hex
                obtain ⟨idx', g, hg', q1, q2⟩ := B t' ht'
                rw [hg] at hg'
                injection hg' with hg'
                subst hg'
                rw [he] at q1 q2
                exact ⟨idx0, g, hidx, q1, q2⟩
              · obtain ⟨q1, q2⟩ := A idx0.toNat (fun t' ht' idx hi he =>
                  hex ⟨t', ht', idx, hi, he⟩)
                have hp1 : pop1.getD idx0.toNat [] = (ArqOptimizer.randomizeOrder s.m_n bestOrd
                    (max 50 (min 1200 (roundQ (s.m_rsigma * (s.m_n : ℚ))))) s.m_rng).1 := by
                  rw [a2, List.getD_eq_getElem?_getD, List.getElem?_set, if_pos rfl, if_pos a1]
                  rfl
                have hc1 : cost1.getD idx0.toNat 0 = costOf s.m_instance
                    (ArqOptimizer.randomizeOrder s.m_n bestOrd
                      (max 50 (min 1200 (roundQ (s.m_rsigma * (s.m_n : ℚ))))) s.m_rng).1 := by
                  rw [b2, List.getD_eq_getElem?_getD, List.getElem?_set, if_pos rfl, if_pos b1]
                  rfl
                refine ⟨idx0, s.m_rng, hidx, q1.trans hp1, ?_⟩
                rw [q2, hc1, q1, hp1]
            | succ t =>
              obtain ⟨idx, g, hg, q1, q2⟩ := B t (by omega)
              exact ⟨idx, g, by rw [getE_rank_shift]; exact hg, q1, q2⟩
        split at h
        · split at h
          · cases h
          · refine key _ ?_ ?_ ?_ ?_ ?_ ?_ ?_ h <;> rfl
        · refine key _ ?_ ?_ ?_ ?_ ?_ ?_ ?_ h <;> rfl
      · cases h

theorem rankFresh_le (s : ArqOptimizer) (hf : ArqOptimizer.RankFresh s) (p q : Nat)
    (hpq : p ≤ q) (hq : q < s.m_rank.length) :
    s.m_cost.getD (s.m_rank.getD p 0).toNat 0 ≤ s.m_cost.getD (s.m_rank.getD q 0).toNat 0 := by
  have hp : p < s.m_rank.length := by omega
  rw [List.getD_eq_getElem s.m_rank 0 hp, List.getD_eq_getElem s.m_rank 0 hq]
  by_cases he : p = q
  · subst he
    exact le_refl _
  · exact (List.pairwise_iff_getElem.mp hf.2) p q hp hq (by omega)

theorem rankFresh_slot (s : ArqOptimizer) (hf : ArqOptimizer.RankFresh s) (j : Nat)
    (hj : j < s.m_popSize.toNat) :
    s.m_rank.length = s.m_popSize.toNat ∧
    ∃ p, p < s.m_rank.length ∧ s.m_rank.getD p 0 = (j : Int) := by
  have hl : s.m_rank.length = s.m_popSize.toNat := by
    rw [hf.1.length_eq]; simp
  have hm : (j : Int) ∈ s.m_rank := by
    rw [hf.1.mem_iff, List.mem_map]
    exact ⟨j, List.mem_range.mpr hj, rfl⟩
  rw [List.mem_iff_getElem] at hm
  obtain ⟨p, hp, e⟩ := hm
  exact ⟨hl, p, hp, by rw [List.getD_eq_getElem _ _ hp]; exact e⟩

theorem arq_endGeneration_restart (s s' : ArqOptimizer) (hrank : s.m_rank ≠ [])
    (hni : ArqOptimizer.improvedSincePrev (ArqOptimizer.updateMeans s) = false)
    (htrig : s.m_stagTrigger ≤ s.m_noImproveGen + 1)
    (h : ArqOptimizer.endGeneration s = .ok s') :
    s'.m_noImproveGen = 0 ∧
    ∃ r0 bestOrd s2 s3, getE s.m_rank 0 = .ok r0 ∧ getE s.m_pop r0 = .ok bestOrd ∧
      s2.m_rank = s.m_rank ∧ s2.m_pop = s.m_pop ∧ s2.m_cost = s.m_cost ∧
      ArqOptimizer.Params s s2 ∧
      ArqOptimizer.restartLoop bestOrd
        (max 1 (roundQ (s2.m_worstFrac * (s2.m_popSize : ℚ)))).toNat 0 s2 = .ok s3 ∧
      s'.m_pop = s3.m_pop ∧ s'.m_cost = s3.m_cost := by
  obtain ⟨-, -, u3, u4, u5, -, u7, -⟩ := arq_updateMeans_fields s
  have up := arq_updateMeans_params s
  unfold ArqOptimizer.endGeneration at h
  dsimp only at h
  rw [hni] at h
  simp only [Bool.false_eq_true, if_false] at h
  rw [if_pos (by rw [u7, up.2.2.2.2.2.2.2.2.1]; exact htrig)] at h
  split at h
  · cases h
  · next s3 h3 =>
    injection h with h
    subst h
    have hne : ¬ s.m_rank.isEmpty = true := by
      cases hr : s.m_rank with
      | nil => exact absurd hr hrank
      | cons a l => simp
    unfold ArqOptimizer.restartWorst at h3
    dsimp only at h3
    rw [if_neg (by rw [u5]; exact hne)] at h3
    split at h3
    · cases h3
    · next r0 hr0 =>
      split at h3
      · cases h3
      · next bestOrd hbo =>
        obtain ⟨f1, f2, f3, -⟩ := arq_archiveTrim_fields
          { s3 with m_noImproveGen := 0, m_bestPrev := some s3.m_lastBest }
        refine ⟨(arq_archiveTrim_fields _).2.2.2.2.2.1, r0, bestOrd,
          { ArqOptimizer.updateMeans s with
            m_noImproveGen := (ArqOptimizer.updateMeans s).m_noImproveGen + 1 },
          s3, ?_, ?_, ?_, ?_, ?_, ?_, h3, f2, f3⟩
        · rw [← u5]; exact hr0
        · rw [← u3]; exact hbo
        · exact u5
        · exact u3
        · exact u4
        · exact up

/-- C39 on the code: `restartWorst` takes the slots to overwrite and the order to copy from
the stored ranking `m_rank`, not from the costs at the moment of the restart, so the claim
holds exactly as far as that ranking is still right. When the stagnation trigger fires at
the end of a generation
(no improvement of the global best since the last check and the counter reaching
`m_stagTrigger`), the stagnation counter is 0 afterwards, and with
`W = max(1, round(worstFrac * popSize))` and `bestOrd` the member in the slot that the stored
ranking `m_rank` lists first: every slot that `m_rank` does not list among its last `W`
entries keeps its member and its cost; every slot that `m_rank` lists among its last `W`
entries holds `randomizeOrder` of a copy of `bestOrd` (swaps among positions `1..n-1`: a
permutation of `bestOrd` with position 0 kept) and its cost entry is the cost of that order.
`m_rank` is the ranking that `beginGeneration` computed at the start of the generation. If
it still ranks the current costs (every slot once, ascending), the overwritten slots are
`W` slots of highest current cost and `bestOrd` is a member of lowest current cost, as the
claim says; `beginGeneration` makes such a ranking. -/
theorem C39_restart_by_generation_rank (s s' : ArqOptimizer) (hrank : s.m_rank ≠ [])
    (hni : ArqOptimizer.improvedSincePrev (ArqOptimizer.updateMeans s) = false)
    (htrig : s.m_stagTrigger ≤ s.m_noImproveGen + 1)
    (h : ArqOptimizer.endGeneration s = .ok s') :
    s'.m_noImproveGen = 0 ∧
    (∃ r0 bestOrd, getE s.m_rank 0 = .ok r0 ∧ getE s.m_pop r0 = .ok bestOrd ∧
      (∀ j : Nat,
        (∀ t : Nat, t < (max 1 (roundQ (s.m_worstFrac * (s.m_popSize : ℚ)))).toNat →
          ∀ idx, getE s.m_rank (s.m_popSize - 1 - (t : Int)) = .ok idx → idx.toNat ≠ j) →
        s'.m_pop.getD j [] = s.m_pop.getD j [] ∧ s'.m_cost.getD j 0 = s.m_cost.getD j 0) ∧
      (∀ t : Nat, t < (max 1 (roundQ (s.m_worstFrac * (s.m_popSize : ℚ)))).toNat →
        ∃ idx g, getE s.m_rank (s.m_popSize - 1 - (t : Int)) = .ok idx ∧
          s'.m_pop.getD idx.toNat [] = (ArqOptimizer.randomizeOrder s.m_n bestOrd
            (max 50 (min 1200 (roundQ (s.m_rsigma * (s.m_n : ℚ))))) g).1 ∧
          (2 ≤ s.m_n → bestOrd.length = s.m_n →
            (s'.m_pop.getD idx.toNat []).Perm bestOrd ∧
            (s'.m_pop.getD idx.toNat []).getD 0 0 = bestOrd.getD 0 0) ∧
          s'.m_cost.getD idx.toNat 0 = costOf s.m_instance (s'.m_pop.getD idx.toNat [])) ∧
      (ArqOptimizer.RankFresh s →
        (∀ j : Nat, j < s.m_popSize.toNat →
          s.m_cost.getD r0.toNat 0 ≤ s.m_cost.getD j 0) ∧
        (∀ t : Nat, ∀ idx, getE s.m_rank (s.m_popSize - 1 - (t : Int)) = .ok idx →
          ∀ j : Nat, j < s.m_popSize.toNat →
          (∀ t' : Nat, t' ≤ t →
            ∀ idx', getE s.m_rank (s.m_popSize - 1 - (t' : Int)) = .ok idx' → idx'.toNat ≠ j) →
          s.m_cost.getD j 0 ≤ s.m_cost.getD idx.toNat 0))) ∧
    (∀ t : ArqOptimizer, ArqOptimizer.RankFresh (ArqOptimizer.beginGeneration t)) := by
  obtain ⟨h0, r0, bestOrd, s2, s3, hr0, hbo, u5, u3, u4, up, hrl, e1, e2⟩ :=
    arq_endGeneration_restart s s' hrank hni htrig h
  obtain ⟨A, B⟩ := arq_restartLoop_slots _ _ _ _ _ hrl
  rw [up.2.2.2.2.2.2.1, up.2.2.1] at A B
  rw [u5, u3, u4] at A
  rw [u5, up.2.1, up.2.2.2.2.2.2.2.1, up.1] at B
  simp only [zero_add] at A B
  refine ⟨h0, ⟨r0, bestOrd, hr0, hbo, ?_, ?_, ?_⟩, arq_beginGeneration_rankFresh⟩
  · intro j hj
    rw [e1, e2]
    exact A j hj
  · intro t ht
    obtain ⟨idx, g, hg, q1, q2⟩ := B t ht
    rw [← e1] at q1 q2
    rw [← e2] at q2
    refine ⟨idx, g, hg, q1, fun hn hl => ?_, q2⟩
    rw [q1]
    unfold ArqOptimizer.randomizeOrder
    split
    · exact ⟨List.Perm.refl _, rfl⟩
    · exact arq_randomizeLoop_keep s.m_n _ bestOrd g hn hl
  · intro hf
    obtain ⟨z0, z1, z2⟩ := getE_inv _ _ _ hr0
    have hr0' : s.m_rank.getD 0 0 = r0 := by
      have : (0 : Int).toNat = 0 := rfl
      rw [this] at z2
      rw [List.getD_eq_getElem?_getD, z2]
      rfl
    constructor
    · intro j hj
      obtain ⟨hl, p, hp, e⟩ := rankFresh_slot s hf j hj
      have := rankFresh_le s hf 0 p (by omega) hp
      rw [hr0', e] at this
      simpa using this
    · intro t idx hg j hj hnot
      obtain ⟨hl, p, hp, e⟩ := rankFresh_slot s hf j hj
      obtain ⟨y0, y1, y2⟩ := getE_inv _ _ _ hg
      have hq : s.m_rank.getD (s.m_popSize - 1 - (t : Int)).toNat 0 = idx := by
        rw [List.getD_eq_getElem?_getD, y2]
        rfl
      have hpq : p ≤ (s.m_popSize - 1 - (t : Int)).toNat := by
        by_contra hc
        have hgp : getE s.m_rank (s.m_popSize - 1 -
            ((s.m_popSize.toNat - 1 - p : Nat) : Int)) = .ok (j : Int) := by
          have hidx : s.m_popSize - 1 - ((s.m_popSize.toNat - 1 - p : Nat) : Int) = (p : Int) := by
            omega
          rw [hidx, getE_int s.m_rank (p : Int) 0 (by omega) (by simpa using hp)]
          simp only [Int.toNat_ofNat]
          rw [e]
        exact hnot (s.m_popSize.toNat - 1 - p) (by omega) _ hgp (by simp)
      have := rankFresh_le s hf p _ hpq y1
      rw [e, hq] at this
      simpa using this

set_option maxRecDepth 1000000 in
/-- C39 fails on the code: the constructor on `rowTour` with population size 4 and
99 steps lead to `arqRowStale`; in the 100th step the trial for slot 3 (cost 160000, ranked
last at the start of the generation) is the identity order of cost 100000, which replaces
its parent without beating the global best, so the costs when the generation ends are
100000, 120000, 140000, 100000 and the stagnation trigger fires (24th generation without
improvement). The restart overwrites slot 3, the slot that `m_rank` lists last, although
its cost is the lowest at that moment, and leaves slot 2, the slot of highest cost, as it
is. -/
theorem C39_stale_rank_counterexample :
    (match ArqOptimizer.create rowTour 4 rowSeed with
      | .ok s => ArqOptimizer.run centreSampler centreSampler 8 99 s
      | .error _ => none) = some arqRowStale ∧
    ArqOptimizer.makeTrial centreSampler centreSampler 8 arqRowStale =
      .ok ([0, 1, 2, 3, 4, 5, 6, 7, 8, 9, 10], 60 / 100, 85 / 100, restartDraws) ∧
    ArqOptimizer.select { arqRowStale with m_rng := restartDraws }
      [0, 1, 2, 3, 4, 5, 6, 7, 8, 9, 10] (60 / 100) (85 / 100) = .ok (arqRowBefore, false) ∧
    ArqOptimizer.advanceTarget arqRowBefore = .ok arqRowAfter ∧
    ArqOptimizer.iterate centreSampler centreSampler 8 arqRowStale = .ok (arqRowAfter, false) ∧
    arqRowBefore.m_stagTrigger ≤ arqRowBefore.m_noImproveGen + 1 ∧
    arqRowBefore.m_cost = [100000, 120000, 140000, 100000] ∧
    arqRowAfter.m_noImproveGen = 0 ∧
    arqRowAfter.m_pop.getD 3 [] = [0, 1, 2, 3, 4, 5, 6, 7, 8, 10, 9] ∧
    arqRowAfter.m_pop.getD 3 [] ≠ arqRowBefore.m_pop.getD 3 [] ∧
    arqRowAfter.m_pop.getD 2 [] = arqRowBefore.m_pop.getD 2 [] ∧
    arqRowAfter.m_cost.getD 2 0 = arqRowBefore.m_cost.getD 2 0 ∧
    arqRowBefore.m_cost.getD 3 0 < arqRowBefore.m_cost.getD 2 0 := by
  refine ⟨by decide!, by decide!, by decide!, by decide!, by decide!, by decide!, by decide!,
    by decide!, by decide!, by decide!, by decide!, by decide!, by decide!⟩

set_option maxRecDepth 1000000 in
/-- C39 on the code, at the end of the 25th generation of the run: the trigger
fires, the counter is 0 afterwards, the slots 0, 1 and 2, which the ranking does not list
last, keep their members, and slot 3, which it lists last, holds a permutation of the
identity order (the member of the slot ranked first) with node 0 first. -/
theorem C39_restart_by_generation_rank_witness :
    ArqOptimizer.endGeneration { arqRowBefore with m_target := 0 } = .ok arqRowAfter ∧
    arqRowAfter.m_noImproveGen = 0 ∧
    (∀ j, j < 3 → arqRowAfter.m_pop.getD j [] = arqRowBefore.m_pop.getD j []) ∧
    (arqRowAfter.m_pop.getD 3 []).Perm [0, 1, 2, 3, 4, 5, 6, 7, 8, 9, 10] := by
  have hend : ArqOptimizer.endGeneration { arqRowBefore with m_target := 0 } =
      .ok arqRowAfter := by decide!
  obtain ⟨h0, ⟨r0, bestOrd, hr0, hbo, A, B, -⟩, -⟩ := C39_restart_by_generation_rank
    { arqRowBefore with m_target := 0 } arqRowAfter (by decide) (by decide!) (by decide!) hend
  have hW : (max 1 (roundQ (({ arqRowBefore with m_target := 0 } : ArqOptimizer).m_worstFrac *
      ((({ arqRowBefore with m_target := 0 } : ArqOptimizer).m_popSize : Int) : ℚ)))).toNat =
      1 := by decide!
  rw [hW] at A B
  have hlast : ∀ idx, getE ({ arqRowBefore with m_target := 0 } : ArqOptimizer).m_rank
      (({ arqRowBefore with m_target := 0 } : ArqOptimizer).m_popSize - 1 - ((0 : Nat) : Int)) =
      .ok idx → idx = 3 := by
    intro idx hg
    have h3 : getE ({ arqRowBefore with m_target := 0 } : ArqOptimizer).m_rank
        (({ arqRowBefore with m_target := 0 } : ArqOptimizer).m_popSize - 1 -
          ((0 : Nat) : Int)) = .ok 3 := by decide!
    rw [h3] at hg
    injection hg with hg
    exact hg.symm
  have hbest : bestOrd = [0, 1, 2, 3, 4, 5, 6, 7, 8, 9, 10] := by
    have h1 : getE ({ arqRowBefore with m_target := 0 } : ArqOptimizer).m_rank 0 = .ok 0 := by
      decide!
    rw [h1] at hr0
    injection hr0 with hr0
    subst hr0
    have h2 : getE ({ arqRowBefore with m_target := 0 } : ArqOptimizer).m_pop 0 =
        .ok [0, 1, 2, 3, 4, 5, 6, 7, 8, 9, 10] := by decide!
    rw [h2] at hbo
    injection hbo with hbo
    exact hbo.symm
  refine ⟨hend, h0, fun j hj => ?_, ?_⟩
  · refine (A j (fun t ht idx hg => ?_)).1
    have ht0 : t = 0 := by omega
    subst ht0
    rw [hlast idx hg]
    have : (3 : Int).toNat = 3 := rfl
    omega
  · obtain ⟨idx, g, hg, -, hp, -⟩ := B 0 (by omega)
    rw [hlast idx hg, hbest] at hp
    exact (hp (by decide!) (by decide!)).1

end TspOptimizer
